import Mathlib

/-!
# Resource manager core: quota, queue DDL validation and pool allocation

A shallow embedding of parts of `src/backend/resourcemanager/resqueuemanager.c`
and `src/backend/resourcemanager/resourcepool.c`.

Conventions of the embedding.

* `int32_t` / `int64_t` quantities are `Int`.  Signed overflow is undefined in C,
  so the model follows the code on every execution whose arithmetic stays in range.
* `double` quantities (cores, percentages, factors) are exact rationals `ℚ`.
* C integer division is `Int.tdiv` (truncation toward zero).
* `Assert(...)` is compiled out of production builds and is not modelled; `elog`
  logging has no effect on the state.
* Where the C code has no defined behaviour (a division by zero, a `NULL` tracker or
  segment dereferenced) the model is still total: `Int.tdiv x 0 = 0`, and a candidate
  whose segment does not exist is passed over.
* Pointers into the process-wide tables become indices or values, and a function
  that writes through pointers returns the written values.
-/

namespace HAWQ

/-! ## Result codes -/

/-- The numeric result codes used by the functions modelled here.  Their values
live in a header outside `src/`; only their being distinct matters. -/
inductive ResultCode
  | FUNC_RETURN_OK
  | RESQUEMGR_NO_RESOURCE
  | RESQUEMGR_TOO_MANY_FIXED_SEGNUM
  | RESQUEMGR_LACK_ATTR
  | RESQUEMGR_WRONG_ATTR
  | RESOURCEPOOL_NO_RATIO
  | RESOURCEPOOL_DUPLICATE_HOST
  | RESQUEMGR_NO_RATIO
  | FUNC_RETURN_FAIL
  | RESQUEMGR_WRONG_ATTRNAME
  | RESQUEMGR_DUPLICATE_ATTRNAME
  | RESQUEMGR_INCONSISTENT_RESOURCE_EXP
  | RESQUEMGR_DUPLICATE_QUEID
  | RESQUEMGR_NO_QUENAME
  | RESQUEMGR_DUPLICATE_QUENAME
  | RESQUEMGR_WRONG_PARENT_QUEUE
  | RESQUEMGR_IN_USE
  | RESQUEMGR_EXCEED_MAX_QUEUE_NUMBER
  | RESQUEMGR_DEADLOCK_DETECTED
  | RESQUEMGR_NORESOURCE_TIMEOUT
  | RMDDL_WRONG_ATTRNAME
  | RMDDL_WRONG_ATTRVALUE
  | LIBPQ_FAIL_EXECUTE
  | RESOURCEPOOL_UNRESOLVED_HOST
  deriving DecidableEq, Repr

open ResultCode

/-- The helper `min` of resqueuemanager.c: `a > b ? b : a`. -/
def cmin (a b : Int) : Int := if a > b then b else a

/-- The helper `max` of resqueuemanager.c: `a < b ? b : a`. -/
def cmax (a b : Int) : Int := if a < b then b else a

/-! ## Resource bundles -/

/-- `ResourceBundleData`: a memory amount in MB and a core amount. -/
structure ResourceBundle where
  MemoryMB : Int
  Core : ℚ
  deriving DecidableEq, Repr

/-- `addResourceBundleData`. -/
def addResourceBundleData (detail : ResourceBundle) (mem : Int) (core : ℚ) : ResourceBundle :=
  { MemoryMB := detail.MemoryMB + mem, Core := detail.Core + core }

/-- `minusResourceBundleData`. -/
def minusResourceBundleData (detail : ResourceBundle) (mem : Int) (core : ℚ) : ResourceBundle :=
  { MemoryMB := detail.MemoryMB - mem, Core := detail.Core - core }

/-! ## Resource queues -/

/-- The status bits of `DynResourceQueueData.Status`, one field per bit. -/
structure QueueStatus where
  isRoot : Bool
  isDefault : Bool
  isLeaf : Bool
  isBranch : Bool
  isPercent : Bool
  isVer1X : Bool
  isInvalid : Bool := false
  isInUse : Bool := false
  deriving DecidableEq, Repr

/-- `DynResourceQueueData`, the definition of one resource queue.  An unset numeric
attribute holds `-1` as in `parseResourceQueueAttributes`. -/
structure DynResourceQueueData where
  OID : Int
  ParentOID : Int
  Name : List Char
  NameLen : Nat
  ParallelCount : Int
  ClusterMemoryMB : Int
  ClusterVCore : ℚ
  ClusterMemoryPer : ℚ
  ClusterVCorePer : ℚ
  SegResourceQuotaMemoryMB : Int
  SegResourceQuotaVCore : ℚ
  ResourceUpperFactor : ℚ
  VSegUpperLimit : Int
  AllocatePolicy : Int
  Status : QueueStatus
  QueuingPolicy : Int := -1
  InterQueuePolicy : Int := -1
  deriving DecidableEq, Repr

/-- Progress states of a connection track that the modelled functions set. -/
inductive ConnProgress
  | CONN_PP_REGISTER_DONE
  | CONN_PP_RESOURCE_QUEUE_ALLOC_WAIT
  | CONN_PP_RESOURCE_ACQUIRE_FAIL
  | CONN_PP_RESOURCE_QUEUE_ALLOC_FAIL
  | CONN_PP_TIMEOUT_FAIL
  | CONN_PP_RESOURCE_QUEUE_ALLOC_DONE
  deriving DecidableEq, Repr

/-- The fields of `ConnectionTrackData` read or written when a request is admitted. -/
structure ConnectionTrack where
  ConnID : Nat
  MaxSegCountFixed : Int
  MinSegCountFixed : Int
  SegMemoryMB : Int
  SegCore : ℚ
  SegNum : Int
  SegNumMin : Int
  VSegLimit : Int
  VSegLimitPerSeg : Int
  Progress : ConnProgress
  SessionID : Int := 0
  ResponseResult : Option ResultCode := none
  ResponseSent : Bool := true
  SegNumActual : Int := 0
  IOBytes : Int := 0
  SliceSize : Int := 0
  SegPreferredHostNames : List String := []
  SegPreferredScanSizeMB : List Int := []
  isOld : Bool := false
  troubledByFragment : Bool := false
  troubledByFragmentTimestamp : Nat := 0
  deriving DecidableEq, Repr

/-- Modelled from the spec: `SessionTrackData` is declared outside `src/`.  One entry
of the deadlock detector's "table of session trackers": the resource the session has in
use and whether it is locked, i.e. counted in the locked totals because the session has
a request waiting in the queue. -/
structure SessionTrack where
  SessionID : Int
  InUseTotalMemoryMB : Int
  InUseTotalCore : ℚ
  Locked : Bool
  deriving DecidableEq, Repr

/-- Modelled from the spec: `ResqueueDeadLockDetectorData` is declared outside `src/`;
it "tracks LockedTotalMemoryMB / Core (sum over requests awaiting dispatch by holders of
already-in-use resource of the same session) and a table of session trackers". -/
structure ResqueueDeadLockDetector where
  Sessions : List SessionTrack := []
  LockedTotalMemoryMB : Int := 0
  LockedTotalCore : ℚ := 0
  deriving DecidableEq, Repr

/-- The fields of `DynResourceQueueTrackData` used by the queue tree, by quota
computation and by the enqueue of a request.  `TrackID` stands for the address of the
tracker: `ParentTrack` and `ChildrenTracks` refer to trackers by it. -/
structure DynResourceQueueTrack where
  TrackID : Nat
  QueueInfo : DynResourceQueueData
  ParentTrack : Option Nat
  ChildrenTracks : List Nat
  CurConnCounter : Int
  ClusterSegNumber : Int
  ClusterSegNumberMax : Int
  TotalRequest : ResourceBundle
  QueryResRequests : List Nat
  isBusy : Bool
  MemCoreRatio : Int := 0
  RatioIndex : Int := -1
  ClusterMemoryActPer : ℚ := 0
  ClusterMemoryMaxPer : ℚ := 0
  ClusterVCoreActPer : ℚ := 0
  ClusterVCoreMaxPer : ℚ := 0
  ClusterMemoryMaxMB : Int := 0
  ClusterVCoreMax : ℚ := 0
  trackedMemCoreRatio : Bool := false
  pauseAllocation : Bool := false
  troubledByFragment : Bool := false
  expectMoreResource : Bool := false
  NumOfRunningQueries : Int := 0
  TotalAllocated : ResourceBundle := { MemoryMB := 0, Core := 0 }
  TotalUsed : ResourceBundle := { MemoryMB := 0, Core := 0 }
  DLDetector : ResqueueDeadLockDetector := {}
  deriving DecidableEq, Repr

/-! ## Quota computation (`computeQueryQuota`) -/

/-- `computeQueryQuota_EVEN`: returns `(*segnum, *segnummin)`. -/
def computeQueryQuota_EVEN (track : DynResourceQueueTrack) (segnumlimit : Int) : Int × Int :=
  let reservsegnum0 := Int.tdiv track.ClusterSegNumber track.QueueInfo.ParallelCount
  let reservsegnum := if reservsegnum0 ≤ 0 then 1 else reservsegnum0
  let segnum0 := track.ClusterSegNumberMax
  let segnum := if segnumlimit < segnum0 then segnumlimit else segnum0
  let segnummin := if reservsegnum > segnum then segnum else reservsegnum
  (segnum, segnummin)

/-- `computeQueryQuota_FIFO`: returns `(*segnum, *segnummin)`. -/
def computeQueryQuota_FIFO (track : DynResourceQueueTrack) (segnumlimit : Int) : Int × Int :=
  let segnum0 := track.ClusterSegNumberMax
  let segnummin := track.ClusterSegNumber
  let segnum := if segnumlimit < segnum0 then segnumlimit else segnum0
  (segnum, segnummin)

/-- The table `AllocationPolicy[]`: entry 0 is the EVEN policy, entry 1 the FIFO one. -/
def AllocationPolicy (policy : Int) (track : DynResourceQueueTrack) (segnumlimit : Int) :
    Int × Int :=
  if policy = 0 then computeQueryQuota_EVEN track segnumlimit
  else computeQueryQuota_FIFO track segnumlimit

/-- The values `computeQueryQuota` leaves behind its pointer arguments, with its
return code. -/
structure QuotaOut where
  res : ResultCode
  max_segcountfix : Int
  min_segcountfix : Int
  segmemmb : Int
  segcore : ℚ
  segnum : Int
  segnummin : Int
  deriving DecidableEq, Repr

/-- `computeQueryQuota`.  `segnum` and `segnummin` are the values behind the
pointers on entry; they survive the first early return. -/
def computeQueryQuota (track : DynResourceQueueTrack)
    (max_segcountfix min_segcountfix segnum segnummin segnumlimit : Int) : QuotaOut :=
  let policy := track.QueueInfo.AllocatePolicy
  let segmemmb := track.QueueInfo.SegResourceQuotaMemoryMB
  let segcore := track.QueueInfo.SegResourceQuotaVCore
  if min_segcountfix > segnumlimit then
    { res := RESQUEMGR_TOO_MANY_FIXED_SEGNUM, max_segcountfix := max_segcountfix,
      min_segcountfix := min_segcountfix, segmemmb := segmemmb, segcore := segcore,
      segnum := segnum, segnummin := segnummin }
  else
    let max_segcountfix1 := if max_segcountfix > segnumlimit then segnumlimit else max_segcountfix
    let p := AllocationPolicy policy track segnumlimit
    if p.1 < min_segcountfix then
      { res := RESQUEMGR_TOO_MANY_FIXED_SEGNUM, max_segcountfix := max_segcountfix1,
        min_segcountfix := min_segcountfix, segmemmb := segmemmb, segcore := segcore,
        segnum := p.1, segnummin := p.2 }
    else
      { res := FUNC_RETURN_OK, max_segcountfix := max_segcountfix1,
        min_segcountfix := min_segcountfix, segmemmb := segmemmb, segcore := segcore,
        segnum := p.1, segnummin := min_segcountfix }

/-! ## Admission of a request (`acquireResourceFromResQueMgr`) -/

/-- The three-case block of `acquireResourceFromResQueMgr` (`if(Gmin==1) ... else if
(Gmax == Gmin) ... else ...`): returns the code of the early `return`, if one is
taken, and the values stored in `conntrack->SegNumMin` and `conntrack->SegNum`. -/
def reconcileSegNum (Gmin Gmax Rmin Rmax RmaxL : Int) : Option ResultCode × Int × Int :=
  if Gmin = 1 then
    let segnummin := cmin (cmin Gmax Rmin) RmaxL
    let segnum := cmin Gmax RmaxL
    (if segnummin > segnum then some RESQUEMGR_NO_RESOURCE else none, segnummin, segnum)
  else if Gmax = Gmin then
    (if Rmax < Gmax then some RESQUEMGR_NO_RESOURCE else none, Gmax, Gmax)
  else
    let segnummin := cmin (cmax Gmin Rmin) Gmax
    let segnum := cmin (cmax (cmin RmaxL Gmax) Gmin) Rmax
    (if segnummin > segnum then some RESQUEMGR_NO_RESOURCE else none, segnummin, segnum)

/-- `addQueryResourceRequestToQueue`: the request (referred to by its `ConnID`) joins
the tail of the queue's FIFO and its resource is added to `TotalRequest`; the queue becomes busy.  The session
lock of the deadlock detector (`createAndLockSessionResource`, declared outside `src/`)
and the refresh of the ratio limits are not modelled: they touch neither the FIFO nor
`TotalRequest`. -/
def addQueryResourceRequestToQueue (queuetrack : DynResourceQueueTrack)
    (conntrack : ConnectionTrack) : ResultCode × DynResourceQueueTrack :=
  (FUNC_RETURN_OK,
   { queuetrack with
     QueryResRequests := queuetrack.QueryResRequests ++ [conntrack.ConnID],
     TotalRequest := addResourceBundleData queuetrack.TotalRequest
       (conntrack.SegMemoryMB * conntrack.SegNum) (conntrack.SegCore * conntrack.SegNum),
     isBusy := true })

/-- The upper vseg limit as applied by `acquireResourceFromResQueMgr` to the
request's maximum (`Gmax`). -/
def applyVSegUpperLimit (maxfx minfx upper : Int) : Int :=
  if maxfx > upper ∧ minfx ≤ upper then upper else maxfx

/-- `acquireResourceFromResQueMgr`, with `AvailNodeCount` standing for
`PRESPOOL->AvailNodeCount`.  Returns the result code, the connection track and the
queue track as the call leaves them. -/
def acquireResourceFromResQueMgr (AvailNodeCount : Int) (queuetrack : DynResourceQueueTrack)
    (conntrack : ConnectionTrack) : ResultCode × ConnectionTrack × DynResourceQueueTrack :=
  if queuetrack.ClusterSegNumberMax = 0 then
    (RESQUEMGR_NO_RESOURCE, conntrack, queuetrack)
  else
    let q := computeQueryQuota queuetrack conntrack.MaxSegCountFixed conntrack.MinSegCountFixed
      conntrack.SegNum conntrack.SegNumMin conntrack.VSegLimit
    let conn1 : ConnectionTrack :=
      { conntrack with
        MaxSegCountFixed := q.max_segcountfix, MinSegCountFixed := q.min_segcountfix,
        SegMemoryMB := q.segmemmb, SegCore := q.segcore,
        SegNum := q.segnum, SegNumMin := q.segnummin }
    if q.res = FUNC_RETURN_OK then
      let Rmax := conn1.SegNum
      let RmaxL := conn1.VSegLimitPerSeg * AvailNodeCount
      let Rmin := conn1.SegNumMin
      let Gmin := conn1.MinSegCountFixed
      let Gmax := applyVSegUpperLimit conn1.MaxSegCountFixed conn1.MinSegCountFixed
        queuetrack.QueueInfo.VSegUpperLimit
      let r := reconcileSegNum Gmin Gmax Rmin Rmax RmaxL
      let conn2 : ConnectionTrack := { conn1 with SegNumMin := r.2.1, SegNum := r.2.2 }
      match r.1 with
      | some code => (code, conn2, queuetrack)
      | none =>
        let e := addQueryResourceRequestToQueue queuetrack conn2
        if e.1 = FUNC_RETURN_OK then
          (e.1, { conn2 with Progress := ConnProgress.CONN_PP_RESOURCE_QUEUE_ALLOC_WAIT }, e.2)
        else
          (e.1, { conn2 with Progress := ConnProgress.CONN_PP_RESOURCE_ACQUIRE_FAIL }, e.2)
    else
      (q.res, { conn1 with Progress := ConnProgress.CONN_PP_RESOURCE_ACQUIRE_FAIL }, queuetrack)

/-! ## Validation of a queue definition (`checkAndCompleteNewResourceQueueAttributes`) -/

/-- `InvalidOid`. -/
def InvalidOid : Int := 0

/-- The default attribute values, macros of a header outside `src/`, taken as
parameters. -/
structure QueueDefaults where
  RESOURCE_QUEUE_PARALLEL_COUNT_DEF : Int
  RESOURCE_QUEUE_SEG_RES_QUOTA_DEF : Int
  RESOURCE_QUEUE_RES_UPPER_FACTOR_DEF : ℚ
  DEFAULT_RESQUEUE_VSEG_UPPER_LIMIT_N : Int := 0
  deriving DecidableEq, Repr

/-- `RSQ_ALLOCATION_POLICY_EVEN`, the index of `computeQueryQuota_EVEN` in
`AllocationPolicy[]`. -/
def RSQ_ALLOCATION_POLICY_EVEN : Int := 0

/-- `DynMemoryCoreRatioTrackData`, the tracker of one memory/core ratio, as
`createDynMemoryCoreRatioTrack` initialises it.  `QueueTrackers` lists the queue
trackers of the ratio by `TrackID`. -/
structure DynMemoryCoreRatioTrack where
  MemCoreRatio : Int
  RatioIndex : Int := -1
  ClusterMemory : Int := 0
  ClusterVCore : ℚ := 0
  ClusterMemoryMaxMB : Int := 0
  ClusterVCoreMax : ℚ := 0
  TotalPendingStartTime : Int := 0
  QueueTrackers : List Nat := []
  ClusterWeightMarker : ℚ := 0
  QueueIndexForLeftResource : Int := 0
  TotalPending : ResourceBundle := { MemoryMB := 0, Core := 0 }
  TotalAllocated : ResourceBundle := { MemoryMB := 0, Core := 0 }
  TotalRequest : ResourceBundle := { MemoryMB := 0, Core := 0 }
  TotalUsed : ResourceBundle := { MemoryMB := 0, Core := 0 }
  deriving DecidableEq, Repr

/-- `DynMemoryCoreRatioWaterMarkData`: the peak usage recorded for one second. -/
structure DynMemoryCoreRatioWaterMark where
  LastRecordTime : Nat
  ClusterMemoryMB : Int
  ClusterVCore : ℚ
  deriving DecidableEq, Repr

/-- The part of the queue manager (`PQUEMGR`) that holds the queue tree and the ratio
trackers: the list of trackers, the hash indices from queue OID and from queue name to
tracker, and the arrays of the memory/core ratios.  The arrays `RatioReverseIndex`,
`RatioReferenceCounter`, `RatioTrackers` and `RatioWaterMarks` are lists whose length is
the capacity `RESOURCE_QUEUE_RATIO_SIZE`; `none` is a `NULL` entry. -/
structure QueueManager where
  Queues : List DynResourceQueueTrack
  QueuesIDIndex : List (Int × Nat)
  QueuesNameIndex : List (List Char × Nat) := []
  RootTrack : Option Nat := none
  DefaultTrack : Option Nat := none
  RatioCount : Nat := 0
  RatioIndex : List (Nat × Nat) := []
  RatioReverseIndex : List Int := []
  RatioReferenceCounter : List Int := []
  RatioTrackers : List (Option DynMemoryCoreRatioTrack) := []
  RatioWaterMarks : List (List DynMemoryCoreRatioWaterMark) := []
  deriving DecidableEq, Repr

/-- The tracker at address `tid`. -/
def getTrackByID (qm : QueueManager) (tid : Nat) : Option DynResourceQueueTrack :=
  qm.Queues.find? (fun t => t.TrackID == tid)

/-- `getQueueTrackByQueueOID`: `none` is the `NULL` returned with `*exist = false`. -/
def getQueueTrackByQueueOID (qm : QueueManager) (queoid : Int) : Option DynResourceQueueTrack :=
  match qm.QueuesIDIndex.lookup queoid with
  | none => none
  | some tid => getTrackByID qm tid

/-- `strncmp(a, b, n) != 0` for NUL-terminated strings: the first `n` characters
differ. -/
def strncmpNe (a b : List Char) (n : Nat) : Bool := a.take n != b.take n

/-- The loop over `parenttrack->ChildrenTracks` that accumulates `current`: the
`ClusterMemoryPer` of every child whose name differs from `queue->Name` in its first
`queue->NameLen` characters. -/
def sumSiblingMemoryPer (qm : QueueManager) (queue : DynResourceQueueData) :
    List Nat → ℚ → ℚ
  | [], current => current
  | tid :: rest, current =>
    match getTrackByID qm tid with
    | none => sumSiblingMemoryPer qm queue rest current
    | some track =>
      if strncmpNe track.QueueInfo.Name queue.Name queue.NameLen then
        sumSiblingMemoryPer qm queue rest (current + track.QueueInfo.ClusterMemoryPer)
      else
        sumSiblingMemoryPer qm queue rest current

/-- STEP 3 CASE 1 of `checkAndCompleteNewResourceQueueAttributes` (percentage
expression): the code of the early `return`, if one is taken. -/
def checkPercentLimits (qm : QueueManager) (queue : DynResourceQueueData) : Option ResultCode :=
  if queue.ClusterMemoryPer = -1 then some RESQUEMGR_LACK_ATTR
  else if queue.ClusterVCorePer = -1 then some RESQUEMGR_LACK_ATTR
  else if queue.ClusterVCorePer ≤ 0 ∨ queue.ClusterVCorePer > 100 then some RESQUEMGR_WRONG_ATTR
  else if queue.ClusterMemoryPer ≤ 0 ∨ queue.ClusterMemoryPer > 100 then
    some RESQUEMGR_WRONG_ATTR
  else if queue.ClusterVCorePer ≠ queue.ClusterMemoryPer then some RESQUEMGR_WRONG_ATTR
  else if queue.ParentOID ≠ InvalidOid then
    match getQueueTrackByQueueOID qm queue.ParentOID with
    | none => none
    | some parenttrack =>
      let current := sumSiblingMemoryPer qm queue parenttrack.ChildrenTracks 0
      if current + queue.ClusterMemoryPer > 100 then some RESQUEMGR_WRONG_ATTR else none
  else none

/-- STEP 3 CASE 2 of `checkAndCompleteNewResourceQueueAttributes` (value expression). -/
def checkValueLimits (queue : DynResourceQueueData) : Option ResultCode :=
  if queue.ClusterMemoryMB = -1 then some RESQUEMGR_LACK_ATTR
  else if queue.ClusterVCore = -1 then some RESQUEMGR_LACK_ATTR
  else if queue.ClusterVCore ≤ 0 then some RESQUEMGR_WRONG_ATTR
  else if queue.ClusterMemoryMB ≤ 0 then some RESQUEMGR_WRONG_ATTR
  else none

/-- STEPs 4 to 6 of `checkAndCompleteNewResourceQueueAttributes`: the vseg resource
quota, the allocation policy and the resource upper factor, each completed with its
default. -/
def checkQuotaPolicyFactor (d : QueueDefaults) (queue : DynResourceQueueData) :
    ResultCode × DynResourceQueueData :=
  let queue1 : DynResourceQueueData :=
    if queue.SegResourceQuotaMemoryMB = -1 ∧ queue.SegResourceQuotaVCore = -1 then
      { queue with SegResourceQuotaMemoryMB := d.RESOURCE_QUEUE_SEG_RES_QUOTA_DEF }
    else queue
  if queue1.SegResourceQuotaMemoryMB ≠ -1 ∧ queue1.SegResourceQuotaMemoryMB ≤ 0 then
    (RESQUEMGR_WRONG_ATTR, queue1)
  else if queue1.SegResourceQuotaMemoryMB = -1 ∧ queue1.SegResourceQuotaVCore ≠ -1 ∧
      queue1.SegResourceQuotaVCore ≤ 0 then
    (RESQUEMGR_WRONG_ATTR, queue1)
  else
    let queue2 : DynResourceQueueData :=
      if queue1.AllocatePolicy = -1 then
        { queue1 with AllocatePolicy := RSQ_ALLOCATION_POLICY_EVEN }
      else queue1
    let queue3 : DynResourceQueueData :=
      if queue2.ResourceUpperFactor = -1 then
        { queue2 with ResourceUpperFactor := d.RESOURCE_QUEUE_RES_UPPER_FACTOR_DEF }
      else queue2
    if queue3.ResourceUpperFactor < 1 then (RESQUEMGR_WRONG_ATTR, queue3)
    else (FUNC_RETURN_OK, queue3)

/-- `checkAndCompleteNewResourceQueueAttributes`: the result code and the queue
definition as the call leaves it.  The result is `none` where the code dereferences the
`NULL` tracker of a parent OID that is not indexed. -/
def checkAndCompleteNewResourceQueueAttributes (d : QueueDefaults) (qm : QueueManager)
    (queue : DynResourceQueueData) : Option (ResultCode × DynResourceQueueData) :=
  if queue.Status.isVer1X then some (FUNC_RETURN_OK, queue)
  else if queue.ParentOID < 0 then some (RESQUEMGR_LACK_ATTR, queue)
  else
    let parentCheck : Option (Option ResultCode) :=
      if queue.ParentOID ≠ InvalidOid then
        match getQueueTrackByQueueOID qm queue.ParentOID with
        | none => none
        | some parenttrack =>
          if parenttrack.QueueInfo.Status.isDefault then some (some RESQUEMGR_WRONG_ATTR)
          else some none
      else some none
    match parentCheck with
    | none => none
    | some (some code) => some (code, queue)
    | some none =>
      let queue1 : DynResourceQueueData :=
        if queue.ParallelCount ≤ 0 then
          { queue with ParallelCount := d.RESOURCE_QUEUE_PARALLEL_COUNT_DEF }
        else queue
      let limits : Option ResultCode :=
        if queue1.Status.isPercent then checkPercentLimits qm queue1
        else checkValueLimits queue1
      match limits with
      | some code => some (code, queue1)
      | none => some (checkQuotaPolicyFactor d queue1)

/-- The sum of the memory percentages of the percent-expressed queues among the
trackers `tids`. -/
def sumPercentOfChildren (qm : QueueManager) : List Nat → ℚ
  | [] => 0
  | tid :: rest =>
    match getTrackByID qm tid with
    | none => sumPercentOfChildren qm rest
    | some track =>
      (if track.QueueInfo.Status.isPercent then track.QueueInfo.ClusterMemoryPer else 0)
        + sumPercentOfChildren qm rest

/-! ## Memory/core ratio trackers of the queue manager -/

/-- Modelled from the spec: `setHASHTABLENode` of the hash table (`utils/hashtable.c`,
outside `src/`), a "generic key→value map", on a map kept as an association list: the
value of an existing key is replaced, a new key is added. -/
def hashtableSet {κ ν : Type} [DecidableEq κ] (tbl : List (κ × ν)) (key : κ) (value : ν) :
    List (κ × ν) :=
  if tbl.any (fun e => decide (e.1 = key)) then
    tbl.map (fun e => if e.1 = key then (key, value) else e)
  else tbl ++ [(key, value)]

/-- Modelled from the spec: `removeHASHTABLENode` on a map kept as an association
list. -/
def hashtableRemove {κ ν : Type} [DecidableEq κ] (tbl : List (κ × ν)) (key : κ) : List (κ × ν) :=
  tbl.filter (fun e => decide (e.1 ≠ key))

/-- The conversion of a `double` to an integer type, and `trunc`: the fraction is
dropped. -/
def ctrunc (x : ℚ) : Int := if 0 ≤ x then Rat.floor x else Rat.ceil x

/-- The tracker at address `tid` replaced by its image under `f`. -/
def updateTrack (qm : QueueManager) (tid : Nat)
    (f : DynResourceQueueTrack → DynResourceQueueTrack) : QueueManager :=
  { qm with Queues := qm.Queues.map (fun t => if t.TrackID = tid then f t else t) }

/-- `getResourceQueueRatioIndex` on the table of the queue manager: `none` is `-1`. -/
def ratioIndexOf (qm : QueueManager) (ratio : Int) : Option Nat :=
  if ratio ≤ 0 then none else qm.RatioIndex.lookup ratio.toNat

/-- `createDynMemoryCoreRatioTrack`; the argument `index` is not stored. -/
def createDynMemoryCoreRatioTrack (ratio : Int) (_index : Nat) : DynMemoryCoreRatioTrack :=
  { MemCoreRatio := ratio }

/-- `addResourceQueueRatio` for the tracker at address `tid`.  The ordered indices
that the pool adds for a new ratio are not part of the queue manager. -/
def addResourceQueueRatio (qm : QueueManager) (tid : Nat) : QueueManager :=
  match getTrackByID qm tid with
  | none => qm
  | some track =>
    if track.MemCoreRatio ≤ 0 then qm
    else
      let ratio := track.MemCoreRatio
      let p : QueueManager × Nat :=
        match ratioIndexOf qm ratio with
        | some res =>
          ({ qm with
             RatioReferenceCounter :=
               qm.RatioReferenceCounter.set res (qm.RatioReferenceCounter.getD res 0 + 1) }, res)
        | none =>
          let res := qm.RatioCount
          ({ qm with
             RatioReverseIndex := qm.RatioReverseIndex.set res ratio,
             RatioIndex := hashtableSet qm.RatioIndex ratio.toNat res,
             RatioCount := qm.RatioCount + 1,
             RatioReferenceCounter := qm.RatioReferenceCounter.set res 1,
             RatioTrackers :=
               qm.RatioTrackers.set res (some (createDynMemoryCoreRatioTrack ratio res)) }, res)
      let qm1 := p.1
      let res := p.2
      let qm2 : QueueManager :=
        { qm1 with
          RatioTrackers := qm1.RatioTrackers.set res
            ((qm1.RatioTrackers.getD res none).map
              (fun m => { m with QueueTrackers := m.QueueTrackers ++ [tid] })) }
      updateTrack qm2 tid (fun t => { t with trackedMemCoreRatio := true })

/-- `removeQueueTrackFromMemoryCoreTrack`: `none` is `RESQUEMGR_NO_QUE_IN_RATIO`. -/
def removeQueueTrackFromMemoryCoreTrack (mctrack : DynMemoryCoreRatioTrack) (tid : Nat) :
    Option DynMemoryCoreRatioTrack :=
  if tid ∈ mctrack.QueueTrackers then
    some { mctrack with QueueTrackers := mctrack.QueueTrackers.erase tid }
  else none

/-- The branch of `removeResourceQueueRatio` that deletes the ratio at `ratioindex`
once its reference counter is zero. -/
def deleteRatio (qm : QueueManager) (ratio : Int) (ratioindex : Nat) : QueueManager :=
  let qm1 : QueueManager := { qm with RatioTrackers := qm.RatioTrackers.set ratioindex none }
  if ratioindex = qm1.RatioCount - 1 then
    { qm1 with
      RatioIndex := hashtableRemove qm1.RatioIndex ratio.toNat,
      RatioCount := qm1.RatioCount - 1 }
  else
    let top := qm1.RatioCount - 1
    let revtop := qm1.RatioReverseIndex.getD top 0
    { qm1 with
      RatioTrackers := qm1.RatioTrackers.set ratioindex (qm1.RatioTrackers.getD top none),
      RatioIndex :=
        hashtableRemove (hashtableSet qm1.RatioIndex revtop.toNat ratioindex) ratio.toNat,
      RatioReverseIndex := qm1.RatioReverseIndex.set ratioindex revtop,
      RatioCount := qm1.RatioCount - 1 }

/-- `removeResourceQueueRatio` for the tracker at address `tid`. -/
def removeResourceQueueRatio (qm : QueueManager) (tid : Nat) : QueueManager :=
  match getTrackByID qm tid with
  | none => qm
  | some track =>
    if track.MemCoreRatio ≤ 0 then qm
    else
      let ratio := track.MemCoreRatio
      match ratioIndexOf qm ratio with
      | none => qm
      | some ratioindex =>
        let counter := qm.RatioReferenceCounter.getD ratioindex 0 - 1
        let qm1 : QueueManager :=
          { qm with RatioReferenceCounter := qm.RatioReferenceCounter.set ratioindex counter }
        match (qm1.RatioTrackers.getD ratioindex none).bind
            (fun m => removeQueueTrackFromMemoryCoreTrack m tid) with
        | none => qm1
        | some m =>
          let qm2 : QueueManager :=
            { qm1 with RatioTrackers := qm1.RatioTrackers.set ratioindex (some m) }
          let qm3 := if counter = 0 then deleteRatio qm2 ratio ratioindex else qm2
          updateTrack qm3 tid (fun t => { t with trackedMemCoreRatio := false })

/-! ## Creating and dropping a queue (`createQueueAndTrack`, `dropQueueAndTrack`) -/

/-- `getQueueTrackByQueueName`: `none` is the `NULL` returned with `*exist = false`. -/
def getQueueTrackByQueueName (qm : QueueManager) (quename : List Char) :
    Option DynResourceQueueTrack :=
  match qm.QueuesNameIndex.lookup quename with
  | none => none
  | some tid => getTrackByID qm tid

/-- The address `rm_palloc0` returns for a new tracker: one that no tracker has. -/
def freshTrackID (qm : QueueManager) : Nat :=
  (qm.Queues.map (fun t => t.TrackID)).foldl max 0 + 1

/-- `createDynResourceQueueTrack`, the new tracker being at address `tid`. -/
def createDynResourceQueueTrack (tid : Nat) (queue : DynResourceQueueData) :
    DynResourceQueueTrack :=
  { TrackID := tid, QueueInfo := queue, ParentTrack := none, ChildrenTracks := [],
    CurConnCounter := 0, ClusterSegNumber := 0, ClusterSegNumberMax := 0,
    TotalRequest := { MemoryMB := 0, Core := 0 }, QueryResRequests := [], isBusy := false }

/-- The statements of `createQueueAndTrack` that follow its checks: the parent, if it
is a leaf registered with a ratio tracker, leaves the tracker and becomes a branch; the
new tracker joins the tree, the list `Queues` and the indices, and a value-expressed
queue is registered with the tracker of its ratio. -/
def linkNewQueueTrack (qm : QueueManager) (newqueuetrack : DynResourceQueueTrack)
    (parenttrack : Option DynResourceQueueTrack) : QueueManager :=
  let tid := newqueuetrack.TrackID
  let queue := newqueuetrack.QueueInfo
  let qm1 : QueueManager :=
    match parenttrack with
    | none => qm
    | some parent =>
      if parent.QueueInfo.Status.isLeaf && parent.trackedMemCoreRatio then
        updateTrack (removeResourceQueueRatio qm parent.TrackID) parent.TrackID
          (fun t => { t with
            QueueInfo := { t.QueueInfo with
              Status := { t.QueueInfo.Status with isLeaf := false, isBranch := true } } })
      else qm
  let newtrack1 : DynResourceQueueTrack :=
    { newqueuetrack with ParentTrack := parenttrack.map (fun t => t.TrackID) }
  let qm2 : QueueManager :=
    if queue.Status.isRoot then { qm1 with RootTrack := some tid }
    else
      match parenttrack with
      | none => qm1
      | some parent =>
        updateTrack qm1 parent.TrackID
          (fun t => { t with ChildrenTracks := t.ChildrenTracks ++ [tid] })
  let qm3 : QueueManager :=
    if queue.Status.isDefault then { qm2 with DefaultTrack := some tid } else qm2
  let qm4 : QueueManager := { qm3 with Queues := qm3.Queues ++ [newtrack1] }
  let qm5 : QueueManager :=
    if queue.OID ≠ InvalidOid then
      { qm4 with QueuesIDIndex := hashtableSet qm4.QueuesIDIndex queue.OID tid }
    else qm4
  let qm6 : QueueManager :=
    { qm5 with
      QueuesNameIndex := hashtableSet qm5.QueuesNameIndex (queue.Name.take queue.NameLen) tid }
  if !queue.Status.isPercent then
    addResourceQueueRatio
      (updateTrack qm6 tid
        (fun t => { t with MemCoreRatio := ctrunc ((queue.ClusterMemoryMB : ℚ) / queue.ClusterVCore) }))
      tid
  else qm6

/-- `createQueueAndTrack`: the result code, the queue manager as the call leaves it
and the address stored in `*track` (`none` for `NULL`). -/
def createQueueAndTrack (qm : QueueManager) (queue : DynResourceQueueData) :
    ResultCode × QueueManager × Option Nat :=
  let newqueuetrack := createDynResourceQueueTrack (freshTrackID qm) queue
  if queue.OID > InvalidOid ∧ (qm.QueuesIDIndex.lookup queue.OID).isSome then
    (RESQUEMGR_DUPLICATE_QUEID, qm, none)
  else if queue.NameLen ≤ 0 then (RESQUEMGR_NO_QUENAME, qm, none)
  else if (qm.QueuesNameIndex.lookup (queue.Name.take queue.NameLen)).isSome then
    (RESQUEMGR_DUPLICATE_QUENAME, qm, none)
  else if !queue.Status.isRoot then
    match getQueueTrackByQueueOID qm queue.ParentOID with
    | some parenttrack =>
      if parenttrack.QueueInfo.Status.isDefault then (RESQUEMGR_WRONG_PARENT_QUEUE, qm, none)
      else if queue.Status.isDefault && !parenttrack.QueueInfo.Status.isRoot then
        (RESQUEMGR_WRONG_PARENT_QUEUE, qm, none)
      else if parenttrack.CurConnCounter > 0 then (RESQUEMGR_IN_USE, qm, none)
      else
        (FUNC_RETURN_OK, linkNewQueueTrack qm newqueuetrack (some parenttrack),
         some newqueuetrack.TrackID)
    | none => (RESQUEMGR_WRONG_PARENT_QUEUE, qm, none)
  else (FUNC_RETURN_OK, linkNewQueueTrack qm newqueuetrack none, some newqueuetrack.TrackID)

/-- `dropQueueAndTrack` for the tracker at address `tid`: the tracker leaves the
children of its parent, the tracker of its ratio, both indices and the list `Queues`. -/
def dropQueueAndTrack (qm : QueueManager) (tid : Nat) : ResultCode × QueueManager :=
  match getTrackByID qm tid with
  | none => (FUNC_RETURN_OK, qm)
  | some track =>
    let qm1 : QueueManager :=
      match track.ParentTrack with
      | some pid => updateTrack qm pid (fun t => { t with ChildrenTracks := t.ChildrenTracks.erase tid })
      | none => qm
    let qm2 : QueueManager :=
      if track.trackedMemCoreRatio then removeResourceQueueRatio qm1 tid else qm1
    let qm3 : QueueManager :=
      { qm2 with
        QueuesNameIndex :=
          hashtableRemove qm2.QueuesNameIndex (track.QueueInfo.Name.take track.QueueInfo.NameLen),
        QueuesIDIndex := hashtableRemove qm2.QueuesIDIndex track.QueueInfo.OID }
    (FUNC_RETURN_OK, { qm3 with Queues := qm3.Queues.eraseP (fun t => t.TrackID = tid) })

/-! ## Capacity refresh (`refreshResourceQueuePercentageCapacityInternal`) -/

/-- The conversion of a `uint32_t` value to `int32_t` (`int32_t memmb = clustermemmb`):
values from `2^31` on wrap around. -/
def toInt32 (x : Int) : Int := (x + 2147483648) % 4294967296 - 2147483648

/-- The integer power `2^e` as a rational. -/
def pow2 (e : Int) : ℚ :=
  if 0 ≤ e then ((2 ^ e.toNat : Nat) : ℚ) else 1 / ((2 ^ (-e).toNat : Nat) : ℚ)

/-- The number of binary digits of `n` after the first: `floor(log2 n)` for `n ≥ 1`.  The
first argument bounds the number of halvings. -/
def log2Fuel : Nat → Nat → Nat
  | 0, _ => 0
  | fuel + 1, n => if n ≥ 2 then log2Fuel fuel (n / 2) + 1 else 0

/-- The rounding of a value to the nearest integer, a tie going to the even one. -/
def roundHalfEven (q : ℚ) : Int :=
  let f := Rat.floor q
  let r := q - (f : ℚ)
  if r < 1 / 2 then f else if r > 1 / 2 then f + 1 else if f % 2 = 0 then f else f + 1

/-- The exponent `e` of the last binary place of the `double` nearest to `x ≠ 0`:
`2^52 ≤ |x| / 2^e < 2^53`. -/
def ulpExponent (x : ℚ) : Int :=
  let e0 : Int :=
    (log2Fuel x.num.natAbs x.num.natAbs : Int) - (log2Fuel x.den x.den : Int) - 52
  if |x| < pow2 (e0 + 52) then e0 - 1 else e0

/-- The `double` nearest to the real `x`, ties to even (the IEEE 754 rounding of the
result of an arithmetic operation): `x` is rounded to 53 significant binary digits.
Overflow and underflow (magnitudes from `2^1024` on or below `2^-1022`) are not
modelled. -/
def roundDouble (x : ℚ) : ℚ :=
  if x = 0 then 0
  else (roundHalfEven (x / pow2 (ulpExponent x)) : ℚ) * pow2 (ulpExponent x)

/-- The product `a * b` of two `double` values. -/
def fmul (a b : ℚ) : ℚ := roundDouble (a * b)

/-- The quotient `a / b` of two `double` values, `b` not 0. -/
def fdiv (a b : ℚ) : ℚ := roundDouble (a / b)

/-- The loop `while( ptrack != NULL && RESQUEUE_IS_PERCENT(ptrack->QueueInfo) )` of
STEP 1: it climbs from the tracker at `ptrack` while the tracker is percent-expressed,
multiplying the two percentages by those of the trackers met
(`ClusterMemoryActPer *= (ptrack->QueueInfo->ClusterMemoryPer / 100)`, a quotient and a
product of doubles, each rounded), and returns the tracker it stops at (`none` for
`NULL`) with the two products.  The first argument bounds the number of iterations; the
result is `none` when the bound is reached or a tracker does not exist. -/
def walkPercentChain (qm : QueueManager) :
    Nat → Option Nat → ℚ → ℚ → Option (Option DynResourceQueueTrack × ℚ × ℚ)
  | _, none, mem, core => some (none, mem, core)
  | 0, some _, _, _ => none
  | fuel + 1, some pid, mem, core =>
    match getTrackByID qm pid with
    | none => none
    | some ptrack =>
      if ptrack.QueueInfo.Status.isPercent then
        walkPercentChain qm fuel ptrack.ParentTrack
          (fmul mem (fdiv ptrack.QueueInfo.ClusterMemoryPer 100))
          (fmul core (fdiv ptrack.QueueInfo.ClusterVCorePer 100))
      else some (some ptrack, mem, core)

/-- The values STEP 1 computes for one percent-expressed leaf. -/
structure PercentCapacity where
  ClusterMemoryActPer : ℚ
  ClusterVCoreActPer : ℚ
  ClusterMemoryMaxPer : ℚ
  ClusterVCoreMaxPer : ℚ
  ClusterMemoryMB : Int
  ClusterVCore : ℚ
  ClusterMemoryMaxMB : Int
  ClusterVCoreMax : ℚ
  tmpratio : Int
  deriving DecidableEq, Repr

/-- The computation of STEP 1 for the percent-expressed leaf `track`.  The products and
quotients are those of doubles, evaluated from left to right and each rounded
(`1.0 * clustermemmb * ActPer / 100` is `((1.0 * clustermemmb) * ActPer) / 100`); the
assignment to the integer `ClusterMemoryMB` truncates.  The result is `none` where the
walk up the tree does not end, or where the ratio is a quotient by zero
(`clustermemmb / clustercore` with no core, or `ClusterMemoryMB / ClusterVCore` with a
capacity of no core). -/
def computePercentCapacity (qm : QueueManager) (clustermemmb clustercore : Nat)
    (track : DynResourceQueueTrack) : Option PercentCapacity :=
  match walkPercentChain qm qm.Queues.length track.ParentTrack
      track.QueueInfo.ClusterMemoryPer track.QueueInfo.ClusterVCorePer with
  | none => none
  | some (ptrack, actmem, actcore) =>
    let maxmem0 := fmul actmem track.QueueInfo.ResourceUpperFactor
    let maxmem := if maxmem0 > 100 then 100 else maxmem0
    let maxcore0 := fmul actcore track.QueueInfo.ResourceUpperFactor
    let maxcore := if maxcore0 > 100 then 100 else maxcore0
    if ptrack.isNone ∧ actmem = actcore then
      if clustercore = 0 then none
      else
        some
          { ClusterMemoryActPer := actmem, ClusterVCoreActPer := actcore,
            ClusterMemoryMaxPer := maxmem, ClusterVCoreMaxPer := maxcore,
            ClusterMemoryMB := ctrunc (fdiv (fmul (fmul 1 (clustermemmb : ℚ)) actmem) 100),
            ClusterVCore := fdiv (fmul (fmul 1 (clustercore : ℚ)) actcore) 100,
            ClusterMemoryMaxMB := ctrunc (fdiv (fmul (fmul 1 (clustermemmb : ℚ)) maxmem) 100),
            ClusterVCoreMax := fdiv (fmul (fmul 1 (clustercore : ℚ)) maxcore) 100,
            tmpratio := ((clustermemmb / clustercore : Nat) : Int) }
    else
      let memmb : Int :=
        match ptrack with
        | none => toInt32 clustermemmb
        | some p => p.QueueInfo.ClusterMemoryMB
      let core : ℚ :=
        match ptrack with
        | none => (clustercore : ℚ)
        | some p => p.QueueInfo.ClusterVCore
      let newmem := ctrunc (fdiv (fmul (fmul 1 (memmb : ℚ)) actmem) 100)
      let newcore := fdiv (fmul (fmul 1 core) actcore) 100
      if newcore = 0 then none
      else
        some
          { ClusterMemoryActPer := actmem, ClusterVCoreActPer := actcore,
            ClusterMemoryMaxPer := maxmem, ClusterVCoreMaxPer := maxcore,
            ClusterMemoryMB := newmem, ClusterVCore := newcore,
            ClusterMemoryMaxMB := ctrunc (fdiv (fmul (fmul 1 (memmb : ℚ)) maxmem) 100),
            ClusterVCoreMax := fdiv (fmul (fmul 1 core) maxcore) 100,
            tmpratio := ctrunc (fdiv (newmem : ℚ) newcore) }

/-- The assignments of STEP 1 to the tracker and to its queue definition. -/
def storePercentCapacity (v : PercentCapacity) (t : DynResourceQueueTrack) :
    DynResourceQueueTrack :=
  { t with
    ClusterMemoryActPer := v.ClusterMemoryActPer, ClusterVCoreActPer := v.ClusterVCoreActPer,
    ClusterMemoryMaxPer := v.ClusterMemoryMaxPer, ClusterVCoreMaxPer := v.ClusterVCoreMaxPer,
    ClusterMemoryMaxMB := v.ClusterMemoryMaxMB, ClusterVCoreMax := v.ClusterVCoreMax,
    QueueInfo := { t.QueueInfo with
      ClusterMemoryMB := v.ClusterMemoryMB, ClusterVCore := v.ClusterVCore } }

/-- The body of the loop of STEP 1 for the tracker at address `tid`. -/
def refreshStep1Track (clustermemmb clustercore : Nat) (qm : QueueManager) (tid : Nat) :
    Option QueueManager :=
  match getTrackByID qm tid with
  | none => some qm
  | some track =>
    if track.QueueInfo.Status.isPercent && track.QueueInfo.Status.isLeaf then
      match computePercentCapacity qm clustermemmb clustercore track with
      | none => none
      | some v =>
        let qm1 := updateTrack qm tid (storePercentCapacity v)
        let qm2 :=
          if v.tmpratio ≠ track.MemCoreRatio ∧ track.trackedMemCoreRatio then
            removeResourceQueueRatio qm1 tid
          else qm1
        match getTrackByID qm2 tid with
        | none => some qm2
        | some track2 =>
          if !track2.trackedMemCoreRatio then
            some (addResourceQueueRatio
              (updateTrack qm2 tid (fun t => { t with MemCoreRatio := v.tmpratio })) tid)
          else some qm2
    else some qm

/-- A loop `foreach(cell, PQUEMGR->Queues)` with the body `body`, over the addresses
`tids` of the trackers. -/
def foreachTrack (body : QueueManager → Nat → Option QueueManager) :
    List Nat → QueueManager → Option QueueManager
  | [], qm => some qm
  | tid :: rest, qm =>
    match body qm tid with
    | none => none
    | some qm1 => foreachTrack body rest qm1

/-- STEP 1 of `refreshResourceQueuePercentageCapacityInternal`. -/
def refreshStep1 (qm : QueueManager) (clustermemmb clustercore : Nat) : Option QueueManager :=
  foreachTrack (refreshStep1Track clustermemmb clustercore) (qm.Queues.map (fun t => t.TrackID)) qm

/-- The values STEP 2 computes for one leaf. -/
structure LeafLimits where
  ClusterMemoryMaxMB : Int
  ClusterVCoreMax : ℚ
  SegResourceQuotaMemoryMB : Int
  SegResourceQuotaVCore : ℚ
  ClusterSegNumber : Int
  ClusterSegNumberMax : Int
  deriving DecidableEq, Repr

/-- The computation of STEP 2 for the leaf `track`.  `ClusterMemoryMaxMB` and
`MemCoreRatio` are `uint32_t`: their quotient is an integer division, and so are the
two quotients by `SegResourceQuotaMemoryMB`, the second one among unsigned values; the
other quotients are `double` divisions, where a positive value over zero compares
greater than every ratio and zero over zero compares false.  The result is `none` where
an integer is divided by zero or where `SegResourceQuotaVCore` would not be finite. -/
def computeLeafLimits (track : DynResourceQueueTrack) : Option LeafLimits :=
  let ratio := track.MemCoreRatio
  let above : Bool :=
    if track.ClusterVCoreMax = 0 then decide (track.ClusterMemoryMaxMB > 0)
    else decide ((track.ClusterMemoryMaxMB : ℚ) / track.ClusterVCoreMax > (ratio : ℚ))
  let limits : Option (Int × ℚ) :=
    if above then some (ctrunc (track.ClusterVCoreMax * (ratio : ℚ)), track.ClusterVCoreMax)
    else if ratio = 0 then none
    else some (track.ClusterMemoryMaxMB, ((Int.tdiv track.ClusterMemoryMaxMB ratio : Int) : ℚ))
  match limits with
  | none => none
  | some (maxmb, maxcore) =>
    let quotamem : Int :=
      if track.QueueInfo.SegResourceQuotaMemoryMB = -1 then
        ctrunc (track.QueueInfo.SegResourceQuotaVCore * (ratio : ℚ))
      else track.QueueInfo.SegResourceQuotaMemoryMB
    let quotacore : Option ℚ :=
      if track.QueueInfo.SegResourceQuotaVCore = -1 then
        if ratio = 0 then none else some (1 * (quotamem : ℚ) / (ratio : ℚ))
      else some track.QueueInfo.SegResourceQuotaVCore
    match quotacore with
    | none => none
    | some qcore =>
      if quotamem = 0 then none
      else
        some
          { ClusterMemoryMaxMB := maxmb, ClusterVCoreMax := maxcore,
            SegResourceQuotaMemoryMB := quotamem, SegResourceQuotaVCore := qcore,
            ClusterSegNumber := Int.tdiv track.QueueInfo.ClusterMemoryMB quotamem,
            ClusterSegNumberMax := Int.tdiv maxmb (quotamem % 4294967296) }

/-- The assignments of STEP 2 to the tracker and to its queue definition. -/
def storeLeafLimits (v : LeafLimits) (t : DynResourceQueueTrack) : DynResourceQueueTrack :=
  { t with
    ClusterMemoryMaxMB := v.ClusterMemoryMaxMB, ClusterVCoreMax := v.ClusterVCoreMax,
    ClusterSegNumber := v.ClusterSegNumber, ClusterSegNumberMax := v.ClusterSegNumberMax,
    QueueInfo := { t.QueueInfo with
      SegResourceQuotaMemoryMB := v.SegResourceQuotaMemoryMB,
      SegResourceQuotaVCore := v.SegResourceQuotaVCore } }

/-- The body of the loop of STEP 2 for the tracker at address `tid`. -/
def refreshStep2Track (qm : QueueManager) (tid : Nat) : Option QueueManager :=
  match getTrackByID qm tid with
  | none => some qm
  | some track =>
    if !track.QueueInfo.Status.isLeaf then some qm
    else
      match computeLeafLimits track with
      | none => none
      | some v => some (updateTrack qm tid (storeLeafLimits v))

/-- STEP 2 of `refreshResourceQueuePercentageCapacityInternal`. -/
def refreshStep2 (qm : QueueManager) : Option QueueManager :=
  foreachTrack refreshStep2Track (qm.Queues.map (fun t => t.TrackID)) qm

/-- `refreshResourceQueuePercentageCapacityInternal`: the queue manager as the call
leaves it, or `none` where one of its steps has no defined result. -/
def refreshResourceQueuePercentageCapacityInternal (qm : QueueManager)
    (clustermemmb clustercore : Nat) : Option QueueManager :=
  (refreshStep1 qm clustermemmb clustercore).bind refreshStep2

/-- The product of the fractions `p / 100` over a list of percentages. -/
def percentProduct (l : List ℚ) : ℚ := (l.map (fun p => p / 100)).prod

/-- The percentage `per` of a leaf multiplied in turn by the fractions `p / 100` of its
ancestors, nearest first, in the arithmetic of doubles: the value that the loop of
STEP 1 leaves in `ClusterMemoryActPer`. -/
def percentFold (per : ℚ) (ancestors : List ℚ) : ℚ :=
  ancestors.foldl (fun acc p => fmul acc (fdiv p 100)) per

/-- The trackers from the one at `ptrack` up to the root are all percent-expressed, and
`pers` lists their memory and core percentages, nearest ancestor first. -/
def percentChain (qm : QueueManager) : Option Nat → List (ℚ × ℚ) → Bool
  | none, [] => true
  | some pid, per :: rest =>
    match getTrackByID qm pid with
    | none => false
    | some p =>
      p.QueueInfo.Status.isPercent && decide (p.QueueInfo.ClusterMemoryPer = per.1) &&
        decide (p.QueueInfo.ClusterVCorePer = per.2) && percentChain qm p.ParentTrack rest
  | _, _ => false

/-- The tracker is a percent-expressed leaf, the kind STEP 1 handles. -/
def isPercentLeaf (t : DynResourceQueueTrack) : Bool :=
  t.QueueInfo.Status.isPercent && t.QueueInfo.Status.isLeaf

/-- What STEP 1 reads of a tracker without writing it: its address, its parent, its
status flags, its percentages and its upper factor. -/
def treeView (t : DynResourceQueueTrack) : Nat × Option Nat × QueueStatus × ℚ × ℚ × ℚ :=
  (t.TrackID, t.ParentTrack, t.QueueInfo.Status, t.QueueInfo.ClusterMemoryPer,
   t.QueueInfo.ClusterVCorePer, t.QueueInfo.ResourceUpperFactor)

/-- The tracker with `trackedMemCoreRatio` set to `b`, or left as it is for `none`:
what `addResourceQueueRatio` and `removeResourceQueueRatio` do to a tracker. -/
def setTracked (b : Option Bool) (t : DynResourceQueueTrack) : DynResourceQueueTrack :=
  match b with
  | none => t
  | some v => { t with trackedMemCoreRatio := v }

/-- The list `l1` of trackers is the list `l` after some iterations of STEP 1: every
tracker shows the same `treeView`, and only percent-expressed leaves have changed. -/
def RefreshInv (l l1 : List DynResourceQueueTrack) : Prop :=
  List.Forall₂ (fun t t1 => treeView t1 = treeView t ∧ (isPercentLeaf t = false → t1 = t)) l l1

/-! ## Attribute lists of the queue DDL -/

/-- `KVPropertyData`: one `key=value` pair of an attribute list. -/
structure KVProperty where
  Key : List Char
  Val : List Char
  deriving DecidableEq, Repr

/-- The helpers of `utils/simplestring.c` and `utils/kvproperties.c` that the
attribute functions call.  Those files are outside `src/`, so the helpers are
parameters: a conversion takes the value its target holds before the call and returns
its result code with the value the target holds afterwards. -/
structure SimpleStringOps where
  Empty : List Char → Bool
  Comp : List Char → List Char → Int
  Find : List Char → List Char → ResultCode
  StartWith : List Char → List Char → ResultCode
  IsPercentage : List Char → Bool
  ToPercentage : List Char → Int → ResultCode × Int
  ToStorageSizeMB : List Char → Int → ResultCode × Int
  ToDouble : List Char → ℚ → ResultCode × ℚ
  ToInt32 : List Char → Int → ResultCode × Int
  ToOid : List Char → Int → ResultCode × Int
  ToMapIndexInt8 : List Char → List (List Char) → Int → ResultCode × Int
  OidToString : Int → List Char

/-- The table `RSQDDLAttrNames[]`. -/
def RSQDDLAttrNames : List (List Char) :=
  ["parent".toList, "active_statements".toList, "memory_limit_cluster".toList,
   "core_limit_cluster".toList, "vsegment_resource_quota".toList,
   "allocation_policy".toList, "resource_upper_factor".toList,
   "vsegment_upper_limit".toList]

/-- The table `RSQTBLAttrNames[]`. -/
def RSQTBLAttrNames : List (List Char) :=
  RSQDDLAttrNames ++
  ["oid".toList, "name".toList, "creation_time".toList, "update_time".toList,
   "status".toList]

/-- The table `RSQDDLValueAllocationPolicy[]`. -/
def RSQDDLValueAllocationPolicy : List (List Char) := ["even".toList, "fifo".toList]

/-- The attribute indices `RSQ_TBL_ATTR_*` (equal to `RSQ_DDL_ATTR_*` for the first
eight), numbered as the rows of `RSQTBLAttrNames[]`. -/
inductive AttrIndex
  | PARENT
  | ACTIVE_STATMENTS
  | MEMORY_LIMIT_CLUSTER
  | CORE_LIMIT_CLUSTER
  | VSEGMENT_RESOURCE_QUOTA
  | ALLOCATION_POLICY
  | RESOURCE_UPPER_FACTOR
  | VSEGMENT_UPPER_LIMIT
  | OID
  | NAME
  | CREATION_TIME
  | UPDATE_TIME
  | STATUS
  deriving DecidableEq, Repr

/-- The attribute index of a row number of `RSQTBLAttrNames[]`. -/
def attrIndexOfNat : Nat → Option AttrIndex
  | 0 => some AttrIndex.PARENT
  | 1 => some AttrIndex.ACTIVE_STATMENTS
  | 2 => some AttrIndex.MEMORY_LIMIT_CLUSTER
  | 3 => some AttrIndex.CORE_LIMIT_CLUSTER
  | 4 => some AttrIndex.VSEGMENT_RESOURCE_QUOTA
  | 5 => some AttrIndex.ALLOCATION_POLICY
  | 6 => some AttrIndex.RESOURCE_UPPER_FACTOR
  | 7 => some AttrIndex.VSEGMENT_UPPER_LIMIT
  | 8 => some AttrIndex.OID
  | 9 => some AttrIndex.NAME
  | 10 => some AttrIndex.CREATION_TIME
  | 11 => some AttrIndex.UPDATE_TIME
  | 12 => some AttrIndex.STATUS
  | _ => none

/-- `getRSQTBLAttributeName`: the row of `RSQTBLAttrNames[]` at an attribute index. -/
def getRSQTBLAttributeName : AttrIndex → List Char
  | AttrIndex.PARENT => "parent".toList
  | AttrIndex.ACTIVE_STATMENTS => "active_statements".toList
  | AttrIndex.MEMORY_LIMIT_CLUSTER => "memory_limit_cluster".toList
  | AttrIndex.CORE_LIMIT_CLUSTER => "core_limit_cluster".toList
  | AttrIndex.VSEGMENT_RESOURCE_QUOTA => "vsegment_resource_quota".toList
  | AttrIndex.ALLOCATION_POLICY => "allocation_policy".toList
  | AttrIndex.RESOURCE_UPPER_FACTOR => "resource_upper_factor".toList
  | AttrIndex.VSEGMENT_UPPER_LIMIT => "vsegment_upper_limit".toList
  | AttrIndex.OID => "oid".toList
  | AttrIndex.NAME => "name".toList
  | AttrIndex.CREATION_TIME => "creation_time".toList
  | AttrIndex.UPDATE_TIME => "update_time".toList
  | AttrIndex.STATUS => "status".toList

/-- The loop of `getRSQTBLAttributeNameIndex` and `getRSQDDLAttributeNameIndex`: the
first row `i` at or after `start` with `SimpleStringComp(attrname, names[i]) == 0`. -/
def findAttrRow (ops : SimpleStringOps) (attrname : List Char) : List (List Char) → Nat → Option Nat
  | [], _ => none
  | n :: rest, i => if ops.Comp attrname n = 0 then some i else findAttrRow ops attrname rest (i + 1)

/-- `getRSQTBLAttributeNameIndex`: `none` is the index `-1`. -/
def getRSQTBLAttributeNameIndex (ops : SimpleStringOps) (attrname : List Char) : Option AttrIndex :=
  (findAttrRow ops attrname RSQTBLAttrNames 0).bind attrIndexOfNat

/-- `getRSQDDLAttributeNameIndex`: `none` is the index `-1`. -/
def getRSQDDLAttributeNameIndex (ops : SimpleStringOps) (attrname : List Char) : Option AttrIndex :=
  (findAttrRow ops attrname RSQDDLAttrNames 0).bind attrIndexOfNat

/-- Modelled from the spec: the macros `RESOURCE_QUEUE_SEG_RES_QUOTA_MEM` and
`RESOURCE_QUEUE_SEG_RES_QUOTA_CORE` live in a header outside `src/`; the value grammar
of `vsegment_resource_quota` is "mem:<int>{MB,GB} xor core:<decimal>". -/
def RESOURCE_QUEUE_SEG_RES_QUOTA_MEM : List Char := "mem:".toList

/-- Modelled from the spec: see `RESOURCE_QUEUE_SEG_RES_QUOTA_MEM`. -/
def RESOURCE_QUEUE_SEG_RES_QUOTA_CORE : List Char := "core:".toList

/-- Modelled from the spec: the macro `RESOURCE_QUEUE_DEFAULT_QUEUE_NAME` lives in a
header outside `src/`; the default queue is `pg_default`. -/
def RESOURCE_QUEUE_DEFAULT_QUEUE_NAME : List Char := "pg_default".toList

/-- Modelled from the spec: the macro `RESOURCE_QUEUE_ROOT_QUEUE_NAME` lives in a
header outside `src/`; the root queue is `pg_root`. -/
def RESOURCE_QUEUE_ROOT_QUEUE_NAME : List Char := "pg_root".toList

/-! ## Parsing a queue definition (`parseResourceQueueAttributes`) -/

/-- The local variables of `parseResourceQueueAttributes` that live across the
iterations of its loop, with the queue definition being filled. -/
structure ParseState where
  res : ResultCode
  queue : DynResourceQueueData
  memlimit_percentage : Bool
  memlimit_value : Bool
  corelimit_percentage : Bool
  corelimit_value : Bool
  deriving DecidableEq, Repr

/-- The check that follows the `switch` in the attribute loops: a result other than
`FUNC_RETURN_OK` is turned into `RESQUEMGR_WRONG_ATTR` and returned.  The first
component is the code of the `return`, if one is taken. -/
def parseCheckRes (st : ParseState) : Option ResultCode × ParseState :=
  if st.res ≠ FUNC_RETURN_OK then
    (some RESQUEMGR_WRONG_ATTR, { st with res := RESQUEMGR_WRONG_ATTR })
  else (none, st)

/-- The case `RSQ_TBL_ATTR_VSEGMENT_RESOURCE_QUOTA` of `parseResourceQueueAttributes`.
In the last branch the code fills the error buffer and executes `return res;` with the
value `res` has on entry to the iteration. -/
def parseQuotaAttribute (ops : SimpleStringOps) (st : ParseState) (attrvalue : List Char) :
    Option ResultCode × ParseState :=
  if ops.StartWith attrvalue RESOURCE_QUEUE_SEG_RES_QUOTA_MEM = FUNC_RETURN_OK then
    let valuestr := attrvalue.drop RESOURCE_QUEUE_SEG_RES_QUOTA_MEM.length
    let c := ops.ToStorageSizeMB valuestr st.queue.SegResourceQuotaMemoryMB
    parseCheckRes { st with res := c.1, queue := { st.queue with SegResourceQuotaMemoryMB := c.2 } }
  else if ops.StartWith attrvalue RESOURCE_QUEUE_SEG_RES_QUOTA_CORE = FUNC_RETURN_OK then
    let valuestr := attrvalue.drop RESOURCE_QUEUE_SEG_RES_QUOTA_CORE.length
    let c := ops.ToDouble valuestr st.queue.SegResourceQuotaVCore
    parseCheckRes { st with res := c.1, queue := { st.queue with SegResourceQuotaVCore := c.2 } }
  else (some st.res, st)

/-- The case `RSQ_TBL_ATTR_STATUS` of `parseResourceQueueAttributes`. -/
def parseStatusAttribute (ops : SimpleStringOps) (status : QueueStatus) (attrvalue : List Char) :
    QueueStatus :=
  let s1 : QueueStatus :=
    if ops.Find attrvalue "branch".toList = FUNC_RETURN_OK then { status with isBranch := true }
    else status
  let s2 : QueueStatus :=
    if ops.Find attrvalue "invalid".toList = FUNC_RETURN_OK then { s1 with isInvalid := true }
    else s1
  let s3 : QueueStatus := if !s2.isBranch then { s2 with isLeaf := true } else s2
  if !s3.isInvalid then { s3 with isInUse := true } else s3

/-- One iteration of the attribute loop of `parseResourceQueueAttributes`.  The first
component is the code of the `return`, if the iteration takes one.  A queue name is
taken to fit the buffer `queue->Name`. -/
def parseAttribute (ops : SimpleStringOps) (st : ParseState) (value : KVProperty) :
    Option ResultCode × ParseState :=
  let attrvalue := value.Val
  if ops.Empty attrvalue then (none, st)
  else
    match getRSQTBLAttributeNameIndex ops value.Key with
    | none => (some RESQUEMGR_WRONG_ATTRNAME, { st with res := RESQUEMGR_WRONG_ATTRNAME })
    | some AttrIndex.OID =>
      let c := ops.ToOid attrvalue 0
      parseCheckRes { st with res := c.1, queue := { st.queue with OID := c.2 } }
    | some AttrIndex.PARENT =>
      let c := ops.ToOid attrvalue 0
      parseCheckRes { st with res := c.1, queue := { st.queue with ParentOID := c.2 } }
    | some AttrIndex.ACTIVE_STATMENTS =>
      let c := ops.ToInt32 attrvalue st.queue.ParallelCount
      let st1 : ParseState := { st with res := c.1, queue := { st.queue with ParallelCount := c.2 } }
      if c.1 ≠ FUNC_RETURN_OK then (some c.1, st1) else parseCheckRes st1
    | some AttrIndex.MEMORY_LIMIT_CLUSTER =>
      if ops.IsPercentage attrvalue then
        let c := ops.ToPercentage attrvalue 0
        parseCheckRes { st with
          res := c.1, memlimit_percentage := true,
          queue := { st.queue with
            ClusterMemoryPer := c.2, Status := { st.queue.Status with isPercent := true } } }
      else
        let c := ops.ToStorageSizeMB attrvalue st.queue.ClusterMemoryMB
        parseCheckRes { st with
          res := c.1, memlimit_value := true, queue := { st.queue with ClusterMemoryMB := c.2 } }
    | some AttrIndex.CORE_LIMIT_CLUSTER =>
      if ops.IsPercentage attrvalue then
        let c := ops.ToPercentage attrvalue 0
        parseCheckRes { st with
          res := c.1, corelimit_percentage := true,
          queue := { st.queue with
            ClusterVCorePer := c.2, Status := { st.queue.Status with isPercent := true } } }
      else
        let c := ops.ToDouble attrvalue st.queue.ClusterVCore
        parseCheckRes { st with
          res := c.1, corelimit_value := true, queue := { st.queue with ClusterVCore := c.2 } }
    | some AttrIndex.VSEGMENT_RESOURCE_QUOTA => parseQuotaAttribute ops st attrvalue
    | some AttrIndex.RESOURCE_UPPER_FACTOR =>
      let c := ops.ToDouble attrvalue st.queue.ResourceUpperFactor
      let st1 : ParseState :=
        { st with res := c.1, queue := { st.queue with ResourceUpperFactor := c.2 } }
      if c.1 ≠ FUNC_RETURN_OK then (some c.1, st1) else parseCheckRes st1
    | some AttrIndex.VSEGMENT_UPPER_LIMIT =>
      let c := ops.ToInt32 attrvalue st.queue.VSegUpperLimit
      let st1 : ParseState := { st with res := c.1, queue := { st.queue with VSegUpperLimit := c.2 } }
      if c.1 ≠ FUNC_RETURN_OK then (some c.1, st1) else parseCheckRes st1
    | some AttrIndex.ALLOCATION_POLICY =>
      let c := ops.ToMapIndexInt8 attrvalue RSQDDLValueAllocationPolicy st.queue.AllocatePolicy
      let st1 : ParseState := { st with res := c.1, queue := { st.queue with AllocatePolicy := c.2 } }
      if c.1 ≠ FUNC_RETURN_OK then (some c.1, st1) else parseCheckRes st1
    | some AttrIndex.NAME =>
      let status1 : QueueStatus :=
        if ops.Comp attrvalue RESOURCE_QUEUE_DEFAULT_QUEUE_NAME = 0 then
          { st.queue.Status with isDefault := true }
        else if ops.Comp attrvalue RESOURCE_QUEUE_ROOT_QUEUE_NAME = 0 then
          { st.queue.Status with isRoot := true }
        else st.queue.Status
      parseCheckRes { st with
        queue := { st.queue with NameLen := attrvalue.length, Name := attrvalue, Status := status1 } }
    | some AttrIndex.STATUS =>
      parseCheckRes { st with
        queue := { st.queue with Status := parseStatusAttribute ops st.queue.Status attrvalue } }
    | some AttrIndex.CREATION_TIME => parseCheckRes st
    | some AttrIndex.UPDATE_TIME => parseCheckRes st

/-- The loop `foreach(cell, attributes)` of `parseResourceQueueAttributes`. -/
def parseLoop (ops : SimpleStringOps) : List KVProperty → ParseState → Option ResultCode × ParseState
  | [], st => (none, st)
  | value :: rest, st =>
    match parseAttribute ops st value with
    | (some code, st1) => (some code, st1)
    | (none, st1) => parseLoop ops rest st1

/-- The queue definition as the first statements of `parseResourceQueueAttributes`
initialise it; the fields not assigned there keep the value of `queue`. -/
def parseInit (d : QueueDefaults) (queue : DynResourceQueueData) : DynResourceQueueData :=
  { queue with
    OID := -1, ParentOID := -1, ParallelCount := -1, ClusterMemoryMB := -1,
    Status := { isRoot := false, isDefault := false, isLeaf := true, isBranch := false,
                isPercent := false, isVer1X := false, isInvalid := false, isInUse := false },
    ClusterVCore := -1, SegResourceQuotaVCore := -1, SegResourceQuotaMemoryMB := -1,
    ResourceUpperFactor := -1, VSegUpperLimit := d.DEFAULT_RESQUEUE_VSEG_UPPER_LIMIT_N,
    AllocatePolicy := -1, QueuingPolicy := -1, InterQueuePolicy := -1,
    ClusterMemoryPer := -1, ClusterVCorePer := -1, Name := [] }

/-- `parseResourceQueueAttributes`: the result code and the queue definition as the
call leaves it. -/
def parseResourceQueueAttributes (ops : SimpleStringOps) (d : QueueDefaults)
    (attributes : List KVProperty) (queue : DynResourceQueueData) :
    ResultCode × DynResourceQueueData :=
  let st0 : ParseState :=
    { res := FUNC_RETURN_OK, queue := parseInit d queue, memlimit_percentage := false,
      memlimit_value := false, corelimit_percentage := false, corelimit_value := false }
  match parseLoop ops attributes st0 with
  | (some code, st) => (code, st.queue)
  | (none, st) =>
    if !st.memlimit_value && !st.memlimit_percentage then (RESQUEMGR_LACK_ATTR, st.queue)
    else if !st.corelimit_value && !st.corelimit_percentage then (RESQUEMGR_LACK_ATTR, st.queue)
    else if (st.memlimit_value && st.corelimit_percentage) ||
        (st.memlimit_percentage && st.corelimit_value) then
      (RESQUEMGR_INCONSISTENT_RESOURCE_EXP, st.queue)
    else if st.memlimit_percentage && st.corelimit_percentage then
      (st.res, { st.queue with Status := { st.queue.Status with isPercent := true } })
    else (st.res, st.queue)

/-! ## Altering a queue definition (`updateResourceQueueAttributes`) -/

/-- The local variables of `updateResourceQueueAttributes` that live across the
iterations of its loop, with the queue definition being altered in place. -/
structure UpdateState where
  res : ResultCode
  queue : DynResourceQueueData
  percentage_change : Int
  value_change : Int
  deriving DecidableEq, Repr

/-- The check that follows the `switch` of `updateResourceQueueAttributes`. -/
def updateCheckRes (st : UpdateState) : Option ResultCode × UpdateState :=
  if st.res ≠ FUNC_RETURN_OK then
    (some RESQUEMGR_WRONG_ATTR, { st with res := RESQUEMGR_WRONG_ATTR })
  else (none, st)

/-- The case `RSQ_TBL_ATTR_VSEGMENT_RESOURCE_QUOTA` of `updateResourceQueueAttributes`.
In the last branch the code fills the error buffer and executes `return res;` with the
value `res` has on entry to the iteration. -/
def updateQuotaAttribute (ops : SimpleStringOps) (st : UpdateState) (attrvalue : List Char) :
    Option ResultCode × UpdateState :=
  if ops.StartWith attrvalue RESOURCE_QUEUE_SEG_RES_QUOTA_MEM = FUNC_RETURN_OK then
    let valuestr := attrvalue.drop RESOURCE_QUEUE_SEG_RES_QUOTA_MEM.length
    let c := ops.ToStorageSizeMB valuestr st.queue.SegResourceQuotaMemoryMB
    updateCheckRes { st with
      res := c.1,
      queue := { st.queue with SegResourceQuotaMemoryMB := c.2, SegResourceQuotaVCore := -1 } }
  else if ops.StartWith attrvalue RESOURCE_QUEUE_SEG_RES_QUOTA_CORE = FUNC_RETURN_OK then
    let valuestr := attrvalue.drop RESOURCE_QUEUE_SEG_RES_QUOTA_CORE.length
    let c := ops.ToDouble valuestr st.queue.SegResourceQuotaVCore
    updateCheckRes { st with
      res := c.1,
      queue := { st.queue with SegResourceQuotaVCore := c.2, SegResourceQuotaMemoryMB := -1 } }
  else (some st.res, st)

/-- One iteration of the attribute loop of `updateResourceQueueAttributes`.  The first
component is the code of the `return`, if the iteration takes one. -/
def updateAttribute (ops : SimpleStringOps) (st : UpdateState) (value : KVProperty) :
    Option ResultCode × UpdateState :=
  let attrvalue := value.Val
  if ops.Empty attrvalue then (none, st)
  else
    match getRSQTBLAttributeNameIndex ops value.Key with
    | none => (some RESQUEMGR_WRONG_ATTRNAME, { st with res := RESQUEMGR_WRONG_ATTRNAME })
    | some AttrIndex.OID =>
      (some RESQUEMGR_WRONG_ATTRNAME, { st with res := RESQUEMGR_WRONG_ATTRNAME })
    | some AttrIndex.PARENT =>
      (some RESQUEMGR_WRONG_ATTRNAME, { st with res := RESQUEMGR_WRONG_ATTRNAME })
    | some AttrIndex.NAME => updateCheckRes st
    | some AttrIndex.ACTIVE_STATMENTS =>
      let c := ops.ToInt32 attrvalue st.queue.ParallelCount
      let st1 : UpdateState := { st with res := c.1, queue := { st.queue with ParallelCount := c.2 } }
      if c.1 ≠ FUNC_RETURN_OK then (some c.1, st1) else updateCheckRes st1
    | some AttrIndex.MEMORY_LIMIT_CLUSTER =>
      if ops.IsPercentage attrvalue then
        let c := ops.ToPercentage attrvalue 0
        updateCheckRes { st with
          res := c.1, percentage_change := st.percentage_change + 1,
          queue := { st.queue with ClusterMemoryPer := c.2 } }
      else
        let c := ops.ToStorageSizeMB attrvalue st.queue.ClusterMemoryMB
        updateCheckRes { st with
          res := c.1, value_change := st.value_change + 1,
          queue := { st.queue with ClusterMemoryMB := c.2 } }
    | some AttrIndex.CORE_LIMIT_CLUSTER =>
      if ops.IsPercentage attrvalue then
        let c := ops.ToPercentage attrvalue 0
        updateCheckRes { st with
          res := c.1, percentage_change := st.percentage_change + 1,
          queue := { st.queue with ClusterVCorePer := c.2 } }
      else
        let c := ops.ToDouble attrvalue st.queue.ClusterVCore
        updateCheckRes { st with
          res := c.1, value_change := st.value_change + 1,
          queue := { st.queue with ClusterVCore := c.2 } }
    | some AttrIndex.VSEGMENT_RESOURCE_QUOTA => updateQuotaAttribute ops st attrvalue
    | some AttrIndex.RESOURCE_UPPER_FACTOR =>
      let c := ops.ToDouble attrvalue st.queue.ResourceUpperFactor
      let st1 : UpdateState :=
        { st with res := c.1, queue := { st.queue with ResourceUpperFactor := c.2 } }
      if c.1 ≠ FUNC_RETURN_OK then (some c.1, st1) else updateCheckRes st1
    | some AttrIndex.VSEGMENT_UPPER_LIMIT =>
      let c := ops.ToInt32 attrvalue st.queue.VSegUpperLimit
      let st1 : UpdateState := { st with res := c.1, queue := { st.queue with VSegUpperLimit := c.2 } }
      if c.1 ≠ FUNC_RETURN_OK then (some c.1, st1) else updateCheckRes st1
    | some AttrIndex.ALLOCATION_POLICY =>
      let c := ops.ToMapIndexInt8 attrvalue RSQDDLValueAllocationPolicy st.queue.AllocatePolicy
      let st1 : UpdateState := { st with res := c.1, queue := { st.queue with AllocatePolicy := c.2 } }
      if c.1 ≠ FUNC_RETURN_OK then (some c.1, st1) else updateCheckRes st1
    | some AttrIndex.STATUS =>
      (some RESQUEMGR_WRONG_ATTRNAME, { st with res := RESQUEMGR_WRONG_ATTRNAME })
    | some AttrIndex.CREATION_TIME => updateCheckRes st
    | some AttrIndex.UPDATE_TIME => updateCheckRes st

/-- The second loop `foreach(cell, attributes)` of `updateResourceQueueAttributes`. -/
def updateLoop (ops : SimpleStringOps) :
    List KVProperty → UpdateState → Option ResultCode × UpdateState
  | [], st => (none, st)
  | value :: rest, st =>
    match updateAttribute ops st value with
    | (some code, st1) => (some code, st1)
    | (none, st1) => updateLoop ops rest st1

/-- The first loop of `updateResourceQueueAttributes`: some key is equal
(`SimpleStringComp(...) == 0`) to a key further down the list. -/
def hasDuplicateKey (ops : SimpleStringOps) : List KVProperty → Bool
  | [] => false
  | value1 :: rest =>
    rest.any (fun value2 => ops.Comp value1.Key value2.Key = 0) || hasDuplicateKey ops rest

/-- The statements of `updateResourceQueueAttributes` after its loops: both branches
test `value_change`. -/
def updateFinish (st : UpdateState) : ResultCode × DynResourceQueueData :=
  if st.queue.Status.isPercent then
    if st.value_change = 1 then (RESQUEMGR_INCONSISTENT_RESOURCE_EXP, st.queue)
    else if st.value_change = 2 then
      (st.res, { st.queue with Status := { st.queue.Status with isPercent := false } })
    else (st.res, st.queue)
  else
    if st.value_change = 1 then (RESQUEMGR_INCONSISTENT_RESOURCE_EXP, st.queue)
    else if st.value_change = 2 then
      (st.res, { st.queue with Status := { st.queue.Status with isPercent := true } })
    else (st.res, st.queue)

/-- `updateResourceQueueAttributes`: the result code and the queue definition as the
call leaves it (the definition is altered in place, also when the call fails). -/
def updateResourceQueueAttributes (ops : SimpleStringOps) (attributes : List KVProperty)
    (queue : DynResourceQueueData) : ResultCode × DynResourceQueueData :=
  if hasDuplicateKey ops attributes then (RESQUEMGR_DUPLICATE_ATTRNAME, queue)
  else
    let st0 : UpdateState :=
      { res := FUNC_RETURN_OK, queue := queue, percentage_change := 0, value_change := 0 }
    match updateLoop ops attributes st0 with
    | (some code, st) => (code, st.queue)
    | (none, st) => updateFinish st

/-! ## The DDL request handler (`handleRMDDLRequestManipulateResourceQueue`) -/

deriving instance DecidableEq for Except

/-- One step of `shallowparseResourceQueueWithAttributes`: the property appended to
`*fineattr`, or the code returned. -/
def shallowparseProperty (ops : SimpleStringOps) (qm : QueueManager) (property : KVProperty) :
    Except ResultCode KVProperty :=
  if ops.Comp property.Key (getRSQTBLAttributeName AttrIndex.NAME) = 0 then
    Except.ok { Key := getRSQTBLAttributeName AttrIndex.NAME, Val := property.Val }
  else
    match getRSQDDLAttributeNameIndex ops property.Key with
    | none => Except.error RMDDL_WRONG_ATTRNAME
    | some AttrIndex.PARENT =>
      match getQueueTrackByQueueName qm property.Val with
      | none => Except.error RMDDL_WRONG_ATTRVALUE
      | some parentque =>
        Except.ok { Key := getRSQTBLAttributeName AttrIndex.PARENT,
                    Val := ops.OidToString parentque.QueueInfo.OID }
    | some attrindex => Except.ok { Key := getRSQTBLAttributeName attrindex, Val := property.Val }

/-- `shallowparseResourceQueueWithAttributes`: the list `*fineattr`, or the code
returned.  A recognised DDL attribute keeps its name, the rows of `RSQDDLAttrNames[]`
being the first rows of `RSQTBLAttrNames[]`. -/
def shallowparseResourceQueueWithAttributes (ops : SimpleStringOps) (qm : QueueManager) :
    List KVProperty → Except ResultCode (List KVProperty)
  | [] => Except.ok []
  | property :: rest =>
    match shallowparseProperty ops qm property with
    | Except.error code => Except.error code
    | Except.ok newprop =>
      match shallowparseResourceQueueWithAttributes ops qm rest with
      | Except.error code => Except.error code
      | Except.ok fine => Except.ok (newprop :: fine)

/-- The outcome of the catalog statements of one request (`performInsertAction...`,
`performUpdateAction...`, `performDeleteActionForPGResqueue`), which run outside the
resource manager: their result codes and the OID the insert assigns. -/
structure CatalogOutcome where
  insertRes : ResultCode
  newoid : Int
  updateRes : ResultCode
  deleteRes : ResultCode
  deriving DecidableEq, Repr

/-- The actions `MANIPULATE_RESQUEUE_*`. -/
inductive ManipulateAction
  | CREATE
  | ALTER
  | DROP
  deriving DecidableEq, Repr

/-- `updateResqueueCatalog` for the tracker at address `tid`: only `CREATE` changes the
queue manager, giving the new queue its OID and indexing it.  The flag
`ResManagerMainKeepRun` cleared on failure is not modelled. -/
def updateResqueueCatalog (cat : CatalogOutcome) (action : ManipulateAction)
    (qm : QueueManager) (tid : Nat) : ResultCode × QueueManager :=
  match getTrackByID qm tid with
  | none => (FUNC_RETURN_OK, qm)
  | some queuetrack =>
    let parentOf : Option DynResourceQueueTrack := queuetrack.ParentTrack.bind (getTrackByID qm)
    match action with
    | ManipulateAction.CREATE =>
      if cat.insertRes ≠ FUNC_RETURN_OK then (cat.insertRes, qm)
      else
        let qm1 := updateTrack qm tid
          (fun t => { t with QueueInfo := { t.QueueInfo with OID := cat.newoid } })
        let qm2 : QueueManager :=
          { qm1 with QueuesIDIndex := hashtableSet qm1.QueuesIDIndex cat.newoid tid }
        match parentOf with
        | none => (cat.insertRes, qm2)
        | some parenttrack =>
          if parenttrack.QueueInfo.Name ≠ RESOURCE_QUEUE_ROOT_QUEUE_NAME then (cat.updateRes, qm2)
          else (cat.insertRes, qm2)
    | ManipulateAction.ALTER => (cat.updateRes, qm)
    | ManipulateAction.DROP =>
      if cat.deleteRes ≠ FUNC_RETURN_OK then (cat.deleteRes, qm)
      else
        match parentOf with
        | none => (cat.deleteRes, qm)
        | some parenttrack =>
          if parenttrack.ChildrenTracks.length = 1 then (cat.updateRes, qm)
          else (cat.deleteRes, qm)

/-- A queue definition as `rm_palloc0` returns it: every field zero. -/
def zeroQueue : DynResourceQueueData :=
  { OID := 0, ParentOID := 0, Name := [], NameLen := 0, ParallelCount := 0,
    ClusterMemoryMB := 0, ClusterVCore := 0, ClusterMemoryPer := 0, ClusterVCorePer := 0,
    SegResourceQuotaMemoryMB := 0, SegResourceQuotaVCore := 0, ResourceUpperFactor := 0,
    VSegUpperLimit := 0, AllocatePolicy := 0,
    Status := { isRoot := false, isDefault := false, isLeaf := false, isBranch := false,
                isPercent := false, isVer1X := false },
    QueuingPolicy := 0, InterQueuePolicy := 0 }

/-- The tracker at address `tid` given the queue definition `queue`: a write through
the pointer `toupdatetrack->QueueInfo`. -/
def setQueueInfo (qm : QueueManager) (tid : Nat) (queue : DynResourceQueueData) : QueueManager :=
  updateTrack qm tid (fun t => { t with QueueInfo := queue })

/-- The OID of `pg_default` and of `pg_root` (`DEFAULTRESQUEUE_OID`, `ROOTRESQUEUE_OID`),
constants of the catalog headers outside `src/`. -/
structure SystemQueueOids where
  DEFAULTRESQUEUE_OID : Int
  ROOTRESQUEUE_OID : Int
  deriving DecidableEq, Repr

/-- The `CREATE` case of `handleRMDDLRequestManipulateResourceQueue`.  The result is
`none` where `checkAndCompleteNewResourceQueueAttributes` dereferences a `NULL` parent
tracker. -/
def handleCreate (ops : SimpleStringOps) (d : QueueDefaults) (cat : CatalogOutcome)
    (rm_max_resource_queue_number : Int) (qm : QueueManager) (fineattr : List KVProperty) :
    Option (ResultCode × QueueManager) :=
  if (qm.Queues.length : Int) ≥ rm_max_resource_queue_number then
    some (RESQUEMGR_EXCEED_MAX_QUEUE_NUMBER, qm)
  else
    let parsed := parseResourceQueueAttributes ops d fineattr zeroQueue
    if parsed.1 ≠ FUNC_RETURN_OK then some (parsed.1, qm)
    else
      match checkAndCompleteNewResourceQueueAttributes d qm parsed.2 with
      | none => none
      | some checked =>
        if checked.1 ≠ FUNC_RETURN_OK then some (checked.1, qm)
        else
          let created := createQueueAndTrack qm checked.2
          if created.1 ≠ FUNC_RETURN_OK then some (created.1, created.2.1)
          else
            match created.2.2 with
            | none => some (created.1, created.2.1)
            | some newtrack =>
              let stored := updateResqueueCatalog cat ManipulateAction.CREATE created.2.1 newtrack
              if stored.1 ≠ FUNC_RETURN_OK then
                some (stored.1, (dropQueueAndTrack stored.2 newtrack).2)
              else some (FUNC_RETURN_OK, stored.2)

/-- The `ALTER` case of `handleRMDDLRequestManipulateResourceQueue`: the definition is
altered in place and, on each failure, copied back from `oldqueue`. -/
def handleAlter (ops : SimpleStringOps) (d : QueueDefaults) (cat : CatalogOutcome)
    (qm : QueueManager) (name : List Char) (fineattr : List KVProperty) :
    Option (ResultCode × QueueManager) :=
  match getQueueTrackByQueueName qm name with
  | none => some (RESQUEMGR_NO_QUENAME, qm)
  | some toupdatetrack =>
    let tid := toupdatetrack.TrackID
    let oldqueue := toupdatetrack.QueueInfo
    let updated := updateResourceQueueAttributes ops fineattr oldqueue
    let qm1 := setQueueInfo qm tid updated.2
    if updated.1 ≠ FUNC_RETURN_OK then some (updated.1, setQueueInfo qm1 tid oldqueue)
    else
      match checkAndCompleteNewResourceQueueAttributes d qm1 updated.2 with
      | none => none
      | some checked =>
        let qm2 := setQueueInfo qm1 tid checked.2
        if checked.1 ≠ FUNC_RETURN_OK then some (checked.1, setQueueInfo qm2 tid oldqueue)
        else
          let stored := updateResqueueCatalog cat ManipulateAction.ALTER qm2 tid
          if stored.1 ≠ FUNC_RETURN_OK then some (stored.1, setQueueInfo stored.2 tid oldqueue)
          else some (FUNC_RETURN_OK, stored.2)

/-- The `DROP` case of `handleRMDDLRequestManipulateResourceQueue`. -/
def handleDrop (sys : SystemQueueOids) (cat : CatalogOutcome) (qm : QueueManager)
    (name : List Char) : Option (ResultCode × QueueManager) :=
  match getQueueTrackByQueueName qm name with
  | none => some (RESQUEMGR_NO_QUENAME, qm)
  | some todroptrack =>
    if todroptrack.ChildrenTracks.length > 0 then some (RESQUEMGR_IN_USE, qm)
    else if todroptrack.QueueInfo.OID = sys.DEFAULTRESQUEUE_OID then some (RESQUEMGR_IN_USE, qm)
    else if todroptrack.QueueInfo.OID = sys.ROOTRESQUEUE_OID then some (RESQUEMGR_IN_USE, qm)
    else
      let stored := updateResqueueCatalog cat ManipulateAction.DROP qm todroptrack.TrackID
      if stored.1 ≠ FUNC_RETURN_OK then some (stored.1, stored.2)
      else
        let dropped := dropQueueAndTrack stored.2 todroptrack.TrackID
        if dropped.1 ≠ FUNC_RETURN_OK then some (dropped.1, dropped.2)
        else some (FUNC_RETURN_OK, dropped.2)

/-- `handleRMDDLRequestManipulateResourceQueue` on a request for the queue `name` with
the attribute list `withattrs`: the code sent back (`ddlres`, or `FUNC_RETURN_OK`) and
the queue manager as the `switch` leaves it.  The refresh of the capacities and of the
ratio limits that follows a successful request is separate
(`refreshResourceQueuePercentageCapacityInternal`); `none` is a `NULL` dereference. -/
def handleRMDDLRequestManipulateResourceQueue (ops : SimpleStringOps) (d : QueueDefaults)
    (sys : SystemQueueOids) (cat : CatalogOutcome) (rm_max_resource_queue_number : Int)
    (qm : QueueManager) (action : ManipulateAction) (name : List Char)
    (withattrs : List KVProperty) : Option (ResultCode × QueueManager) :=
  let nameattr : KVProperty := { Key := getRSQTBLAttributeName AttrIndex.NAME, Val := name }
  let rsqattr := nameattr :: withattrs
  match shallowparseResourceQueueWithAttributes ops qm rsqattr with
  | Except.error code => some (code, qm)
  | Except.ok fineattr =>
    match action with
    | ManipulateAction.CREATE => handleCreate ops d cat rm_max_resource_queue_number qm fineattr
    | ManipulateAction.ALTER => handleAlter ops d cat qm name fineattr
    | ManipulateAction.DROP => handleDrop sys cat qm name

/-! ## Resource pool: segments and container sets -/

/-- `GRMContainerData`: one container granted by the global resource manager.
`Resource` is the id of the segment that `ctn->Resource` points to, `none` for `NULL`. -/
structure GRMContainer where
  ID : Nat
  MemoryMB : Int
  Core : ℚ
  HostName : String := ""
  CalcDecPending : Bool := false
  Resource : Option Nat := none
  deriving DecidableEq, Repr

/-- `GRMContainerSetData`: the containers of one memory/core ratio on one segment,
with the allocated and the still available resource. -/
structure GRMContainerSet where
  Allocated : ResourceBundle
  Available : ResourceBundle
  Containers : List GRMContainer
  deriving DecidableEq, Repr

/-- `SegResourceData`.  `FTSAvailable` stands for `IS_SEGSTAT_FTSAVAILABLE(Stat)`;
`ContainerSets` is the array indexed by ratio index, `none` being `NULL`.  The segment
id (`Stat->ID`) is the position of the segment in `ResourcePool.Segments`: ids are
handed out densely from `SegmentIDCounter` and a segment is never removed.  The fields
from `FTSStatusUnset` on are those of `Stat` (`SegStatData`): `FTSStatusUnset` tells a
status `RESOURCE_SEG_STATUS_UNSET` from `RESOURCE_SEG_STATUS_UNAVAILABLE` when
`FTSAvailable` is false; `HostName`, `HostAddrs` and `port` are those of `Stat->Info`. -/
structure SegResource where
  FTSAvailable : Bool
  RUAlivePending : Bool
  Allocated : ResourceBundle
  Available : ResourceBundle
  OldInuse : ResourceBundle
  IOBytesWorkload : Int
  SliceWorkload : Int
  ContainerSets : List (Option GRMContainerSet)
  GRMContainerCount : Int := 0
  DecPending : ResourceBundle := { MemoryMB := 0, Core := 0 }
  IncPending : ResourceBundle := { MemoryMB := 0, Core := 0 }
  FTSStatusUnset : Bool := false
  ID : Nat := 0
  HostName : String := ""
  HostAddrs : List String := []
  port : Int := 0
  FTSTotalMemoryMB : Int := 0
  FTSTotalCore : Int := 0
  GRMTotalMemoryMB : Int := 0
  GRMTotalCore : Int := 0
  LastUpdateTime : Nat := 0
  deriving DecidableEq, Repr

/-- Modelled from the spec: the macro `IS_SEGRESOURCE_USABLE` is declared in a header
outside `src/`; "the segment is usable iff FTSAvailable and not RUAlivePending". -/
def IS_SEGRESOURCE_USABLE (segres : SegResource) : Bool :=
  segres.FTSAvailable && !segres.RUAlivePending

/-- The part of `PRESPOOL` used by allocation and return.  `OrderedIOBytesWorkload` is
the in-order sequence of the segment ids held by the IO-workload index.
`HDFSHostNameIndexed` stands for the HDFS host name index as completed by name
resolution: a name resolves to a segment iff the table maps it (the DNS fallback of
`getSegIDByHostNameInternal` only fills this table). -/
structure ResourcePool where
  Segments : List SegResource
  OrderedIOBytesWorkload : List Nat
  AvailNodeCount : Int
  HDFSHostNameIndexed : List (String × Nat)
  OrderedSegResAllocByRatio : List (Option (List Nat)) := []
  ToKickContainers : List (String × GRMContainerSet) := []
  RetPendingContainerCount : Int := 0
  MemCoreRatio : Int := 0
  MemCoreRatioMajorityCounter : Int := 0
  SegmentIDCounter : Nat := 0
  SegmentHostNameIndexed : List (String × Nat) := []
  SegmentHostAddrIndexed : List (String × Nat) := []
  GRMHostNameIndexed : List (String × Nat) := []
  FTSTotal : ResourceBundle := { MemoryMB := 0, Core := 0 }
  GRMTotal : ResourceBundle := { MemoryMB := 0, Core := 0 }
  ToAcceptContainers : List (String × GRMContainerSet) := []
  AcceptedContainers : List GRMContainer := []
  KickedContainers : List GRMContainer := []
  AddPendingContainerCount : Int := 0
  deriving DecidableEq, Repr

/-- Process-wide values read by the pool: the hash `PQUEMGR->RatioIndex` from a
memory/core ratio to its ratio index, and the setting `rm_slice_num_per_seg_limit`. -/
structure RMGlobals where
  RatioIndex : List (Nat × Nat)
  rm_slice_num_per_seg_limit : Int
  deriving DecidableEq, Repr

/-- `getSegResource`. -/
def getSegResource (segs : List SegResource) (id : Nat) : Option SegResource := segs[id]?

/-- `getSegIDByHDFSHostName`: `none` is a result other than `FUNC_RETURN_OK`. -/
def getSegIDByHDFSHostName (pool : ResourcePool) (hostname : String) : Option Nat :=
  pool.HDFSHostNameIndexed.lookup hostname

/-- `getResourceQueueRatioIndex`: `none` is the index `-1`. -/
def getResourceQueueRatioIndex (g : RMGlobals) (ratio : Nat) : Option Nat :=
  if ratio ≤ 0 then none else g.RatioIndex.lookup ratio

/-- `getGRMContainerSet`: the result code and the value left in `*ctns`. -/
def getGRMContainerSet (g : RMGlobals) (segres : SegResource) (ratio : Nat) :
    ResultCode × Option GRMContainerSet :=
  match getResourceQueueRatioIndex g ratio with
  | none => ( RESOURCEPOOL_NO_RATIO, none)
  | some rindex => (FUNC_RETURN_OK, segres.ContainerSets.getD rindex none)

/-- The conversion `uint32_t ratio = memory/core` (a positive `core` is expected). -/
def ratioOf (memory : Int) (core : ℚ) : Nat := (Rat.floor ((memory : ℚ) / core)).toNat

/-- `allocateResourceFromSegment`, `ctns` being the container set at ratio index
`rindex` of `segres`. -/
def allocateResourceFromSegment (segres : SegResource) (rindex : Nat) (ctns : GRMContainerSet)
    (memory : Int) (core : ℚ) (slicesize : Int) : SegResource :=
  { segres with
    ContainerSets := segres.ContainerSets.set rindex
      (some { ctns with Available := minusResourceBundleData ctns.Available memory core }),
    Available := minusResourceBundleData segres.Available memory core,
    SliceWorkload := segres.SliceWorkload + slicesize }

/-- `recycleResourceToSegment`, `ctns` being the container set at ratio index `rindex`
of `segres`, or `none` for `NULL`.  `core` and the `Core` fields are doubles, modelled
by exact rationals: the sum is exact here, in the source it is rounded, so that what is
stated about `Available.Core` after a return holds of the source where the cores are
integers (`exactCores`). -/
def recycleResourceToSegment (segres : SegResource) (rindex : Nat)
    (ctns : Option GRMContainerSet) (memory : Int) (core : ℚ) (iobytes : Int)
    (slicesize : Int) : SegResource :=
  let segres1 : SegResource :=
    { segres with
      IOBytesWorkload := segres.IOBytesWorkload - iobytes,
      SliceWorkload := segres.SliceWorkload - slicesize }
  match ctns with
  | some c =>
    { segres1 with
      ContainerSets := segres1.ContainerSets.set rindex
        (some { c with Available := addResourceBundleData c.Available memory core }),
      Available := addResourceBundleData segres1.Available memory core }
  | none => segres1

/-! ## The IO-workload index -/

/-- `INT32_MIN`. -/
def INT32_MIN : Int := -2147483648

/-- `__DRM_NODERESPOOL_comp_iobytes`. -/
def comp_iobytes (node1 node2 : SegResource) : Int :=
  let v1 := if IS_SEGRESOURCE_USABLE node1 then node1.IOBytesWorkload else INT32_MIN
  let v2 := if IS_SEGRESOURCE_USABLE node2 then node2.IOBytesWorkload else INT32_MIN
  if v1 > v2 then 1 else if v1 = v2 then 0 else -1

/-- The comparison of two index nodes, given by segment id. -/
def compNodes (segs : List SegResource) (a b : Nat) : Int :=
  match getSegResource segs a, getSegResource segs b with
  | some x, some y => comp_iobytes x y
  | _, _ => 0

/-- Ordered insertion behind the nodes that do not compare greater. -/
def insertOrdered (segs : List SegResource) (node : Nat) : List Nat → List Nat
  | [] => [node]
  | x :: rest =>
    if compNodes segs node x < 0 then node :: x :: rest
    else x :: insertOrdered segs node rest

/-- Modelled from the spec: the balanced BST (`utils/balancedbst.c`) is outside `src/`;
it is "an ordered multiset of segments keyed by a changeable comparator" that "must not
contain duplicates by identity".  The tree is represented by its in-order sequence;
`insertBBSTNode` refuses a node that is already present and otherwise inserts it at its
ordered position (behind equal keys). -/
def insertBBSTNode (segs : List SegResource) (tree : List Nat) (node : Nat) : List Nat :=
  if node ∈ tree then tree else insertOrdered segs node tree

/-- The loop `while( list_length(tmplist) > 0 ) { insertBBSTNode(nodetree, head);
tmplist = list_delete_first(tmplist); }`. -/
def reinsertAll (segs : List SegResource) (tree : List Nat) (tmplist : List Nat) : List Nat :=
  tmplist.foldl (insertBBSTNode segs) tree

/-- `reorderSegResourceIOBytesWorkloadIndex`: the node of the segment, if the index
has it, is removed and inserted again. -/
def reorderSegResourceIOBytesWorkloadIndex (segs : List SegResource) (tree : List Nat)
    (id : Nat) : List Nat :=
  if id ∈ tree then insertBBSTNode segs (tree.erase id) id else tree

/-! ## Allocation of virtual segments (`allocateResourceFromResourcePoolIOBytes`) -/

/-- `VSegmentCounterInternalData`; `SegId` also stands for the pointer `Resource`. -/
structure VSegmentCounterInternal where
  HDFSNameIndex : Nat
  SegId : Nat
  VSegmentCount : Int
  deriving DecidableEq, Repr

/-- `createVSegmentCounter`. -/
def createVSegmentCounter (hdfsnameindex : Nat) (segid : Nat) : VSegmentCounterInternal :=
  { HDFSNameIndex := hdfsnameindex, SegId := segid, VSegmentCount := 1 }

/-- Modelled from the spec: the hash table (`utils/hashtable.c`) is outside `src/`; it
is a "generic key→value map".  `vsegcnttbl` maps a segment id to its counter; it is kept
as the list of its values, the key of a value being its `SegId`. -/
def getHASHTABLENode (tbl : List VSegmentCounterInternal) (key : Nat) :
    Option VSegmentCounterInternal :=
  tbl.find? (fun e => e.SegId == key)

/-- Modelled from the spec: `setHASHTABLENode` on the map `vsegcnttbl`: the value of an
existing key is replaced, a new key is added. -/
def setHASHTABLENode (tbl : List VSegmentCounterInternal) (value : VSegmentCounterInternal) :
    List VSegmentCounterInternal :=
  if tbl.any (fun e => e.SegId == value.SegId) then
    tbl.map (fun e => if e.SegId == value.SegId then value else e)
  else tbl ++ [value]

/-- The statement `curhost->VSegmentCount++` on the counter of segment `key`. -/
def incrVSegmentCount (tbl : List VSegmentCounterInternal) (key : Nat) :
    List VSegmentCounterInternal :=
  tbl.map (fun e => if e.SegId == key then { e with VSegmentCount := e.VSegmentCount + 1 } else e)

/-- The arguments of `allocateResourceFromResourcePoolIOBytes`; `preferredcount` is the
length of `preferredhostname`. -/
structure AllocRequest where
  nodecount : Int
  minnodecount : Int
  memory : Int
  core : ℚ
  iobytes : Int
  slicesize : Int
  vseglimitpseg : Int
  preferredhostname : List String
  preferredscansize : List Int
  fixnodecount : Bool
  deriving DecidableEq, Repr

/-- A generic `while` loop with a bound on the number of iterations: `none` when the
bound is used up while the condition still holds. -/
def whileLoop {σ : Type} (cond : σ → Bool) (body : σ → σ) : Nat → σ → Option σ
  | 0, s => if cond s then none else some s
  | fuel + 1, s => if cond s then whileLoop cond body fuel (body s) else some s

/-- The variables of the allocation that change while it runs. -/
structure AllocState where
  Segments : List SegResource
  tree : List Nat
  tmplist : List Nat
  vsegcnttbl : List VSegmentCounterInternal
  nodecountleft : Int
  impossiblecount : Nat
  skipchosenmachine : Bool
  deriving DecidableEq, Repr

/-- The body of the stage 1 loop (`for i < preferredcount`) for the preferred host
`hostname` at position `i`: `some` of the segments and `vsegcnttbl` after a vseg has been
allocated on the host, or `none` on each of the paths that `continue`. -/
def stage1Try (g : RMGlobals) (pool : ResourcePool) (req : AllocRequest) (i : Nat)
    (hostname : String) (segs : List SegResource) (tbl : List VSegmentCounterInternal) :
    Option (List SegResource × List VSegmentCounterInternal) :=
  let ratio := ratioOf req.memory req.core
  match getSegIDByHDFSHostName pool hostname with
  | none => none
  | some segid =>
    match getSegResource segs segid with
    | none => none
    | some segresource =>
      if !IS_SEGRESOURCE_USABLE segresource then none
      else
        match getGRMContainerSet g segresource ratio, getResourceQueueRatioIndex g ratio with
        | (FUNC_RETURN_OK, some containerset), some rindex =>
          let segcountact := Int.tdiv containerset.Available.MemoryMB req.memory
          if segcountact = 0 then none
          else if segresource.SliceWorkload + req.slicesize > g.rm_slice_num_per_seg_limit then
            none
          else
            some (segs.set segid (allocateResourceFromSegment segresource rindex containerset
                    req.memory req.core req.slicesize),
                  setHASHTABLENode tbl (createVSegmentCounter i segid))
        | _, _ => none

/-- The stage 1 loop from position `i` on, over the remaining preferred host names;
after an allocation `nodecountleft` is decremented and the loop stops (`break`) when it
has reached 0. -/
def stage1Loop (g : RMGlobals) (pool : ResourcePool) (req : AllocRequest) :
    Nat → List String → List SegResource → List VSegmentCounterInternal → Int →
    List SegResource × List VSegmentCounterInternal × Int
  | _, [], segs, tbl, nodecountleft => (segs, tbl, nodecountleft)
  | i, hostname :: rest, segs, tbl, nodecountleft =>
    match stage1Try g pool req i hostname segs tbl with
    | none => stage1Loop g pool req (i + 1) rest segs tbl nodecountleft
    | some r =>
      if nodecountleft - 1 = 0 then (r.1, r.2, nodecountleft - 1)
      else stage1Loop g pool req (i + 1) rest r.1 r.2 (nodecountleft - 1)

/-- The search `for k < preferredcount` of stage 2 for the first preferred host name
that resolves to segment `id`, starting at position `k`; `preferredcount` if none. -/
def findHDFSNameIndex (pool : ResourcePool) (id : Nat) (preferredcount : Nat) :
    Nat → List String → Nat
  | _, [] => preferredcount
  | k, hostname :: rest =>
    if getSegIDByHDFSHostName pool hostname = some id then k
    else findHDFSNameIndex pool id preferredcount (k + 1) rest

/-- The decision of one stage 2 iteration on the candidate segment `id` (the leftmost
node): `some` of the segments and `vsegcnttbl` after a vseg has been allocated on it, or
`none` on each of the paths that execute `impossiblecount++`. -/
def stage2Try (g : RMGlobals) (pool : ResourcePool) (req : AllocRequest) (st : AllocState)
    (id : Nat) : Option (List SegResource × List VSegmentCounterInternal) :=
  let ratio := ratioOf req.memory req.core
  match getSegResource st.Segments id with
  | none => none
  | some currresinfo =>
    if !IS_SEGRESOURCE_USABLE currresinfo then none
    else
      let curhost := getHASHTABLENode st.vsegcnttbl id
      let skipcurrent : Bool :=
        match curhost with
        | none => false
        | some h =>
          if !req.fixnodecount && decide (h.VSegmentCount ≥ req.vseglimitpseg) then true
          else st.skipchosenmachine
      if skipcurrent then none
      else
        match getGRMContainerSet g currresinfo ratio, getResourceQueueRatioIndex g ratio with
        | (FUNC_RETURN_OK, containerset), some rindex =>
          if !req.fixnodecount &&
              decide (currresinfo.SliceWorkload + req.slicesize > g.rm_slice_num_per_seg_limit) then
            none
          else
            match containerset with
            | none => none
            | some ctns =>
              if ctns.Available.MemoryMB ≥ req.memory ∧ ctns.Available.Core ≥ req.core then
                let segs := st.Segments.set id
                  (allocateResourceFromSegment currresinfo rindex ctns req.memory req.core
                    req.slicesize)
                match curhost with
                | some _ => some (segs, incrVSegmentCount st.vsegcnttbl id)
                | none =>
                  let hdfsnameindex := findHDFSNameIndex pool id req.preferredhostname.length 0
                    req.preferredhostname
                  some (segs, setHASHTABLENode st.vsegcnttbl
                    (createVSegmentCounter hdfsnameindex id))
              else none
        | _, _ => none

/-- The condition of the stage 2 loop. -/
def stage2Cond (fullcount : Nat) (st : AllocState) : Bool :=
  decide (st.nodecountleft > 0) && !st.tree.isEmpty && decide (st.impossiblecount < fullcount)

/-- The body of the stage 2 loop. -/
def stage2Body (g : RMGlobals) (pool : ResourcePool) (req : AllocRequest) (fullcount : Nat)
    (st : AllocState) : AllocState :=
  match st.tree with
  | [] => st
  | leftnode :: rest =>
    let tmplist := st.tmplist ++ [leftnode]
    let st1 : AllocState :=
      match stage2Try g pool req st leftnode with
      | some r =>
        { st with Segments := r.1, vsegcnttbl := r.2, tree := rest, tmplist := tmplist,
                  nodecountleft := st.nodecountleft - 1, impossiblecount := 0 }
      | none =>
        { st with tree := rest, tmplist := tmplist,
                  impossiblecount := st.impossiblecount + 1 }
    let st2 : AllocState :=
      if st1.impossiblecount ≥ fullcount then
        { st1 with
          impossiblecount := if st1.skipchosenmachine then 0 else st1.impossiblecount,
          skipchosenmachine := false }
      else st1
    if st2.tree.isEmpty then
      { st2 with tree := reinsertAll st2.Segments [] st2.tmplist, tmplist := [] }
    else st2

/-- A number of iterations the stage 2 loop cannot exceed. -/
def stage2Fuel (fullcount : Nat) (nodecountleft : Int) : Nat :=
  nodecountleft.toNat * (2 * fullcount + 2) + 2 * fullcount + 1

/-- The measure that every iteration of the stage 2 loop decreases. -/
def stage2Measure (fullcount : Nat) (st : AllocState) : Nat :=
  st.nodecountleft.toNat * (2 * fullcount + 2)
    + (if st.skipchosenmachine then fullcount + 1 else 0)
    + (fullcount - st.impossiblecount)

/-- STEP 3 of the allocation: the loop that adds `vsegiobytes * VSegmentCount` to the
IO workload of every chosen segment and reorders it in the IO-workload index. -/
def refreshIOBytesWorkload (vsegiobytes : Int) :
    List VSegmentCounterInternal → List SegResource × List Nat → List SegResource × List Nat
  | [], acc => acc
  | vsegcounter :: rest, (segs, tree) =>
    match getSegResource segs vsegcounter.SegId with
    | none => refreshIOBytesWorkload vsegiobytes rest (segs, tree)
    | some segres =>
      let segs1 := segs.set vsegcounter.SegId
        { segres with
          IOBytesWorkload := segres.IOBytesWorkload + vsegiobytes * vsegcounter.VSegmentCount }
      refreshIOBytesWorkload vsegiobytes rest
        (segs1, reorderSegResourceIOBytesWorkloadIndex segs1 tree vsegcounter.SegId)

/-- What `allocateResourceFromResourcePoolIOBytes` returns: its result code, the
values behind `vsegcounters`, `totalvsegcount` and `vsegiobytes`, and the pool as the
call leaves it. -/
structure AllocResult where
  res : ResultCode
  vsegcounters : List VSegmentCounterInternal
  totalvsegcount : Int
  vsegiobytes : Int
  pool : ResourcePool
  deriving DecidableEq, Repr

/-- The state in which stage 2 starts: stage 1 runs only if `nodecount < clustersize`. -/
def stage1 (g : RMGlobals) (pool : ResourcePool) (req : AllocRequest) : AllocState :=
  let r := if req.nodecount < pool.AvailNodeCount then
      stage1Loop g pool req 0 req.preferredhostname pool.Segments [] req.nodecount
    else (pool.Segments, [], req.nodecount)
  { Segments := r.1, tree := pool.OrderedIOBytesWorkload, tmplist := [], vsegcnttbl := r.2.1,
    nodecountleft := r.2.2, impossiblecount := 0, skipchosenmachine := true }

/-- The end of the allocation, from the state `st` in which the stage 2 loop stopped:
the nodes of `tmplist` go back into the index, STEP 3 and STEP 4. -/
def finishAllocation (pool : ResourcePool) (req : AllocRequest) (st : AllocState) :
    AllocResult :=
  let tree := reinsertAll st.Segments st.tree st.tmplist
  let total := req.nodecount - st.nodecountleft
  let vsegiobytes := if total > 0 then Int.tdiv req.iobytes total else 0
  let r := refreshIOBytesWorkload vsegiobytes st.vsegcnttbl (st.Segments, tree)
  { res := FUNC_RETURN_OK, vsegcounters := st.vsegcnttbl, totalvsegcount := total,
    vsegiobytes := vsegiobytes,
    pool := { pool with Segments := r.1, OrderedIOBytesWorkload := r.2 } }

/-- `allocateResourceFromResourcePoolIOBytes`.  The result is `none` only if the
stage 2 loop were to exceed `stage2Fuel` iterations.  The reordering of the
available-resource index (`reorderSegResourceAvailIndex`), which the function never
reads, and the read-only `validateResourcePoolStatus` are not part of the model. -/
def allocateResourceFromResourcePoolIOBytes (g : RMGlobals) (pool : ResourcePool)
    (req : AllocRequest) : Option AllocResult :=
  let fullcount := pool.OrderedIOBytesWorkload.length
  let st0 := stage1 g pool req
  match whileLoop (stage2Cond fullcount) (stage2Body g pool req fullcount)
      (stage2Fuel fullcount st0.nodecountleft) st0 with
  | none => none
  | some st => some (finishAllocation pool req st)

/-! ## Return of virtual segments (`returnResourceToResourcePool`) -/

/-- The body of the loop of `returnResourceToResourcePool` for one entry of `hosts`. -/
def returnOneHost (g : RMGlobals) (memory : Int) (core : ℚ) (vsegiobytes : Int)
    (slicesize : Int) (isold : Bool) (pool : ResourcePool) (vsegcnt : VSegmentCounterInternal) :
    ResourcePool :=
  let ratio := ratioOf memory core
  match getSegResource pool.Segments vsegcnt.SegId with
  | none => pool
  | some segres =>
    if !isold then
      let ctns := (getGRMContainerSet g segres ratio).2
      let rindex := (getResourceQueueRatioIndex g ratio).getD 0
      let segs := pool.Segments.set vsegcnt.SegId
        (recycleResourceToSegment segres rindex ctns
          (memory * vsegcnt.VSegmentCount) (core * vsegcnt.VSegmentCount)
          (vsegiobytes * vsegcnt.VSegmentCount) (slicesize * vsegcnt.VSegmentCount))
      { pool with
        Segments := segs,
        OrderedIOBytesWorkload :=
          reorderSegResourceIOBytesWorkloadIndex segs pool.OrderedIOBytesWorkload vsegcnt.SegId }
    else
      { pool with
        Segments := pool.Segments.set vsegcnt.SegId
          { segres with OldInuse := minusResourceBundleData segres.OldInuse memory core } }

/-- `returnResourceToResourcePool`: the pool after the resource of every entry of
`hosts` has been returned. -/
def returnResourceToResourcePool (g : RMGlobals) (memory : Int) (core : ℚ) (vsegiobytes : Int)
    (slicesize : Int) (hosts : List VSegmentCounterInternal) (isold : Bool)
    (pool : ResourcePool) : ResourcePool :=
  hosts.foldl (returnOneHost g memory core vsegiobytes slicesize isold) pool

/-- `buildAcquireResourceResponseMessage`, the array of HDFS host name indexes: the
`HDFSNameIndex` of every entry, once per vseg. -/
def hdfsIndexArray (hosts : List VSegmentCounterInternal) : List Nat :=
  hosts.flatMap (fun vsegcnt => List.replicate vsegcnt.VSegmentCount.toNat vsegcnt.HDFSNameIndex)

/-! ## The caller's use of the allocation (`dispatchResourceToQueries_EVEN`) -/

/-- The pool side of one iteration of the dispatch loop of
`dispatchResourceToQueries_EVEN`: the request is allocated
(`allocateResourceFromResourcePool`, whose policy table holds
`allocateResourceFromResourcePoolIOBytes`); if fewer than `minnodecount`
(`conn->SegNumMin`) vsegs were found and at least one was, they are handed back through
`returnResourceToResourcePool` with `isold = false`.  Returns `segnumact` and the
pool. -/
def dispatchAllocateStep (g : RMGlobals) (pool : ResourcePool) (req : AllocRequest) :
    Option (Int × ResourcePool) :=
  match allocateResourceFromResourcePoolIOBytes g pool req with
  | none => none
  | some r =>
    if r.totalvsegcount ≥ req.minnodecount then some (r.totalvsegcount, r.pool)
    else if r.totalvsegcount > 0 then
      some (r.totalvsegcount,
        returnResourceToResourcePool g req.memory req.core r.vsegiobytes req.slicesize
          r.vsegcounters false r.pool)
    else some (r.totalvsegcount, r.pool)

/-! ## Bookkeeping used in the proofs about allocation and return -/

/-- The number of vsegs that `vsegcnttbl` records for segment `id`. -/
def vsegCountOf (tbl : List VSegmentCounterInternal) (id : Nat) : Int :=
  match getHASHTABLENode tbl id with
  | some e => e.VSegmentCount
  | none => 0

/-- The segment `segres` once `k` vsegs of the request have been taken from its
container set at ratio index `rindex`. -/
def segAfterAlloc (req : AllocRequest) (rindex : Nat) (k : Int) (segres : SegResource) :
    SegResource :=
  if k = 0 then segres
  else
    match segres.ContainerSets.getD rindex none with
    | none => segres
    | some ctns =>
      { segres with
        ContainerSets := segres.ContainerSets.set rindex
          (some { ctns with
            Available := minusResourceBundleData ctns.Available (req.memory * k) (req.core * k) }),
        Available := minusResourceBundleData segres.Available (req.memory * k) (req.core * k),
        SliceWorkload := segres.SliceWorkload + req.slicesize * k }

/-- A pass over the entries of a host list that rewrites the segment of each entry. -/
def updateSegments (f : VSegmentCounterInternal → SegResource → SegResource)
    (tbl : List VSegmentCounterInternal) (segs : List SegResource) : List SegResource :=
  tbl.foldl (fun acc e =>
    match getSegResource acc e.SegId with
    | some s => acc.set e.SegId (f e s)
    | none => acc) segs

/-- The sum of `VSegmentCount` over a host list. -/
def totalVSegmentCount (tbl : List VSegmentCounterInternal) : Int :=
  (tbl.map (fun e => e.VSegmentCount)).sum

/-- The bookkeeping invariant of an allocation in progress, against the segments
`segs0` the pool had before the call: the keys of `vsegcnttbl` are distinct; every
entry counts at least one vseg and names a segment that had a container set of the
request's ratio; every segment is its original with as many vsegs taken as the table
records for it; and the counts add up to the vsegs allocated so far. -/
def AllocInvariant (g : RMGlobals) (req : AllocRequest) (segs0 : List SegResource)
    (segs : List SegResource) (tbl : List VSegmentCounterInternal) (nodecountleft : Int) :
    Prop :=
  (tbl.map (fun e => e.SegId)).Nodup ∧
  (∀ e ∈ tbl, 1 ≤ e.VSegmentCount ∧
    ∃ rindex seg0 c0,
      getResourceQueueRatioIndex g (ratioOf req.memory req.core) = some rindex ∧
      segs0[e.SegId]? = some seg0 ∧ seg0.ContainerSets.getD rindex none = some c0) ∧
  (∀ j, segs[j]? = (segs0[j]?).map
    (segAfterAlloc req ((getResourceQueueRatioIndex g (ratioOf req.memory req.core)).getD 0)
      (vsegCountOf tbl j))) ∧
  totalVSegmentCount tbl = req.nodecount - nodecountleft

/-! ## Return of idle containers (`timeoutIdleGRMResourceToRB`) -/

/-- `__DRM_NODERESPOOL_comp_ratioAlloc`, `ratio` being the argument of the tree. -/
def comp_ratioAlloc (g : RMGlobals) (ratio : Nat) (node1 node2 : SegResource) : Int :=
  let ridx := getResourceQueueRatioIndex g ratio
  let allocated (node : SegResource) : Int :=
    match ridx.bind (fun r => node.ContainerSets.getD r none) with
    | some contset => contset.Allocated.MemoryMB
    | none => 0
  let v1 := if IS_SEGRESOURCE_USABLE node1 then allocated node1 else INT32_MIN
  let v2 := if IS_SEGRESOURCE_USABLE node2 then allocated node2 else INT32_MIN
  if v2 > v1 then 1 else if v1 = v2 then 0 else -1

/-- The comparison of two nodes of an allocation index, given by segment id. -/
def compAllocNodes (g : RMGlobals) (ratio : Nat) (segs : List SegResource) (a b : Nat) : Int :=
  match getSegResource segs a, getSegResource segs b with
  | some x, some y => comp_ratioAlloc g ratio x y
  | _, _ => 0

/-- Ordered insertion behind the nodes that do not compare greater, for a comparison
`comp` of nodes. -/
def insertOrderedBy (comp : Nat → Nat → Int) (node : Nat) : List Nat → List Nat
  | [] => [node]
  | x :: rest =>
    if comp node x < 0 then node :: x :: rest
    else x :: insertOrderedBy comp node rest

/-- Modelled from the spec: `insertBBSTNode` of the balanced BST (`utils/balancedbst.c`,
outside `src/`) for a tree with the comparison `comp`, the tree being represented by its
in-order sequence as in `insertBBSTNode` for the IO-workload index. -/
def insertBBSTNodeBy (comp : Nat → Nat → Int) (tree : List Nat) (node : Nat) : List Nat :=
  if node ∈ tree then tree else insertOrderedBy comp node tree

/-- Modelled from the spec: `reorderBBSTNodeData`, "remove + reinsert keeping identity":
the node of the segment, if the tree has it, is removed and inserted again. -/
def reorderBBSTNodeData (comp : Nat → Nat → Int) (tree : List Nat) (id : Nat) : List Nat :=
  if id ∈ tree then insertBBSTNodeBy comp (tree.erase id) id else tree

/-- `popGRMContainerSetContainerList`: the first container, if there is one, and the
set without it. -/
def popGRMContainerSetContainerList (ctns : GRMContainerSet) :
    Option GRMContainer × GRMContainerSet :=
  match ctns.Containers with
  | [] => (none, ctns)
  | res :: rest =>
    (some res,
     { Containers := rest,
       Allocated := minusResourceBundleData ctns.Allocated res.MemoryMB res.Core,
       Available := minusResourceBundleData ctns.Available res.MemoryMB res.Core })

/-- `appendGRMContainerSetContainer`. -/
def appendGRMContainerSetContainer (ctns : GRMContainerSet) (ctn : GRMContainer) :
    GRMContainerSet :=
  { Containers := ctns.Containers ++ [ctn],
    Allocated := addResourceBundleData ctns.Allocated ctn.MemoryMB ctn.Core,
    Available := addResourceBundleData ctns.Available ctn.MemoryMB ctn.Core }

/-- `createGRMContainerSet`. -/
def createGRMContainerSet : GRMContainerSet :=
  { Allocated := { MemoryMB := 0, Core := 0 }, Available := { MemoryMB := 0, Core := 0 },
    Containers := [] }

/-- `addGRMContainerToToBeKicked` for a container of the segment `segid`
(`ctn->Resource`): the container joins the set of its host in `ToKickContainers`, marked
`CalcDecPending`, and its resource is added to the segment's `DecPending`. -/
def addGRMContainerToToBeKicked (pool : ResourcePool) (segid : Nat) (ctn : GRMContainer) :
    ResourcePool :=
  let ctns : GRMContainerSet := (pool.ToKickContainers.lookup ctn.HostName).getD createGRMContainerSet
  let ctn1 : GRMContainer := { ctn with CalcDecPending := true }
  { pool with
    ToKickContainers :=
      hashtableSet pool.ToKickContainers ctn.HostName (appendGRMContainerSetContainer ctns ctn1),
    Segments :=
      match getSegResource pool.Segments segid with
      | none => pool.Segments
      | some resource =>
        pool.Segments.set segid
          { resource with
            DecPending := addResourceBundleData resource.DecPending ctn.MemoryMB ctn.Core },
    RetPendingContainerCount := pool.RetPendingContainerCount + 1 }

/-- `reorderSegResourceAllocIndex` on the allocation index `tree` of the ratio (the
caller has looked the tree up by `getOrderedResourceAllocTreeIndexByRatio`). -/
def reorderSegResourceAllocIndex (g : RMGlobals) (ratio : Nat) (segs : List SegResource)
    (tree : List Nat) (id : Nat) : List Nat :=
  reorderBBSTNodeData (compAllocNodes g ratio segs) tree id

/-- The variables of the loop of `timeoutIdleGRMResourceToRBByRatio`: the pool, the
counter `*realretcontnum` and the queue `tempskipnodes`. -/
structure TimeoutState where
  pool : ResourcePool
  realretcontnum : Nat
  tempskipnodes : List Nat
  deriving DecidableEq, Repr

/-- The branch of the loop body that returns the first container `retcont` of the
container set `containerset` (ratio index `rindex`) of the segment `node`: the container
leaves the set and the counters of the segment, the allocation index `tree` is reordered
and the container joins the to-be-kicked buffer.  The availability index, which this
function does not read, is not modelled. -/
def timeoutTakeContainer (g : RMGlobals) (ratio rindex : Nat) (st : TimeoutState)
    (tree : List Nat) (node : Nat) (resource : SegResource) (containerset : GRMContainerSet)
    (retcont : GRMContainer) : TimeoutState :=
  let containerset1 := (popGRMContainerSetContainerList containerset).2
  let resource1 : SegResource :=
    { resource with
      ContainerSets := resource.ContainerSets.set rindex (some containerset1),
      Allocated := minusResourceBundleData resource.Allocated retcont.MemoryMB retcont.Core,
      Available := minusResourceBundleData resource.Available retcont.MemoryMB retcont.Core,
      GRMContainerCount := resource.GRMContainerCount - 1 }
  let segs1 := st.pool.Segments.set node resource1
  let tree1 := reorderSegResourceAllocIndex g ratio segs1 tree node
  let pool1 : ResourcePool :=
    { st.pool with
      Segments := segs1,
      OrderedSegResAllocByRatio := st.pool.OrderedSegResAllocByRatio.set rindex (some tree1) }
  { st with
    pool := addGRMContainerToToBeKicked pool1 node retcont,
    realretcontnum := st.realretcontnum + 1 }

/-- One evaluation of the loop condition `tree->Root != NULL` and of the loop body of
`timeoutIdleGRMResourceToRBByRatio`.  `none` is the dereference of a `NULL` pointer (no
tree, no segment behind a node, no container set, no first container); `(false, st)` is
the end of the loop (the tree is empty, or a `break`); `(true, st)` is the state before
the next iteration.  The left-most node is the head of the in-order sequence. -/
def timeoutIteration (g : RMGlobals) (ratio rindex : Nat) (segminnum : Int)
    (st : TimeoutState) : Option (Bool × TimeoutState) :=
  match st.pool.OrderedSegResAllocByRatio.getD rindex none with
  | none => none
  | some [] => some (false, st)
  | some (node :: rest) =>
    match getSegResource st.pool.Segments node with
    | none => none
    | some resource =>
      let (res, ctns) := getGRMContainerSet g resource ratio
      if res ≠ FUNC_RETURN_OK then some (false, st)
      else
        match ctns with
        | none => none
        | some containerset =>
          if (containerset.Containers.length : Int) ≤ segminnum then some (false, st)
          else
            match containerset.Containers with
            | [] => none
            | retcont :: _ =>
              if containerset.Available.MemoryMB ≥ retcont.MemoryMB ∧
                 containerset.Available.Core ≥ retcont.Core then
                some (true,
                  timeoutTakeContainer g ratio rindex st (node :: rest) node resource
                    containerset retcont)
              else
                some (true,
                  { st with
                    pool :=
                      { st.pool with
                        OrderedSegResAllocByRatio :=
                          st.pool.OrderedSegResAllocByRatio.set rindex (some rest) },
                    tempskipnodes := st.tempskipnodes ++ [node] })

/-- The loop `for ( int i = 0 ; i < retcontnum && tree->Root != NULL ; ++i )`, `n` being
`retcontnum - i`. -/
def timeoutLoop (g : RMGlobals) (ratio rindex : Nat) (segminnum : Int) :
    Nat → TimeoutState → Option TimeoutState
  | 0, st => some st
  | n + 1, st =>
    match timeoutIteration g ratio rindex segminnum st with
    | none => none
    | some (false, st1) => some st1
    | some (true, st1) => timeoutLoop g ratio rindex segminnum n st1

/-- The loop `while( tempskipnodes.NodeCount > 0 )` that puts the skipped nodes back. -/
def timeoutReinsert (g : RMGlobals) (ratio rindex : Nat) (st : TimeoutState) : ResourcePool :=
  match st.pool.OrderedSegResAllocByRatio.getD rindex none with
  | none => st.pool
  | some tree =>
    { st.pool with
      OrderedSegResAllocByRatio :=
        st.pool.OrderedSegResAllocByRatio.set rindex
          (some (st.tempskipnodes.foldl
            (insertBBSTNodeBy (compAllocNodes g ratio st.pool.Segments)) tree)) }

/-- `timeoutIdleGRMResourceToRBByRatio`: the pool left and `*realretcontnum`; `none` is
the dereference of a `NULL` pointer.  `g.RatioIndex` is the hash `PQUEMGR->RatioIndex`
and `trackers` the array `PQUEMGR->RatioTrackers`. -/
def timeoutIdleGRMResourceToRBByRatio (g : RMGlobals)
    (trackers : List (Option DynMemoryCoreRatioTrack)) (pool : ResourcePool)
    (ratioindex : Nat) (retcontnum : Nat) (segminnum : Int) : Option (ResourcePool × Nat) :=
  match trackers.getD ratioindex none with
  | none => none
  | some tracker =>
    let ratio := tracker.MemCoreRatio.toNat
    match getResourceQueueRatioIndex g ratio with
    | none => some (pool, 0)
    | some rindex =>
      match timeoutLoop g ratio rindex segminnum retcontnum
          { pool := pool, realretcontnum := 0, tempskipnodes := [] } with
      | none => none
      | some st => some (timeoutReinsert g ratio rindex st, st.realretcontnum)

/-- `getIdleResourceRequest`; `waterlevel` is the setting
`rm_seg_container_default_waterlevel`. -/
def getIdleResourceRequest (pool : ResourcePool) (waterlevel : Int) : Int × ℚ :=
  (toInt32 (pool.MemCoreRatio * pool.AvailNodeCount * waterlevel),
   1 * (pool.AvailNodeCount : ℚ) * (waterlevel : ℚ))

/-- `minusResourceFromReourceManager`: the result code and the queue manager left. -/
def minusResourceFromReourceManager (qm : QueueManager) (memorymb : Int) (core : ℚ) :
    ResultCode × QueueManager :=
  if memorymb = 0 ∧ core = 0 then (FUNC_RETURN_OK, qm)
  else
    let ratio := ctrunc (1 * (memorymb : ℚ) / core)
    match ratioIndexOf qm ratio with
    | some ratioindex =>
      (FUNC_RETURN_OK,
       { qm with
         RatioTrackers := qm.RatioTrackers.set ratioindex
           ((qm.RatioTrackers.getD ratioindex none).map fun t =>
             { t with TotalAllocated := minusResourceBundleData t.TotalAllocated memorymb core }) })
    | none => ( RESQUEMGR_NO_RATIO, qm)

/-- The part of one iteration of the loop of `timeoutIdleGRMResourceToRB` that precedes
the call of `timeoutIdleGRMResourceToRBByRatio(i, retcontnum, &realretcontnum,
segminnum)`: `some (retcontnum, segminnum)` are the arguments of the call, `none` means
that the iteration makes no call (a `continue`, or `retcontnum` is 0).  A ratio index
below `RatioCount` has a tracker. -/
def idleReturnQuota (qm : QueueManager) (pool : ResourcePool) (waterlevel : Int) (i : Nat) :
    Option (Nat × Int) :=
  match qm.RatioWaterMarks.getD i [], qm.RatioTrackers.getD i none with
  | [], _ => none
  | _ :: _, none => none
  | mark :: _, some tracker =>
    if tracker.TotalRequest.MemoryMB > 0 ∨ tracker.TotalPending.MemoryMB > 0 then none
    else
      let idlereqcore := (getIdleResourceRequest pool waterlevel).2
      let retcore : ℚ :=
        if mark.ClusterVCore > 0 then
          (if mark.ClusterVCore < idlereqcore then tracker.TotalAllocated.Core - idlereqcore
           else tracker.TotalAllocated.Core - mark.ClusterVCore)
        else tracker.TotalAllocated.Core
      if retcore ≤ 0 then none
      else
        let retcontnum := (ctrunc retcore).toNat
        if retcontnum > 0 then some (retcontnum, if mark.ClusterVCore > 0 then 2 else 0)
        else none

/-- One iteration of the loop of `timeoutIdleGRMResourceToRB`. -/
def timeoutIdleIteration (g : RMGlobals) (waterlevel : Int)
    (s : QueueManager × ResourcePool) (i : Nat) : Option (QueueManager × ResourcePool) :=
  match idleReturnQuota s.1 s.2 waterlevel i with
  | none => some s
  | some (retcontnum, segminnum) =>
    match timeoutIdleGRMResourceToRBByRatio { g with RatioIndex := s.1.RatioIndex }
        s.1.RatioTrackers s.2 i retcontnum segminnum with
    | none => none
    | some (pool1, realretcontnum) =>
      if realretcontnum > 0 then
        let ratio : Int := ((s.1.RatioTrackers.getD i none).map (·.MemCoreRatio)).getD 0
        some ((minusResourceFromReourceManager s.1
                (toInt32 ((realretcontnum : Int) * ratio % 4294967296))
                (realretcontnum : ℚ)).2, pool1)
      else some (s.1, pool1)

/-- `timeoutIdleGRMResourceToRB`; `noneHawq2` stands for
`DRMGlobalInstance->ImpType == NONE_HAWQ2`, and `none` is the dereference of a `NULL`
pointer. -/
def timeoutIdleGRMResourceToRB (g : RMGlobals) (noneHawq2 : Bool) (waterlevel : Int)
    (qm : QueueManager) (pool : ResourcePool) : Option (QueueManager × ResourcePool) :=
  if noneHawq2 then some (qm, pool)
  else
    (List.range qm.RatioCount).foldl
      (fun acc i => acc.bind fun s => timeoutIdleIteration g waterlevel s i)
      (some (qm, pool))

/-! ## Observations on the pool used in the statements about the return of containers -/

/-- The container set of the ratio index `rindex` on the segment `segid`, if the pool
has the segment and the segment has the set. -/
def containerSetOf (pool : ResourcePool) (rindex segid : Nat) : Option GRMContainerSet :=
  (getSegResource pool.Segments segid).bind fun r => r.ContainerSets.getD rindex none

/-- The number of containers of a ratio index on a segment resource. -/
def segContainerCount (rindex : Nat) (r : SegResource) : Nat :=
  match r.ContainerSets.getD rindex none with
  | some ctns => ctns.Containers.length
  | none => 0

/-- The number of containers of the ratio index `rindex` on the segment `segid`. -/
def containerCountOf (pool : ResourcePool) (rindex segid : Nat) : Nat :=
  match containerSetOf pool rindex segid with
  | some ctns => ctns.Containers.length
  | none => 0

/-- The number of containers of the ratio index `rindex` on all segments. -/
def totalContainerCount (pool : ResourcePool) (rindex : Nat) : Nat :=
  (pool.Segments.map (segContainerCount rindex)).sum

/-- The number of containers in the to-be-kicked buffer. -/
def toKickCount (pool : ResourcePool) : Nat :=
  (pool.ToKickContainers.map fun e => e.2.Containers.length).sum

/-- The bundle `b` less the resource of the containers `ctns`. -/
def lessContainers (b : ResourceBundle) (ctns : List GRMContainer) : ResourceBundle :=
  ctns.foldl (fun acc c => minusResourceBundleData acc c.MemoryMB c.Core) b

/-- The container set `ctns` less its first `k` containers. -/
def dropContainers (ctns : GRMContainerSet) (k : Nat) : GRMContainerSet :=
  { Containers := ctns.Containers.drop k,
    Allocated := lessContainers ctns.Allocated (ctns.Containers.take k),
    Available := lessContainers ctns.Available (ctns.Containers.take k) }

/-- The relation between a container set `before` and `after` a run that took
containers from it: `after` is `before` less its first `k` containers; each of them was
taken when the `Available` of the set, less the containers taken earlier, covered its
memory and its core; and, if any was taken, at least `segminnum` containers are left. -/
def TakenFrom (segminnum : Int) (before after : Option GRMContainerSet) : Prop :=
  match before with
  | none => after = none
  | some ctns =>
    ∃ k : Nat, k ≤ ctns.Containers.length ∧ after = some (dropContainers ctns k) ∧
      (k = 0 ∨ segminnum ≤ (ctns.Containers.length : Int) - (k : Int)) ∧
      ∀ (j : Nat) (c : GRMContainer), j < k → ctns.Containers[j]? = some c →
        (lessContainers ctns.Available (ctns.Containers.take j)).MemoryMB ≥ c.MemoryMB ∧
        (lessContainers ctns.Available (ctns.Containers.take j)).Core ≥ c.Core

/-- What holds of the loop state `st` of `timeoutIdleGRMResourceToRBByRatio` that was
started on the pool `orig`. -/
structure TimeoutInv (segminnum : Int) (rindex : Nat) (orig : ResourcePool)
    (st : TimeoutState) : Prop where
  sets : ∀ segid, TakenFrom segminnum (containerSetOf orig rindex segid)
    (containerSetOf st.pool rindex segid)
  kicked : toKickCount st.pool = toKickCount orig + st.realretcontnum
  keys : (st.pool.ToKickContainers.map Prod.fst).Nodup
  pending : st.pool.RetPendingContainerCount =
    orig.RetPendingContainerCount + (st.realretcontnum : Int)
  total : totalContainerCount st.pool rindex + st.realretcontnum =
    totalContainerCount orig rindex

/-- The allocation index of `rindex` exists and each of its nodes is a segment that has
a container set for `rindex`. -/
def IndexedSegmentsHaveSets (pool : ResourcePool) (rindex : Nat) : Prop :=
  ∃ tree, pool.OrderedSegResAllocByRatio.getD rindex none = some tree ∧
    ∀ node ∈ tree, ∃ ctns, containerSetOf pool rindex node = some ctns

/-! ## Deadlock detection (`detectAndDealWithDeadLock`) -/

/-- Modelled from the spec: `findSession` of the deadlock detector (declared outside
`src/`) looks a session up in the detector's "table of session trackers"; `none` is
`NULL`. -/
def findSession (detector : ResqueueDeadLockDetector) (sessionid : Int) : Option SessionTrack :=
  detector.Sessions.find? fun s => s.SessionID == sessionid

/-- Modelled from the spec: `unlockSessionResource` (declared outside `src/`), called
"on dispatch-or-cancel", frees the session's locked resource: a locked session leaves the
locked totals and is marked not locked; its in-use resource stays. -/
def unlockSessionResource (detector : ResqueueDeadLockDetector) (sessionid : Int) :
    ResqueueDeadLockDetector :=
  match findSession detector sessionid with
  | none => detector
  | some strack =>
    if strack.Locked then
      { Sessions := detector.Sessions.map fun s =>
          if s.SessionID = sessionid then { s with Locked := false } else s,
        LockedTotalMemoryMB := detector.LockedTotalMemoryMB - strack.InUseTotalMemoryMB,
        LockedTotalCore := detector.LockedTotalCore - strack.InUseTotalCore }
    else detector

/-- The conversion of an integer to `uint32_t`. -/
def toUInt32 (x : Int) : Int := x % 4294967296

/-- The variables of the loop of `detectAndDealWithDeadLock`.  `reqs` is the content of
`track->QueryResRequests`, head first: the connection tracks that its nodes point to;
`ConnToSend` is the list `PCONTRACK->ConnToSend`. -/
structure DeadLockState where
  DLDetector : ResqueueDeadLockDetector
  reqs : List ConnectionTrack
  ConnToSend : List ConnectionTrack
  availmemorymb : Int
  availcore : ℚ
  deriving DecidableEq, Repr

/-- The walk `while(tail != NULL) { ...; tail = tail->Prev; }` over the requests from
the tail (`fromTail` is the queue, tail first): `none` means that the walk ends with
`tail == NULL`; otherwise the result has the requests passed (tail first), the request at
which the walk stops, its session tracker `strack`, and the requests before it (tail
first). -/
def walkFromTail (detector : ResqueueDeadLockDetector) :
    List ConnectionTrack →
      Option (List ConnectionTrack × ConnectionTrack × SessionTrack × List ConnectionTrack)
  | [] => none
  | tail :: prev =>
    match findSession detector tail.SessionID with
    | some strack =>
      if strack.InUseTotalMemoryMB > 0 then some ([], tail, strack, prev)
      else (walkFromTail detector prev).map fun r => (tail :: r.1, r.2)
    | none => (walkFromTail detector prev).map fun r => (tail :: r.1, r.2)

/-- The request `canceltrack` with the error response built into it:
`buildResponseIntoConnTrack` with the result `RESQUEMGR_DEADLOCK_DETECTED`, the progress
`CONN_PP_RESOURCE_QUEUE_ALLOC_FAIL`, and `ResponseSent = false`. -/
def cancelForDeadLock (canceltrack : ConnectionTrack) : ConnectionTrack :=
  { canceltrack with
    ResponseResult := some RESQUEMGR_DEADLOCK_DETECTED,
    Progress := ConnProgress.CONN_PP_RESOURCE_QUEUE_ALLOC_FAIL,
    ResponseSent := false }

/-- The body of the outer `while` loop of `detectAndDealWithDeadLock`. -/
def deadLockIteration (st : DeadLockState) : DeadLockState :=
  match walkFromTail st.DLDetector st.reqs.reverse with
  | none => st
  | some (passed, canceltrack, strack, prev) =>
    { DLDetector := unlockSessionResource st.DLDetector canceltrack.SessionID,
      reqs := prev.reverse ++ passed.reverse,
      ConnToSend := st.ConnToSend ++ [cancelForDeadLock canceltrack],
      availmemorymb := toUInt32 (st.availmemorymb + strack.InUseTotalMemoryMB),
      availcore := st.availcore + strack.InUseTotalCore }

/-- The condition of the outer `while` loop. -/
def deadLockCondition (expmemorymb : Int) (expcore : ℚ) (st : DeadLockState) : Bool :=
  (decide (st.availmemorymb < expmemorymb) || decide (st.availcore < expcore)) &&
    decide (st.reqs.length > 0)

/-- The state of the outer `while` loop after at most `n` iterations: the state in
which the loop is left, if it is left within `n` iterations. -/
def deadLockAfter (expmemorymb : Int) (expcore : ℚ) : Nat → DeadLockState → DeadLockState
  | 0, st => st
  | n + 1, st =>
    if deadLockCondition expmemorymb expcore st then
      deadLockAfter expmemorymb expcore n (deadLockIteration st)
    else st

/-- The outer `while` loop with `fuel` iterations at most: `none` means that the loop
is still running after `fuel` iterations. -/
def deadLockLoop (expmemorymb : Int) (expcore : ℚ) : Nat → DeadLockState → Option DeadLockState
  | 0, st => if deadLockCondition expmemorymb expcore st then none else some st
  | n + 1, st =>
    if deadLockCondition expmemorymb expcore st then
      deadLockLoop expmemorymb expcore n (deadLockIteration st)
    else some st

/-- The state in which `detectAndDealWithDeadLock(track)` enters its loop, for the
requests `reqs` of `track->QueryResRequests` and the list `connToSend`. -/
def deadLockInitial (track : DynResourceQueueTrack) (reqs connToSend : List ConnectionTrack) :
    DeadLockState :=
  { DLDetector := track.DLDetector, reqs := reqs, ConnToSend := connToSend,
    availmemorymb := toUInt32 (track.ClusterMemoryMaxMB - track.DLDetector.LockedTotalMemoryMB),
    availcore := track.ClusterVCoreMax - track.DLDetector.LockedTotalCore }

/-- The part of `detectAndDealWithDeadLock` before the loop: `none` is one of the two
early returns; otherwise `expmemorymb` and `expcore` of the first request. -/
def deadLockExpected (track : DynResourceQueueTrack) (reqs : List ConnectionTrack) :
    Option (Int × ℚ) :=
  match reqs with
  | [] => none
  | firstreq :: _ =>
    let expmemorymb := toUInt32 (firstreq.SegMemoryMB * firstreq.SegNumMin)
    let expcore := firstreq.SegCore * (firstreq.SegNumMin : ℚ)
    if expmemorymb > track.ClusterMemoryMaxMB ∧ expcore > track.ClusterVCoreMax then none
    else some (expmemorymb, expcore)

/-- `detectAndDealWithDeadLock` with `fuel` iterations of its loop at most: the state
left (detector, requests, `ConnToSend`), `none` when the loop is still running after
`fuel` iterations. -/
def detectAndDealWithDeadLock (fuel : Nat) (track : DynResourceQueueTrack)
    (reqs connToSend : List ConnectionTrack) : Option DeadLockState :=
  match deadLockExpected track reqs with
  | none => some (deadLockInitial track reqs connToSend)
  | some (expmemorymb, expcore) =>
    deadLockLoop expmemorymb expcore fuel (deadLockInitial track reqs connToSend)

/-- The state of `detectAndDealWithDeadLock` after at most `n` iterations of its loop
(the state left, if the function returns within `n` iterations). -/
def detectAndDealWithDeadLockAfter (n : Nat) (track : DynResourceQueueTrack)
    (reqs connToSend : List ConnectionTrack) : DeadLockState :=
  match deadLockExpected track reqs with
  | none => deadLockInitial track reqs connToSend
  | some (expmemorymb, expcore) =>
    deadLockAfter expmemorymb expcore n (deadLockInitial track reqs connToSend)

/-- The session of the request holds in-use memory, as the walk from the tail tests
it: `strack != NULL && strack->InUseTotalMemoryMB > 0`. -/
def holdsInUse (detector : ResqueueDeadLockDetector) (c : ConnectionTrack) : Bool :=
  match findSession detector c.SessionID with
  | some strack => decide (strack.InUseTotalMemoryMB > 0)
  | none => false

/-! ## Cancelling a queued request (`cancelResourceAllocRequest`) -/

/-- `buildTimeoutResponseForQueuedRequest`: the error response with the result `reason`
is built into the connection track, whose progress becomes `CONN_PP_TIMEOUT_FAIL`. -/
def buildTimeoutResponseForQueuedRequest (conntrack : ConnectionTrack) (reason : ResultCode) :
    ConnectionTrack :=
  { conntrack with
    ResponseResult := some reason,
    Progress := ConnProgress.CONN_PP_TIMEOUT_FAIL,
    ResponseSent := false }

/-- `cancelResourceAllocRequest` for a request waiting in the queue of `queuetrack`
(`conntrack->QueueTrack`): the first node of the FIFO that points to the connection track
is removed, the session is unlocked and the time-out response is built.  Returns the
queue tracker and the connection track as the call leaves them. -/
def cancelResourceAllocRequest (queuetrack : DynResourceQueueTrack)
    (conntrack : ConnectionTrack) : DynResourceQueueTrack × ConnectionTrack :=
  ({ queuetrack with
     QueryResRequests := queuetrack.QueryResRequests.erase conntrack.ConnID,
     DLDetector := unlockSessionResource queuetrack.DLDetector conntrack.SessionID },
   buildTimeoutResponseForQueuedRequest conntrack RESQUEMGR_NORESOURCE_TIMEOUT)

/-! ## Water marks of a memory/core ratio (`markMemoryCoreRatioWaterMark`) -/

/-- The conversion of an integer to `uint64_t`. -/
def toUInt64 (x : Int) : Int := x % 18446744073709551616

/-- `markMemoryCoreRatioWaterMark` on the list `marks` (head first); the result is the
list as the call leaves it.  `rm_resource_timeout` is the setting of that name (declared
outside `src/`), taken not negative. -/
def markMemoryCoreRatioWaterMark (rm_resource_timeout : Nat)
    (marks : List DynMemoryCoreRatioWaterMark) (curmicrosec : Nat) (memmb : Int) (core : ℚ) :
    List DynMemoryCoreRatioWaterMark :=
  let cursec := curmicrosec / 1000000
  let cut : List DynMemoryCoreRatioWaterMark × Option DynMemoryCoreRatioWaterMark :=
    match marks.getLast? with
    | some lastmark =>
      if lastmark.LastRecordTime = cursec then
        (marks.dropLast,
         some { lastmark with
                ClusterMemoryMB :=
                  if lastmark.ClusterMemoryMB > memmb then lastmark.ClusterMemoryMB else memmb,
                ClusterVCore :=
                  if lastmark.ClusterVCore > core then lastmark.ClusterVCore else core })
      else (marks, none)
    | none => (marks, none)
  let lastmark : DynMemoryCoreRatioWaterMark :=
    cut.2.getD { LastRecordTime := cursec, ClusterMemoryMB := memmb, ClusterVCore := core }
  let marks2 := cut.1.dropWhile fun firstmark =>
    decide (toUInt64 ((lastmark.LastRecordTime : Int) - (firstmark.LastRecordTime : Int)) >
      (rm_resource_timeout : Int))
  let marks3 := marks2.rdropWhile fun last2mark =>
    decide (last2mark.ClusterMemoryMB ≤ lastmark.ClusterMemoryMB)
  marks3 ++ [lastmark]

/-- The list of water marks after the calls `markMemoryCoreRatioWaterMark(marks, t, mem,
core)` for the `(t, mem, core)` of `calls`, in their order, starting from the empty
list. -/
def markAll (rm_resource_timeout : Nat) (calls : List (Nat × Int × ℚ)) :
    List DynMemoryCoreRatioWaterMark :=
  calls.foldl (fun marks c => markMemoryCoreRatioWaterMark rm_resource_timeout marks c.1 c.2.1 c.2.2)
    []

/-- What holds of the water marks `marks` left by the calls `calls`, the last of them in
the second `L`. -/
structure WaterMarkInv (timeout : Nat) (L : Nat) (calls : List (Nat × Int × ℚ))
    (marks : List DynMemoryCoreRatioWaterMark) : Prop where
  last : ∃ init lastmark, marks = init ++ [lastmark] ∧ lastmark.LastRecordTime = L
  times : marks.Pairwise fun a b => a.LastRecordTime < b.LastRecordTime
  mems : marks.Pairwise fun a b => a.ClusterMemoryMB > b.ClusterMemoryMB
  fresh : ∀ m ∈ marks, m.LastRecordTime ≤ L ∧ L - m.LastRecordTime ≤ timeout
  attained : ∀ m ∈ marks, ∃ c ∈ calls, c.1 / 1000000 = m.LastRecordTime ∧
    c.2.1 = m.ClusterMemoryMB
  dominated : ∀ c ∈ calls, c.1 / 1000000 ≤ L ∧ (L - c.1 / 1000000 ≤ timeout →
    ∃ m ∈ marks, c.1 / 1000000 ≤ m.LastRecordTime ∧ c.2.1 ≤ m.ClusterMemoryMB)

/-! ## Registration of a segment (`addHAWQSegWithSegStat`) -/

/-- The fields of `SegStatData` that `addHAWQSegWithSegStat` reads from its argument:
the host name and the addresses of `Info`, the port and the capacities.  (`ID` and the
two availability fields of a new segment are overwritten before they are read.) -/
structure SegStat where
  HostName : String
  HostAddrs : List String
  port : Int
  FTSTotalMemoryMB : Int
  FTSTotalCore : Int
  GRMTotalMemoryMB : Int := 0
  GRMTotalCore : Int := 0
  deriving DecidableEq, Repr

/-- The three values of `Stat->FTSAvailable`; the macros are declared outside `src/`,
only their being distinct matters. -/
inductive SegStatus
  | RESOURCE_SEG_STATUS_UNSET
  | RESOURCE_SEG_STATUS_AVAILABLE
  | RESOURCE_SEG_STATUS_UNAVAILABLE
  deriving DecidableEq, Repr

open SegStatus

/-- Values declared outside `src/` that the pool reads: the loop-back address
`IPV4_DOT_ADDR_LO`, the size `RESOURCE_QUEUE_RATIO_SIZE` of the arrays indexed by ratio
index, and whether `DRMGlobalInstance->ImpType` is `NONE_HAWQ2`. -/
structure PoolSettings where
  IPV4_DOT_ADDR_LO : String
  RESOURCE_QUEUE_RATIO_SIZE : Nat
  noneHawq2 : Bool
  deriving DecidableEq, Repr

/-- The value of `Stat->FTSAvailable`. -/
def segFTSStatus (segres : SegResource) : SegStatus :=
  if segres.FTSAvailable then RESOURCE_SEG_STATUS_AVAILABLE
  else if segres.FTSStatusUnset then RESOURCE_SEG_STATUS_UNSET
  else RESOURCE_SEG_STATUS_UNAVAILABLE

/-- `setSegStatHAWQAvailability`: the old status and the segment with the new one. -/
def setSegStatHAWQAvailability (segres : SegResource) (newstatus : SegStatus) :
    SegStatus × SegResource :=
  (segFTSStatus segres,
   { segres with
     FTSAvailable := decide (newstatus = RESOURCE_SEG_STATUS_AVAILABLE),
     FTSStatusUnset := decide (newstatus = RESOURCE_SEG_STATUS_UNSET) })

/-- `addNewResourceToResourceManager`: the result code and the queue manager left. -/
def addNewResourceToResourceManager (qm : QueueManager) (memorymb : Int) (core : ℚ) :
    ResultCode × QueueManager :=
  if memorymb = 0 ∧ core = 0 then (FUNC_RETURN_OK, qm)
  else
    let ratio := ctrunc (1 * (memorymb : ℚ) / core)
    match ratioIndexOf qm ratio with
    | some ratioindex =>
      (FUNC_RETURN_OK,
       { qm with
         RatioTrackers := qm.RatioTrackers.set ratioindex
           ((qm.RatioTrackers.getD ratioindex none).map fun t =>
             { t with TotalAllocated := addResourceBundleData t.TotalAllocated memorymb core }) })
    | none => ( RESQUEMGR_NO_RATIO, qm)

/-- `reorderSegResourceAllocIndex(segres, ratio)` on the pool: nothing happens when the
ratio has no index; `none` is the dereference of a `NULL` tree. -/
def reorderAllocIndexByRatio (g : RMGlobals) (segid : Nat) (pool : ResourcePool) (ratio : Nat) :
    Option ResourcePool :=
  match getResourceQueueRatioIndex g ratio with
  | none => some pool
  | some rindex =>
    match pool.OrderedSegResAllocByRatio.getD rindex none with
    | none => none
    | some tree =>
      some { pool with
             OrderedSegResAllocByRatio := pool.OrderedSegResAllocByRatio.set rindex
               (some (reorderSegResourceAllocIndex g ratio pool.Segments tree segid)) }

/-- The loop `for ( int i = 0 ; i < PQUEMGR->RatioCount ; ++i )` that reorders the
segment in the index of each ratio `RatioReverseIndex[i]`; `ratios` are these ratios.
The availability indices are not modelled. -/
def reorderAllocIndices (g : RMGlobals) (segid : Nat) (ratios : List Int)
    (pool : ResourcePool) : Option ResourcePool :=
  ratios.foldl (fun acc ratio => acc.bind fun p => reorderAllocIndexByRatio g segid p ratio.toNat)
    (some pool)

/-- The ratios `PQUEMGR->RatioReverseIndex[i]` for `i < PQUEMGR->RatioCount`. -/
def trackedRatios (qm : QueueManager) : List Int := qm.RatioReverseIndex.take qm.RatioCount

/-- `setSegResRUAlivePending` for the segment `segid`. -/
def setSegResRUAlivePending (g : RMGlobals) (qm : QueueManager) (pool : ResourcePool)
    (segid : Nat) (pending : Bool) : Option ResourcePool :=
  match getSegResource pool.Segments segid with
  | none => none
  | some segres =>
    if segres.RUAlivePending = pending then some pool
    else
      let pool1 : ResourcePool :=
        { pool with Segments := pool.Segments.set segid { segres with RUAlivePending := pending } }
      if qm.RatioCount = 1 then
        reorderAllocIndexByRatio g segid pool1 (qm.RatioReverseIndex.getD 0 0).toNat
      else some pool1

/-- `setSegResHAWQAvailability` for the segment `segid`: the old status, the queue
manager and the pool left; `none` is the dereference of a `NULL` pointer.  `g.RatioIndex`
is taken from the queue manager. -/
def setSegResHAWQAvailability (g : RMGlobals) (qm : QueueManager) (pool : ResourcePool)
    (segid : Nat) (newstatus : SegStatus) : Option (SegStatus × QueueManager × ResourcePool) :=
  let gq : RMGlobals := { g with RatioIndex := qm.RatioIndex }
  match getSegResource pool.Segments segid with
  | none => none
  | some segres =>
    let r := setSegStatHAWQAvailability segres newstatus
    let res := r.1
    let segres1 := r.2
    let pool1 : ResourcePool := { pool with Segments := pool.Segments.set segid segres1 }
    if res = newstatus then some (res, qm, pool1)
    else
      let step : Option (QueueManager × ResourcePool) :=
        if newstatus = RESOURCE_SEG_STATUS_UNAVAILABLE then
          let pool2 : ResourcePool :=
            { pool1 with
              FTSTotal := minusResourceBundleData pool1.FTSTotal segres1.FTSTotalMemoryMB
                segres1.FTSTotalCore,
              GRMTotal := minusResourceBundleData pool1.GRMTotal segres1.GRMTotalMemoryMB
                segres1.GRMTotalCore,
              AvailNodeCount := pool1.AvailNodeCount - 1 }
          let qm1 := (minusResourceFromReourceManager qm segres1.Allocated.MemoryMB
            segres1.Allocated.Core).2
          (setSegResRUAlivePending gq qm1 pool2 segid false).map fun p => (qm1, p)
        else
          some ((addNewResourceToResourceManager qm segres1.Allocated.MemoryMB
                  segres1.Allocated.Core).2,
                { pool1 with
                  FTSTotal := addResourceBundleData pool1.FTSTotal segres1.FTSTotalMemoryMB
                    segres1.FTSTotalCore,
                  GRMTotal := addResourceBundleData pool1.GRMTotal segres1.GRMTotalMemoryMB
                    segres1.GRMTotalCore,
                  AvailNodeCount := pool1.AvailNodeCount + 1 })
      step.bind fun s =>
        (reorderAllocIndices gq segid (trackedRatios s.1) s.2).map fun p => (res, s.1, p)

/-- The loop of `addHAWQSegWithSegStat` that tries the addresses of the host: the
loop-back address is skipped when the host has more than one address. -/
def lookupHostAddrs (lo : String) (index : List (String × Nat)) (count : Nat) :
    List String → Option Nat
  | [] => none
  | addr :: rest =>
    if addr = lo ∧ count > 1 then lookupHostAddrs lo index count rest
    else
      match index.lookup addr with
      | some segid => some segid
      | none => lookupHostAddrs lo index count rest

/-- The search of `addHAWQSegWithSegStat` for the segment of a stat: `getSegIDByHostName`
and then the addresses; `none` means `res != FUNC_RETURN_OK`. -/
def findSegmentOfStat (st : PoolSettings) (pool : ResourcePool) (segstat : SegStat) : Option Nat :=
  match pool.SegmentHostNameIndexed.lookup segstat.HostName with
  | some segid => some segid
  | none =>
    lookupHostAddrs st.IPV4_DOT_ADDR_LO pool.SegmentHostAddrIndexed segstat.HostAddrs.length
      segstat.HostAddrs

/-- `createSegResource` followed by the assignment of the id. -/
def createSegResource (st : PoolSettings) (segstat : SegStat) (segid now : Nat) : SegResource :=
  { FTSAvailable := false, FTSStatusUnset := true, RUAlivePending := false,
    Allocated := { MemoryMB := 0, Core := 0 }, Available := { MemoryMB := 0, Core := 0 },
    OldInuse := { MemoryMB := 0, Core := 0 }, IOBytesWorkload := 0, SliceWorkload := 0,
    ContainerSets := List.replicate st.RESOURCE_QUEUE_RATIO_SIZE none,
    ID := segid, HostName := segstat.HostName, HostAddrs := segstat.HostAddrs,
    port := segstat.port, FTSTotalMemoryMB := segstat.FTSTotalMemoryMB,
    FTSTotalCore := segstat.FTSTotalCore, GRMTotalMemoryMB := segstat.GRMTotalMemoryMB,
    GRMTotalCore := segstat.GRMTotalCore, LastUpdateTime := now }

/-- The loop that indexes the addresses of a new segment: only an address that the
index does not have yet is added. -/
def indexHostAddrs (segid : Nat) (index : List (String × Nat)) (addrs : List String) :
    List (String × Nat) :=
  addrs.foldl
    (fun idx addr => if (idx.lookup addr).isNone then hashtableSet idx addr segid else idx) index

/-- `addSegResourceAllocIndex`: the segment joins the allocation index of each tracked
ratio; `none` is the use of a tree that does not exist. -/
def addSegResourceAllocIndex (g : RMGlobals) (segid : Nat) (ratios : List Int)
    (pool : ResourcePool) : Option ResourcePool :=
  ratios.foldl
    (fun acc ratio => acc.bind fun p =>
      match getResourceQueueRatioIndex g ratio.toNat with
      | none => none
      | some rindex =>
        match p.OrderedSegResAllocByRatio.getD rindex none with
        | none => none
        | some tree =>
          some { p with
                 OrderedSegResAllocByRatio := p.OrderedSegResAllocByRatio.set rindex
                   (some (insertBBSTNodeBy (compAllocNodes g ratio.toNat p.Segments) tree segid)) })
    (some pool)

/-- The vote on the memory/core ratio of the cluster at the end of
`addHAWQSegWithSegStat`, for the ratio `curratio` of the segment. -/
def voteMemCoreRatio (pool : ResourcePool) (curratio : Int) : ResourcePool :=
  if curratio ≠ pool.MemCoreRatio then
    if pool.MemCoreRatioMajorityCounter - 1 = -1 then
      { pool with MemCoreRatioMajorityCounter := 1, MemCoreRatio := curratio }
    else { pool with MemCoreRatioMajorityCounter := pool.MemCoreRatioMajorityCounter - 1 }
  else { pool with MemCoreRatioMajorityCounter := pool.MemCoreRatioMajorityCounter + 1 }

/-- The block `if ( segcapchanged )` of `addHAWQSegWithSegStat` for the segment `segid`:
`none` is the division by `FTSTotalCore = 0` or a segment that does not exist. -/
def updateClusterRatio (st : PoolSettings) (pool : ResourcePool) (segid : Nat)
    (segcapchanged : Bool) : Option ResourcePool :=
  if segcapchanged && st.noneHawq2 then
    match getSegResource pool.Segments segid with
    | none => none
    | some segresource =>
      if segresource.FTSTotalCore = 0 then none
      else
        some (voteMemCoreRatio pool
          (Int.tdiv segresource.FTSTotalMemoryMB segresource.FTSTotalCore))
  else some pool

/-- CASE 1 of `addHAWQSegWithSegStat`, a new host, up to `segcapchanged = true`.  The
row added to `gp_segment_configuration` is outside the state modelled here. -/
def registerNewSegment (g : RMGlobals) (st : PoolSettings) (now : Nat) (qm : QueueManager)
    (pool : ResourcePool) (segstat : SegStat) : Option (QueueManager × ResourcePool × Nat) :=
  let gq : RMGlobals := { g with RatioIndex := qm.RatioIndex }
  let segid := pool.SegmentIDCounter
  let segresource := createSegResource st segstat segid now
  let pool1 : ResourcePool :=
    { pool with
      SegmentIDCounter := pool.SegmentIDCounter + 1,
      Segments := pool.Segments ++ [segresource],
      SegmentHostNameIndexed := hashtableSet pool.SegmentHostNameIndexed segstat.HostName segid,
      SegmentHostAddrIndexed := indexHostAddrs segid pool.SegmentHostAddrIndexed segstat.HostAddrs }
  match setSegResHAWQAvailability g qm pool1 segid RESOURCE_SEG_STATUS_AVAILABLE with
  | none => none
  | some (_, qm1, pool2) =>
    let pool3 : ResourcePool :=
      { pool2 with
        OrderedIOBytesWorkload := insertBBSTNode pool2.Segments pool2.OrderedIOBytesWorkload segid }
    (addSegResourceAllocIndex gq segid (trackedRatios qm1) pool3).map fun p => (qm1, p, segid)

/-- CASE 2 of `addHAWQSegWithSegStat`, the host is the segment `segid`: the pool left and
`segcapchanged`.  The update of `gp_segment_configuration` is outside the state modelled
here. -/
def updateExistingSegment (g : RMGlobals) (now : Nat) (qm : QueueManager)
    (pool : ResourcePool) (segstat : SegStat) (segid : Nat) :
    Option (QueueManager × ResourcePool × Bool) :=
  match getSegResource pool.Segments segid with
  | none => none
  | some segresource0 =>
    let up : Option (QueueManager × ResourcePool) :=
      if !segresource0.FTSAvailable then
        (setSegResHAWQAvailability g qm pool segid RESOURCE_SEG_STATUS_AVAILABLE).map fun r => r.2
      else some (qm, pool)
    up.bind fun s =>
      match getSegResource s.2.Segments segid with
      | none => none
      | some segresource1 =>
        let segresource := { segresource1 with port := segstat.port }
        let oldftsmem := segresource.FTSTotalMemoryMB
        let oldftscore := segresource.FTSTotalCore
        let changed : Bool :=
          decide ((segstat.FTSTotalCore > 0 ∧ segresource.FTSTotalCore ≠ segstat.FTSTotalCore) ∨
            (segstat.FTSTotalMemoryMB > 0 ∧
              segresource.FTSTotalMemoryMB ≠ segstat.FTSTotalMemoryMB))
        let update : Bool :=
          changed && decide (segstat.FTSTotalMemoryMB > 0 ∧ segstat.FTSTotalCore > 0)
        let segresource2 : SegResource :=
          if update then
            { segresource with
              FTSTotalMemoryMB := segstat.FTSTotalMemoryMB, FTSTotalCore := segstat.FTSTotalCore }
          else segresource
        let ftstotal : ResourceBundle :=
          if update then
            addResourceBundleData (minusResourceBundleData s.2.FTSTotal oldftsmem oldftscore)
              segresource2.FTSTotalMemoryMB segresource2.FTSTotalCore
          else s.2.FTSTotal
        let segcapchanged : Bool :=
          changed && decide (oldftsmem ≠ segresource2.FTSTotalMemoryMB ∨
            oldftscore ≠ segresource2.FTSTotalCore)
        some (s.1,
              { s.2 with
                Segments := s.2.Segments.set segid { segresource2 with LastUpdateTime := now },
                FTSTotal := ftstotal },
              segcapchanged)

/-- `addHAWQSegWithSegStat`: the result code, the queue manager and the pool left;
`none` is the dereference of a `NULL` pointer or a division by zero.  `now` is the value
of `gettime_microsec()`. -/
def addHAWQSegWithSegStat (g : RMGlobals) (st : PoolSettings) (now : Nat) (qm : QueueManager)
    (pool : ResourcePool) (segstat : SegStat) : Option (ResultCode × QueueManager × ResourcePool) :=
  match findSegmentOfStat st pool segstat with
  | none =>
    (registerNewSegment g st now qm pool segstat).bind fun r =>
      (updateClusterRatio st r.2.1 r.2.2 true).map fun p => (FUNC_RETURN_OK, r.1, p)
  | some segid =>
    (updateExistingSegment g now qm pool segstat segid).bind fun r =>
      (updateClusterRatio st r.2.1 segid r.2.2).map fun p => ( RESOURCEPOOL_DUPLICATE_HOST, r.1, p)

/-- The calls `addHAWQSegWithSegStat` for the stats of `stats`, in their order: the
queue manager and the pool left, and the result codes of the calls. -/
def registerAll (g : RMGlobals) (st : PoolSettings) (now : Nat) :
    List SegStat → QueueManager × ResourcePool × List ResultCode →
      Option (QueueManager × ResourcePool × List ResultCode)
  | [], s => some s
  | segstat :: rest, s =>
    match addHAWQSegWithSegStat g st now s.1 s.2.1 segstat with
    | none => none
    | some r => registerAll g st now rest (r.2.1, r.2.2, s.2.2 ++ [r.1])

/-- The pool `p1` is the pool `p` but for its allocation indices. -/
def SameButTrees (p p1 : ResourcePool) : Prop :=
  ∃ trees, p1 = { p with OrderedSegResAllocByRatio := trees }

/-- Each tracked ratio has a ratio index and an allocation index in the pool. -/
def AllocIndexReady (g : RMGlobals) (ratios : List Int) (pool : ResourcePool) : Prop :=
  ∀ ratio ∈ ratios, ∃ rindex tree, getResourceQueueRatioIndex g ratio.toNat = some rindex ∧
    pool.OrderedSegResAllocByRatio.getD rindex none = some tree

/-! ## Example inputs for the admission functions -/

/-- A value-expressed leaf queue with the EVEN policy, two active statements and a
vseg upper limit of 3. -/
def exQueueInfo : DynResourceQueueData :=
  { OID := 7, ParentOID := 1, Name := ['q', 'a'], NameLen := 2, ParallelCount := 2,
    ClusterMemoryMB := 8192, ClusterVCore := 8, ClusterMemoryPer := -1, ClusterVCorePer := -1,
    SegResourceQuotaMemoryMB := 1024, SegResourceQuotaVCore := -1, ResourceUpperFactor := 2,
    VSegUpperLimit := 3, AllocatePolicy := 0,
    Status := { isRoot := false, isDefault := false, isLeaf := true, isBranch := false,
                isPercent := false, isVer1X := false } }

/-- A tracker of `exQueueInfo` with 8 segments of capacity and 16 at most. -/
def exTrack : DynResourceQueueTrack :=
  { TrackID := 3, QueueInfo := exQueueInfo, ParentTrack := some 0, ChildrenTracks := [],
    CurConnCounter := 1, ClusterSegNumber := 8, ClusterSegNumberMax := 16,
    TotalRequest := { MemoryMB := 0, Core := 0 }, QueryResRequests := [], isBusy := false }

/-- A request for between `minfx` and `maxfx` vsegs, at most 100 per query and
`perseg` per segment. -/
def exConn (minfx maxfx perseg : Int) : ConnectionTrack :=
  { ConnID := 1, MaxSegCountFixed := maxfx, MinSegCountFixed := minfx, SegMemoryMB := 0,
    SegCore := 0, SegNum := 0, SegNumMin := 0, VSegLimit := 100, VSegLimitPerSeg := perseg,
    Progress := ConnProgress.CONN_PP_REGISTER_DONE }

/-! ## Example inputs for the queue definition check -/

/-- Default attribute values used in the examples. -/
def exDefaults : QueueDefaults :=
  { RESOURCE_QUEUE_PARALLEL_COUNT_DEF := 20, RESOURCE_QUEUE_SEG_RES_QUOTA_DEF := 256,
    RESOURCE_QUEUE_RES_UPPER_FACTOR_DEF := 2 }

/-- A percent-expressed queue definition named `name` under the parent `parent`. -/
def exPercentQueue (oid parent : Int) (name : List Char) (per : ℚ) (root dflt leaf : Bool) :
    DynResourceQueueData :=
  { OID := oid, ParentOID := parent, Name := name, NameLen := name.length, ParallelCount := 20,
    ClusterMemoryMB := -1, ClusterVCore := -1, ClusterMemoryPer := per, ClusterVCorePer := per,
    SegResourceQuotaMemoryMB := 256, SegResourceQuotaVCore := -1, ResourceUpperFactor := 2,
    VSegUpperLimit := 0, AllocatePolicy := 0,
    Status := { isRoot := root, isDefault := dflt, isLeaf := leaf, isBranch := !leaf,
                isPercent := true, isVer1X := false } }

/-- A tracker at address `tid` for the definition `q`. -/
def exTrackOf (tid : Nat) (q : DynResourceQueueData) (parent : Option Nat)
    (children : List Nat) : DynResourceQueueTrack :=
  { TrackID := tid, QueueInfo := q, ParentTrack := parent, ChildrenTracks := children,
    CurConnCounter := 0, ClusterSegNumber := 0, ClusterSegNumberMax := 0,
    TotalRequest := { MemoryMB := 0, Core := 0 }, QueryResRequests := [], isBusy := false }

/-- A queue tree: `pg_root` (OID 1) with the children `pg_default` (20%) and `q10`
(60%). -/
def exQueueManager : QueueManager :=
  { Queues :=
      [ exTrackOf 0 (exPercentQueue 1 0 "pg_root".toList 100 true false false) none [1, 2],
        exTrackOf 1 (exPercentQueue 2 1 "pg_default".toList 20 false true true) (some 0) [],
        exTrackOf 2 (exPercentQueue 3 1 "q10".toList 60 false false true) (some 0) [] ],
    QueuesIDIndex := [(1, 0), (2, 1), (3, 2)] }

/-- The definition of a new queue `q1` asking for 60% under `pg_root`, as
`parseResourceQueueAttributes` leaves it. -/
def exNewQueue : DynResourceQueueData :=
  { OID := -1, ParentOID := 1, Name := "q1".toList, NameLen := 2, ParallelCount := -1,
    ClusterMemoryMB := -1, ClusterVCore := -1, ClusterMemoryPer := 60, ClusterVCorePer := 60,
    SegResourceQuotaMemoryMB := -1, SegResourceQuotaVCore := -1, ResourceUpperFactor := -1,
    VSegUpperLimit := 0, AllocatePolicy := -1,
    Status := { isRoot := false, isDefault := false, isLeaf := true, isBranch := false,
                isPercent := true, isVer1X := false } }

/-! ## Example inputs for the resource pool -/

/-- One tracked ratio, 1024 MB per core, at ratio index 0; 3000 slices per segment. -/
def exGlobals : RMGlobals := { RatioIndex := [(1024, 0)], rm_slice_num_per_seg_limit := 3000 }

/-- An available segment whose only container set holds `mem` MB and `core` cores, all
of it free. -/
def exSegment (mem : Int) (core : ℚ) : SegResource :=
  { FTSAvailable := true, RUAlivePending := false,
    Allocated := { MemoryMB := mem, Core := core },
    Available := { MemoryMB := mem, Core := core },
    OldInuse := { MemoryMB := 0, Core := 0 }, IOBytesWorkload := 0, SliceWorkload := 0,
    ContainerSets := [some { Allocated := { MemoryMB := mem, Core := core },
                             Available := { MemoryMB := mem, Core := core },
                             Containers := [{ ID := 1, MemoryMB := mem, Core := core }] }] }

/-- A pool of one segment of 16384 MB and 16 cores. -/
def exPool1 : ResourcePool :=
  { Segments := [exSegment 16384 16], OrderedIOBytesWorkload := [0], AvailNodeCount := 1,
    HDFSHostNameIndexed := [("h0", 0)] }

/-- A pool of four segments of 16384 MB and 16 cores, known as `h0` to `h3`; the name
`h0.example.com` resolves to segment 0 as well. -/
def exPool4 : ResourcePool :=
  { Segments := [exSegment 16384 16, exSegment 16384 16, exSegment 16384 16,
                 exSegment 16384 16],
    OrderedIOBytesWorkload := [0, 1, 2, 3], AvailNodeCount := 4,
    HDFSHostNameIndexed := [("h0", 0), ("h1", 1), ("h2", 2), ("h3", 3),
                            ("h0.example.com", 0)] }

/-- A request for `n` vsegs of 1024 MB and 1 core, one slice each. -/
def exRequest (n : Int) (preferred : List String) (fixnodecount : Bool) (vseglimitpseg : Int) :
    AllocRequest :=
  { nodecount := n, minnodecount := 1, memory := 1024, core := 1, iobytes := 4096,
    slicesize := 1, vseglimitpseg := vseglimitpseg, preferredhostname := preferred,
    preferredscansize := preferred.map (fun _ => 1), fixnodecount := fixnodecount }

/-! ## Example inputs for the queue DDL -/

/-- Decimal digits read from the left, `acc` being the value read so far. -/
def exParseNatAux : List Char → Nat → Option Nat
  | [], acc => some acc
  | c :: rest, acc =>
    if c.isDigit then exParseNatAux rest (10 * acc + (c.toNat - 48)) else none

/-- A non-empty string of decimal digits as a number. -/
def exParseNat (s : List Char) : Option Nat := if s = [] then none else exParseNatAux s 0

/-- A number followed by `mb` or `gb`, in MB. -/
def exParseSizeMB (s : List Char) : Option Nat :=
  let body := s.take (s.length - 2)
  let unit := s.drop (s.length - 2)
  if unit = "mb".toList then exParseNat body
  else if unit = "gb".toList then (exParseNat body).map (fun n => n * 1024)
  else none

/-- The result of a conversion helper: the parsed number, or a failure that leaves the
target as it was. -/
def exConverted {α : Type} (parsed : Option Nat) (old : α) (cast : Nat → α) : ResultCode × α :=
  match parsed with
  | some n => (FUNC_RETURN_OK, cast n)
  | none => (FUNC_RETURN_FAIL, old)

/-- String helpers for the examples: lower-case keywords, whole numbers, sizes written
`<int>mb` or `<int>gb`, percentages written `<int>%`. -/
def exOps : SimpleStringOps :=
  { Empty := fun s => s.isEmpty,
    Comp := fun a b => if a = b then 0 else 1,
    Find := fun s sub => if sub <:+: s then FUNC_RETURN_OK else FUNC_RETURN_FAIL,
    StartWith := fun s pre => if pre <+: s then FUNC_RETURN_OK else FUNC_RETURN_FAIL,
    IsPercentage := fun s => s.getLast? = some '%',
    ToPercentage := fun s old => exConverted (exParseNat s.dropLast) old (fun n => (n : Int)),
    ToStorageSizeMB := fun s old => exConverted (exParseSizeMB s) old (fun n => (n : Int)),
    ToDouble := fun s old => exConverted (exParseNat s) old (fun n => (n : ℚ)),
    ToInt32 := fun s old => exConverted (exParseNat s) old (fun n => (n : Int)),
    ToOid := fun s old => exConverted (exParseNat s) old (fun n => (n : Int)),
    ToMapIndexInt8 := fun s tbl old =>
      if s ∈ tbl then (FUNC_RETURN_OK, (tbl.indexOf s : Int)) else (FUNC_RETURN_FAIL, old),
    OidToString := fun oid => Nat.toDigits 10 oid.toNat }

/-- An attribute list written as pairs of strings. -/
def exAttrs (l : List (String × String)) : List KVProperty :=
  l.map (fun e => { Key := e.1.toList, Val := e.2.toList })

/-- The OIDs of the system queues in the examples. -/
def exSystemOids : SystemQueueOids := { DEFAULTRESQUEUE_OID := 2, ROOTRESQUEUE_OID := 1 }

/-- A catalog on which every statement succeeds; the insert assigns OID 10. -/
def exCatalogOk : CatalogOutcome :=
  { insertRes := FUNC_RETURN_OK, newoid := 10, updateRes := FUNC_RETURN_OK,
    deleteRes := FUNC_RETURN_OK }

/-- A catalog on which every statement fails. -/
def exCatalogFail : CatalogOutcome :=
  { insertRes := LIBPQ_FAIL_EXECUTE, newoid := 0, updateRes := LIBPQ_FAIL_EXECUTE,
    deleteRes := LIBPQ_FAIL_EXECUTE }

/-- A value-expressed queue definition of `mem` MB and `core` cores named `name`. -/
def exValueQueue (oid parent : Int) (name : List Char) (mem : Int) (core : ℚ) :
    DynResourceQueueData :=
  { OID := oid, ParentOID := parent, Name := name, NameLen := name.length, ParallelCount := 20,
    ClusterMemoryMB := mem, ClusterVCore := core, ClusterMemoryPer := -1, ClusterVCorePer := -1,
    SegResourceQuotaMemoryMB := 256, SegResourceQuotaVCore := -1, ResourceUpperFactor := 2,
    VSegUpperLimit := 0, AllocatePolicy := 0,
    Status := { isRoot := false, isDefault := false, isLeaf := true, isBranch := false,
                isPercent := false, isVer1X := false } }

/-- An empty queue manager with room for four ratios. -/
def exEmptyManager : QueueManager :=
  { Queues := [], QueuesIDIndex := [],
    RatioReverseIndex := [-1, -1, -1, -1], RatioReferenceCounter := [0, 0, 0, 0],
    RatioTrackers := [none, none, none, none], RatioWaterMarks := [[], [], [], []] }

/-- The queue tree built by `createQueueAndTrack` from the definitions of `pg_root`
(OID 1, 100%), `pg_default` (OID 2, 50%) and the value-expressed queue `qv` (OID 3,
8192 MB and 8 cores), the last two under `pg_root`. -/
def exTree : QueueManager :=
  let qm1 := (createQueueAndTrack exEmptyManager
    (exPercentQueue 1 0 "pg_root".toList 100 true false true)).2.1
  let qm2 := (createQueueAndTrack qm1
    (exPercentQueue 2 1 "pg_default".toList 50 false true true)).2.1
  (createQueueAndTrack qm2 (exValueQueue 3 1 "qv".toList 8192 8)).2.1

/-- The tree `exTree` with one connection registered on the queue `qv`. -/
def exTreeInUse : QueueManager :=
  updateTrack exTree 3 (fun t => { t with CurConnCounter := 1 })

/-- The request `CREATE qp` with `parent=qv`, `memory_limit_cluster=50%` and
`core_limit_cluster=50%` on `exTree`, with a catalog whose statements fail. -/
def exFailedCreate : Option (ResultCode × QueueManager) :=
  handleRMDDLRequestManipulateResourceQueue exOps exDefaults exSystemOids exCatalogFail 100
    exTree ManipulateAction.CREATE "qp".toList
    (exAttrs [("parent", "qv"), ("memory_limit_cluster", "50%"), ("core_limit_cluster", "50%")])

/-- The request `DROP qv` on `exTreeInUse`, with a catalog whose statements succeed. -/
def exDropInUse : Option (ResultCode × QueueManager) :=
  handleRMDDLRequestManipulateResourceQueue exOps exDefaults exSystemOids exCatalogOk 100
    exTreeInUse ManipulateAction.DROP "qv".toList []

/-- The tracker of the queue `qv` in `exTree`. -/
def exQvTrack : DynResourceQueueTrack :=
  (getTrackByID exTree 3).getD (createDynResourceQueueTrack 0 zeroQueue)

/-- The queue manager left by the request `ALTER qv` with `active_statements=5` on
`exTree`, with a catalog whose statements fail. -/
def exAlterFailed : QueueManager :=
  ((handleRMDDLRequestManipulateResourceQueue exOps exDefaults exSystemOids exCatalogFail 100
    exTree ManipulateAction.ALTER "qv".toList (exAttrs [("active_statements", "5")])).getD
    (FUNC_RETURN_OK, exEmptyManager)).2

/-- The attribute list of `CREATE qp` with `parent=pg_default` and 50% of memory and
cores, as `shallowparseResourceQueueWithAttributes` returns it on `exTree`. -/
def exFineAttrs : List KVProperty :=
  exAttrs [("name", "qp"), ("parent", "2"), ("memory_limit_cluster", "50%"),
           ("core_limit_cluster", "50%")]

/-- The queue definition parsed from `exFineAttrs`. -/
def exParsedQueue : DynResourceQueueData :=
  (parseResourceQueueAttributes exOps exDefaults exFineAttrs zeroQueue).2

/-- The tracker of the queue `pg_default` in `exTree`. -/
def exPgDefaultTrack : DynResourceQueueTrack :=
  (getTrackByID exTree 2).getD (createDynResourceQueueTrack 0 zeroQueue)

/-! ## Example inputs for the capacity refresh -/

/-- A tree of percent-expressed queues built by `createQueueAndTrack`: `pg_root` (100%)
with the children `pg_default` (50%) and `dept` (50%), and `team` (50%) under `dept`. -/
def exPercentTree : QueueManager :=
  let qm1 := (createQueueAndTrack exEmptyManager
    (exPercentQueue 1 0 "pg_root".toList 100 true false true)).2.1
  let qm2 := (createQueueAndTrack qm1
    (exPercentQueue 2 1 "pg_default".toList 50 false true true)).2.1
  let qm3 := (createQueueAndTrack qm2 (exPercentQueue 3 1 "dept".toList 50 false false true)).2.1
  (createQueueAndTrack qm3 (exPercentQueue 4 3 "team".toList 50 false false true)).2.1

/-- The tracker of the queue `team` in `exPercentTree`. -/
def exTeamTrack : DynResourceQueueTrack :=
  (getTrackByID exPercentTree 4).getD (createDynResourceQueueTrack 0 zeroQueue)

/-! ## Example inputs for the return of idle containers -/

/-- A container of 1024 MB and 1 core on the host `host`. -/
def exContainer (id : Nat) (host : String) : GRMContainer :=
  { ID := id, MemoryMB := 1024, Core := 1, HostName := host }

/-- A usable segment whose container set of ratio index 0 holds `n` containers of
1024 MB and 1 core, `avail` of which are not in use. -/
def exSegmentWith (host : String) (n avail : Nat) : SegResource :=
  { FTSAvailable := true, RUAlivePending := false,
    Allocated := { MemoryMB := 1024 * n, Core := n },
    Available := { MemoryMB := 1024 * avail, Core := avail },
    OldInuse := { MemoryMB := 0, Core := 0 }, IOBytesWorkload := 0, SliceWorkload := 0,
    ContainerSets :=
      [some { Allocated := { MemoryMB := 1024 * n, Core := n },
              Available := { MemoryMB := 1024 * avail, Core := avail },
              Containers := (List.range n).map fun i => exContainer i host }],
    GRMContainerCount := n }

/-- The ratio table of the examples: 1024 MB per core has the ratio index 0. -/
def exBreathGlobals : RMGlobals := { RatioIndex := [(1024, 0)], rm_slice_num_per_seg_limit := 0 }

/-- A pool of two segments: `h0` with 4 containers, 1 of them free, and `h1` with 3
containers, all free; the allocation index has `h0` first. -/
def exBreathPool : ResourcePool :=
  { Segments := [exSegmentWith "h0" 4 1, exSegmentWith "h1" 3 3],
    OrderedIOBytesWorkload := [0, 1], AvailNodeCount := 2, HDFSHostNameIndexed := [],
    OrderedSegResAllocByRatio := [some [0, 1]], MemCoreRatio := 1024 }

/-! ## Example inputs for deadlock detection -/

/-- A waiting request of the session `session` for `segnummin` segments of 1024 MB and
1 core at least. -/
def exWaiting (id : Nat) (session : Int) (segnummin : Int) : ConnectionTrack :=
  { ConnID := id, MaxSegCountFixed := 0, MinSegCountFixed := 0, SegMemoryMB := 1024,
    SegCore := 1, SegNum := segnummin, SegNumMin := segnummin, VSegLimit := 0,
    VSegLimitPerSeg := 0, Progress := ConnProgress.CONN_PP_RESOURCE_QUEUE_ALLOC_WAIT,
    SessionID := session }

/-- A leaf queue of 4096 MB and 4 cores at most in which session 1 holds 3072 MB and 3
cores, locked, and session 2 holds nothing. -/
def exDeadLockTrack : DynResourceQueueTrack :=
  { exTrack with
    ClusterMemoryMaxMB := 4096, ClusterVCoreMax := 4,
    DLDetector :=
      { Sessions := [{ SessionID := 1, InUseTotalMemoryMB := 3072, InUseTotalCore := 3,
                       Locked := true },
                     { SessionID := 2, InUseTotalMemoryMB := 0, InUseTotalCore := 0,
                       Locked := false }],
        LockedTotalMemoryMB := 3072, LockedTotalCore := 3 } }

/-! ## Example inputs for the queue tree and the ratio trackers -/

/-- The tree that holds only `pg_root` (OID 1, flagged Branch) and its child
`pg_default` (OID 2, flagged Leaf), built by `createQueueAndTrack`. -/
def exRootAndDefault : QueueManager :=
  let qm1 := (createQueueAndTrack exEmptyManager
    (exPercentQueue 1 0 "pg_root".toList 100 true false false)).2.1
  (createQueueAndTrack qm1 (exPercentQueue 2 1 "pg_default".toList 50 false true true)).2.1

/-- The call of `createQueueAndTrack` on `exRootAndDefault` for the percent-expressed
queue `dept` (OID 3, 50%) under `pg_root`. -/
def exCreateDept : ResultCode × QueueManager × Option Nat :=
  createQueueAndTrack exRootAndDefault (exPercentQueue 3 1 "dept".toList 50 false false true)

/-- The following call of `createQueueAndTrack` for the queue `team` (OID 4, 50%) under
`dept`. -/
def exCreateTeam : ResultCode × QueueManager × Option Nat :=
  createQueueAndTrack exCreateDept.2.1 (exPercentQueue 4 3 "team".toList 50 false false true)

/-- The tree `exTree` after `createQueueAndTrack` for a second value-expressed queue
`qw` (OID 4, 16384 MB and 8 cores): the ratios 1024 (queue `qv`, tracker address 3) and
2048 (queue `qw`, tracker address 4) have the ratio indices 0 and 1. -/
def exTwoRatios : QueueManager :=
  (createQueueAndTrack exTree (exValueQueue 4 1 "qw".toList 16384 8)).2.1

/-! ## Example inputs for the registration of segments -/

/-- Settings of the examples: self-contained mode, four ratio slots. -/
def exPoolSettings : PoolSettings :=
  { IPV4_DOT_ADDR_LO := "127.0.0.1", RESOURCE_QUEUE_RATIO_SIZE := 4, noneHawq2 := true }

/-- The pool as `initializeResourcePoolManager` leaves it. -/
def exEmptyPool : ResourcePool :=
  { Segments := [], OrderedIOBytesWorkload := [], AvailNodeCount := 0, HDFSHostNameIndexed := [] }

/-- The stat of a host with one address besides the loop-back address. -/
def exHost (name addr : String) (mem core : Int) : SegStat :=
  { HostName := name, HostAddrs := ["127.0.0.1", addr], port := 40000,
    FTSTotalMemoryMB := mem, FTSTotalCore := core }

/-- The result of registering the host `h0` (8192 MB, 8 cores) in the empty pool. -/
def exRegistered : ResultCode × QueueManager × ResourcePool :=
  (addHAWQSegWithSegStat exGlobals exPoolSettings 5 exEmptyManager exEmptyPool
    (exHost "h0" "10.0.0.1" 8192 8)).getD (FUNC_RETURN_FAIL, exEmptyManager, exEmptyPool)

/-- Three hosts: one of ratio 2048 and two of ratio 1024. -/
def exThreeHosts : List SegStat :=
  [exHost "h0" "10.0.0.1" 4096 2, exHost "h1" "10.0.0.2" 8192 8, exHost "h2" "10.0.0.3" 4096 4]

/-- The result of registering `exThreeHosts` in the empty pool. -/
def exThreeRegistered : QueueManager × ResourcePool × List ResultCode :=
  (registerAll exGlobals exPoolSettings 5 exThreeHosts (exEmptyManager, exEmptyPool, [])).getD
    (exEmptyManager, exEmptyPool, [])

/-! ## The allocated resource of the pool and of the ratio trackers -/

/-- The sum over all registered segments of `Allocated.MemoryMB`. -/
def segmentsAllocatedMemory (pool : ResourcePool) : Int :=
  (pool.Segments.map fun r => r.Allocated.MemoryMB).sum

/-- The sum over the ratio trackers of `TotalAllocated.MemoryMB`. -/
def trackersAllocatedMemory (qm : QueueManager) : Int :=
  ((qm.RatioTrackers.take qm.RatioCount).map fun t =>
    match t with
    | some t => t.TotalAllocated.MemoryMB
    | none => 0).sum

/-- The totals `*allocmem`, `*alloccore` of `getSegResResourceCountersByMemCoreCounters`:
the sums of `Allocated` over the container sets of the first `ratiocount` ratio
indices (the check of the container lists against the counters is left out). -/
def getSegResAllocatedByMemCoreCounters (ratiocount : Nat) (resinfo : SegResource) :
    ResourceBundle :=
  (List.range ratiocount).foldl
    (fun acc i =>
      match resinfo.ContainerSets.getD i none with
      | none => acc
      | some ctns => addResourceBundleData acc ctns.Allocated.MemoryMB ctns.Allocated.Core)
    { MemoryMB := 0, Core := 0 }

/-- Validation 5 of `validateResourcePoolStatus(true)`, the comparison of the allocated
totals: `false` is the branch that raises `elog(ERROR, "HAWQ RM Validation. Wrong total
allocated resource. ...")`.  The totals are those summed over all segments of the
pool. -/
def validateTotalAllocated (qm : QueueManager) (pool : ResourcePool) : Bool :=
  let total := pool.Segments.foldl
    (fun acc r =>
      let b := getSegResAllocatedByMemCoreCounters qm.RatioCount r
      addResourceBundleData acc b.MemoryMB b.Core)
    { MemoryMB := 0, Core := 0 }
  if qm.RatioCount = 1 then
    match qm.RatioTrackers.getD 0 none with
    | none => false
    | some t =>
      !(t.TotalAllocated.MemoryMB ≠ total.MemoryMB ∨ t.TotalAllocated.Core ≠ total.Core)
  else true

/-! ## Example inputs for the allocated totals -/

/-- A queue manager with one ratio (1024 MB per core) that has 4096 MB and 4 cores
allocated, no request and no pending resource, and a head water mark of 0 cores. -/
def exTwoCoreManager : QueueManager :=
  { Queues := [], QueuesIDIndex := [], RatioCount := 1, RatioIndex := [(1024, 0)],
    RatioReverseIndex := [1024], RatioReferenceCounter := [1],
    RatioTrackers := [some { MemCoreRatio := 1024, TotalAllocated := { MemoryMB := 4096, Core := 4 } }],
    RatioWaterMarks := [[{ LastRecordTime := 0, ClusterMemoryMB := 0, ClusterVCore := 0 }]] }

/-- A pool of one segment that holds two free containers of 2048 MB and 2 cores. -/
def exTwoCorePool : ResourcePool :=
  { Segments :=
      [{ FTSAvailable := true, RUAlivePending := false,
         Allocated := { MemoryMB := 4096, Core := 4 },
         Available := { MemoryMB := 4096, Core := 4 },
         OldInuse := { MemoryMB := 0, Core := 0 }, IOBytesWorkload := 0, SliceWorkload := 0,
         ContainerSets :=
           [some { Allocated := { MemoryMB := 4096, Core := 4 },
                   Available := { MemoryMB := 4096, Core := 4 },
                   Containers := [{ ID := 0, MemoryMB := 2048, Core := 2, HostName := "h0" },
                                  { ID := 1, MemoryMB := 2048, Core := 2, HostName := "h0" }] }],
         GRMContainerCount := 2 }],
    OrderedIOBytesWorkload := [0], AvailNodeCount := 1, HDFSHostNameIndexed := [],
    OrderedSegResAllocByRatio := [some [0]], MemCoreRatio := 1024 }

/-- The state that `timeoutIdleGRMResourceToRB` leaves from `exTwoCoreManager` and
`exTwoCorePool`, in external-provider mode with the water level 1. -/
def exTwoCoreReturned : QueueManager × ResourcePool :=
  (timeoutIdleGRMResourceToRB exBreathGlobals false 1 exTwoCoreManager exTwoCorePool).getD
    (exTwoCoreManager, exTwoCorePool)

/-! ## The stages of a container: to accept, accepted, in the pool, to kick, kicked -/

/-- `getSegIDByGRMHostName`: `none` is a result other than `FUNC_RETURN_OK`.
`GRMHostNameIndexed` stands for the index as completed by name resolution, as
`HDFSHostNameIndexed` does. -/
def getSegIDByGRMHostName (pool : ResourcePool) (hostname : String) : Option Nat :=
  pool.GRMHostNameIndexed.lookup hostname

/-- `addGRMContainerToKicked`. -/
def addGRMContainerToKicked (pool : ResourcePool) (ctn : GRMContainer) : ResourcePool :=
  { pool with
    KickedContainers := pool.KickedContainers ++ [ctn],
    RetPendingContainerCount := pool.RetPendingContainerCount + 1 }

/-- `addGRMContainerToToBeAccepted`: the result code and the pool left; `none` is the
failure of `Assert( ctn->Resource != NULL)`.  A host that the index does not resolve
gives the code of `getSegIDByGRMHostName`, taken as `RESOURCEPOOL_UNRESOLVED_HOST`. -/
def addGRMContainerToToBeAccepted (pool : ResourcePool) (ctn : GRMContainer) :
    Option (ResultCode × ResourcePool) :=
  let segid : Option Nat :=
    match ctn.Resource with
    | some s => some s
    | none => getSegIDByGRMHostName pool ctn.HostName
  match segid with
  | none => some ( RESOURCEPOOL_UNRESOLVED_HOST, addGRMContainerToKicked pool ctn)
  | some s =>
    match getSegResource pool.Segments s with
    | none => none
    | some resource =>
      let ctn1 : GRMContainer := { ctn with Resource := some s }
      let ctns : GRMContainerSet :=
        (pool.ToAcceptContainers.lookup ctn.HostName).getD createGRMContainerSet
      some (FUNC_RETURN_OK,
        { pool with
          Segments := pool.Segments.set s
            { resource with
              IncPending := addResourceBundleData resource.IncPending ctn.MemoryMB ctn.Core },
          ToAcceptContainers :=
            hashtableSet pool.ToAcceptContainers ctn.HostName
              (appendGRMContainerSetContainer ctns ctn1),
          AddPendingContainerCount := pool.AddPendingContainerCount + 1 })

/-- The container set that `moveGRMContainerSetToAccepted`, `moveGRMContainerSetToKicked`
and `moveGRMContainerSetContainerList` leave behind: no container, counters 0. -/
def emptiedGRMContainerSet : GRMContainerSet :=
  { Allocated := { MemoryMB := 0, Core := 0 }, Available := { MemoryMB := 0, Core := 0 },
    Containers := [] }

/-- `moveGRMContainerSetToAccepted` for the set at position `i` of the table
`ToAcceptContainers`. -/
def moveGRMContainerSetToAccepted (pool : ResourcePool) (i : Nat) : ResourcePool :=
  match pool.ToAcceptContainers[i]? with
  | none => pool
  | some (key, ctns) =>
    { pool with
      AcceptedContainers := pool.AcceptedContainers ++ ctns.Containers,
      ToAcceptContainers := pool.ToAcceptContainers.set i (key, emptiedGRMContainerSet) }

/-- `moveGRMContainerSetToKicked` for the set at position `i` of the table
`ToKickContainers` (`toaccept` false) or `ToAcceptContainers` (`toaccept` true). -/
def moveGRMContainerSetToKicked (toaccept : Bool) (pool : ResourcePool) (i : Nat) :
    ResourcePool :=
  if toaccept then
    match pool.ToAcceptContainers[i]? with
    | none => pool
    | some (key, ctns) =>
      { pool with
        KickedContainers := pool.KickedContainers ++ ctns.Containers,
        ToAcceptContainers := pool.ToAcceptContainers.set i (key, emptiedGRMContainerSet) }
  else
    match pool.ToKickContainers[i]? with
    | none => pool
    | some (key, ctns) =>
      { pool with
        KickedContainers := pool.KickedContainers ++ ctns.Containers,
        ToKickContainers := pool.ToKickContainers.set i (key, emptiedGRMContainerSet) }

/-- `moveGRMContainerSetContainerList` for two different sets: `tctns` and `sctns` as the
call leaves them. -/
def moveGRMContainerSetContainerList (tctns sctns : GRMContainerSet) :
    GRMContainerSet × GRMContainerSet :=
  ({ Allocated :=
       addResourceBundleData tctns.Allocated sctns.Allocated.MemoryMB sctns.Allocated.Core,
     Available :=
       addResourceBundleData tctns.Available sctns.Available.MemoryMB sctns.Available.Core,
     Containers := tctns.Containers ++ sctns.Containers },
   emptiedGRMContainerSet)

/-- The ratio `container->MemoryMB / container->Core` stored in a `uint32_t`. -/
def containerRatio (ctn : GRMContainer) : Nat :=
  (toUInt32 (ctrunc ((ctn.MemoryMB : ℚ) / ctn.Core))).toNat

/-- `addGRMContainerToResPool`; `none` is a failed `Assert`, a division by a core count
of 0 or the dereference of a `NULL` pointer.  The array `ContainerSets` has
`RESOURCE_QUEUE_RATIO_SIZE` entries; the availability index is not modelled. -/
def addGRMContainerToResPool (g : RMGlobals) (pool : ResourcePool) (container : GRMContainer) :
    Option ResourcePool :=
  match container.Resource with
  | none => none
  | some segid =>
    match getSegResource pool.Segments segid with
    | none => none
    | some segresource =>
      if container.Core = 0 then none
      else
        let ratio := containerRatio container
        match getResourceQueueRatioIndex g ratio with
        | none => none
        | some rindex =>
          if rindex < segresource.ContainerSets.length then
            let ctns : GRMContainerSet :=
              (segresource.ContainerSets.getD rindex none).getD createGRMContainerSet
            let segresource1 : SegResource :=
              { segresource with
                ContainerSets := segresource.ContainerSets.set rindex
                  (some (appendGRMContainerSetContainer ctns container)),
                Allocated :=
                  addResourceBundleData segresource.Allocated container.MemoryMB container.Core,
                Available :=
                  addResourceBundleData segresource.Available container.MemoryMB container.Core,
                IncPending :=
                  minusResourceBundleData segresource.IncPending container.MemoryMB
                    container.Core,
                GRMContainerCount := segresource.GRMContainerCount + 1 }
            reorderAllocIndexByRatio g segid
              { pool with Segments := pool.Segments.set segid segresource1 } ratio
          else none

/-- The loop of `moveAllAcceptedGRMContainersToResPool` over the list
`AcceptedContainers`, as far as it changes the pool. -/
def moveAllAcceptedFrom (g : RMGlobals) : List GRMContainer → ResourcePool → Option ResourcePool
  | [], pool => some pool
  | ctn :: rest, pool =>
    match addGRMContainerToResPool g { pool with AcceptedContainers := rest } ctn with
    | none => none
    | some pool1 =>
      moveAllAcceptedFrom g rest
        { pool1 with AddPendingContainerCount := pool1.AddPendingContainerCount - 1 }

/-- `moveAllAcceptedGRMContainersToResPool`, as far as it changes the pool: the calls
`addNewResourceToResourceManager` and `removePendingResourceRequestInRootQueue` change
only the queue manager. -/
def moveAllAcceptedGRMContainersToResPool (g : RMGlobals) (pool : ResourcePool) :
    Option ResourcePool :=
  moveAllAcceptedFrom g pool.AcceptedContainers pool

/-- The body of the loop of `notifyToBeAcceptedGRMContainersToRMSEG` for the set at
position `i` of `ToAcceptContainers`, in the branch taken when
`rm_resourcepool_test_filename` is set (the other branch calls `increaseMemoryQuota`,
which is outside this model); `none` is the failure of `Assert(firstctn != NULL)`. -/
def notifyToBeAcceptedEntry (pool : ResourcePool) (i : Nat) : Option ResourcePool :=
  match pool.ToAcceptContainers[i]? with
  | none => some pool
  | some (_, ctns) =>
    if ctns.Allocated.MemoryMB = 0 ∧ ctns.Allocated.Core = 0 then some pool
    else
      match ctns.Containers with
      | [] => none
      | _ :: _ => some (moveGRMContainerSetToAccepted pool i)

/-- `notifyToBeAcceptedGRMContainersToRMSEG` with `rm_resourcepool_test_filename` set;
the sets are visited in the order of the table. -/
def notifyToBeAcceptedGRMContainersToRMSEG (pool : ResourcePool) : Option ResourcePool :=
  (List.range pool.ToAcceptContainers.length).foldl
    (fun acc i => acc.bind fun p => notifyToBeAcceptedEntry p i) (some pool)

/-- The body of the loop of `notifyToBeKickedGRMContainersToRMSEG` for the set at
position `i` of `ToKickContainers`, in the branch taken when
`rm_resourcepool_test_filename` is set (the other branch calls `decreaseMemoryQuota`,
which is outside this model); `none` is the failure of `Assert(firstctn != NULL)`. -/
def notifyToBeKickedEntry (pool : ResourcePool) (i : Nat) : Option ResourcePool :=
  match pool.ToKickContainers[i]? with
  | none => some pool
  | some (_, ctns) =>
    if ctns.Allocated.Core = 0 ∨ ctns.Allocated.MemoryMB = 0 then some pool
    else
      match ctns.Containers with
      | [] => none
      | _ :: _ => some (moveGRMContainerSetToKicked false pool i)

/-- `notifyToBeKickedGRMContainersToRMSEG` with `rm_resourcepool_test_filename` set. -/
def notifyToBeKickedGRMContainersToRMSEG (pool : ResourcePool) : Option ResourcePool :=
  (List.range pool.ToKickContainers.length).foldl
    (fun acc i => acc.bind fun p => notifyToBeKickedEntry p i) (some pool)

/-- The body of the loop of `dropAllToAcceptGRMContainersToKicked` for the set at
position `i` of `ToAcceptContainers`; `none` is the failure of
`Assert( ctns->Containers != NULL )` or the dereference of a `NULL` `Resource`. -/
def dropToAcceptEntry (pool : ResourcePool) (i : Nat) : Option ResourcePool :=
  match pool.ToAcceptContainers[i]? with
  | none => some pool
  | some (_, ctns) =>
    if ctns.Allocated.MemoryMB = 0 ∧ ctns.Allocated.Core = 0 then some pool
    else
      match ctns.Containers with
      | [] => none
      | ctn1st :: _ =>
        match ctn1st.Resource with
        | none => none
        | some segid =>
          match getSegResource pool.Segments segid with
          | none => none
          | some resource =>
            some (moveGRMContainerSetToKicked true
              { pool with
                Segments := pool.Segments.set segid
                  { resource with
                    IncPending := minusResourceBundleData resource.IncPending
                      ctns.Allocated.MemoryMB ctns.Allocated.Core },
                AddPendingContainerCount :=
                  pool.AddPendingContainerCount - (ctns.Containers.length : Int) } i)

/-- `dropAllToAcceptGRMContainersToKicked`. -/
def dropAllToAcceptGRMContainersToKicked (pool : ResourcePool) : Option ResourcePool :=
  (List.range pool.ToAcceptContainers.length).foldl
    (fun acc i => acc.bind fun p => dropToAcceptEntry p i) (some pool)

/-- The loop `while (ctns->Containers != NULL)` of `dropAllGRMContainersFromSegment` for
the container set of ratio index `i` of the segment `segid`: each pass pops the first
container and hands it to `addGRMContainerToToBeKicked`.  The first argument bounds the
number of passes; the callers pass the number of containers of the set.  `none` is the
dereference of a `NULL` pointer. -/
def popAllToToBeKicked (segid i : Nat) : Nat → ResourcePool → Option ResourcePool
  | 0, pool => some pool
  | n + 1, pool =>
    match getSegResource pool.Segments segid with
    | none => none
    | some segres =>
      match segres.ContainerSets.getD i none with
      | none => none
      | some ctns =>
        match popGRMContainerSetContainerList ctns with
        | (none, _) => some pool
        | (some ctn, ctns1) =>
          popAllToToBeKicked segid i n
            (addGRMContainerToToBeKicked
              { pool with
                Segments := pool.Segments.set segid
                  { segres with ContainerSets := segres.ContainerSets.set i (some ctns1) } }
              segid ctn)

/-- One pass of the loop `for ( int i = 0 ; i < PQUEMGR->RatioCount ; ++i )` of
`dropAllGRMContainersFromSegment`; `ratio` is `PQUEMGR->RatioReverseIndex[i]`. -/
def dropAllOfRatio (g : RMGlobals) (segid : Nat) (pool : ResourcePool) (i : Nat)
    (ratio : Int) : Option ResourcePool :=
  match getSegResource pool.Segments segid with
  | none => none
  | some segres =>
    match segres.ContainerSets.getD i none with
    | none => some pool
    | some ctns =>
      match popAllToToBeKicked segid i ctns.Containers.length pool with
      | none => none
      | some pool1 =>
        match getSegResource pool1.Segments segid with
        | none => none
        | some segres1 =>
          match segres1.ContainerSets.getD i none with
          | none => none
          | some ctns1 =>
            reorderAllocIndexByRatio g segid
              { pool1 with
                Segments := pool1.Segments.set segid
                  { segres1 with
                    ContainerSets := segres1.ContainerSets.set i
                      (some { ctns1 with
                              Allocated := { MemoryMB := 0, Core := 0 },
                              Available := { MemoryMB := 0, Core := 0 } }) } }
              ratio.toNat

/-- `dropAllGRMContainersFromSegment` for the segment `segid`; `ratios` are the ratios
`PQUEMGR->RatioReverseIndex[i]` for `i < PQUEMGR->RatioCount`.  `none` is the dereference
of a `NULL` pointer. -/
def dropAllGRMContainersFromSegment (g : RMGlobals) (ratios : List Int) (pool : ResourcePool)
    (segid : Nat) : Option ResourcePool :=
  match getSegResource pool.Segments segid with
  | none => none
  | some segres =>
    let oldinuse :=
      minusResourceBundleData
        (addResourceBundleData segres.OldInuse segres.Allocated.MemoryMB segres.Allocated.Core)
        segres.Available.MemoryMB segres.Available.Core
    let pool0 : ResourcePool :=
      { pool with Segments := pool.Segments.set segid { segres with OldInuse := oldinuse } }
    match (List.range ratios.length).foldl
        (fun acc i => acc.bind fun p => dropAllOfRatio g segid p i (ratios.getD i 0))
        (some pool0) with
    | none => none
    | some pool1 =>
      match getSegResource pool1.Segments segid with
      | none => none
      | some segres1 =>
        some { pool1 with
               Segments := pool1.Segments.set segid
                 { segres1 with
                   Allocated := { MemoryMB := 0, Core := 0 },
                   Available := { MemoryMB := 0, Core := 0 },
                   GRMContainerCount := 0 } }

/-- `dropAllResPoolGRMContainersToToBeKicked`, as far as it changes the pool: the calls
`minusResourceFromResourceManagerByBundle` and the reset of `TotalPending` change only
the queue manager. -/
def dropAllResPoolGRMContainersToToBeKicked (g : RMGlobals) (ratios : List Int)
    (pool : ResourcePool) : Option ResourcePool :=
  (List.range pool.SegmentIDCounter).foldl
    (fun acc idx => acc.bind fun p => dropAllGRMContainersFromSegment g ratios p idx)
    (some pool)

/-- The loop `while (ctns->Containers != NULL)` of `returnAllGRMResourceFromSegment` for
the container set of ratio index `i` of the segment `segid`: each pass pops the first
container, hands it to `addGRMContainerToKicked` and takes its resource from the
counters of the segment.  The first argument bounds the number of passes. -/
def popAllToKicked (segid i : Nat) : Nat → ResourcePool → Option ResourcePool
  | 0, pool => some pool
  | n + 1, pool =>
    match getSegResource pool.Segments segid with
    | none => none
    | some segres =>
      match segres.ContainerSets.getD i none with
      | none => none
      | some ctns =>
        match popGRMContainerSetContainerList ctns with
        | (none, _) => some pool
        | (some ctn, ctns1) =>
          popAllToKicked segid i n
            (addGRMContainerToKicked
              { pool with
                Segments := pool.Segments.set segid
                  { segres with
                    ContainerSets := segres.ContainerSets.set i (some ctns1),
                    Allocated := minusResourceBundleData segres.Allocated ctn.MemoryMB ctn.Core,
                    Available :=
                      minusResourceBundleData segres.Available ctn.MemoryMB ctn.Core } }
              ctn)

/-- One pass of the loop over the ratio indices of `returnAllGRMResourceFromSegment`. -/
def returnAllOfRatio (g : RMGlobals) (segid : Nat) (pool : ResourcePool) (i : Nat)
    (ratio : Int) : Option ResourcePool :=
  match getSegResource pool.Segments segid with
  | none => none
  | some segres =>
    match segres.ContainerSets.getD i none with
    | none => some pool
    | some ctns =>
      match popAllToKicked segid i ctns.Containers.length pool with
      | none => none
      | some pool1 => reorderAllocIndexByRatio g segid pool1 ratio.toNat

/-- `returnAllGRMResourceFromSegment` for the segment `segid`; `none` is the dereference
of a `NULL` pointer or the failure of `Assert(segres->Allocated.MemoryMB == 0)` or
`Assert(segres->Allocated.Core == 0.0)`. -/
def returnAllGRMResourceFromSegment (g : RMGlobals) (ratios : List Int) (pool : ResourcePool)
    (segid : Nat) : Option ResourcePool :=
  match (List.range ratios.length).foldl
      (fun acc i => acc.bind fun p => returnAllOfRatio g segid p i (ratios.getD i 0))
      (some pool) with
  | none => none
  | some pool1 =>
    match getSegResource pool1.Segments segid with
    | none => none
    | some segres1 =>
      if segres1.Allocated.MemoryMB = 0 ∧ segres1.Allocated.Core = 0 then
        some { pool1 with
               Segments := pool1.Segments.set segid { segres1 with GRMContainerCount := 0 } }
      else none

/-- The table `stattbl` of `checkGRMContainerStatus`: from the container id to
`isActive`, built from the reported `(ContainerID, isActive)` pairs. -/
def containerStatusTable (ctnstats : List (Nat × Bool)) : List (Nat × Bool) :=
  ctnstats.foldl (fun tbl s => hashtableSet tbl s.1 s.2) []

/-- The loop `while( cell != NULL )` of `checkGRMContainerStatus` over the containers of
the set of ratio index `ridx` on the segment `segid`: the cells still to visit, and the
containers `kept` so far, which precede them in the list of the set.  A container that
the table does not hold or holds as not active leaves the set and the counters of the
set and of the segment, the allocation index of `ratio`
(`PQUEMGR->RatioReverseIndex[ridx]`) is reordered and the container goes to
`addGRMContainerToToBeKicked`.  The call `minusResourceFromReourceManager` changes only
the queue manager, and the flag `isFound` only the report.  `none` is the dereference
of a `NULL` pointer. -/
def checkContainerCells (g : RMGlobals) (stattbl : List (Nat × Bool)) (segid ridx : Nat)
    (ratio : Int) : List GRMContainer → List GRMContainer → ResourcePool → Option ResourcePool
  | [], _, pool => some pool
  | ctn :: rest, kept, pool =>
    if stattbl.lookup ctn.ID = some true then
      checkContainerCells g stattbl segid ridx ratio rest (kept ++ [ctn]) pool
    else
      match getSegResource pool.Segments segid with
      | none => none
      | some segres =>
        match segres.ContainerSets.getD ridx none with
        | none => none
        | some ctnset =>
          let segres1 : SegResource :=
            { segres with
              ContainerSets := segres.ContainerSets.set ridx
                (some { Containers := kept ++ rest,
                        Allocated :=
                          minusResourceBundleData ctnset.Allocated ctn.MemoryMB ctn.Core,
                        Available :=
                          minusResourceBundleData ctnset.Available ctn.MemoryMB ctn.Core }),
              Allocated := minusResourceBundleData segres.Allocated ctn.MemoryMB ctn.Core,
              Available := minusResourceBundleData segres.Available ctn.MemoryMB ctn.Core }
          match reorderAllocIndexByRatio g segid
              { pool with Segments := pool.Segments.set segid segres1 } ratio.toNat with
          | none => none
          | some pool1 =>
            checkContainerCells g stattbl segid ridx ratio rest kept
              (addGRMContainerToToBeKicked pool1 segid ctn)

/-- One pass of the loop `for( int ridx = 0 ; ridx < PQUEMGR->RatioCount ; ++ridx )` of
`checkGRMContainerStatus`. -/
def checkContainerSet (g : RMGlobals) (stattbl : List (Nat × Bool)) (ratios : List Int)
    (segid : Nat) (pool : ResourcePool) (ridx : Nat) : Option ResourcePool :=
  match getSegResource pool.Segments segid with
  | none => none
  | some segres =>
    match segres.ContainerSets.getD ridx none with
    | none => some pool
    | some ctnset =>
      checkContainerCells g stattbl segid ridx (ratios.getD ridx 0) ctnset.Containers [] pool

/-- `checkGRMContainerStatus`, as far as it changes the pool; `ctnstats` are the pairs
`(ContainerID, isActive)` of the report and `ratios` the ratios
`PQUEMGR->RatioReverseIndex[i]` for `i < PQUEMGR->RatioCount`.  `none` is the failure of
`Assert(segres != NULL)` or the dereference of a `NULL` pointer. -/
def checkGRMContainerStatus (g : RMGlobals) (ratios : List Int) (ctnstats : List (Nat × Bool))
    (pool : ResourcePool) : Option ResourcePool :=
  (List.range pool.SegmentIDCounter).foldl
    (fun acc i => acc.bind fun p =>
      match getSegResource p.Segments i with
      | none => none
      | some _ =>
        (List.range ratios.length).foldl
          (fun acc1 ridx => acc1.bind fun p1 =>
            checkContainerSet g (containerStatusTable ctnstats) ratios i p1 ridx)
          (some p))
    (some pool)

/-! ## Observations on the stages of the containers -/

/-- The stages of a container in the pool. -/
inductive Stage
  | toAccept
  | accepted
  | inPool
  | toKick
  | kicked
  deriving DecidableEq, Repr

/-- The ids of the containers of a list. -/
def containerIDs (l : List GRMContainer) : List Nat := l.map fun c => c.ID

/-- The ids of the containers held by the sets of a table keyed by host name. -/
def tableContainerIDs (tbl : List (String × GRMContainerSet)) : List Nat :=
  tbl.flatMap fun e => containerIDs e.2.Containers

/-- The ids of the containers held by the container sets of a segment. -/
def segmentContainerIDs (r : SegResource) : List Nat :=
  r.ContainerSets.flatMap fun o =>
    match o with
    | some s => containerIDs s.Containers
    | none => []

/-- The ids of the containers in a stage: `ToAcceptContainers`, `AcceptedContainers`,
the container sets of the segments, `ToKickContainers`, `KickedContainers`. -/
def stageIDs : Stage → ResourcePool → List Nat
  | Stage.toAccept, pool => tableContainerIDs pool.ToAcceptContainers
  | Stage.accepted, pool => containerIDs pool.AcceptedContainers
  | Stage.inPool, pool => pool.Segments.flatMap segmentContainerIDs
  | Stage.toKick, pool => tableContainerIDs pool.ToKickContainers
  | Stage.kicked, pool => containerIDs pool.KickedContainers

/-- From the pool `p` to the pool `q` containers have moved only from the stage `s` to
the stage `d`: every container of a stage of `q` was in the same stage of `p`, or the
stage is `d` and the container was in the stage `s` of `p`. -/
def Moves (s d : Stage) (p q : ResourcePool) : Prop :=
  ∀ (t : Stage) (id : Nat), id ∈ stageIDs t q → id ∈ stageIDs t p ∨ (t = d ∧ id ∈ stageIDs s p)

/-- The operations on the pool that move containers between the stages. -/
inductive PoolOperation
  | toBeAccepted (ctn : GRMContainer)
  | notifyToBeAccepted
  | moveAllAccepted
  | timeoutIdle (trackers : List (Option DynMemoryCoreRatioTrack)) (ratioindex retcontnum : Nat)
      (segminnum : Int)
  | checkStatus (ctnstats : List (Nat × Bool))
  | dropAllFromSegment (segid : Nat)
  | dropAllResPool
  | notifyToBeKicked
  | returnAllFromSegment (segid : Nat)
  | dropAllToAccept

/-- The pool that an operation leaves: `addGRMContainerToToBeAccepted`,
`notifyToBeAcceptedGRMContainersToRMSEG`, `moveAllAcceptedGRMContainersToResPool`,
`timeoutIdleGRMResourceToRBByRatio`, `checkGRMContainerStatus`,
`dropAllGRMContainersFromSegment`, `dropAllResPoolGRMContainersToToBeKicked`,
`notifyToBeKickedGRMContainersToRMSEG`, `returnAllGRMResourceFromSegment` and
`dropAllToAcceptGRMContainersToKicked`. -/
def runPoolOperation (g : RMGlobals) (ratios : List Int) :
    PoolOperation → ResourcePool → Option ResourcePool
  | PoolOperation.toBeAccepted ctn, pool =>
    (addGRMContainerToToBeAccepted pool ctn).map fun r => r.2
  | PoolOperation.notifyToBeAccepted, pool => notifyToBeAcceptedGRMContainersToRMSEG pool
  | PoolOperation.moveAllAccepted, pool => moveAllAcceptedGRMContainersToResPool g pool
  | PoolOperation.timeoutIdle trackers ratioindex retcontnum segminnum, pool =>
    (timeoutIdleGRMResourceToRBByRatio g trackers pool ratioindex retcontnum segminnum).map
      fun r => r.1
  | PoolOperation.checkStatus ctnstats, pool => checkGRMContainerStatus g ratios ctnstats pool
  | PoolOperation.dropAllFromSegment segid, pool =>
    dropAllGRMContainersFromSegment g ratios pool segid
  | PoolOperation.dropAllResPool, pool => dropAllResPoolGRMContainersToToBeKicked g ratios pool
  | PoolOperation.notifyToBeKicked, pool => notifyToBeKickedGRMContainersToRMSEG pool
  | PoolOperation.returnAllFromSegment segid, pool =>
    returnAllGRMResourceFromSegment g ratios pool segid
  | PoolOperation.dropAllToAccept, pool => dropAllToAcceptGRMContainersToKicked pool

/-! ## The counters of the container sets -/

/-- The sum of the memory of the containers of a list. -/
def containersMemory (l : List GRMContainer) : Int := (l.map fun c => c.MemoryMB).sum

/-- The counters of a container set agree with its list: `Allocated.MemoryMB` is the
sum of the memory of the containers, and `Available.MemoryMB` is no more. -/
def ContainerSetInv (ctns : GRMContainerSet) : Prop :=
  ctns.Allocated.MemoryMB = containersMemory ctns.Containers ∧
  ctns.Available.MemoryMB ≤ ctns.Allocated.MemoryMB

/-- `ContainerSetInv` for an entry of the array `ContainerSets`. -/
def ContainerSetEntryInv : Option GRMContainerSet → Prop
  | some ctns => ContainerSetInv ctns
  | none => True

/-- The value of an integer counter of an entry of `ContainerSets`, 0 for `NULL`. -/
def entryMemory (f : GRMContainerSet → Int) : Option GRMContainerSet → Int
  | some s => f s
  | none => 0

/-- The value of a core counter of an entry of `ContainerSets`, 0 for `NULL`. -/
def entryCore (f : GRMContainerSet → ℚ) : Option GRMContainerSet → ℚ
  | some s => f s
  | none => 0

/-- The sum over the container sets of an integer counter. -/
def setsMemory (f : GRMContainerSet → Int) (sets : List (Option GRMContainerSet)) : Int :=
  (sets.map (entryMemory f)).sum

/-- The sum over the container sets of a core counter. -/
def setsCore (f : GRMContainerSet → ℚ) (sets : List (Option GRMContainerSet)) : ℚ :=
  (sets.map (entryCore f)).sum

/-- The counters of a segment agree with its container sets: every set satisfies
`ContainerSetInv`, and `Allocated` and `Available` of the segment are the sums of those
of the sets. -/
def SegResourceInv (r : SegResource) : Prop :=
  (∀ o ∈ r.ContainerSets, ContainerSetEntryInv o) ∧
  r.Allocated.MemoryMB = setsMemory (fun s => s.Allocated.MemoryMB) r.ContainerSets ∧
  r.Allocated.Core = setsCore (fun s => s.Allocated.Core) r.ContainerSets ∧
  r.Available.MemoryMB = setsMemory (fun s => s.Available.MemoryMB) r.ContainerSets ∧
  r.Available.Core = setsCore (fun s => s.Available.Core) r.ContainerSets

/-- Every segment of the pool satisfies `SegResourceInv`. -/
def PoolInv (pool : ResourcePool) : Prop := ∀ r ∈ pool.Segments, SegResourceInv r

instance (ctns : GRMContainerSet) : Decidable (ContainerSetInv ctns) :=
  inferInstanceAs (Decidable
    (ctns.Allocated.MemoryMB = containersMemory ctns.Containers ∧
     ctns.Available.MemoryMB ≤ ctns.Allocated.MemoryMB))

instance : (o : Option GRMContainerSet) → Decidable (ContainerSetEntryInv o)
  | some ctns => inferInstanceAs (Decidable (ContainerSetInv ctns))
  | none => isTrue trivial

instance (r : SegResource) : Decidable (SegResourceInv r) :=
  inferInstanceAs (Decidable
    ((∀ o ∈ r.ContainerSets, ContainerSetEntryInv o) ∧
     r.Allocated.MemoryMB = setsMemory (fun s => s.Allocated.MemoryMB) r.ContainerSets ∧
     r.Allocated.Core = setsCore (fun s => s.Allocated.Core) r.ContainerSets ∧
     r.Available.MemoryMB = setsMemory (fun s => s.Available.MemoryMB) r.ContainerSets ∧
     r.Available.Core = setsCore (fun s => s.Available.Core) r.ContainerSets))

instance (pool : ResourcePool) : Decidable (PoolInv pool) :=
  inferInstanceAs (Decidable (∀ r ∈ pool.Segments, SegResourceInv r))

/-- The pool after `checkGRMContainerStatus` has taken the container `ctn` out of the
set `ctnset` of ratio index `ridx` on the segment `segid`, the containers `kept` before
it and `rest` after it staying, with the allocation indices `trees`. -/
def poolAfterCheckRemoval (pool : ResourcePool) (segid ridx : Nat) (segres : SegResource)
    (ctnset : GRMContainerSet) (kept rest : List GRMContainer) (ctn : GRMContainer)
    (trees : List (Option (List Nat))) : ResourcePool :=
  addGRMContainerToToBeKicked
    { pool with
      Segments := pool.Segments.set segid
        { segres with
          ContainerSets := segres.ContainerSets.set ridx
            (some { Containers := kept ++ rest,
                    Allocated := minusResourceBundleData ctnset.Allocated ctn.MemoryMB ctn.Core,
                    Available :=
                      minusResourceBundleData ctnset.Available ctn.MemoryMB ctn.Core }),
          Allocated := minusResourceBundleData segres.Allocated ctn.MemoryMB ctn.Core,
          Available := minusResourceBundleData segres.Available ctn.MemoryMB ctn.Core },
      OrderedSegResAllocByRatio := trees }
    segid ctn

/-- The pool and the count that `timeoutIdleGRMResourceToRBByRatio` leaves from
`exBreathPool` when asked for 4 containers of ratio index 0 with 2 to stay per
segment. -/
def exBreathReturned : ResourcePool × Nat :=
  (timeoutIdleGRMResourceToRBByRatio exBreathGlobals [some { MemCoreRatio := 1024 }]
    exBreathPool 0 4 2).getD (exBreathPool, 0)

/-! ## Example inputs for the stages of the containers -/

/-- A container of 1024 MB and 1 core on the host `h9`, which no index knows. -/
def exUnknownHostContainer : GRMContainer :=
  { ID := 7, MemoryMB := 1024, Core := 1, HostName := "h9" }

/-- The pool `exBreathPool` after a container of its segment 0 has been handed to
`addGRMContainerToToBeAccepted`. -/
def exToAcceptPool : ResourcePool :=
  ((addGRMContainerToToBeAccepted exBreathPool
    { ID := 8, MemoryMB := 1024, Core := 1, HostName := "h0", Resource := some 0 }).map
      fun r => r.2).getD exBreathPool

/-- The pool `exBreathPool` with its two segments counted in `SegmentIDCounter`. -/
def exCountedPool : ResourcePool := { exBreathPool with SegmentIDCounter := 2 }

/-- The pool that `checkGRMContainerStatus` leaves from `exCountedPool` when the report
holds the containers 0 and 1 as active and the container 2 as not active. -/
def exCheckedPool : ResourcePool :=
  (checkGRMContainerStatus exBreathGlobals [1024] [(0, true), (1, true), (2, false)]
    exCountedPool).getD exCountedPool

/-! ## The distribution of the resource of a ratio among its queues (`dispatchResourceToQueries`) -/

/-- The variables of STEP 2 of `dispatchResourceToQueries` for one ratio tracker: the
queue manager, the `uint32_t` variables `availmemory`, `totalmemoryweight` and
`leftmemory2`, `availcore`, the queue `toallocqueues`, and whether every `Assert` passed so
far has held. -/
structure DistributeState where
  qm : QueueManager
  availmemory : Int
  availcore : ℚ
  totalmemoryweight : Int
  leftmemory2 : Int
  toallocqueues : List Nat
  asserted : Bool
  deriving DecidableEq, Repr

/-- The test `actweight > expweight` of the first loop of the distribution, with
`expweight = 1.0 * ClusterMemoryMB / mctrack->ClusterMemory` and `actweight =
allmemory == 0 ? 0 : 1.0 * TotalUsed.MemoryMB / allmemory`.  The division of doubles
does not trap: for `mctrack->ClusterMemory = 0` the value of `expweight` is `+inf`, a NaN
or `-inf` as `ClusterMemoryMB` is positive, 0 or negative, and the finite `actweight`
compares greater only with `-inf`. -/
def usesMoreThanWeight (mctrack : DynMemoryCoreRatioTrack) (allmemory : Int)
    (track : DynResourceQueueTrack) : Bool :=
  if mctrack.ClusterMemory = 0 then decide (track.QueueInfo.ClusterMemoryMB < 0)
  else
    let expweight : ℚ := 1 * (track.QueueInfo.ClusterMemoryMB : ℚ) / (mctrack.ClusterMemory : ℚ)
    let actweight : ℚ :=
      if allmemory = 0 then 0 else 1 * (track.TotalUsed.MemoryMB : ℚ) / (allmemory : ℚ)
    decide (actweight > expweight)

/-- One pass of the loop `foreach(cell, mctrack->QueueTrackers)` that counts out the
queues that use more than their weight; `allmemory` is the `uint32_t` value of
`mctrack->TotalAllocated.MemoryMB`.  `none` is a missing tracker. -/
def classifyQueue (mctrack : DynMemoryCoreRatioTrack) (allmemory : Int) (st : DistributeState)
    (tid : Nat) : Option DistributeState :=
  match getTrackByID st.qm tid with
  | none => none
  | some track =>
    let qm1 := updateTrack st.qm tid fun t => { t with expectMoreResource := false }
    if !track.isBusy then some { st with qm := qm1 }
    else
      if usesMoreThanWeight mctrack allmemory track then
        some { st with
               qm := updateTrack qm1 tid fun t =>
                 { t with
                   TotalAllocated :=
                     { MemoryMB := t.TotalUsed.MemoryMB, Core := t.TotalUsed.Core },
                   pauseAllocation := true },
               availmemory := toUInt32 (st.availmemory - track.TotalUsed.MemoryMB),
               availcore := st.availcore - track.TotalUsed.Core }
      else
        some { st with
               qm := updateTrack qm1 tid fun t => { t with pauseAllocation := false },
               toallocqueues := st.toallocqueues ++ [tid],
               totalmemoryweight :=
                 toUInt32 (st.totalmemoryweight + track.QueueInfo.ClusterMemoryMB) }

/-- One pass of the loop `DQUEUE_LOOP_BEGIN(&toallocqueues, ...)` that gives each queue
its share of `availmemory`: CASE 1 gives what the queue can use, CASE 2 the share of
its weight.  The sum `TotalUsed.MemoryMB + TotalRequest.MemoryMB` and its comparison
with `ClusterMemoryMaxMB` are taken over the integers.  The last `Assert` of the pass is
recorded in `asserted`.  The division of doubles does not trap: for `availmemory = 0`
the value of `actweight2 = 1.0 * potentialmemuse / availmemory` is `+inf` or a NaN, the
test `actweight2 < expweight` fails, and CASE 2 gives `trunc(expweight * 0) = 0` MB and
`0 / MemCoreRatio = 0` cores.  `none` is a missing tracker, or `totalmemoryweight = 0`
or `MemCoreRatio = 0`, for which an infinity or a NaN would be stored or converted to
`uint32_t`. -/
def shareQueue (st : DistributeState) (tid : Nat) : Option DistributeState :=
  match getTrackByID st.qm tid with
  | none => none
  | some track =>
    if st.totalmemoryweight = 0 ∨ track.MemCoreRatio = 0 then none
    else
      let expweight : ℚ :=
        1 * (track.QueueInfo.ClusterMemoryMB : ℚ) / (st.totalmemoryweight : ℚ)
      let potentialmemuse : Int :=
        toUInt32
          (if track.TotalUsed.MemoryMB + track.TotalRequest.MemoryMB > track.ClusterMemoryMaxMB
           then track.ClusterMemoryMaxMB
           else track.TotalUsed.MemoryMB + track.TotalRequest.MemoryMB)
      let actweight2 : ℚ := 1 * (potentialmemuse : ℚ) / (st.availmemory : ℚ)
      let allocated : ResourceBundle × Bool × Int :=
        if st.availmemory ≠ 0 ∧ actweight2 < expweight then
          ({ MemoryMB := toInt32 potentialmemuse,
             Core := 1 * (potentialmemuse : ℚ) / (track.MemCoreRatio : ℚ) },
           track.expectMoreResource, potentialmemuse)
        else
          let allocmemory : Int := toUInt32 (ctrunc (expweight * (st.availmemory : ℚ)))
          ({ MemoryMB := toInt32 allocmemory,
             Core := 1 * (st.availmemory : ℚ) / (track.MemCoreRatio : ℚ) },
           true, allocmemory)
      some { st with
             qm := updateTrack st.qm tid fun t =>
               { t with TotalAllocated := allocated.1, expectMoreResource := allocated.2.1 },
             leftmemory2 := toUInt32 (st.leftmemory2 - allocated.2.2),
             asserted := st.asserted &&
               decide (allocated.1.MemoryMB ≥ track.TotalUsed.MemoryMB ∧
                       allocated.1.Core ≥ track.TotalUsed.Core) }

/-- The loop `for ( int cq = 0 ; cq < list_length(mctrack->QueueTrackers) ; ++cq )` that
gives the left memory to the first queue, from the position `idx`, that expects more
resource; the first argument is the number of passes left.  The result holds the value
of `mctrack->QueueIndexForLeftResource` at the end of the loop.  `none` is a missing
tracker or `MemCoreRatio = 0`, for which the core given would be an infinity or a NaN. -/
def giveLeftLoop (queuetrackers : List Nat) :
    Nat → Nat → DistributeState → Option (Nat × DistributeState)
  | 0, idx, st => some (idx, st)
  | n + 1, idx, st =>
    match queuetrackers[idx]? with
    | none => none
    | some tid =>
      match getTrackByID st.qm tid with
      | none => none
      | some q =>
        if q.expectMoreResource then
          if q.MemCoreRatio = 0 then none
          else if toUInt32 (st.leftmemory2 + q.TotalAllocated.MemoryMB) ≤
              toUInt32 q.ClusterMemoryMaxMB then
            some (idx,
              { st with
                qm := updateTrack st.qm tid fun t =>
                  { t with
                    TotalAllocated := addResourceBundleData t.TotalAllocated
                      (toInt32 st.leftmemory2)
                      (1 * (st.leftmemory2 : ℚ) / (q.MemCoreRatio : ℚ)) },
                leftmemory2 := 0 })
          else
            let memorydelta : Int := toUInt32 (q.ClusterMemoryMaxMB - q.TotalAllocated.MemoryMB)
            some (idx,
              { st with
                qm := updateTrack st.qm tid fun t =>
                  { t with
                    TotalAllocated := addResourceBundleData t.TotalAllocated
                      (toInt32 memorydelta)
                      (1 * (memorydelta : ℚ) / (q.MemCoreRatio : ℚ)) },
                leftmemory2 := toUInt32 (st.leftmemory2 - memorydelta) })
        else
          giveLeftLoop queuetrackers n (if idx + 1 < queuetrackers.length then idx + 1 else 0) st

/-- The part "Decide left resource" of `dispatchResourceToQueries`: the tracker of the
ratio, with its `QueueIndexForLeftResource`, and the state left. -/
def giveLeftResource (mctrack : DynMemoryCoreRatioTrack) (st : DistributeState) :
    Option (DynMemoryCoreRatioTrack × DistributeState) :=
  if mctrack.QueueTrackers.length > 0 ∧ st.leftmemory2 > 0 then
    let start : Nat :=
      if mctrack.QueueIndexForLeftResource ≥ (mctrack.QueueTrackers.length : Int) then 0
      else mctrack.QueueIndexForLeftResource.toNat
    match giveLeftLoop mctrack.QueueTrackers mctrack.QueueTrackers.length start st with
    | none => none
    | some (idx, st1) =>
      some ({ mctrack with QueueIndexForLeftResource := (idx : Int) + 1 }, st1)
  else some (mctrack, st)

/-- STEP 2 of `dispatchResourceToQueries` for the ratio index `i`, up to the comment
"Dispatch resource to queries": the queue manager left, the queue `toallocqueues`, and
whether every `Assert` on the way has held.  `none` is a `NULL` tracker, or a sum of
weights or a `MemCoreRatio` of 0 where a queue is given its share (an infinity or a NaN
would be stored); the other divisions of doubles by 0 are modelled, see `classifyQueue`
and `shareQueue`. -/
def distributeResourceToQueues (qm : QueueManager) (i : Nat) :
    Option (QueueManager × List Nat × Bool) :=
  match qm.RatioTrackers.getD i none with
  | none => none
  | some mctrack =>
    if (mctrack.ClusterMemoryMaxMB = 0 ∨ mctrack.ClusterVCoreMax = 0) ∨
       (mctrack.TotalAllocated.MemoryMB = 0 ∧ mctrack.TotalAllocated.Core = 0) then
      some (qm, [], true)
    else
      let allmemory : Int := toUInt32 mctrack.TotalAllocated.MemoryMB
      let st0 : DistributeState :=
        { qm := qm, availmemory := allmemory, availcore := mctrack.TotalAllocated.Core,
          totalmemoryweight := 0, leftmemory2 := 0, toallocqueues := [], asserted := true }
      match mctrack.QueueTrackers.foldl
          (fun acc tid => acc.bind fun st => classifyQueue mctrack allmemory st tid)
          (some st0) with
      | none => none
      | some st1 =>
        match st1.toallocqueues.foldl (fun acc tid => acc.bind fun st => shareQueue st tid)
            (some { st1 with leftmemory2 := st1.availmemory }) with
        | none => none
        | some st2 =>
          match giveLeftResource mctrack st2 with
          | none => none
          | some (mctrack1, st3) =>
            some ({ st3.qm with RatioTrackers := st3.qm.RatioTrackers.set i (some mctrack1) },
                  st3.toallocqueues, st3.asserted)

/-! ## Example inputs for the distribution of resource -/

/-- A busy queue of the ratio 1 with the capacity 30 MB, the maximum 90 MB, `used` MB
in use and `request` MB requested. -/
def exBusyQueue (tid : Nat) (used request : Int) : DynResourceQueueTrack :=
  { createDynResourceQueueTrack tid { zeroQueue with OID := tid, ClusterMemoryMB := 30 } with
    isBusy := true, MemCoreRatio := 1, RatioIndex := 0, ClusterMemoryMaxMB := 90,
    ClusterVCoreMax := 90, TotalRequest := { MemoryMB := request, Core := request },
    TotalUsed := { MemoryMB := used, Core := used },
    TotalAllocated := { MemoryMB := used, Core := used } }

/-- Three busy queues of one ratio that has 90 MB allocated: they use 50, 29 and 11 MB,
and the second and the third request 20 and 50 MB more. -/
def exDistributeManager : QueueManager :=
  { Queues := [exBusyQueue 1 50 0, exBusyQueue 2 29 20, exBusyQueue 3 11 50],
    QueuesIDIndex := [(1, 1), (2, 2), (3, 3)], RatioCount := 1, RatioIndex := [(1, 0)],
    RatioReverseIndex := [1], RatioReferenceCounter := [3],
    RatioTrackers :=
      [some { MemCoreRatio := 1, RatioIndex := 0, ClusterMemory := 90, ClusterVCore := 90,
              ClusterMemoryMaxMB := 90, ClusterVCoreMax := 90, QueueTrackers := [1, 2, 3],
              TotalAllocated := { MemoryMB := 90, Core := 90 },
              TotalUsed := { MemoryMB := 90, Core := 90 } }] }

/-- The queue manager that the distribution leaves from `exDistributeManager`. -/
def exDistributed : QueueManager × List Nat × Bool :=
  (distributeResourceToQueues exDistributeManager 0).getD (exDistributeManager, [], true)

/-! ## The LRU map of libyarn (`LruMap`) -/

/-- The class `LruMap<K, V>`: `count`, `size`, the list of items and the map from keys
to list iterators.  A list node carries an identifier, which stands for its address:
an iterator is the identifier of the node it points to, and `fresh` is the identifier
that the next `push_front` gives to its node. -/
structure LruMap (K V : Type) where
  count : Nat
  size : Nat
  list : List (Nat × K × V)
  map : List (K × Nat)
  fresh : Nat := 0
  deriving DecidableEq, Repr

/-- The constructor `LruMap(size_t size)`. -/
def LruMap.new {K V : Type} (size : Nat) : LruMap K V :=
  { count := 0, size := size, list := [], map := [], fresh := 0 }

/-- The statement `list.erase(it)` for the iterator `it`. -/
def LruMap.listErase {K V : Type} (list : List (Nat × K × V)) (it : Nat) : List (Nat × K × V) :=
  list.filter fun node => node.1 ≠ it

/-- The member `insert`; `count` is a `size_t`.  `none` is `list.back()` on an empty
list. -/
def LruMap.insert {K V : Type} [DecidableEq K] (m : LruMap K V) (key : K) (value : V) :
    Option (LruMap K V) :=
  let m1 : LruMap K V :=
    match m.map.lookup key with
    | some it =>
      { m with count := (m.count + 18446744073709551615) % 18446744073709551616,
               list := LruMap.listErase m.list it }
    | none => m
  let m2 : LruMap K V :=
    { m1 with
      list := (m1.fresh, key, value) :: m1.list,
      map := hashtableSet m1.map key m1.fresh,
      count := (m1.count + 1) % 18446744073709551616,
      fresh := m1.fresh + 1 }
  if m2.count > m2.size then
    match m2.list.getLast? with
    | none => none
    | some back =>
      some { m2 with map := hashtableRemove m2.map back.2.1, list := m2.list.dropLast }
  else some m2

/-- The member `erase`. -/
def LruMap.erase {K V : Type} [DecidableEq K] (m : LruMap K V) (key : K) : LruMap K V :=
  match m.map.lookup key with
  | some it =>
    { m with
      list := LruMap.listErase m.list it,
      map := hashtableRemove m.map key,
      count := (m.count + 18446744073709551615) % 18446744073709551616 }
  | none => m

/-- The member `find`: the result, the value left in `value` when the result is true,
and the map left.  `none` is the dereference of an iterator that points to no node of
the list. -/
def LruMap.find {K V : Type} [DecidableEq K] (m : LruMap K V) (key : K) :
    Option (Bool × Option V × LruMap K V) :=
  match m.map.lookup key with
  | some it =>
    match m.list.find? fun node => node.1 == it with
    | none => none
    | some node =>
      some (true, some node.2.2,
        { m with
          list := (m.fresh, node.2) :: LruMap.listErase m.list it,
          map := hashtableSet m.map key m.fresh,
          fresh := m.fresh + 1 })
  | none => some (false, none, m)

/-! ## Example inputs for the LRU map -/

/-- A map of capacity 1 after `insert(1, 10)`, `insert(2, 20)` and `erase(2)`. -/
def exLruErased : LruMap Nat Nat :=
  ((((LruMap.new 1 : LruMap Nat Nat).insert 1 10).bind fun m => m.insert 2 20).map
    fun m => m.erase 2).getD (LruMap.new 1)

/-- The map `exLruErased` after `insert(3, 30)`. -/
def exLruInserted : LruMap Nat Nat := (exLruErased.insert 3 30).getD exLruErased

/-- A leaf queue of 4096 MB and 4 cores at most whose deadlock detector knows no
session. -/
def exStuckTrack : DynResourceQueueTrack :=
  { exTrack with ClusterMemoryMaxMB := 4096, ClusterVCoreMax := 4, DLDetector := {} }

/-- A waiting request of the session 1 for 3 segments of 2048 MB and 1 core at least:
6144 MB, more than the maximum of `exStuckTrack`, and 3 cores, less than its maximum. -/
def exBigRequest : ConnectionTrack := { exWaiting 7 1 3 with SegMemoryMB := 2048 }

/-- The request `CREATE qn` with `parent=pg_root` and 20% of memory and cores on
`exTree`, with a catalog whose statements succeed and whose insert assigns OID 10. -/
def exCreatedQn : ResultCode × QueueManager :=
  (handleRMDDLRequestManipulateResourceQueue exOps exDefaults exSystemOids exCatalogOk 100
    exTree ManipulateAction.CREATE "qn".toList
    (exAttrs [("parent", "pg_root"), ("memory_limit_cluster", "20%"),
              ("core_limit_cluster", "20%")])).getD (FUNC_RETURN_FAIL, exEmptyManager)

/-- The request `DROP qn` that follows `exCreatedQn`. -/
def exDroppedQn : ResultCode × QueueManager :=
  (handleRMDDLRequestManipulateResourceQueue exOps exDefaults exSystemOids exCatalogOk 100
    exCreatedQn.2 ManipulateAction.DROP "qn".toList []).getD (FUNC_RETURN_FAIL, exEmptyManager)

/-! ## Example inputs for the segment numbers of the leaves -/

/-- The tree of `pg_root` (Branch, 100%), `pg_default` (50%) and the leaf `qv` expressed
by 8192 MB and 8 cores, built by `createQueueAndTrack`. -/
def exValueLeafTree : QueueManager :=
  (createQueueAndTrack exRootAndDefault (exValueQueue 3 1 "qv".toList 8192 8)).2.1

/-- The tree of `pg_root` (Branch, 100%) and the leaf `pg_default` expressed by 100% with
the upper factor 1, built by `createQueueAndTrack`. -/
def exUnitFactorTree : QueueManager :=
  (createQueueAndTrack
    (createQueueAndTrack exEmptyManager
      (exPercentQueue 1 0 "pg_root".toList 100 true false false)).2.1
    { exPercentQueue 2 1 "pg_default".toList 100 false true true with
      ResourceUpperFactor := 1 }).2.1

/-- The tree that `refreshResourceQueuePercentageCapacityInternal` leaves from
`exValueLeafTree` for a cluster of 16384 MB and 16 cores. -/
def exValueLeafRefreshed : QueueManager :=
  (refreshResourceQueuePercentageCapacityInternal exValueLeafTree 16384 16).getD exEmptyManager

/-- The tree that `refreshResourceQueuePercentageCapacityInternal` leaves from
`exUnitFactorTree` for a cluster of 1024 MB and 3 cores. -/
def exUnitFactorRefreshed : QueueManager :=
  (refreshResourceQueuePercentageCapacityInternal exUnitFactorTree 1024 3).getD exEmptyManager

/-! ## Example inputs for the return of old resource -/

/-- The pool that `dropAllGRMContainersFromSegment` leaves from `exBreathPool` for its
segment 0, which has 3 of its 4 containers of 1024 MB and 1 core in use. -/
def exDroppedPool : ResourcePool :=
  (dropAllGRMContainersFromSegment exBreathGlobals [1024] exBreathPool 0).getD exBreathPool

/-- The host list of an allocation that holds 3 vsegs on the segment 0. -/
def exThreeVSegs : List VSegmentCounterInternal :=
  [{ createVSegmentCounter 0 0 with VSegmentCount := 3 }]

/-! ## Dispatch to the queued requests (`dispatchResourceToQueries_EVEN`) -/

/-- Modelled from the spec: `addSessionInUseResource` of the deadlock detector (declared
outside `src/`), "called on allocation", adds the resource to what the session has in
use; a session without a tracker gets one, not locked. -/
def addSessionInUseResource (detector : ResqueueDeadLockDetector) (sessionid : Int)
    (memorymb : Int) (core : ℚ) : ResqueueDeadLockDetector :=
  match findSession detector sessionid with
  | none =>
    { detector with
      Sessions := detector.Sessions ++
        [{ SessionID := sessionid, InUseTotalMemoryMB := memorymb, InUseTotalCore := core,
           Locked := false }] }
  | some _ =>
    { detector with
      Sessions := detector.Sessions.map fun s =>
        if s.SessionID = sessionid then
          { s with InUseTotalMemoryMB := s.InUseTotalMemoryMB + memorymb,
                   InUseTotalCore := s.InUseTotalCore + core }
        else s }

/-- The first loop of `dispatchResourceToQueries_EVEN` over the requests of the FIFO
from the head: the value of `counter` when the loop is left.  The `int` variables are
integers (their sums stay far below `2^31` for the values of a queue). -/
def countToDispatch (track : DynResourceQueueTrack) (availsegnum : Int) :
    List ConnectionTrack → Nat → Int → Nat
  | [], counter, _ => counter
  | conntrack :: rest, counter, segmincounter =>
    if (counter : Int) + track.NumOfRunningQueries ≥ track.QueueInfo.ParallelCount then counter
    else if segmincounter + conntrack.SegNumMin > availsegnum then counter
    else countToDispatch track availsegnum rest (counter + 1)
      (segmincounter + conntrack.SegNumMin)

/-- The loop `for ( i < counter )` that moves the head of the FIFO to the tail of
`todisp` with `SegNumActual = SegNumMin`: `todisp`, the FIFO and `availsegnum` as the loop
leaves them; `none` when the FIFO has no head to remove. -/
def moveToDispatch : Nat → List ConnectionTrack → List ConnectionTrack → Int →
    Option (List ConnectionTrack × List ConnectionTrack × Int)
  | 0, todisp, reqs, availsegnum => some (todisp, reqs, availsegnum)
  | _ + 1, _, [], _ => none
  | i + 1, todisp, conn :: reqs, availsegnum =>
    moveToDispatch i (todisp ++ [{ conn with SegNumActual := conn.SegNumMin }]) reqs
      (availsegnum - conn.SegNumMin)

/-- The variables of the loop `while(availsegnum > 0)`; `pnode` is the position in
`todisp` of the node the pointer of that name refers to. -/
structure TopUpState where
  todisp : List ConnectionTrack
  pnode : Nat
  availsegnum : Int
  fullcount : Nat
  deriving DecidableEq, Repr

/-- The loop `while(availsegnum > 0)`, which hands the segments left to the requests of
`todisp` in turn, with `fuel` iterations at most: `none` when the loop is still running
after `fuel` iterations or `pnode` is not a node of `todisp`. -/
def topUpLoop (counter : Nat) : Nat → TopUpState → Option TopUpState
  | 0, st => if st.availsegnum > 0 then none else some st
  | fuel + 1, st =>
    if st.availsegnum > 0 then
      match st.todisp[st.pnode]? with
      | none => none
      | some conn =>
        let st1 : TopUpState :=
          if conn.SegNum > conn.SegNumActual then
            { st with
              todisp := st.todisp.set st.pnode
                { conn with SegNumActual := conn.SegNumActual + 1 },
              availsegnum := st.availsegnum - 1, fullcount := 0 }
          else { st with fullcount := st.fullcount + 1 }
        if st1.fullcount = counter then some st1
        else
          topUpLoop counter fuel
            { st1 with pnode := if st1.pnode + 1 < st1.todisp.length then st1.pnode + 1 else 0 }
    else some st

/-- A number of iterations the loop `while(availsegnum > 0)` cannot exceed. -/
def topUpFuel (counter : Nat) (availsegnum : Int) : Nat :=
  availsegnum.toNat * (counter + 1) + counter + 1

/-- The arguments of `allocateResourceFromResourcePool` for the request `conn`. -/
def allocRequestOf (conn : ConnectionTrack) : AllocRequest :=
  { nodecount := conn.SegNumActual, minnodecount := conn.SegNumMin,
    memory := conn.SegMemoryMB, core := conn.SegCore, iobytes := conn.IOBytes,
    slicesize := conn.SliceSize, vseglimitpseg := conn.VSegLimitPerSeg,
    preferredhostname := conn.SegPreferredHostNames,
    preferredscansize := conn.SegPreferredScanSizeMB,
    fixnodecount := decide (conn.MinSegCountFixed = conn.MaxSegCountFixed) }

/-- The variables of the loop `for ( processidx < counter )`: the queue tracker, the
resource pool, `todisp`, and the requests whose response has been built
(`buildAcquireResourceResponseMessage`), in the order in which they were dispatched. -/
structure DispatchState where
  track : DynResourceQueueTrack
  pool : ResourcePool
  todisp : List ConnectionTrack
  dispatched : List ConnectionTrack
  deriving DecidableEq, Repr

/-- The branch `segnumact >= conn->SegNumMin` of the dispatch loop on the queue
tracker. -/
def markDispatched (track : DynResourceQueueTrack) (conn : ConnectionTrack) (segnumact : Int) :
    DynResourceQueueTrack :=
  { track with
    TotalUsed := addResourceBundleData track.TotalUsed
      (conn.SegMemoryMB * segnumact) (conn.SegCore * (segnumact : ℚ)),
    TotalRequest := minusResourceBundleData track.TotalRequest
      (conn.SegMemoryMB * conn.SegNum) (conn.SegCore * (conn.SegNum : ℚ)),
    NumOfRunningQueries := track.NumOfRunningQueries + 1,
    DLDetector := addSessionInUseResource
      (unlockSessionResource track.DLDetector conn.SessionID) conn.SessionID
      (conn.SegMemoryMB * segnumact) (conn.SegCore * (segnumact : ℚ)) }

/-- The loop `for ( processidx < counter )` of `dispatchResourceToQueries_EVEN`, with
`n` iterations left; `curtime` is the value of `gettime_microsec()`.  `none` when
`todisp` has no head to remove or `Assert(!conn->isOld)` fails.  The host list
`conn->Resource` and `conn->SegIOBytes`, which the loop only passes on to the pool, are
not kept in the connection track. -/
def dispatchLoop (g : RMGlobals) (rm_force_fifo_queue : Bool) (curtime : Nat) :
    Nat → DispatchState → Option DispatchState
  | 0, st => some st
  | n + 1, st =>
    match st.todisp with
    | [] => none
    | conn :: rest =>
      match dispatchAllocateStep g st.pool (allocRequestOf conn) with
      | none => none
      | some (segnumact, pool) =>
        if segnumact ≥ conn.SegNumMin then
          dispatchLoop g rm_force_fifo_queue curtime n
            { track := markDispatched st.track conn segnumact, pool := pool, todisp := rest,
              dispatched := st.dispatched ++
                [{ conn with SegNumActual := segnumact,
                             Progress := ConnProgress.CONN_PP_RESOURCE_QUEUE_ALLOC_DONE }] }
        else if segnumact > 0 ∧ conn.isOld = true then none
        else
          let conn1 : ConnectionTrack :=
            if !conn.troubledByFragment then
              { conn with troubledByFragmentTimestamp := curtime, troubledByFragment := true }
            else conn
          if rm_force_fifo_queue then
            some { st with pool := pool, todisp := conn1 :: rest }
          else
            dispatchLoop g rm_force_fifo_queue curtime n
              { st with pool := pool, todisp := rest ++ [conn1] }

/-- What `dispatchResourceToQueries_EVEN` leaves: the queue tracker, the requests of
its FIFO (head first), the resource pool, the requests dispatched, and the list
`PCONTRACK->ConnToSend`. -/
structure DispatchResult where
  track : DynResourceQueueTrack
  reqs : List ConnectionTrack
  pool : ResourcePool
  dispatched : List ConnectionTrack
  ConnToSend : List ConnectionTrack
  deriving DecidableEq, Repr

/-- The value `availsegnum` that `dispatchResourceToQueries_EVEN` starts with; `none`
is the division by a quota of 0. -/
def dispatchAvailSegNum (track : DynResourceQueueTrack) : Option Int :=
  if track.QueueInfo.SegResourceQuotaMemoryMB = 0 then none
  else some (Int.tdiv (track.TotalAllocated.MemoryMB - track.TotalUsed.MemoryMB)
    track.QueueInfo.SegResourceQuotaMemoryMB)

/-- `dispatchResourceToQueries_EVEN(track)` on the FIFO `reqs` (the connection tracks
that the nodes of `track->QueryResRequests` point to, head first).  `fuel` bounds the
iterations of the loop of `detectAndDealWithDeadLock`; `none` when that loop is still
running after `fuel` iterations, on the division by a quota of 0, and on a failed
`Assert`.  The last loop puts the requests left in `todisp` back before the head of the
FIFO, from the tail of `todisp` on. -/
def dispatchResourceToQueries_EVEN (g : RMGlobals) (rm_force_fifo_queue : Bool)
    (curtime : Nat) (fuel : Nat) (track : DynResourceQueueTrack)
    (reqs connToSend : List ConnectionTrack) (pool : ResourcePool) : Option DispatchResult :=
  match dispatchAvailSegNum track with
  | none => none
  | some availsegnum =>
    let counter := countToDispatch track availsegnum reqs 0 0
    if counter = 0 then
      match detectAndDealWithDeadLock fuel track reqs connToSend with
      | none => none
      | some d =>
        some { track := { track with DLDetector := d.DLDetector,
                                     QueryResRequests := d.reqs.map fun c => c.ConnID },
               reqs := d.reqs, pool := pool, dispatched := [], ConnToSend := d.ConnToSend }
    else
      match moveToDispatch counter [] reqs availsegnum with
      | none => none
      | some (todisp, rest, availsegnum1) =>
        match topUpLoop counter (topUpFuel counter availsegnum1)
            { todisp := todisp, pnode := 0, availsegnum := availsegnum1, fullcount := 0 } with
        | none => none
        | some t =>
          match dispatchLoop g rm_force_fifo_queue curtime counter
              { track := track, pool := pool, todisp := t.todisp, dispatched := [] } with
          | none => none
          | some st =>
            some { track := { st.track with
                              QueryResRequests := (st.todisp ++ rest).map fun c => c.ConnID },
                   reqs := st.todisp ++ rest, pool := st.pool, dispatched := st.dispatched,
                   ConnToSend := connToSend }

/-! ## Example inputs for the dispatch to queued requests -/

/-- A request of session `session` for between `segnummin` and `segnum` vsegs of 1024 MB
and 1 core, `perseg` on a segment at most, the number of vsegs not fixed. -/
def exQueued (id : Nat) (session : Int) (segnummin segnum perseg : Int) : ConnectionTrack :=
  { ConnID := id, MaxSegCountFixed := segnum, MinSegCountFixed := 0, SegMemoryMB := 1024,
    SegCore := 1, SegNum := segnum, SegNumMin := segnummin, VSegLimit := 100,
    VSegLimitPerSeg := perseg, Progress := ConnProgress.CONN_PP_RESOURCE_QUEUE_ALLOC_WAIT,
    SessionID := session, IOBytes := 4096, SliceSize := 1 }

/-- A leaf queue with 8192 MB allocated and nothing used, a quota of 1024 MB per vseg,
at most 3 statements running at a time, 1 running. -/
def exDispatchTrack : DynResourceQueueTrack :=
  { exTrack with
    QueueInfo := { exQueueInfo with ParallelCount := 3, SegResourceQuotaMemoryMB := 1024 },
    TotalAllocated := { MemoryMB := 8192, Core := 8 }, NumOfRunningQueries := 1,
    ClusterMemoryMaxMB := 8192, ClusterVCoreMax := 8,
    TotalRequest := { MemoryMB := 7168, Core := 7 },
    QueryResRequests := [1, 2, 3] }

/-- The FIFO of `exDispatchTrack`: the request 1 needs 2 vsegs on one segment that may
hold 1, the request 2 needs 1 vseg and takes up to 3, the request 3 needs 2 vsegs. -/
def exDispatchQueue : List ConnectionTrack :=
  [exQueued 1 11 2 2 1, exQueued 2 12 1 3 8, exQueued 3 13 2 2 8]

/-- What `dispatchResourceToQueries_EVEN` leaves of `exDispatchTrack` and its FIFO on the
one-segment pool when `rm_force_fifo_queue` is off: the requests 1 and 2 are chosen, the
request 1 finds 1 vseg of the 2 it needs and is put back, the request 2 is dispatched
with 3 vsegs. -/
def exDispatched : DispatchResult :=
  (dispatchResourceToQueries_EVEN exGlobals false 5 0 exDispatchTrack exDispatchQueue []
    exPool1).getD
    { track := exDispatchTrack, reqs := [], pool := exPool1, dispatched := [],
      ConnToSend := [] }

/-! ## Bookkeeping used in the proofs about the distribution -/

/-- The value of `f` at the tracker at address `tid` if that tracker is busy; 0 if it is
not busy or does not exist. -/
def busyValue (f : DynResourceQueueTrack → Int) (qm : QueueManager) (tid : Nat) : Int :=
  match getTrackByID qm tid with
  | some t => if t.isBusy then f t else 0
  | none => 0

/-- The sum of `TotalAllocated.MemoryMB` over the busy queues among `tids`. -/
def busyAllocatedMemory (qm : QueueManager) (tids : List Nat) : Int :=
  (tids.map (busyValue (fun t => t.TotalAllocated.MemoryMB) qm)).sum

/-- The sum of `TotalUsed.MemoryMB` over the busy queues among `tids`. -/
def busyUsedMemory (qm : QueueManager) (tids : List Nat) : Int :=
  (tids.map (busyValue (fun t => t.TotalUsed.MemoryMB) qm)).sum

/-- The sum of the configured `ClusterMemoryMB` over the busy queues among `tids`. -/
def busyClusterMemory (qm : QueueManager) (tids : List Nat) : Int :=
  (tids.map (busyValue (fun t => t.QueueInfo.ClusterMemoryMB) qm)).sum

/-- The values of a queue are those of a queue in use: its configured `ClusterMemoryMB`
is positive, the memory it uses and requests is not negative, and its maximum is a
non-negative `int32_t` value. -/
def QueueInRange (t : DynResourceQueueTrack) : Prop :=
  0 < t.QueueInfo.ClusterMemoryMB ∧ 0 ≤ t.TotalUsed.MemoryMB ∧ 0 ≤ t.TotalRequest.MemoryMB ∧
  0 ≤ t.ClusterMemoryMaxMB ∧ t.ClusterMemoryMaxMB < 2147483648

instance (t : DynResourceQueueTrack) : Decidable (QueueInRange t) :=
  inferInstanceAs (Decidable (_ ∧ _ ∧ _ ∧ _ ∧ _))

/-- The fields of a tracker that the distribution reads and does not write. -/
def trackConfig (t : DynResourceQueueTrack) :
    Nat × Bool × DynResourceQueueData × ResourceBundle × ResourceBundle × Int × Int :=
  (t.TrackID, t.isBusy, t.QueueInfo, t.TotalUsed, t.TotalRequest, t.ClusterMemoryMaxMB,
   t.MemCoreRatio)

/-- The trackers of `q1` are those of `q2` as far as `trackConfig` goes. -/
def SameConfig (q1 q2 : QueueManager) : Prop :=
  ∀ x, (getTrackByID q1 x).map trackConfig = (getTrackByID q2 x).map trackConfig

/-- The test `actweight > expweight` of the first loop of the distribution, for the
value of `allmemory` in that loop. -/
def overUsing (mctrack : DynMemoryCoreRatioTrack) (t : DynResourceQueueTrack) : Bool :=
  usesMoreThanWeight mctrack (toUInt32 mctrack.TotalAllocated.MemoryMB) t

/-- The busy queues among `tids` that use more than their weight. -/
def overList (mctrack : DynMemoryCoreRatioTrack) (qm : QueueManager) (tids : List Nat) :
    List Nat :=
  tids.filter fun tid =>
    match getTrackByID qm tid with
    | some t => t.isBusy && overUsing mctrack t
    | none => false

/-- The busy queues among `tids` that do not use more than their weight. -/
def toAllocList (mctrack : DynMemoryCoreRatioTrack) (qm : QueueManager) (tids : List Nat) :
    List Nat :=
  tids.filter fun tid =>
    match getTrackByID qm tid with
    | some t => t.isBusy && !overUsing mctrack t
    | none => false

/-- The state of the first loop of the distribution after the trackers `done`, for the
queue manager `qm` at the call. -/
def ClassifyInv (mctrack : DynMemoryCoreRatioTrack) (qm : QueueManager)
    (st : DistributeState) (done : List Nat) : Prop :=
  SameConfig st.qm qm ∧
  st.toallocqueues = toAllocList mctrack qm done ∧
  st.availmemory =
    mctrack.TotalAllocated.MemoryMB - busyUsedMemory qm (overList mctrack qm done) ∧
  st.totalmemoryweight = busyClusterMemory qm (toAllocList mctrack qm done) ∧
  (∀ x ∈ done, ∀ t, getTrackByID st.qm x = some t → t.expectMoreResource = false) ∧
  (∀ x ∈ overList mctrack qm done, ∀ t, getTrackByID st.qm x = some t →
    t.TotalAllocated.MemoryMB = t.TotalUsed.MemoryMB)

/-- The state of the second loop of the distribution after the trackers `p` of
`toallocqueues`, for the queue manager `qm` at the call, the trackers `tids` of the
ratio, the memory `A` to share, the weight `W` and the queues `ol` counted out by the
first loop. -/
def ShareInv (qm : QueueManager) (tids : List Nat) (A W : Int) (ol : List Nat)
    (st : DistributeState) (p : List Nat) : Prop :=
  SameConfig st.qm qm ∧ st.availmemory = A ∧ st.totalmemoryweight = W ∧
  busyAllocatedMemory st.qm p + st.leftmemory2 = A ∧
  0 ≤ busyAllocatedMemory st.qm p ∧
  busyAllocatedMemory st.qm p * W ≤ busyClusterMemory qm p * A ∧
  (∀ x ∈ tids, ∀ t, getTrackByID st.qm x = some t → t.expectMoreResource = true →
    x ∈ p ∧ 0 ≤ t.TotalAllocated.MemoryMB ∧
      t.TotalAllocated.MemoryMB ≤ t.ClusterMemoryMaxMB) ∧
  (∀ x ∈ ol, ∀ t, getTrackByID st.qm x = some t →
    t.TotalAllocated.MemoryMB = t.TotalUsed.MemoryMB) ∧
  0 ≤ st.leftmemory2

/-! ## Comparison of segments up to the available core -/

/-- The segment with the available core of the segment and of each of its container
sets blanked.  `Core` is a `double`, modelled by an exact rational: an allocation
subtracts the core of a vseg once per vseg, the return adds `core * VSegmentCount` in
one step, and in floating point the two agree only up to rounding.  Two segments with
the same `withoutAvailableCore` agree on every field but these. -/
def withoutAvailableCore (s : SegResource) : SegResource :=
  { s with
    Available := { s.Available with Core := 0 },
    ContainerSets := s.ContainerSets.map
      (Option.map (fun c => { c with Available := { c.Available with Core := 0 } })) }

/-- A `double` that holds an integer of magnitude at most `2^52`: sums, differences and
products of two such values are computed without rounding. -/
def exactCore (q : ℚ) : Bool := decide (q.den = 1) && decide (q.num.natAbs ≤ 4503599627370496)

/-- The cores of a request and of a pool on which the floating-point arithmetic of an
allocation and its return is exact: the core of a vseg, the core of the whole request
and every available core of the pool are integers of magnitude at most `2^52`. -/
def exactCores (pool : ResourcePool) (req : AllocRequest) : Bool :=
  exactCore req.core && decide (0 ≤ req.core) && exactCore (req.core * req.nodecount) &&
  pool.Segments.all (fun s => exactCore s.Available.Core &&
    s.ContainerSets.all (fun c => c.all (fun x => exactCore x.Available.Core)))

/-- A usable segment that has received no container yet: its container set of ratio
index 0 is still `NULL` (`addSegResourceAllocIndex` puts a new segment into the
allocation index of every ratio, the container set is created with the first
container). -/
def exSegmentWithoutSet (host : String) : SegResource :=
  { FTSAvailable := true, RUAlivePending := false,
    Allocated := { MemoryMB := 0, Core := 0 }, Available := { MemoryMB := 0, Core := 0 },
    OldInuse := { MemoryMB := 0, Core := 0 }, IOBytesWorkload := 0, SliceWorkload := 0,
    ContainerSets := [none], HostName := host }

/-- A pool of two segments: `h0` with 2 containers, both in use, and `h1` without a
container set; the allocation index has `h0`, the segment with more allocated, first. -/
def exSetlessPool : ResourcePool :=
  { Segments := [exSegmentWith "h0" 2 0, exSegmentWithoutSet "h1"],
    OrderedIOBytesWorkload := [0, 1], AvailNodeCount := 2, HDFSHostNameIndexed := [],
    OrderedSegResAllocByRatio := [some [0, 1]], MemCoreRatio := 1024 }

/-- Two busy queues of one ratio that has 90 MB allocated: the first uses all of the
90 MB, the second uses nothing and requests 20 MB.  The first loop of the distribution
counts the first queue out and leaves `availmemory = 0`. -/
def exSaturatedManager : QueueManager :=
  { Queues := [exBusyQueue 1 90 0, exBusyQueue 2 0 20],
    QueuesIDIndex := [(1, 1), (2, 2)], RatioCount := 1, RatioIndex := [(1, 0)],
    RatioReverseIndex := [1], RatioReferenceCounter := [2],
    RatioTrackers :=
      [some { MemCoreRatio := 1, RatioIndex := 0, ClusterMemory := 90, ClusterVCore := 90,
              ClusterMemoryMaxMB := 90, ClusterVCoreMax := 90, QueueTrackers := [1, 2],
              TotalAllocated := { MemoryMB := 90, Core := 90 },
              TotalUsed := { MemoryMB := 90, Core := 90 } }] }

/-- The tracker of the ratio of `exSaturatedManager`. -/
def exSaturatedRatioTrack : DynMemoryCoreRatioTrack :=
  { MemCoreRatio := 1, RatioIndex := 0, ClusterMemory := 90, ClusterVCore := 90,
    ClusterMemoryMaxMB := 90, ClusterVCoreMax := 90, QueueTrackers := [1, 2],
    TotalAllocated := { MemoryMB := 90, Core := 90 },
    TotalUsed := { MemoryMB := 90, Core := 90 } }

/-- A tree of percent-expressed queues built by `createQueueAndTrack`: the branch
`pg_root` (100%) with the leaf `pg_default` (70%) and the branch `dept` (30%), and the
leaf `team` (3%) under `dept`. -/
def exSmallPercentTree : QueueManager :=
  let qm1 := (createQueueAndTrack exEmptyManager
    (exPercentQueue 1 0 "pg_root".toList 100 true false false)).2.1
  let qm2 := (createQueueAndTrack qm1
    (exPercentQueue 2 1 "pg_default".toList 70 false true true)).2.1
  let qm3 := (createQueueAndTrack qm2 (exPercentQueue 3 1 "dept".toList 30 false false false)).2.1
  (createQueueAndTrack qm3 (exPercentQueue 4 3 "team".toList 3 false false true)).2.1

/-! # Theorems -/

/-! ## Helper lemmas -/

theorem cmin_eq_min (a b : Int) : cmin a b = min a b := by
  unfold cmin
  split_ifs with h
  · exact (min_eq_right (le_of_lt h)).symm
  · exact (min_eq_left (not_lt.mp h)).symm

theorem cmax_eq_max (a b : Int) : cmax a b = max a b := by
  unfold cmax
  split_ifs with h
  · exact (max_eq_right (le_of_lt h)).symm
  · exact (max_eq_left (not_lt.mp h)).symm

/-- The values `computeQueryQuota` returns when it succeeds: the request's minimum is
within the limit and within the policy's `segnum`, the maximum is clamped to the
limit, and `segnummin` is the request's minimum. -/
theorem computeQueryQuota_ok (track : DynResourceQueueTrack)
    (maxfx minfx segnum segnummin limit : Int)
    (h : (computeQueryQuota track maxfx minfx segnum segnummin limit).res = FUNC_RETURN_OK) :
    minfx ≤ limit ∧
    (AllocationPolicy track.QueueInfo.AllocatePolicy track limit).1 ≥ minfx ∧
    computeQueryQuota track maxfx minfx segnum segnummin limit =
      { res := FUNC_RETURN_OK,
        max_segcountfix := if maxfx > limit then limit else maxfx,
        min_segcountfix := minfx,
        segmemmb := track.QueueInfo.SegResourceQuotaMemoryMB,
        segcore := track.QueueInfo.SegResourceQuotaVCore,
        segnum := (AllocationPolicy track.QueueInfo.AllocatePolicy track limit).1,
        segnummin := minfx } := by
  unfold computeQueryQuota at h ⊢
  by_cases h1 : minfx > limit
  · simp [h1] at h
  · by_cases h2 : (AllocationPolicy track.QueueInfo.AllocatePolicy track limit).1 < minfx
    · simp [h1, h2] at h
    · simp only [h1, h2, if_false]
      exact ⟨not_lt.mp h1, not_lt.mp h2, trivial⟩

/-- First row of the three-case block. -/
theorem reconcileSegNum_case1 (Gmin Gmax Rmin Rmax RmaxL : Int) (h : Gmin = 1) :
    (reconcileSegNum Gmin Gmax Rmin Rmax RmaxL).2.1 = min Gmax (min Rmin RmaxL) ∧
    (reconcileSegNum Gmin Gmax Rmin Rmax RmaxL).2.2 = min Gmax RmaxL := by
  subst h
  simp only [reconcileSegNum, if_true, cmin_eq_min]
  exact ⟨min_assoc _ _ _, trivial⟩

/-- Second row of the three-case block. -/
theorem reconcileSegNum_case2 (Gmin Gmax Rmin Rmax RmaxL : Int) (h1 : Gmin ≠ 1)
    (h2 : Gmin = Gmax) :
    reconcileSegNum Gmin Gmax Rmin Rmax RmaxL =
      (if Rmax < Gmax then some RESQUEMGR_NO_RESOURCE else none, Gmax, Gmax) := by
  subst h2
  simp only [reconcileSegNum, h1, if_false, if_true]

/-- Third row of the three-case block. -/
theorem reconcileSegNum_case3 (Gmin Gmax Rmin Rmax RmaxL : Int) (h1 : Gmin ≠ 1)
    (h2 : Gmin ≠ Gmax) :
    (reconcileSegNum Gmin Gmax Rmin Rmax RmaxL).2.1 = min (max Gmin Rmin) Gmax ∧
    (reconcileSegNum Gmin Gmax Rmin Rmax RmaxL).2.2 = min (max (min RmaxL Gmax) Gmin) Rmax := by
  have h2' : ¬ Gmax = Gmin := fun h => h2 h.symm
  simp only [reconcileSegNum, h1, h2', if_false, cmin_eq_min, cmax_eq_max]
  exact ⟨trivial, trivial⟩

/-- What `acquireResourceFromResQueMgr` leaves behind once `computeQueryQuota` has
succeeded, in terms of the three-case block. -/
theorem acquire_of_quota_ok (N : Int) (qt : DynResourceQueueTrack) (c : ConnectionTrack)
    (h0 : qt.ClusterSegNumberMax ≠ 0)
    (hq : (computeQueryQuota qt c.MaxSegCountFixed c.MinSegCountFixed c.SegNum c.SegNumMin
      c.VSegLimit).res = FUNC_RETURN_OK) :
    let q := computeQueryQuota qt c.MaxSegCountFixed c.MinSegCountFixed c.SegNum c.SegNumMin
      c.VSegLimit
    let r := reconcileSegNum c.MinSegCountFixed
      (applyVSegUpperLimit q.max_segcountfix c.MinSegCountFixed qt.QueueInfo.VSegUpperLimit)
      q.segnummin q.segnum (c.VSegLimitPerSeg * N)
    let out := acquireResourceFromResQueMgr N qt c
    out.2.1.SegNumMin = r.2.1 ∧ out.2.1.SegNum = r.2.2 ∧
    out.2.1.MaxSegCountFixed = q.max_segcountfix ∧
    out.2.1.MinSegCountFixed = c.MinSegCountFixed ∧
    (∀ code, r.1 = some code → out.1 = code ∧ out.2.2 = qt) ∧
    (r.1 = none → out.1 = FUNC_RETURN_OK ∧
      out.2.2.QueryResRequests = qt.QueryResRequests ++ [c.ConnID] ∧
      out.2.1.Progress = ConnProgress.CONN_PP_RESOURCE_QUEUE_ALLOC_WAIT) := by
  obtain ⟨_, _, hqe⟩ := computeQueryQuota_ok qt _ _ _ _ _ hq
  intro q r out
  have hmin : q.min_segcountfix = c.MinSegCountFixed := by
    show (computeQueryQuota qt _ _ _ _ _).min_segcountfix = _
    rw [hqe]
  have hout : out = acquireResourceFromResQueMgr N qt c := rfl
  unfold acquireResourceFromResQueMgr at hout
  simp only [h0, if_false, hq, if_true] at hout
  rw [hmin] at hout
  have hr : r = reconcileSegNum c.MinSegCountFixed
      (applyVSegUpperLimit q.max_segcountfix c.MinSegCountFixed qt.QueueInfo.VSegUpperLimit)
      q.segnummin q.segnum (c.VSegLimitPerSeg * N) := rfl
  rw [← hr] at hout
  rcases hr1 : r.1 with _ | code
  · rw [hr1] at hout
    simp only [addQueryResourceRequestToQueue, if_true] at hout
    rw [hout]
    refine ⟨rfl, rfl, rfl, rfl, ?_, ?_⟩
    · intro code hc; cases hc
    · intro _; exact ⟨rfl, rfl, rfl⟩
  · rw [hr1] at hout
    rw [hout]
    refine ⟨rfl, rfl, rfl, rfl, ?_, ?_⟩
    · intro code2 hc
      cases hc
      exact ⟨rfl, rfl⟩
    · intro hc; cases hc

/-! ## The bounded `while` loop -/

/-- A loop whose body preserves an invariant `I` and decreases a measure `μ` stops
within `μ s` iterations, in a state where `I` holds and the condition is false. -/
theorem whileLoop_spec {σ : Type} (cond : σ → Bool) (body : σ → σ) (I : σ → Prop)
    (μ : σ → Nat)
    (hI : ∀ s, I s → cond s = true → I (body s))
    (hμ : ∀ s, I s → cond s = true → μ (body s) < μ s) :
    ∀ (fuel : Nat) (s : σ), I s → μ s ≤ fuel →
      ∃ r, whileLoop cond body fuel s = some r ∧ I r ∧ cond r = false := by
  intro fuel
  induction fuel with
  | zero =>
    intro s hs hle
    by_cases hc : cond s = true
    · have := hμ s hs hc
      omega
    · refine ⟨s, ?_, hs, by simpa using hc⟩
      simp [whileLoop, hc]
  | succ n ih =>
    intro s hs hle
    by_cases hc : cond s = true
    · have hlt := hμ s hs hc
      obtain ⟨r, hr, hIr, hcr⟩ := ih (body s) (hI s hs hc) (by omega)
      exact ⟨r, by simp [whileLoop, hc, hr], hIr, hcr⟩
    · refine ⟨s, ?_, hs, by simpa using hc⟩
      simp [whileLoop, hc]

/-! ## Termination of the stage 2 loop -/

theorem stage2Cond_true (fullcount : Nat) (st : AllocState)
    (h : stage2Cond fullcount st = true) :
    st.nodecountleft > 0 ∧ st.tree ≠ [] ∧ st.impossiblecount < fullcount := by
  unfold stage2Cond at h
  simp only [Bool.and_eq_true, decide_eq_true_eq, Bool.not_eq_true', List.isEmpty_eq_false] at h
  exact ⟨h.1.1, h.1.2, h.2⟩

/-- The fields of the state after one iteration, apart from the index: the outcome of
`stage2Try` on the leftmost node decides them. -/
theorem stage2Body_fields (g : RMGlobals) (pool : ResourcePool) (req : AllocRequest)
    (fullcount : Nat) (st : AllocState) (leftnode : Nat) (rest : List Nat)
    (ht : st.tree = leftnode :: rest) (himp : st.impossiblecount < fullcount) :
    let st' := stage2Body g pool req fullcount st
    (∀ r, stage2Try g pool req st leftnode = some r →
      st'.Segments = r.1 ∧ st'.vsegcnttbl = r.2 ∧
      st'.nodecountleft = st.nodecountleft - 1 ∧ st'.impossiblecount = 0 ∧
      st'.skipchosenmachine = st.skipchosenmachine) ∧
    (stage2Try g pool req st leftnode = none →
      st'.Segments = st.Segments ∧ st'.vsegcnttbl = st.vsegcnttbl ∧
      st'.nodecountleft = st.nodecountleft ∧
      (st.impossiblecount + 1 < fullcount →
        st'.impossiblecount = st.impossiblecount + 1 ∧
        st'.skipchosenmachine = st.skipchosenmachine) ∧
      (¬ st.impossiblecount + 1 < fullcount →
        st'.impossiblecount = (if st.skipchosenmachine then 0 else st.impossiblecount + 1) ∧
        st'.skipchosenmachine = false)) := by
  intro st'
  have hst' : st' = stage2Body g pool req fullcount st := rfl
  unfold stage2Body at hst'
  rw [ht] at hst'
  simp only [] at hst'
  constructor
  · intro r hr
    rw [hr] at hst'
    simp only [] at hst'
    have h0 : ¬ (0 ≥ fullcount) := by omega
    simp only [h0, if_false] at hst'
    rw [hst']
    split_ifs <;> exact ⟨rfl, rfl, rfl, rfl, rfl⟩
  · intro hr
    rw [hr] at hst'
    simp only [] at hst'
    rw [hst']
    refine ⟨?_, ?_, ?_, ?_, ?_⟩
    · split_ifs <;> rfl
    · split_ifs <;> rfl
    · split_ifs <;> rfl
    · intro hlt
      have h1 : ¬ (st.impossiblecount + 1 ≥ fullcount) := by omega
      simp only [h1, if_false]
      split_ifs <;> exact ⟨rfl, rfl⟩
    · intro hge
      have h1 : st.impossiblecount + 1 ≥ fullcount := by omega
      simp only [h1, if_true]
      split_ifs <;> exact ⟨rfl, rfl⟩

/-- Every iteration of the stage 2 loop decreases `stage2Measure`. -/
theorem stage2Body_decreases (g : RMGlobals) (pool : ResourcePool) (req : AllocRequest)
    (fullcount : Nat) (st : AllocState) (hc : stage2Cond fullcount st = true) :
    stage2Measure fullcount (stage2Body g pool req fullcount st)
      < stage2Measure fullcount st := by
  obtain ⟨hnl, htree, himp⟩ := stage2Cond_true fullcount st hc
  obtain ⟨leftnode, rest, ht⟩ := List.exists_cons_of_ne_nil htree
  obtain ⟨hsome, hnone⟩ := stage2Body_fields g pool req fullcount st leftnode rest ht himp
  unfold stage2Measure
  rcases htry : stage2Try g pool req st leftnode with _ | r
  · obtain ⟨_, _, h3, h4, h5⟩ := hnone htry
    rw [h3]
    by_cases hlt : st.impossiblecount + 1 < fullcount
    · obtain ⟨h6, h7⟩ := h4 hlt
      rw [h6, h7]
      omega
    · obtain ⟨h6, h7⟩ := h5 hlt
      rw [h6, h7]
      by_cases hs : st.skipchosenmachine = true
      · simp only [hs, if_true]
        simp
        omega
      · simp only [hs, if_false]
        simp
        omega
  · obtain ⟨_, _, h3, h4, h5⟩ := hsome r htry
    rw [h3, h4, h5]
    have h6 : (st.nodecountleft - 1).toNat + 1 = st.nodecountleft.toNat := by omega
    have h7 : st.nodecountleft.toNat * (2 * fullcount + 2)
        = (st.nodecountleft - 1).toNat * (2 * fullcount + 2) + (2 * fullcount + 2) := by
      rw [← h6]; ring
    rw [h7]
    omega

/-- The allocation always returns: the stage 2 loop stops within `stage2Fuel`
iterations, in a state that satisfies every invariant of the loop which holds when
stage 2 starts. -/
theorem allocate_of_invariant (g : RMGlobals) (pool : ResourcePool) (req : AllocRequest)
    (I : AllocState → Prop) (h0 : I (stage1 g pool req))
    (hstep : ∀ st, I st → stage2Cond pool.OrderedIOBytesWorkload.length st = true →
      I (stage2Body g pool req pool.OrderedIOBytesWorkload.length st)) :
    ∃ st, I st ∧ stage2Cond pool.OrderedIOBytesWorkload.length st = false ∧
      allocateResourceFromResourcePoolIOBytes g pool req
        = some (finishAllocation pool req st) := by
  have hfuel : stage2Measure pool.OrderedIOBytesWorkload.length (stage1 g pool req)
      ≤ stage2Fuel pool.OrderedIOBytesWorkload.length (stage1 g pool req).nodecountleft := by
    unfold stage2Measure stage2Fuel stage1
    simp only [if_true]
    omega
  obtain ⟨r, hr, hIr, hcr⟩ := whileLoop_spec
    (stage2Cond pool.OrderedIOBytesWorkload.length)
    (stage2Body g pool req pool.OrderedIOBytesWorkload.length) I
    (stage2Measure pool.OrderedIOBytesWorkload.length) hstep
    (fun s _ hc => stage2Body_decreases g pool req _ s hc) _ _ h0 hfuel
  refine ⟨r, hIr, hcr, ?_⟩
  unfold allocateResourceFromResourcePoolIOBytes
  simp only [hr]

/-- The allocation returns on every pool and every request: the bound on the
iterations of the stage 2 loop is never reached. -/
theorem allocate_returns (g : RMGlobals) (pool : ResourcePool) (req : AllocRequest) :
    ∃ r, allocateResourceFromResourcePoolIOBytes g pool req = some r := by
  obtain ⟨st, _, _, h⟩ := allocate_of_invariant g pool req (fun _ => True) trivial
    (fun _ _ _ => trivial)
  exact ⟨_, h⟩

/-! ## The outcome of one candidate -/

/-- What a successful stage 2 attempt on segment `id` has checked and done. -/
theorem stage2Try_some (g : RMGlobals) (pool : ResourcePool) (req : AllocRequest)
    (st : AllocState) (id : Nat) (r : List SegResource × List VSegmentCounterInternal)
    (h : stage2Try g pool req st id = some r) :
    ∃ cur rindex ctns,
      getSegResource st.Segments id = some cur ∧ IS_SEGRESOURCE_USABLE cur = true ∧
      getResourceQueueRatioIndex g (ratioOf req.memory req.core) = some rindex ∧
      cur.ContainerSets.getD rindex none = some ctns ∧
      (req.fixnodecount = true ∨
        cur.SliceWorkload + req.slicesize ≤ g.rm_slice_num_per_seg_limit) ∧
      ctns.Available.MemoryMB ≥ req.memory ∧ ctns.Available.Core ≥ req.core ∧
      r.1 = st.Segments.set id
        (allocateResourceFromSegment cur rindex ctns req.memory req.core req.slicesize) ∧
      ((∃ e, getHASHTABLENode st.vsegcnttbl id = some e ∧
          (req.fixnodecount = true ∨ e.VSegmentCount < req.vseglimitpseg) ∧
          st.skipchosenmachine = false ∧ r.2 = incrVSegmentCount st.vsegcnttbl id) ∨
       (getHASHTABLENode st.vsegcnttbl id = none ∧
          r.2 = setHASHTABLENode st.vsegcnttbl
            (createVSegmentCounter
              (findHDFSNameIndex pool id req.preferredhostname.length 0 req.preferredhostname)
              id))) := by
  unfold stage2Try at h
  simp only [] at h
  split at h
  · exact absurd h (by simp)
  · rename_i cur hcur
    split at h
    · exact absurd h (by simp)
    · rename_i huse
      split at h
      · exact absurd h (by simp)
      · rename_i hskip
        split at h
        · rename_i containerset rindex hget hidx
          split at h
          · exact absurd h (by simp)
          · rename_i hslice
            split at h
            · exact absurd h (by simp)
            · rename_i ctns
              split at h
              · rename_i havail
                have huse' : IS_SEGRESOURCE_USABLE cur = true := by
                  simpa using huse
                have hget' : cur.ContainerSets.getD rindex none = some ctns := by
                  unfold getGRMContainerSet at hget
                  rw [hidx] at hget
                  simp only [Prod.mk.injEq, true_and] at hget
                  exact hget
                have hslice' : req.fixnodecount = true ∨
                    cur.SliceWorkload + req.slicesize ≤ g.rm_slice_num_per_seg_limit := by
                  by_cases hf : req.fixnodecount = true
                  · exact Or.inl hf
                  · right
                    simp only [Bool.not_eq_true] at hf
                    simp only [hf, Bool.not_false, Bool.true_and, decide_eq_true_eq,
                      not_lt] at hslice
                    exact hslice
                refine ⟨cur, rindex, ctns, hcur, huse', hidx, hget', hslice', havail.1,
                  havail.2, ?_⟩
                split at h
                · rename_i e he
                  simp only [Option.some.injEq] at h
                  refine ⟨by rw [← h], Or.inl ⟨e, he, ?_, ?_, by rw [← h]⟩⟩
                  · rw [he] at hskip
                    simp only [] at hskip
                    by_cases hf : req.fixnodecount = true
                    · exact Or.inl hf
                    · right
                      simp only [Bool.not_eq_true] at hf
                      by_contra hge
                      simp only [not_lt] at hge
                      simp [hf, hge] at hskip
                  · rw [he] at hskip
                    simp only [] at hskip
                    by_contra hs
                    simp only [Bool.not_eq_false] at hs
                    simp [hs] at hskip
                · rename_i he
                  simp only [Option.some.injEq] at h
                  exact ⟨by rw [← h], Or.inr ⟨he, by rw [← h]⟩⟩
              · exact absurd h (by simp)
        · exact absurd h (by simp)

/-- What a successful stage 1 attempt on the preferred host `hostname` has checked and
done. -/
theorem stage1Try_some (g : RMGlobals) (pool : ResourcePool) (req : AllocRequest) (i : Nat)
    (hostname : String) (segs : List SegResource) (tbl : List VSegmentCounterInternal)
    (r : List SegResource × List VSegmentCounterInternal)
    (h : stage1Try g pool req i hostname segs tbl = some r) :
    ∃ segid cur rindex ctns,
      getSegIDByHDFSHostName pool hostname = some segid ∧
      getSegResource segs segid = some cur ∧ IS_SEGRESOURCE_USABLE cur = true ∧
      getResourceQueueRatioIndex g (ratioOf req.memory req.core) = some rindex ∧
      cur.ContainerSets.getD rindex none = some ctns ∧
      r.1 = segs.set segid
        (allocateResourceFromSegment cur rindex ctns req.memory req.core req.slicesize) ∧
      r.2 = setHASHTABLENode tbl (createVSegmentCounter i segid) := by
  unfold stage1Try at h
  simp only [] at h
  split at h
  · exact absurd h (by simp)
  · rename_i segid hid
    split at h
    · exact absurd h (by simp)
    · rename_i cur hcur
      split at h
      · exact absurd h (by simp)
      · rename_i huse
        split at h
        · rename_i ctns rindex hget hidx
          split at h
          · exact absurd h (by simp)
          · split at h
            · exact absurd h (by simp)
            · simp only [Option.some.injEq] at h
              have hget' : cur.ContainerSets.getD rindex none = some ctns := by
                unfold getGRMContainerSet at hget
                rw [hidx] at hget
                simp only [Prod.mk.injEq, true_and] at hget
                exact hget
              exact ⟨segid, cur, rindex, ctns, hid, hcur, by simpa using huse, hidx, hget',
                by rw [← h], by rw [← h]⟩
        · exact absurd h (by simp)

/-! ## The table of vseg counters -/

theorem getHASHTABLENode_some (tbl : List VSegmentCounterInternal) (key : Nat)
    (e : VSegmentCounterInternal) (h : getHASHTABLENode tbl key = some e) :
    e ∈ tbl ∧ e.SegId = key := by
  unfold getHASHTABLENode at h
  exact ⟨List.mem_of_find?_eq_some h, by simpa using List.find?_some h⟩

theorem getHASHTABLENode_none (tbl : List VSegmentCounterInternal) (key : Nat)
    (h : getHASHTABLENode tbl key = none) : ∀ e ∈ tbl, e.SegId ≠ key := by
  unfold getHASHTABLENode at h
  intro e he
  have := List.find?_eq_none.mp h e he
  simpa using this

theorem mem_setHASHTABLENode (tbl : List VSegmentCounterInternal)
    (v e : VSegmentCounterInternal) (h : e ∈ setHASHTABLENode tbl v) : e = v ∨ e ∈ tbl := by
  unfold setHASHTABLENode at h
  split_ifs at h
  · obtain ⟨a, ha, hae⟩ := List.mem_map.mp h
    split_ifs at hae
    · exact Or.inl hae.symm
    · exact Or.inr (hae ▸ ha)
  · rcases List.mem_append.mp h with h | h
    · exact Or.inr h
    · exact Or.inl (by simpa using h)

theorem mem_incrVSegmentCount (tbl : List VSegmentCounterInternal) (key : Nat)
    (e : VSegmentCounterInternal) (h : e ∈ incrVSegmentCount tbl key) :
    (e ∈ tbl ∧ e.SegId ≠ key) ∨
    ∃ a ∈ tbl, a.SegId = key ∧ e = { a with VSegmentCount := a.VSegmentCount + 1 } := by
  unfold incrVSegmentCount at h
  obtain ⟨a, ha, hae⟩ := List.mem_map.mp h
  by_cases hk : a.SegId = key
  · right
    refine ⟨a, ha, hk, ?_⟩
    have hb : (a.SegId == key) = true := by simpa using hk
    rw [if_pos hb] at hae
    exact hae.symm
  · left
    have : (a.SegId == key) = false := by simpa using hk
    simp only [this] at hae
    exact ⟨hae ▸ ha, hae ▸ hk⟩

theorem keys_incrVSegmentCount (tbl : List VSegmentCounterInternal) (key : Nat) :
    (incrVSegmentCount tbl key).map (fun e => e.SegId) = tbl.map (fun e => e.SegId) := by
  unfold incrVSegmentCount
  rw [List.map_map]
  apply List.map_congr_left
  intro a _
  simp only [Function.comp]
  split_ifs <;> rfl

theorem keys_setHASHTABLENode_nodup (tbl : List VSegmentCounterInternal)
    (v : VSegmentCounterInternal) (h : (tbl.map (fun e => e.SegId)).Nodup) :
    ((setHASHTABLENode tbl v).map (fun e => e.SegId)).Nodup := by
  unfold setHASHTABLENode
  split_ifs with hany
  · have : (tbl.map (fun e => if (e.SegId == v.SegId) = true then v else e)).map
        (fun e => e.SegId) = tbl.map (fun e => e.SegId) := by
      rw [List.map_map]
      apply List.map_congr_left
      intro a _
      simp only [Function.comp]
      split_ifs with hk
      · exact (by simpa using hk : a.SegId = v.SegId).symm
      · rfl
    rw [this]
    exact h
  · rw [List.map_append]
    apply List.Nodup.append h (by simp)
    intro k hk1 hk2
    simp only [List.map_cons, List.map_nil, List.mem_singleton] at hk2
    obtain ⟨a, ha, hak⟩ := List.mem_map.mp hk1
    apply hany
    simp only [List.any_eq_true, beq_iff_eq]
    exact ⟨a, ha, hak.trans hk2⟩

/-- In a table whose keys are distinct, an entry is determined by its key. -/
theorem eq_of_key_eq (tbl : List VSegmentCounterInternal)
    (h : (tbl.map (fun e => e.SegId)).Nodup) (a b : VSegmentCounterInternal)
    (ha : a ∈ tbl) (hb : b ∈ tbl) (hk : a.SegId = b.SegId) : a = b :=
  List.inj_on_of_nodup_map h ha hb hk

/-! ## Induction over the stage 1 loop -/

/-- An invariant of the stage 1 loop (it may depend on the position and on the host
names still to be visited) holds when the loop ends, at the position where it ends. -/
theorem stage1Loop_induct (g : RMGlobals) (pool : ResourcePool) (req : AllocRequest)
    (I : Nat → List String → List SegResource → List VSegmentCounterInternal → Int → Prop)
    (hskip : ∀ i hostname rest segs tbl nl, I i (hostname :: rest) segs tbl nl →
      stage1Try g pool req i hostname segs tbl = none → I (i + 1) rest segs tbl nl)
    (hstep : ∀ i hostname rest segs tbl nl r, I i (hostname :: rest) segs tbl nl →
      stage1Try g pool req i hostname segs tbl = some r → I (i + 1) rest r.1 r.2 (nl - 1)) :
    ∀ (rest : List String) (i : Nat) (segs : List SegResource)
      (tbl : List VSegmentCounterInternal) (nl : Int), I i rest segs tbl nl →
      ∃ j rest', I j rest' (stage1Loop g pool req i rest segs tbl nl).1
        (stage1Loop g pool req i rest segs tbl nl).2.1
        (stage1Loop g pool req i rest segs tbl nl).2.2 := by
  intro rest
  induction rest with
  | nil =>
    intro i segs tbl nl h
    exact ⟨i, [], by simpa [stage1Loop] using h⟩
  | cons hostname rest ih =>
    intro i segs tbl nl h
    unfold stage1Loop
    rcases htry : stage1Try g pool req i hostname segs tbl with _ | r
    · simp only []
      exact ih (i + 1) segs tbl nl (hskip i hostname rest segs tbl nl h htry)
    · simp only []
      have h' := hstep i hostname rest segs tbl nl r h htry
      split_ifs with h0
      · exact ⟨i + 1, rest, h'⟩
      · exact ih (i + 1) r.1 r.2 (nl - 1) h'

/-- Induction over the stage 1 loop with its `break`: `I` is maintained while the loop
continues, `Q` holds where it stops. -/
theorem stage1Loop_induct_break (g : RMGlobals) (pool : ResourcePool) (req : AllocRequest)
    (I : Nat → List String → List SegResource → List VSegmentCounterInternal → Int → Prop)
    (Q : List SegResource → List VSegmentCounterInternal → Int → Prop)
    (hend : ∀ i segs tbl nl, I i [] segs tbl nl → Q segs tbl nl)
    (hskip : ∀ i hostname rest segs tbl nl, I i (hostname :: rest) segs tbl nl →
      stage1Try g pool req i hostname segs tbl = none → I (i + 1) rest segs tbl nl)
    (hbreak : ∀ i hostname rest segs tbl nl r, I i (hostname :: rest) segs tbl nl →
      stage1Try g pool req i hostname segs tbl = some r → nl - 1 = 0 → Q r.1 r.2 (nl - 1))
    (hstep : ∀ i hostname rest segs tbl nl r, I i (hostname :: rest) segs tbl nl →
      stage1Try g pool req i hostname segs tbl = some r → nl - 1 ≠ 0 →
      I (i + 1) rest r.1 r.2 (nl - 1)) :
    ∀ (rest : List String) (i : Nat) (segs : List SegResource)
      (tbl : List VSegmentCounterInternal) (nl : Int), I i rest segs tbl nl →
      Q (stage1Loop g pool req i rest segs tbl nl).1
        (stage1Loop g pool req i rest segs tbl nl).2.1
        (stage1Loop g pool req i rest segs tbl nl).2.2 := by
  intro rest
  induction rest with
  | nil =>
    intro i segs tbl nl h
    simpa [stage1Loop] using hend i segs tbl nl h
  | cons hostname rest ih =>
    intro i segs tbl nl h
    unfold stage1Loop
    rcases htry : stage1Try g pool req i hostname segs tbl with _ | r
    · simp only []
      exact ih (i + 1) segs tbl nl (hskip i hostname rest segs tbl nl h htry)
    · simp only []
      split_ifs with h0
      · exact hbreak i hostname rest segs tbl nl r h htry h0
      · exact ih (i + 1) r.1 r.2 (nl - 1) (hstep i hostname rest segs tbl nl r h htry h0)

/-! ## Properties of the table that the allocation maintains -/

/-- A property of `vsegcnttbl` that holds of the empty table and survives the three
ways in which the allocation changes the table (a new counter in stage 1, an
incremented counter and a new counter in stage 2) holds of the returned host list. -/
theorem allocate_table_invariant (g : RMGlobals) (pool : ResourcePool) (req : AllocRequest)
    (T : List VSegmentCounterInternal → Prop) (hnil : T [])
    (hset1 : ∀ tbl i hostname segid, T tbl →
      req.preferredhostname[i]? = some hostname →
      getSegIDByHDFSHostName pool hostname = some segid →
      T (setHASHTABLENode tbl (createVSegmentCounter i segid)))
    (hincr : ∀ tbl id e, T tbl → getHASHTABLENode tbl id = some e →
      (req.fixnodecount = true ∨ e.VSegmentCount < req.vseglimitpseg) →
      T (incrVSegmentCount tbl id))
    (hset2 : ∀ tbl id, T tbl → getHASHTABLENode tbl id = none →
      T (setHASHTABLENode tbl (createVSegmentCounter
        (findHDFSNameIndex pool id req.preferredhostname.length 0 req.preferredhostname) id))) :
    ∃ r, allocateResourceFromResourcePoolIOBytes g pool req = some r ∧ T r.vsegcounters := by
  have h1 : T (stage1 g pool req).vsegcnttbl := by
    unfold stage1
    simp only []
    split_ifs with hlt
    · obtain ⟨j, rest', _, hT⟩ := stage1Loop_induct g pool req
        (fun i rest _ tbl _ => req.preferredhostname.drop i = rest ∧ T tbl)
        (by
          intro i hostname rest segs tbl nl hI _
          refine ⟨?_, hI.2⟩
          have := congrArg List.tail hI.1
          simpa [List.tail_drop] using this)
        (by
          intro i hostname rest segs tbl nl r hI htry
          obtain ⟨segid, cur, rindex, ctns, hid, _, _, _, _, _, h2⟩ :=
            stage1Try_some g pool req i hostname segs tbl r htry
          have hget : req.preferredhostname[i]? = some hostname := by
            have := congrArg List.head? hI.1
            simpa [List.head?_drop] using this
          refine ⟨?_, ?_⟩
          · have := congrArg List.tail hI.1
            simpa [List.tail_drop] using this
          · rw [h2]
            exact hset1 tbl i hostname segid hI.2 hget hid)
        req.preferredhostname 0 pool.Segments [] req.nodecount ⟨by simp, hnil⟩
      exact hT
    · exact hnil
  obtain ⟨st, hst, _, hres⟩ := allocate_of_invariant g pool req
    (fun st => T st.vsegcnttbl) h1
    (by
      intro st hT hc
      obtain ⟨_, htree, himp⟩ := stage2Cond_true _ st hc
      obtain ⟨leftnode, rest, ht⟩ := List.exists_cons_of_ne_nil htree
      obtain ⟨hsome, hnone⟩ := stage2Body_fields g pool req _ st leftnode rest ht himp
      rcases htry : stage2Try g pool req st leftnode with _ | r
      · show T (stage2Body g pool req _ st).vsegcnttbl
        rw [(hnone htry).2.1]
        exact hT
      · show T (stage2Body g pool req _ st).vsegcnttbl
        rw [(hsome r htry).2.1]
        obtain ⟨cur, rindex, ctns, _, _, _, _, _, _, _, _, hcase⟩ :=
          stage2Try_some g pool req st leftnode r htry
        rcases hcase with ⟨e, he, hlim, _, hr2⟩ | ⟨he, hr2⟩
        · rw [hr2]
          exact hincr _ _ e hT he hlim
        · rw [hr2]
          exact hset2 _ _ hT he)
  exact ⟨finishAllocation pool req st, hres, hst⟩

/-! ## Counting through the table -/

theorem setHASHTABLENode_of_none (tbl : List VSegmentCounterInternal)
    (v : VSegmentCounterInternal) (h : getHASHTABLENode tbl v.SegId = none) :
    setHASHTABLENode tbl v = tbl ++ [v] := by
  unfold setHASHTABLENode
  have hany : ¬ (tbl.any (fun e => e.SegId == v.SegId) = true) := by
    intro hany
    simp only [List.any_eq_true, beq_iff_eq] at hany
    obtain ⟨a, ha, hk⟩ := hany
    exact getHASHTABLENode_none tbl _ h a ha hk
  simp only [hany, if_false]
  rfl

theorem vsegCountOf_append_new (tbl : List VSegmentCounterInternal)
    (v : VSegmentCounterInternal) (h : getHASHTABLENode tbl v.SegId = none) (j : Nat) :
    vsegCountOf (tbl ++ [v]) j = if j = v.SegId then v.VSegmentCount else vsegCountOf tbl j := by
  unfold vsegCountOf getHASHTABLENode at *
  rw [List.find?_append]
  by_cases hj : j = v.SegId
  · subst hj
    simp only [h, if_true]
    simp
  · simp only [hj, if_false]
    have : ¬ v.SegId = j := fun h => hj h.symm
    rcases hf : List.find? (fun e => e.SegId == j) tbl with _ | e
    · simp [this]
    · simp [hf]

theorem getHASHTABLENode_incr (tbl : List VSegmentCounterInternal) (id j : Nat) :
    getHASHTABLENode (incrVSegmentCount tbl id) j =
      (getHASHTABLENode tbl j).map
        (fun e => if e.SegId == id then { e with VSegmentCount := e.VSegmentCount + 1 } else e) := by
  unfold getHASHTABLENode incrVSegmentCount
  rw [List.find?_map]
  congr 1
  congr 1
  funext a
  simp only [Function.comp]
  split_ifs <;> rfl

theorem vsegCountOf_incr (tbl : List VSegmentCounterInternal) (id : Nat)
    (e : VSegmentCounterInternal) (h : getHASHTABLENode tbl id = some e) (j : Nat) :
    vsegCountOf (incrVSegmentCount tbl id) j
      = if j = id then e.VSegmentCount + 1 else vsegCountOf tbl j := by
  unfold vsegCountOf
  rw [getHASHTABLENode_incr]
  by_cases hj : j = id
  · subst hj
    have hk := (getHASHTABLENode_some tbl j e h).2
    simp only [h, Option.map_some', hk, beq_self_eq_true, if_true]
  · simp only [hj, if_false]
    rcases hf : getHASHTABLENode tbl j with _ | a
    · rfl
    · have hk := (getHASHTABLENode_some tbl j a hf).2
      have : ¬ a.SegId = id := by rw [hk]; exact hj
      simp [this]

theorem totalVSegmentCount_incr (tbl : List VSegmentCounterInternal) (id : Nat)
    (e : VSegmentCounterInternal) (hnd : (tbl.map (fun e => e.SegId)).Nodup)
    (h : getHASHTABLENode tbl id = some e) :
    totalVSegmentCount (incrVSegmentCount tbl id) = totalVSegmentCount tbl + 1 := by
  induction tbl with
  | nil => simp [getHASHTABLENode] at h
  | cons a rest ih =>
    simp only [List.map_cons, List.nodup_cons] at hnd
    unfold totalVSegmentCount incrVSegmentCount at *
    simp only [List.map_cons, List.sum_cons]
    by_cases hk : a.SegId = id
    · have hrest : ∀ b ∈ rest, ¬ b.SegId = id := by
        intro b hb hbk
        apply hnd.1
        rw [hk, ← hbk]
        exact List.mem_map_of_mem _ hb
      have hmap : List.map (fun e => if (e.SegId == id) = true
          then { e with VSegmentCount := e.VSegmentCount + 1 } else e) rest = rest := by
        conv_rhs => rw [← List.map_id rest]
        apply List.map_congr_left
        intro b hb
        have : (b.SegId == id) = false := by simpa using hrest b hb
        simp [this]
      rw [hmap]
      have hb : (a.SegId == id) = true := by simpa using hk
      simp only [hb, if_true]
      ring
    · have hb : (a.SegId == id) = false := by simpa using hk
      simp only [hb]
      have h' : getHASHTABLENode rest id = some e := by
        unfold getHASHTABLENode at h ⊢
        rw [List.find?_cons] at h
        simpa [hb] using h
      have := ih hnd.2 h'
      simp only [Bool.false_eq_true, if_false]
      rw [this]
      ring

theorem totalVSegmentCount_append (tbl : List VSegmentCounterInternal)
    (v : VSegmentCounterInternal) :
    totalVSegmentCount (tbl ++ [v]) = totalVSegmentCount tbl + v.VSegmentCount := by
  unfold totalVSegmentCount
  simp

/-! ## One segment through allocation and return -/

theorem getD_none_eq_some {α : Type} (l : List (Option α)) (i : Nat) (c : α) :
    l.getD i none = some c ↔ l[i]? = some (some c) := by
  rw [List.getD_eq_getElem?_getD]
  rcases h : l[i]? with _ | a
  · simp
  · simp

theorem set_eq_self_of_getElem? {α : Type} (l : List α) (i : Nat) (a : α)
    (h : l[i]? = some a) : l.set i a = l := by
  apply List.ext_getElem?
  intro j
  rw [List.getElem?_set]
  by_cases hij : i = j
  · subst hij
    obtain ⟨hlt, _⟩ := List.getElem?_eq_some_iff.mp h
    simp only [if_true, hlt, h]
  · simp only [hij, if_false]

theorem getD_set_self {α : Type} (l : List (Option α)) (i : Nat) (c x : α)
    (h : l.getD i none = some c) : (l.set i (some x)).getD i none = some x := by
  rw [getD_none_eq_some] at h ⊢
  obtain ⟨hlt, _⟩ := List.getElem?_eq_some_iff.mp h
  exact List.getElem?_set_self hlt

theorem minus_minus_bundle (a : ResourceBundle) (m : Int) (c : ℚ) (k : Int) :
    minusResourceBundleData (minusResourceBundleData a (m * k) (c * k)) m c
      = minusResourceBundleData a (m * (k + 1)) (c * ((k + 1 : Int) : ℚ)) := by
  unfold minusResourceBundleData
  simp only [ResourceBundle.mk.injEq]
  constructor
  · ring
  · push_cast
    ring

theorem add_minus_bundle (a : ResourceBundle) (m : Int) (c : ℚ) :
    addResourceBundleData (minusResourceBundleData a m c) m c = a := by
  unfold minusResourceBundleData addResourceBundleData
  cases a
  simp

theorem segAfterAlloc_zero (req : AllocRequest) (rindex : Nat) (segres : SegResource) :
    segAfterAlloc req rindex 0 segres = segres := by
  simp [segAfterAlloc]

/-- Taking one more vseg from a segment that has given `k` vsegs leaves it as after
`k + 1` vsegs; the container set it is taken from exists in the original segment. -/
theorem allocateResourceFromSegment_segAfterAlloc (req : AllocRequest) (rindex : Nat)
    (k : Int) (hk : 0 ≤ k) (seg0 : SegResource) (ctns : GRMContainerSet)
    (h : (segAfterAlloc req rindex k seg0).ContainerSets.getD rindex none = some ctns) :
    allocateResourceFromSegment (segAfterAlloc req rindex k seg0) rindex ctns req.memory
        req.core req.slicesize = segAfterAlloc req rindex (k + 1) seg0 ∧
    ∃ c0, seg0.ContainerSets.getD rindex none = some c0 := by
  have hk1 : ¬ (k + 1 = 0) := by omega
  by_cases hk0 : k = 0
  · subst hk0
    rw [segAfterAlloc_zero] at h ⊢
    refine ⟨?_, ctns, h⟩
    unfold segAfterAlloc allocateResourceFromSegment
    rw [if_neg hk1]
    simp only [h]
    simp
  · unfold segAfterAlloc at h ⊢
    simp only [hk0, hk1, if_false] at h ⊢
    rcases hc : seg0.ContainerSets.getD rindex none with _ | c0
    · rw [hc] at h
      simp only [] at h
      rw [hc] at h
      cases h
    · rw [hc] at h
      simp only [] at h ⊢
      rw [getD_set_self _ _ c0 _ hc] at h
      simp only [Option.some.injEq] at h
      refine ⟨?_, c0, rfl⟩
      unfold allocateResourceFromSegment
      subst h
      simp only [List.set_set, minus_minus_bundle]
      congr 1
      ring

/-- Returning the `k` vsegs of an entry to the segment that gave them, after its IO
workload was raised for them, restores the segment. -/
theorem recycleResourceToSegment_segAfterAlloc (g : RMGlobals) (req : AllocRequest)
    (rindex : Nat) (k : Int) (hk : k ≠ 0) (vsegiobytes : Int) (seg0 : SegResource)
    (c0 : GRMContainerSet)
    (hidx : getResourceQueueRatioIndex g (ratioOf req.memory req.core) = some rindex)
    (hc : seg0.ContainerSets.getD rindex none = some c0) :
    let s1 : SegResource :=
      { segAfterAlloc req rindex k seg0 with
        IOBytesWorkload := (segAfterAlloc req rindex k seg0).IOBytesWorkload + vsegiobytes * k }
    recycleResourceToSegment s1 rindex
      (getGRMContainerSet g s1 (ratioOf req.memory req.core)).2
      (req.memory * k) (req.core * k) (vsegiobytes * k) (req.slicesize * k) = seg0 := by
  have hseg : segAfterAlloc req rindex k seg0 =
      { seg0 with
        ContainerSets := seg0.ContainerSets.set rindex
          (some { c0 with
            Available := minusResourceBundleData c0.Available (req.memory * k) (req.core * k) }),
        Available := minusResourceBundleData seg0.Available (req.memory * k) (req.core * k),
        SliceWorkload := seg0.SliceWorkload + req.slicesize * k } := by
    unfold segAfterAlloc
    simp only [hk, if_false, hc]
  intro s1
  have hs1 : s1 =
      { seg0 with
        ContainerSets := seg0.ContainerSets.set rindex
          (some { c0 with
            Available := minusResourceBundleData c0.Available (req.memory * k) (req.core * k) }),
        Available := minusResourceBundleData seg0.Available (req.memory * k) (req.core * k),
        SliceWorkload := seg0.SliceWorkload + req.slicesize * k,
        IOBytesWorkload := seg0.IOBytesWorkload + vsegiobytes * k } := by
    show ({ segAfterAlloc req rindex k seg0 with
        IOBytesWorkload := (segAfterAlloc req rindex k seg0).IOBytesWorkload + vsegiobytes * k }
        : SegResource) = _
    rw [hseg]
  rw [hs1]
  unfold getGRMContainerSet
  rw [hidx]
  simp only [getD_set_self _ _ c0 _ hc]
  unfold recycleResourceToSegment
  simp only [List.set_set, add_minus_bundle]
  have hself : seg0.ContainerSets.set rindex (some c0) = seg0.ContainerSets :=
    set_eq_self_of_getElem? _ _ _ ((getD_none_eq_some _ _ _).mp hc)
  cases seg0
  cases c0
  simp only [SegResource.mk.injEq] at hself ⊢
  refine ⟨trivial, trivial, trivial, trivial, trivial, by ring, by ring, ?_⟩
  simpa using hself

/-! ## Passes over the entries of a host list -/

theorem updateSegments_length (f : VSegmentCounterInternal → SegResource → SegResource)
    (tbl : List VSegmentCounterInternal) :
    ∀ segs : List SegResource, (updateSegments f tbl segs).length = segs.length := by
  induction tbl with
  | nil => intro segs; rfl
  | cons e rest ih =>
    intro segs
    unfold updateSegments
    rw [List.foldl_cons]
    rcases hs : getSegResource segs e.SegId with _ | s
    · exact ih segs
    · simp only []
      have := ih (segs.set e.SegId (f e s))
      unfold updateSegments at this
      rw [this, List.length_set]

/-- With distinct keys, a pass rewrites the segment of every entry once and leaves the
other segments alone. -/
theorem updateSegments_getElem? (f : VSegmentCounterInternal → SegResource → SegResource)
    (tbl : List VSegmentCounterInternal) (hnd : (tbl.map (fun e => e.SegId)).Nodup) :
    ∀ (segs : List SegResource) (j : Nat),
      (updateSegments f tbl segs)[j]? =
        match getHASHTABLENode tbl j with
        | some e => (segs[j]?).map (f e)
        | none => segs[j]? := by
  induction tbl with
  | nil =>
    intro segs j
    simp [updateSegments, getHASHTABLENode]
  | cons e rest ih =>
    intro segs j
    simp only [List.map_cons, List.nodup_cons] at hnd
    have hrestkey : getHASHTABLENode rest e.SegId = none := by
      unfold getHASHTABLENode
      apply List.find?_eq_none.mpr
      intro a ha hk
      apply hnd.1
      have : a.SegId = e.SegId := by simpa using hk
      rw [← this]
      exact List.mem_map_of_mem _ ha
    have hunf : ∀ segs', updateSegments f (e :: rest) segs' =
        updateSegments f rest
          (match getSegResource segs' e.SegId with
           | some s => segs'.set e.SegId (f e s)
           | none => segs') := by
      intro segs'
      unfold updateSegments
      rw [List.foldl_cons]
    rw [hunf, ih hnd.2]
    by_cases hj : e.SegId = j
    · subst hj
      have hfind : getHASHTABLENode (e :: rest) e.SegId = some e := by
        unfold getHASHTABLENode
        rw [List.find?_cons]
        simp
      rw [hfind, hrestkey]
      simp only []
      rcases hs : getSegResource segs e.SegId with _ | s
      · simp only []
        unfold getSegResource at hs
        rw [hs]
        rfl
      · simp only []
        unfold getSegResource at hs
        obtain ⟨hlt, _⟩ := List.getElem?_eq_some_iff.mp hs
        rw [List.getElem?_set_self hlt, hs]
        rfl
    · have hfind : getHASHTABLENode (e :: rest) j = getHASHTABLENode rest j := by
        unfold getHASHTABLENode
        rw [List.find?_cons]
        have : (e.SegId == j) = false := by simpa using hj
        simp [this]
      rw [hfind]
      have hsame : (match getSegResource segs e.SegId with
           | some s => segs.set e.SegId (f e s)
           | none => segs)[j]? = segs[j]? := by
        rcases hs : getSegResource segs e.SegId with _ | s
        · rfl
        · simp only []
          exact List.getElem?_set_ne hj
      rw [hsame]

/-- The segments after STEP 3 of the allocation. -/
theorem refreshIOBytesWorkload_segments (vsegiobytes : Int)
    (tbl : List VSegmentCounterInternal) :
    ∀ (segs : List SegResource) (tree : List Nat),
      (refreshIOBytesWorkload vsegiobytes tbl (segs, tree)).1 =
        updateSegments (fun e s =>
          { s with IOBytesWorkload := s.IOBytesWorkload + vsegiobytes * e.VSegmentCount })
          tbl segs := by
  induction tbl with
  | nil => intro segs tree; rfl
  | cons e rest ih =>
    intro segs tree
    unfold refreshIOBytesWorkload updateSegments
    rw [List.foldl_cons]
    rcases hs : getSegResource segs e.SegId with _ | s
    · simp only []
      have := ih segs tree
      unfold updateSegments at this
      exact this
    · simp only []
      have := ih (segs.set e.SegId
        { s with IOBytesWorkload := s.IOBytesWorkload + vsegiobytes * e.VSegmentCount })
        (reorderSegResourceIOBytesWorkloadIndex (segs.set e.SegId
          { s with IOBytesWorkload := s.IOBytesWorkload + vsegiobytes * e.VSegmentCount })
          tree e.SegId)
      unfold updateSegments at this
      exact this

/-- The segments after `returnResourceToResourcePool` with `isold = false`. -/
theorem returnResourceToResourcePool_segments (g : RMGlobals) (memory : Int) (core : ℚ)
    (vsegiobytes : Int) (slicesize : Int) (hosts : List VSegmentCounterInternal) :
    ∀ pool : ResourcePool,
      (returnResourceToResourcePool g memory core vsegiobytes slicesize hosts false pool).Segments =
        updateSegments (fun e s =>
          recycleResourceToSegment s ((getResourceQueueRatioIndex g (ratioOf memory core)).getD 0)
            (getGRMContainerSet g s (ratioOf memory core)).2
            (memory * e.VSegmentCount) (core * e.VSegmentCount)
            (vsegiobytes * e.VSegmentCount) (slicesize * e.VSegmentCount))
          hosts pool.Segments := by
  induction hosts with
  | nil => intro pool; rfl
  | cons e rest ih =>
    intro pool
    unfold returnResourceToResourcePool updateSegments
    rw [List.foldl_cons, List.foldl_cons]
    have hstep := ih (returnOneHost g memory core vsegiobytes slicesize false pool e)
    unfold returnResourceToResourcePool updateSegments at hstep
    rw [hstep]
    congr 1
    unfold returnOneHost
    rcases hs : getSegResource pool.Segments e.SegId with _ | s
    · rfl
    · simp

/-! ## The bookkeeping invariant of the allocation -/

theorem getHASHTABLENode_eq_none_of_keys (tbl : List VSegmentCounterInternal) (key : Nat)
    (h : ∀ e ∈ tbl, e.SegId ≠ key) : getHASHTABLENode tbl key = none := by
  unfold getHASHTABLENode
  apply List.find?_eq_none.mpr
  intro a ha hk
  exact h a ha (by simpa using hk)

theorem AllocInvariant_init (g : RMGlobals) (req : AllocRequest) (segs0 : List SegResource) :
    AllocInvariant g req segs0 segs0 [] req.nodecount := by
  refine ⟨by simp, by simp, ?_, by simp [totalVSegmentCount]⟩
  intro j
  have : vsegCountOf [] j = 0 := rfl
  rw [this]
  rcases segs0[j]? with _ | s
  · rfl
  · simp [segAfterAlloc_zero]

/-- One more vseg allocated on segment `id`, recorded in the table by an incremented
counter or, if the segment had none, by a new counter, maintains the invariant. -/
theorem AllocInvariant_step (g : RMGlobals) (req : AllocRequest) (segs0 segs : List SegResource)
    (tbl tbl' : List VSegmentCounterInternal) (nl : Int)
    (hR : AllocInvariant g req segs0 segs tbl nl)
    (id : Nat) (cur : SegResource) (rindex : Nat) (ctns : GRMContainerSet)
    (hcur : getSegResource segs id = some cur)
    (hidx : getResourceQueueRatioIndex g (ratioOf req.memory req.core) = some rindex)
    (hct : cur.ContainerSets.getD rindex none = some ctns)
    (htbl : (∃ e, getHASHTABLENode tbl id = some e ∧ tbl' = incrVSegmentCount tbl id) ∨
      (getHASHTABLENode tbl id = none ∧
        ∃ idx, tbl' = setHASHTABLENode tbl (createVSegmentCounter idx id))) :
    AllocInvariant g req segs0
      (segs.set id
        (allocateResourceFromSegment cur rindex ctns req.memory req.core req.slicesize))
      tbl' (nl - 1) := by
  obtain ⟨hnd, hent, hseg, htot⟩ := hR
  rw [hidx] at hseg
  simp only [Option.getD_some] at hseg
  unfold AllocInvariant
  unfold getSegResource at hcur
  have hid := hseg id
  rw [hcur] at hid
  rcases hs0 : segs0[id]? with _ | seg0
  · rw [hs0] at hid
    cases hid
  rw [hs0] at hid
  simp only [Option.map_some', Option.some.injEq] at hid
  have hk0 : 0 ≤ vsegCountOf tbl id := by
    unfold vsegCountOf
    rcases he : getHASHTABLENode tbl id with _ | e
    · exact le_refl _
    · have := (hent e (getHASHTABLENode_some tbl id e he).1).1
      simp only []
      omega
  rw [hid] at hct
  obtain ⟨hnew, c0, hc0⟩ := allocateResourceFromSegment_segAfterAlloc req rindex
    (vsegCountOf tbl id) hk0 seg0 ctns hct
  rw [hid, hnew]
  have hcnt : ∀ j, vsegCountOf tbl' j
      = if j = id then vsegCountOf tbl id + 1 else vsegCountOf tbl j := by
    intro j
    rcases htbl with ⟨e, he, ht⟩ | ⟨he, idx, ht⟩
    · rw [ht, vsegCountOf_incr tbl id e he j]
      have : vsegCountOf tbl id = e.VSegmentCount := by
        unfold vsegCountOf
        rw [he]
      rw [this]
    · have he' : getHASHTABLENode tbl (createVSegmentCounter idx id).SegId = none := he
      rw [ht, setHASHTABLENode_of_none tbl _ he', vsegCountOf_append_new tbl _ he' j]
      have : vsegCountOf tbl id = 0 := by
        unfold vsegCountOf
        rw [he]
      rw [this]
      rfl
  refine ⟨?_, ?_, ?_, ?_⟩
  · rcases htbl with ⟨e, _, ht⟩ | ⟨_, idx, ht⟩
    · rw [ht, keys_incrVSegmentCount]
      exact hnd
    · rw [ht]
      exact keys_setHASHTABLENode_nodup tbl _ hnd
  · intro a ha
    rcases htbl with ⟨e, he, ht⟩ | ⟨he, idx, ht⟩
    · rw [ht] at ha
      rcases mem_incrVSegmentCount tbl id a ha with ⟨h, _⟩ | ⟨b, hb, _, hab⟩
      · exact hent a h
      · obtain ⟨h1, h2⟩ := hent b hb
        rw [hab]
        exact ⟨by show 1 ≤ b.VSegmentCount + 1; omega, h2⟩
    · rw [ht] at ha
      rcases mem_setHASHTABLENode tbl _ a ha with h | h
      · rw [h]
        exact ⟨le_refl _, rindex, seg0, c0, hidx, hs0, hc0⟩
      · exact hent a h
  · intro j
    rw [hidx]
    simp only [Option.getD_some]
    rw [List.getElem?_set, hcnt j]
    by_cases hj : id = j
    · subst hj
      obtain ⟨hlt, _⟩ := List.getElem?_eq_some_iff.mp hcur
      simp only [if_true, hlt, hs0, Option.map_some']
    · have hj' : ¬ j = id := fun h => hj h.symm
      simp only [hj, hj', if_false]
      exact hseg j
  · rcases htbl with ⟨e, he, ht⟩ | ⟨he, idx, ht⟩
    · rw [ht, totalVSegmentCount_incr tbl id e hnd he, htot]
      ring
    · have he' : getHASHTABLENode tbl (createVSegmentCounter idx id).SegId = none := he
      rw [ht, setHASHTABLENode_of_none tbl _ he', totalVSegmentCount_append, htot]
      show req.nodecount - nl + 1 = req.nodecount - (nl - 1)
      ring

theorem totalVSegmentCount_nonneg (tbl : List VSegmentCounterInternal)
    (h : ∀ e ∈ tbl, 1 ≤ e.VSegmentCount) :
    0 ≤ totalVSegmentCount tbl ∧ (totalVSegmentCount tbl = 0 → tbl = []) := by
  induction tbl with
  | nil => exact ⟨le_refl _, fun _ => rfl⟩
  | cons a rest ih =>
    have ha := h a (List.mem_cons_self _ _)
    obtain ⟨h1, _⟩ := ih (fun e he => h e (List.mem_cons_of_mem _ he))
    unfold totalVSegmentCount at *
    simp only [List.map_cons, List.sum_cons]
    refine ⟨by omega, fun h0 => ?_⟩
    omega

/-- Stage 1 maintains the bookkeeping invariant when the preferred host names resolve
to pairwise distinct segments, and leaves `nodecountleft ≥ 0`. -/
theorem stage1_AllocInvariant (g : RMGlobals) (pool : ResourcePool) (req : AllocRequest)
    (hn : 1 ≤ req.nodecount)
    (hdist : (req.preferredhostname.filterMap (getSegIDByHDFSHostName pool)).Nodup) :
    AllocInvariant g req pool.Segments (stage1 g pool req).Segments
      (stage1 g pool req).vsegcnttbl (stage1 g pool req).nodecountleft ∧
    0 ≤ (stage1 g pool req).nodecountleft := by
  unfold stage1
  simp only []
  split_ifs with hlt
  · exact stage1Loop_induct_break g pool req
      (fun _ rest segs tbl nl => AllocInvariant g req pool.Segments segs tbl nl ∧ 1 ≤ nl ∧
        (rest.filterMap (getSegIDByHDFSHostName pool)).Nodup ∧
        ∀ e ∈ tbl, e.SegId ∉ rest.filterMap (getSegIDByHDFSHostName pool))
      (fun segs tbl nl => AllocInvariant g req pool.Segments segs tbl nl ∧ 0 ≤ nl)
      (by
        intro i segs tbl nl h
        exact ⟨h.1, by omega⟩)
      (by
        intro i hostname rest segs tbl nl h _
        obtain ⟨h1, h2, h3, h4⟩ := h
        refine ⟨h1, h2, ?_, ?_⟩
        · rcases hr : getSegIDByHDFSHostName pool hostname with _ | x
          · simpa [List.filterMap_cons, hr] using h3
          · rw [List.filterMap_cons, hr] at h3
            exact (List.nodup_cons.mp h3).2
        · intro e he hmem
          apply h4 e he
          rcases hr : getSegIDByHDFSHostName pool hostname with _ | x
          · simpa [List.filterMap_cons, hr] using hmem
          · rw [List.filterMap_cons, hr]
            exact List.mem_cons_of_mem _ hmem)
      (by
        intro i hostname rest segs tbl nl r h htry h0
        obtain ⟨h1, h2, h3, h4⟩ := h
        obtain ⟨segid, cur, rindex, ctns, hid, hcur, _, hidx, hct, hr1, hr2⟩ :=
          stage1Try_some g pool req i hostname segs tbl r htry
        have hnone : getHASHTABLENode tbl segid = none := by
          apply getHASHTABLENode_eq_none_of_keys
          intro e he hk
          apply h4 e he
          rw [List.filterMap_cons, hid, hk]
          exact List.mem_cons_self _ _
        refine ⟨?_, by omega⟩
        rw [hr1, hr2]
        exact AllocInvariant_step g req pool.Segments segs tbl _ nl h1 segid cur rindex ctns
          hcur hidx hct (Or.inr ⟨hnone, i, rfl⟩))
      (by
        intro i hostname rest segs tbl nl r h htry h0
        obtain ⟨h1, h2, h3, h4⟩ := h
        obtain ⟨segid, cur, rindex, ctns, hid, hcur, _, hidx, hct, hr1, hr2⟩ :=
          stage1Try_some g pool req i hostname segs tbl r htry
        rw [List.filterMap_cons, hid] at h3 h4
        obtain ⟨hnotin, hnd⟩ := List.nodup_cons.mp h3
        have hnone : getHASHTABLENode tbl segid = none := by
          apply getHASHTABLENode_eq_none_of_keys
          intro e he hk
          apply h4 e he
          rw [hk]
          exact List.mem_cons_self _ _
        refine ⟨?_, by omega, hnd, ?_⟩
        · rw [hr1, hr2]
          exact AllocInvariant_step g req pool.Segments segs tbl _ nl h1 segid cur rindex ctns
            hcur hidx hct (Or.inr ⟨hnone, i, rfl⟩)
        · intro e he hmem
          rw [hr2] at he
          rcases mem_setHASHTABLENode tbl _ e he with h | h
          · rw [h] at hmem
            exact hnotin hmem
          · exact h4 e h (List.mem_cons_of_mem _ hmem))
      req.preferredhostname 0 pool.Segments [] req.nodecount
      ⟨AllocInvariant_init g req pool.Segments, hn, hdist, by simp⟩
  · exact ⟨AllocInvariant_init g req pool.Segments, by show 0 ≤ req.nodecount; omega⟩

/-- Every iteration of the stage 2 loop maintains the bookkeeping invariant and
`nodecountleft ≥ 0`. -/
theorem stage2Body_AllocInvariant (g : RMGlobals) (pool : ResourcePool) (req : AllocRequest)
    (fullcount : Nat) (st : AllocState)
    (hR : AllocInvariant g req pool.Segments st.Segments st.vsegcnttbl st.nodecountleft ∧
      0 ≤ st.nodecountleft)
    (hc : stage2Cond fullcount st = true) :
    AllocInvariant g req pool.Segments (stage2Body g pool req fullcount st).Segments
      (stage2Body g pool req fullcount st).vsegcnttbl
      (stage2Body g pool req fullcount st).nodecountleft ∧
    0 ≤ (stage2Body g pool req fullcount st).nodecountleft := by
  obtain ⟨hnl, htree, himp⟩ := stage2Cond_true _ st hc
  obtain ⟨leftnode, rest, ht⟩ := List.exists_cons_of_ne_nil htree
  obtain ⟨hsome, hnone⟩ := stage2Body_fields g pool req fullcount st leftnode rest ht himp
  rcases htry : stage2Try g pool req st leftnode with _ | r
  · obtain ⟨h1, h2, h3, _⟩ := hnone htry
    rw [h1, h2, h3]
    exact hR
  · obtain ⟨h1, h2, h3, _⟩ := hsome r htry
    rw [h1, h2, h3]
    obtain ⟨cur, rindex, ctns, hcur, _, hidx, hct, _, _, _, hr1, hcase⟩ :=
      stage2Try_some g pool req st leftnode r htry
    refine ⟨?_, by omega⟩
    rw [hr1]
    apply AllocInvariant_step g req pool.Segments st.Segments st.vsegcnttbl r.2
      st.nodecountleft hR.1 leftnode cur rindex ctns hcur hidx hct
    rcases hcase with ⟨e, he, _, _, hr2⟩ | ⟨he, hr2⟩
    · exact Or.inl ⟨e, he, hr2⟩
    · exact Or.inr ⟨he, _, hr2⟩

/-! ## Allocation followed by return -/

/-- When the preferred host names resolve to pairwise distinct segments, an allocation
returns a count between 0 and `nodecount` that is the sum of the counts of its host
list; handing the host list to `returnResourceToResourcePool` (`isold = false`) gives
every segment back the state it had before the allocation; and an allocation that found
no vseg leaves every segment untouched. -/
theorem allocate_then_return (g : RMGlobals) (pool : ResourcePool) (req : AllocRequest)
    (hn : 1 ≤ req.nodecount)
    (hdist : (req.preferredhostname.filterMap (getSegIDByHDFSHostName pool)).Nodup) :
    ∃ r, allocateResourceFromResourcePoolIOBytes g pool req = some r ∧
      0 ≤ r.totalvsegcount ∧ r.totalvsegcount ≤ req.nodecount ∧
      r.totalvsegcount = totalVSegmentCount r.vsegcounters ∧
      (returnResourceToResourcePool g req.memory req.core r.vsegiobytes req.slicesize
        r.vsegcounters false r.pool).Segments = pool.Segments ∧
      (r.totalvsegcount = 0 → r.pool.Segments = pool.Segments) := by
  obtain ⟨st, ⟨hR, hnl⟩, _, hres⟩ := allocate_of_invariant g pool req
    (fun st => AllocInvariant g req pool.Segments st.Segments st.vsegcnttbl st.nodecountleft ∧
      0 ≤ st.nodecountleft)
    (stage1_AllocInvariant g pool req hn hdist)
    (fun st hI hc => stage2Body_AllocInvariant g pool req _ st hI hc)
  obtain ⟨hnd, hent, hseg, htot⟩ := hR
  obtain ⟨htot0, htotnil⟩ := totalVSegmentCount_nonneg st.vsegcnttbl (fun e he => (hent e he).1)
  have hpoolsegs : (finishAllocation pool req st).pool.Segments =
      updateSegments (fun e s =>
        { s with IOBytesWorkload := s.IOBytesWorkload
            + (finishAllocation pool req st).vsegiobytes * e.VSegmentCount })
        st.vsegcnttbl st.Segments := by
    show (refreshIOBytesWorkload _ st.vsegcnttbl (st.Segments, _)).1 = _
    exact refreshIOBytesWorkload_segments _ _ _ _
  refine ⟨finishAllocation pool req st, hres, ?_, ?_, ?_, ?_, ?_⟩
  · show 0 ≤ req.nodecount - st.nodecountleft
    omega
  · show req.nodecount - st.nodecountleft ≤ req.nodecount
    omega
  · show req.nodecount - st.nodecountleft = totalVSegmentCount st.vsegcnttbl
    omega
  · rw [returnResourceToResourcePool_segments, hpoolsegs]
    apply List.ext_getElem?
    intro j
    show (updateSegments _ st.vsegcnttbl _)[j]? = _
    rw [updateSegments_getElem? _ _ hnd, updateSegments_getElem? _ _ hnd, hseg j]
    rcases he : getHASHTABLENode st.vsegcnttbl j with _ | e
    · simp only []
      have : vsegCountOf st.vsegcnttbl j = 0 := by
        unfold vsegCountOf
        rw [he]
      rw [this]
      rcases pool.Segments[j]? with _ | s
      · rfl
      · simp [segAfterAlloc_zero]
    · simp only []
      obtain ⟨hemem, hek⟩ := getHASHTABLENode_some _ _ _ he
      obtain ⟨h1, rindex, seg0, c0, hidx, hs0, hc0⟩ := hent e hemem
      rw [hek] at hs0
      have hcount : vsegCountOf st.vsegcnttbl j = e.VSegmentCount := by
        unfold vsegCountOf
        rw [he]
      rw [hcount, hs0, hidx]
      simp only [Option.map_some', Option.getD_some, Option.some.injEq]
      exact recycleResourceToSegment_segAfterAlloc g req rindex e.VSegmentCount (by omega)
        _ seg0 c0 hidx hc0
  · intro h0
    have h0' : req.nodecount - st.nodecountleft = 0 := h0
    have hnil : st.vsegcnttbl = [] := htotnil (by omega)
    rw [hpoolsegs, hnil]
    show st.Segments = pool.Segments
    apply List.ext_getElem?
    intro j
    rw [hseg j, hnil]
    have : vsegCountOf [] j = 0 := rfl
    rw [this]
    rcases pool.Segments[j]? with _ | s
    · rfl
    · simp [segAfterAlloc_zero]

/-! ## C1: the reconciliation table -/

/-- C1: in `acquireResourceFromResQueMgr`, whenever `computeQueryQuota` succeeds,
leaving the range `(Rmin, Rmax)` in `SegNumMin`/`SegNum`, and with the request range
`(Gmin, Gmax)` (the maximum as clamped to the per-query limit and to the queue's vseg
upper limit) and `RmaxL = VSegLimitPerSeg * AvailNodeCount`, the stored quota follows
the table: for `Gmin = 1`, `SegNumMin = min(Gmax, Rmin, RmaxL)` and
`SegNum = min(Gmax, RmaxL)`; else for `Gmin = Gmax`, `SegNumMin = SegNum = Gmax` and the
request is rejected (not enqueued) when `Rmax < Gmax`; otherwise
`SegNumMin = min(max(Gmin, Rmin), Gmax)` and
`SegNum = min(max(min(RmaxL, Gmax), Gmin), Rmax)`. -/
theorem acquireResourceFromResQueMgr_follows_table (N : Int) (qt : DynResourceQueueTrack)
    (c : ConnectionTrack) (h0 : qt.ClusterSegNumberMax ≠ 0)
    (hq : (computeQueryQuota qt c.MaxSegCountFixed c.MinSegCountFixed c.SegNum c.SegNumMin
      c.VSegLimit).res = FUNC_RETURN_OK) :
    let q := computeQueryQuota qt c.MaxSegCountFixed c.MinSegCountFixed c.SegNum c.SegNumMin
      c.VSegLimit
    let Rmin := q.segnummin
    let Rmax := q.segnum
    let Gmin := c.MinSegCountFixed
    let Gmax := applyVSegUpperLimit q.max_segcountfix c.MinSegCountFixed
      qt.QueueInfo.VSegUpperLimit
    let RmaxL := c.VSegLimitPerSeg * N
    let out := acquireResourceFromResQueMgr N qt c
    (Gmin = 1 →
      out.2.1.SegNumMin = min Gmax (min Rmin RmaxL) ∧ out.2.1.SegNum = min Gmax RmaxL) ∧
    (Gmin ≠ 1 → Gmin = Gmax →
      out.2.1.SegNumMin = Gmax ∧ out.2.1.SegNum = Gmax ∧
      (Rmax < Gmax → out.1 = RESQUEMGR_NO_RESOURCE ∧ out.2.2 = qt)) ∧
    (Gmin ≠ 1 → Gmin ≠ Gmax →
      out.2.1.SegNumMin = min (max Gmin Rmin) Gmax ∧
      out.2.1.SegNum = min (max (min RmaxL Gmax) Gmin) Rmax) := by
  intro q Rmin Rmax Gmin Gmax RmaxL out
  obtain ⟨hmin, hnum, _, _, hrej, _⟩ := acquire_of_quota_ok N qt c h0 hq
  refine ⟨?_, ?_, ?_⟩
  · intro h1
    have hr := reconcileSegNum_case1 Gmin Gmax Rmin Rmax RmaxL h1
    exact ⟨hmin.trans hr.1, hnum.trans hr.2⟩
  · intro h1 h2
    have hr := reconcileSegNum_case2 Gmin Gmax Rmin Rmax RmaxL h1 h2
    refine ⟨hmin.trans (congrArg (fun t => t.2.1) hr),
            hnum.trans (congrArg (fun t => t.2.2) hr), ?_⟩
    intro hlt
    apply hrej
    have h3 := congrArg (fun t => t.1) hr
    simp only [hlt, if_true] at h3
    exact h3
  · intro h1 h2
    have hr := reconcileSegNum_case3 Gmin Gmax Rmin Rmax RmaxL h1 h2
    exact ⟨hmin.trans hr.1, hnum.trans hr.2⟩

/-- Witness of C1: a request for 2 to 6 vsegs on `exTrack` (upper limit 3) with 4 vsegs
per segment on 3 nodes falls in the third row and is stored as `(2, 3)`. -/
theorem acquireResourceFromResQueMgr_follows_table_witness :
    exTrack.ClusterSegNumberMax ≠ 0 ∧
    (computeQueryQuota exTrack (exConn 2 6 4).MaxSegCountFixed (exConn 2 6 4).MinSegCountFixed
      (exConn 2 6 4).SegNum (exConn 2 6 4).SegNumMin (exConn 2 6 4).VSegLimit).res
      = FUNC_RETURN_OK ∧
    (acquireResourceFromResQueMgr 3 exTrack (exConn 2 6 4)).2.1.SegNumMin = 2 ∧
    (acquireResourceFromResQueMgr 3 exTrack (exConn 2 6 4)).2.1.SegNum = 3 :=
  ⟨by decide, by decide,
   ((acquireResourceFromResQueMgr_follows_table 3 exTrack (exConn 2 6 4) (by decide)
      (by decide)).2.2 (by decide) (by decide)).1.trans (by decide),
   ((acquireResourceFromResQueMgr_follows_table 3 exTrack (exConn 2 6 4) (by decide)
      (by decide)).2.2 (by decide) (by decide)).2.trans (by decide)⟩

/-! ## C2: bounds on the stored `SegNum` -/

/-- C2, counterexample: a fixed request for 5 vsegs on `exTrack` (vseg upper limit 3)
with one vseg per segment on 2 nodes is accepted and enqueued with `SegNum = 5`, above
both the queue's `VSegUpperLimit` and `VSegLimitPerSeg * AvailNodeCount`. -/
theorem acquireResourceFromResQueMgr_segnum_above_limits :
    (acquireResourceFromResQueMgr 2 exTrack (exConn 5 5 1)).1 = FUNC_RETURN_OK ∧
    (acquireResourceFromResQueMgr 2 exTrack (exConn 5 5 1)).2.2.QueryResRequests = [1] ∧
    (acquireResourceFromResQueMgr 2 exTrack (exConn 5 5 1)).2.1.SegNum = 5 ∧
    ¬ ((acquireResourceFromResQueMgr 2 exTrack (exConn 5 5 1)).2.1.SegNum
        ≤ exTrack.QueueInfo.VSegUpperLimit) ∧
    ¬ ((acquireResourceFromResQueMgr 2 exTrack (exConn 5 5 1)).2.1.SegNum
        ≤ (exConn 5 5 1).VSegLimitPerSeg * 2) := by
  decide

/-- C2, amended: for every request with `MinSegCountFixed ≤ MaxSegCountFixed` that
`acquireResourceFromResQueMgr` accepts, the stored `SegNum` is at most
`MaxSegCountFixed` (as requested and as stored); it is at least `MinSegCountFixed`
when `MinSegCountFixed ≠ 1` or `MinSegCountFixed ≤ VSegLimitPerSeg * AvailNodeCount`;
it is at most the queue's `VSegUpperLimit` when `MinSegCountFixed ≤ VSegUpperLimit`;
and it is at most `VSegLimitPerSeg * AvailNodeCount` when `MinSegCountFixed` is 1 or is
itself at most that product. -/
theorem acquireResourceFromResQueMgr_segnum_bounds (N : Int) (qt : DynResourceQueueTrack)
    (c : ConnectionTrack) (hmm : c.MinSegCountFixed ≤ c.MaxSegCountFixed)
    (hok : (acquireResourceFromResQueMgr N qt c).1 = FUNC_RETURN_OK) :
    (acquireResourceFromResQueMgr N qt c).2.1.SegNum ≤ c.MaxSegCountFixed ∧
    (acquireResourceFromResQueMgr N qt c).2.1.SegNum
      ≤ (acquireResourceFromResQueMgr N qt c).2.1.MaxSegCountFixed ∧
    (c.MinSegCountFixed ≠ 1 ∨ c.MinSegCountFixed ≤ c.VSegLimitPerSeg * N →
      c.MinSegCountFixed ≤ (acquireResourceFromResQueMgr N qt c).2.1.SegNum) ∧
    (c.MinSegCountFixed ≤ qt.QueueInfo.VSegUpperLimit →
      (acquireResourceFromResQueMgr N qt c).2.1.SegNum ≤ qt.QueueInfo.VSegUpperLimit) ∧
    (c.MinSegCountFixed = 1 ∨ c.MinSegCountFixed ≤ c.VSegLimitPerSeg * N →
      (acquireResourceFromResQueMgr N qt c).2.1.SegNum ≤ c.VSegLimitPerSeg * N) := by
  have h0 : qt.ClusterSegNumberMax ≠ 0 := by
    intro h
    simp [acquireResourceFromResQueMgr, h] at hok
  have hq : (computeQueryQuota qt c.MaxSegCountFixed c.MinSegCountFixed c.SegNum c.SegNumMin
      c.VSegLimit).res = FUNC_RETURN_OK := by
    by_contra hne
    simp only [acquireResourceFromResQueMgr, h0, if_false, hne] at hok
  obtain ⟨hlim, hpol, hqe⟩ := computeQueryQuota_ok qt _ _ _ _ _ hq
  obtain ⟨_, hnum, hmax, _, _, _⟩ := acquire_of_quota_ok N qt c h0 hq
  rw [hnum, hmax, hqe]
  simp only []
  generalize (AllocationPolicy qt.QueueInfo.AllocatePolicy qt c.VSegLimit).1 = Rmax at hpol ⊢
  generalize c.VSegLimitPerSeg * N = RmaxL
  generalize qt.QueueInfo.VSegUpperLimit = U
  generalize c.VSegLimit = L at hlim ⊢
  generalize c.MaxSegCountFixed = Gx at hmm ⊢
  generalize c.MinSegCountFixed = Gm at hmm hlim hpol ⊢
  have hG1 : min Gx L ≥ Gm := le_min hmm hlim
  have hmL : (if Gx > L then L else Gx) = min Gx L := by
    split_ifs with h
    · exact (min_eq_right (le_of_lt h)).symm
    · exact (min_eq_left (not_lt.mp h)).symm
  rw [hmL]
  have hGx : min Gx L ≤ Gx := min_le_left _ _
  generalize min Gx L = G1 at hG1 hGx ⊢
  have hA1 : applyVSegUpperLimit G1 Gm U ≤ G1 := by
    unfold applyVSegUpperLimit
    split_ifs with h
    · exact le_of_lt h.1
    · exact le_refl _
  have hA2 : Gm ≤ applyVSegUpperLimit G1 Gm U := by
    unfold applyVSegUpperLimit
    split_ifs with h
    · exact h.2
    · exact hG1
  have hA3 : Gm ≤ U → applyVSegUpperLimit G1 Gm U ≤ U := by
    intro hU
    unfold applyVSegUpperLimit
    split_ifs with h
    · exact le_refl _
    · by_contra hc
      exact h ⟨not_le.mp hc, hU⟩
  generalize applyVSegUpperLimit G1 Gm U = Gmax at hA1 hA2 hA3 ⊢
  by_cases h1 : Gm = 1
  · have hr := (reconcileSegNum_case1 Gm Gmax Gm Rmax RmaxL h1).2
    rw [hr]
    refine ⟨?_, ?_, ?_, ?_, ?_⟩
    · exact le_trans (min_le_left _ _) (le_trans hA1 hGx)
    · exact le_trans (min_le_left _ _) hA1
    · intro h
      rcases h with h | h
      · exact absurd h1 h
      · exact le_min hA2 h
    · intro hU; exact le_trans (min_le_left _ _) (hA3 hU)
    · intro _; exact min_le_right _ _
  · by_cases h2 : Gm = Gmax
    · have hr := congrArg (fun t => t.2.2) (reconcileSegNum_case2 Gm Gmax Gm Rmax RmaxL h1 h2)
      simp only [] at hr
      rw [hr]
      refine ⟨le_trans hA1 hGx, hA1, fun _ => hA2, hA3, ?_⟩
      intro h
      rcases h with h | h
      · exact absurd h h1
      · rw [← h2]; exact h
    · have hr := (reconcileSegNum_case3 Gm Gmax Gm Rmax RmaxL h1 h2).2
      rw [hr]
      have hle : max (min RmaxL Gmax) Gm ≤ Gmax := max_le (min_le_right _ _) hA2
      refine ⟨?_, ?_, ?_, ?_, ?_⟩
      · exact le_trans (min_le_left _ _) (le_trans hle (le_trans hA1 hGx))
      · exact le_trans (min_le_left _ _) (le_trans hle hA1)
      · intro _; exact le_min (le_max_right _ _) hpol
      · intro hU; exact le_trans (min_le_left _ _) (le_trans hle (hA3 hU))
      · intro h
        rcases h with h | h
        · exact absurd h h1
        · exact le_trans (min_le_left _ _) (max_le (min_le_left _ _) h)

/-- Witness of C2 (amended): a request for 2 to 6 vsegs on `exTrack`, 4 vsegs per
segment on 3 nodes, is accepted with `SegNum = 3`, within all four bounds. -/
theorem acquireResourceFromResQueMgr_segnum_bounds_witness :
    (exConn 2 6 4).MinSegCountFixed ≤ (exConn 2 6 4).MaxSegCountFixed ∧
    (acquireResourceFromResQueMgr 3 exTrack (exConn 2 6 4)).1 = FUNC_RETURN_OK ∧
    (acquireResourceFromResQueMgr 3 exTrack (exConn 2 6 4)).2.1.SegNum
      ≤ (exConn 2 6 4).MaxSegCountFixed ∧
    (exConn 2 6 4).MinSegCountFixed
      ≤ (acquireResourceFromResQueMgr 3 exTrack (exConn 2 6 4)).2.1.SegNum ∧
    (acquireResourceFromResQueMgr 3 exTrack (exConn 2 6 4)).2.1.SegNum
      ≤ exTrack.QueueInfo.VSegUpperLimit ∧
    (acquireResourceFromResQueMgr 3 exTrack (exConn 2 6 4)).2.1.SegNum
      ≤ (exConn 2 6 4).VSegLimitPerSeg * 3 :=
  ⟨by decide, by decide,
   (acquireResourceFromResQueMgr_segnum_bounds 3 exTrack (exConn 2 6 4) (by decide)
      (by decide)).1,
   (acquireResourceFromResQueMgr_segnum_bounds 3 exTrack (exConn 2 6 4) (by decide)
      (by decide)).2.2.1 (Or.inl (by decide)),
   (acquireResourceFromResQueMgr_segnum_bounds 3 exTrack (exConn 2 6 4) (by decide)
      (by decide)).2.2.2.1 (by decide),
   (acquireResourceFromResQueMgr_segnum_bounds 3 exTrack (exConn 2 6 4) (by decide)
      (by decide)).2.2.2.2 (Or.inr (by decide))⟩

/-! ## C3: a request with a fixed number of vsegs -/

/-- C3, counterexample: on the one-segment pool (16384 MB, 16 cores) a fixed request for
20 vsegs of 1024 MB and 1 core makes `allocateResourceFromResourcePoolIOBytes` return
`totalvsegcount = 16`, neither 20 nor 0, and it leaves the 16 vsegs allocated: the
segment and its container set have 0 MB and 0 cores available and `SliceWorkload` is 16
instead of the values 16384 MB, 16 cores and 0 before the call. -/
theorem allocate_fixed_returns_fewer :
    (exRequest 20 [] true 8).fixnodecount = true ∧
    (allocateResourceFromResourcePoolIOBytes exGlobals exPool1
      (exRequest 20 [] true 8)).map (fun r => r.totalvsegcount) = some 16 ∧
    (allocateResourceFromResourcePoolIOBytes exGlobals exPool1
      (exRequest 20 [] true 8)).map
        (fun r => r.pool.Segments.map (fun s => (s.Available, s.SliceWorkload,
          s.ContainerSets.map (fun c => c.map (fun x => x.Available)))))
      = some [({ MemoryMB := 0, Core := 0 }, 16, [some { MemoryMB := 0, Core := 0 }])] ∧
    exPool1.Segments.map (fun s => (s.Available, s.SliceWorkload,
        s.ContainerSets.map (fun c => c.map (fun x => x.Available))))
      = [({ MemoryMB := 16384, Core := 16 }, 0, [some { MemoryMB := 16384, Core := 16 }])] := by
  decide!

/-- C3, amended: for every request of at least one vseg whose preferred host names
resolve to distinct segments, `allocateResourceFromResourcePoolIOBytes` returns a
`totalvsegcount` between 0 and `nodecount` and keeps the vsegs it placed allocated; the
rollback is the caller's: a fixed request being dispatched with
`minnodecount = nodecount`, the step of `dispatchResourceToQueries_EVEN` keeps the pool
of the allocation when `totalvsegcount = nodecount`, and when fewer vsegs could be
placed it hands them to `returnResourceToResourcePool`, after which every segment is as
before the call in every field but the available core of the segment and of its
container sets (so in its and its container sets' available memory, its `SliceWorkload`
and its `IOBytesWorkload`).  The available core, a `double`, has been decreased by
`core` once per vseg and is increased by `core * VSegmentCount` in one addition: it is
stated to be restored only where that arithmetic is exact (`exactCores`, integer cores
up to `2^52`); elsewhere it is restored up to rounding. -/
theorem dispatchAllocateStep_all_or_nothing (g : RMGlobals) (pool : ResourcePool)
    (req : AllocRequest) (hn : 1 ≤ req.nodecount) (hmin : req.minnodecount = req.nodecount)
    (hdist : (req.preferredhostname.filterMap (getSegIDByHDFSHostName pool)).Nodup) :
    ∃ r p, allocateResourceFromResourcePoolIOBytes g pool req = some r ∧
      0 ≤ r.totalvsegcount ∧ r.totalvsegcount ≤ req.nodecount ∧
      dispatchAllocateStep g pool req = some (r.totalvsegcount, p) ∧
      (r.totalvsegcount = req.nodecount → p = r.pool) ∧
      (r.totalvsegcount < req.nodecount →
        p.Segments.map withoutAvailableCore = pool.Segments.map withoutAvailableCore ∧
        (exactCores pool req = true → p.Segments = pool.Segments)) := by
  obtain ⟨r, hr, h0, hle, _, hret, hzero⟩ := allocate_then_return g pool req hn hdist
  by_cases hfull : r.totalvsegcount ≥ req.minnodecount
  · refine ⟨r, r.pool, hr, h0, hle, ?_, fun _ => rfl, fun hlt => ?_⟩
    · unfold dispatchAllocateStep
      simp only [hr, hfull, if_true]
    · omega
  · by_cases hpos : r.totalvsegcount > 0
    · refine ⟨r, returnResourceToResourcePool g req.memory req.core r.vsegiobytes req.slicesize
        r.vsegcounters false r.pool, hr, h0, hle, ?_, fun h => ?_,
        fun _ => ⟨congrArg (List.map withoutAvailableCore) hret, fun _ => hret⟩⟩
      · unfold dispatchAllocateStep
        simp only [hr, hfull, hpos, if_true, if_false]
      · omega
    · refine ⟨r, r.pool, hr, h0, hle, ?_, fun _ => rfl,
        fun _ => ⟨congrArg (List.map withoutAvailableCore) (hzero (by omega)),
          fun _ => hzero (by omega)⟩⟩
      unfold dispatchAllocateStep
      simp only [hr, hfull, hpos, if_false]

/-- Witness of C3 (amended): the fixed request for 20 vsegs on the one-segment pool,
dispatched with `minnodecount = nodecount = 20`: the allocation places 16 vsegs, and the
dispatch step hands them back and leaves the segment as it was (the cores are the
integers 16 and 1, on which the floating-point arithmetic is exact). -/
theorem dispatchAllocateStep_all_or_nothing_witness :
    (∃ r p, allocateResourceFromResourcePoolIOBytes exGlobals exPool1
        { exRequest 20 [] true 8 with minnodecount := 20 } = some r ∧
      0 ≤ r.totalvsegcount ∧ r.totalvsegcount ≤ 20 ∧
      dispatchAllocateStep exGlobals exPool1 { exRequest 20 [] true 8 with minnodecount := 20 }
        = some (r.totalvsegcount, p) ∧
      (r.totalvsegcount = 20 → p = r.pool) ∧
      (r.totalvsegcount < 20 →
        p.Segments.map withoutAvailableCore = exPool1.Segments.map withoutAvailableCore ∧
        (exactCores exPool1 { exRequest 20 [] true 8 with minnodecount := 20 } = true →
          p.Segments = exPool1.Segments))) ∧
    exactCores exPool1 { exRequest 20 [] true 8 with minnodecount := 20 } = true ∧
    (dispatchAllocateStep exGlobals exPool1
      { exRequest 20 [] true 8 with minnodecount := 20 }).map (fun x => (x.1, x.2.Segments))
      = some (16, exPool1.Segments) :=
  ⟨dispatchAllocateStep_all_or_nothing exGlobals exPool1
    { exRequest 20 [] true 8 with minnodecount := 20 } (by decide) (by decide) (by decide),
   by decide!, by decide!⟩

/-! ## C4: allocation followed by return -/

/-- C4, the code at the failing input: on the four-segment pool a request for 2 vsegs
whose two preferred host names both resolve to segment 0 takes two vsegs from segment 0
in stage 1 (14336 MB and 14 cores remain) but the second counter replaces the first in
`vsegcnttbl`: the host list holds one entry with `VSegmentCount = 1` while
`totalvsegcount = 2`. `returnResourceToResourcePool` then gives back one vseg only:
segment 0 keeps 15360 MB and 15 cores available and a `SliceWorkload` of 1, not the
16384 MB, 16 cores and 0 it had before the allocation.  On the one-segment pool of the
claim's example the round trip is exact: 4 vsegs leave 12288 MB and 12 cores, and the
return restores 16384 MB and 16 cores. -/
theorem allocate_return_duplicate_preferred_host :
    (allocateResourceFromResourcePoolIOBytes exGlobals exPool4
      (exRequest 2 ["h0", "h0.example.com"] false 8)).map
        (fun r => (r.totalvsegcount, r.vsegcounters,
          r.pool.Segments.map (fun s => s.Available)))
      = some (2, [{ HDFSNameIndex := 1, SegId := 0, VSegmentCount := 1 }],
          [{ MemoryMB := 14336, Core := 14 }, { MemoryMB := 16384, Core := 16 },
           { MemoryMB := 16384, Core := 16 }, { MemoryMB := 16384, Core := 16 }]) ∧
    (allocateResourceFromResourcePoolIOBytes exGlobals exPool4
      (exRequest 2 ["h0", "h0.example.com"] false 8)).map
        (fun r => (returnResourceToResourcePool exGlobals 1024 1 r.vsegiobytes 1
          r.vsegcounters false r.pool).Segments.map (fun s => (s.Available, s.SliceWorkload)))
      = some [({ MemoryMB := 15360, Core := 15 }, 1), ({ MemoryMB := 16384, Core := 16 }, 0),
          ({ MemoryMB := 16384, Core := 16 }, 0), ({ MemoryMB := 16384, Core := 16 }, 0)] ∧
    exPool4.Segments.map (fun s => (s.Available, s.SliceWorkload))
      = [({ MemoryMB := 16384, Core := 16 }, 0), ({ MemoryMB := 16384, Core := 16 }, 0),
         ({ MemoryMB := 16384, Core := 16 }, 0), ({ MemoryMB := 16384, Core := 16 }, 0)] ∧
    (allocateResourceFromResourcePoolIOBytes exGlobals exPool1
      (exRequest 4 [] false 8)).map
        (fun r => (r.totalvsegcount, r.pool.Segments.map (fun s => s.Available)))
      = some (4, [{ MemoryMB := 12288, Core := 12 }]) ∧
    (allocateResourceFromResourcePoolIOBytes exGlobals exPool1
      (exRequest 4 [] false 8)).map
        (fun r => (returnResourceToResourcePool exGlobals 1024 1 r.vsegiobytes 1
          r.vsegcounters false r.pool).Segments)
      = some exPool1.Segments := by
  decide!

/-! ## C5: a single fixed vseg -/

/-- C6, counterexample: on the one-segment pool a fixed request (`fixnodecount = true`)
for 2 vsegs with `vseglimitpseg = 1` is given both vsegs on segment 0: the returned
entry has `VSegmentCount = 2`. -/
theorem allocate_fixed_exceeds_vseglimitpseg :
    (allocateResourceFromResourcePoolIOBytes exGlobals exPool1
      (exRequest 2 [] true 1)).map (fun r => r.vsegcounters)
      = some [{ HDFSNameIndex := 0, SegId := 0, VSegmentCount := 2 }] ∧
    (1 : Int) ≤ (exRequest 2 [] true 1).vseglimitpseg ∧
    ¬ ((2 : Int) ≤ (exRequest 2 [] true 1).vseglimitpseg) := by
  decide!

/-- C6, amended: for every request with `fixnodecount = false` and `vseglimitpseg ≥ 1`,
every entry of the host list returned by `allocateResourceFromResourcePoolIOBytes` has
`VSegmentCount ≤ vseglimitpseg`. -/
theorem allocate_respects_vseglimitpseg (g : RMGlobals) (pool : ResourcePool)
    (req : AllocRequest) (hfix : req.fixnodecount = false) (hlim : 1 ≤ req.vseglimitpseg) :
    ∃ r, allocateResourceFromResourcePoolIOBytes g pool req = some r ∧
      ∀ e ∈ r.vsegcounters, e.VSegmentCount ≤ req.vseglimitpseg := by
  obtain ⟨r, hr, _, hT⟩ := allocate_table_invariant g pool req
    (fun tbl => (tbl.map (fun e => e.SegId)).Nodup ∧
      ∀ e ∈ tbl, e.VSegmentCount ≤ req.vseglimitpseg)
    ⟨by simp, by simp⟩
    (by
      intro tbl i hostname segid hT _ _
      refine ⟨keys_setHASHTABLENode_nodup tbl _ hT.1, ?_⟩
      intro e he
      rcases mem_setHASHTABLENode tbl _ e he with h | h
      · rw [h]; exact hlim
      · exact hT.2 e h)
    (by
      intro tbl id e hT he hcase
      refine ⟨by rw [keys_incrVSegmentCount]; exact hT.1, ?_⟩
      intro a ha
      rcases mem_incrVSegmentCount tbl id a ha with ⟨h, _⟩ | ⟨b, hb, hbk, hab⟩
      · exact hT.2 a h
      · obtain ⟨hemem, hek⟩ := getHASHTABLENode_some tbl id e he
        have hbe : b = e := eq_of_key_eq tbl hT.1 b e hb hemem (hbk.trans hek.symm)
        rw [hab, hbe]
        rcases hcase with h | h
        · rw [hfix] at h; cases h
        · show e.VSegmentCount + 1 ≤ req.vseglimitpseg
          omega)
    (by
      intro tbl id hT _
      refine ⟨keys_setHASHTABLENode_nodup tbl _ hT.1, ?_⟩
      intro e he
      rcases mem_setHASHTABLENode tbl _ e he with h | h
      · rw [h]; exact hlim
      · exact hT.2 e h)
  exact ⟨r, hr, hT⟩

/-- Witness of C6 (amended): 20 vsegs asked with at most 8 per segment on the
one-segment pool. -/
theorem allocate_respects_vseglimitpseg_witness :
    (exRequest 20 [] false 8).fixnodecount = false ∧
    1 ≤ (exRequest 20 [] false 8).vseglimitpseg ∧
    ∃ r, allocateResourceFromResourcePoolIOBytes exGlobals exPool1 (exRequest 20 [] false 8)
        = some r ∧
      ∀ e ∈ r.vsegcounters, e.VSegmentCount ≤ (exRequest 20 [] false 8).vseglimitpseg :=
  ⟨by decide, by decide,
   allocate_respects_vseglimitpseg exGlobals exPool1 (exRequest 20 [] false 8) (by decide)
     (by decide)⟩

/-! ## C7: the HDFS host name index of a returned entry -/

/-- The search of stage 2 returns the position of a preferred host name that resolves
to the segment, or `preferredcount` when no name does. -/
theorem findHDFSNameIndex_spec (pool : ResourcePool) (id n : Nat) :
    ∀ (rest : List String) (k : Nat), k + rest.length = n →
      (findHDFSNameIndex pool id n k rest < n →
        ∃ name, rest[findHDFSNameIndex pool id n k rest - k]? = some name ∧
          getSegIDByHDFSHostName pool name = some id ∧
          k ≤ findHDFSNameIndex pool id n k rest) ∧
      (findHDFSNameIndex pool id n k rest = n →
        ∀ name ∈ rest, getSegIDByHDFSHostName pool name ≠ some id) ∧
      findHDFSNameIndex pool id n k rest ≤ n := by
  intro rest
  induction rest with
  | nil =>
    intro k hk
    simp only [findHDFSNameIndex, lt_self_iff_false, List.not_mem_nil, le_refl, and_true]
    exact ⟨fun h => absurd h (by simp), fun _ _ h => absurd h (by simp)⟩
  | cons hostname rest ih =>
    intro k hk
    simp only [List.length_cons] at hk
    unfold findHDFSNameIndex
    by_cases hres : getSegIDByHDFSHostName pool hostname = some id
    · simp only [hres, if_true]
      refine ⟨fun _ => ⟨hostname, by simp, hres, le_refl _⟩, fun h => by omega, by omega⟩
    · simp only [hres, if_false]
      obtain ⟨h1, h2, h3⟩ := ih (k + 1) (by omega)
      refine ⟨?_, ?_, h3⟩
      · intro hlt
        obtain ⟨name, hname, hr, hle⟩ := h1 hlt
        refine ⟨name, ?_, hr, by omega⟩
        have : findHDFSNameIndex pool id n (k + 1) rest - k
            = (findHDFSNameIndex pool id n (k + 1) rest - (k + 1)) + 1 := by omega
        rw [this, List.getElem?_cons_succ]
        exact hname
      · intro heq name hmem
        rcases List.mem_cons.mp hmem with h | h
        · rw [h]; exact hres
        · exact h2 heq name h

/-- C7: for each entry `(segment, VSegmentCount, HDFSNameIndex)` returned by
`allocateResourceFromResourcePoolIOBytes`, if `HDFSNameIndex < preferredcount` then
`preferredhostname[HDFSNameIndex]` resolves to the entry's segment, and
`HDFSNameIndex = preferredcount` only if no preferred host name resolves to that
segment; no other value occurs. -/
theorem allocate_hdfs_name_index (g : RMGlobals) (pool : ResourcePool) (req : AllocRequest) :
    ∃ r, allocateResourceFromResourcePoolIOBytes g pool req = some r ∧
      ∀ e ∈ r.vsegcounters,
        (e.HDFSNameIndex < req.preferredhostname.length →
          ∃ name, req.preferredhostname[e.HDFSNameIndex]? = some name ∧
            getSegIDByHDFSHostName pool name = some e.SegId) ∧
        (e.HDFSNameIndex = req.preferredhostname.length →
          ∀ name ∈ req.preferredhostname, getSegIDByHDFSHostName pool name ≠ some e.SegId) ∧
        e.HDFSNameIndex ≤ req.preferredhostname.length := by
  apply allocate_table_invariant g pool req
    (fun tbl => ∀ e ∈ tbl,
        (e.HDFSNameIndex < req.preferredhostname.length →
          ∃ name, req.preferredhostname[e.HDFSNameIndex]? = some name ∧
            getSegIDByHDFSHostName pool name = some e.SegId) ∧
        (e.HDFSNameIndex = req.preferredhostname.length →
          ∀ name ∈ req.preferredhostname, getSegIDByHDFSHostName pool name ≠ some e.SegId) ∧
        e.HDFSNameIndex ≤ req.preferredhostname.length)
  · intro e he
    exact absurd he (by simp)
  · intro tbl i hostname segid hT hget hres e he
    rcases mem_setHASHTABLENode tbl _ e he with h | h
    · rw [h]
      have hi : i < req.preferredhostname.length := by
        obtain ⟨hi, _⟩ := List.getElem?_eq_some_iff.mp hget
        exact hi
      refine ⟨fun _ => ⟨hostname, hget, hres⟩, fun heq => ?_, le_of_lt hi⟩
      have : i = req.preferredhostname.length := heq
      omega
    · exact hT e h
  · intro tbl id e0 hT _ _ e he
    rcases mem_incrVSegmentCount tbl id e he with ⟨h, _⟩ | ⟨b, hb, _, hab⟩
    · exact hT e h
    · rw [hab]
      exact hT b hb
  · intro tbl id hT _ e he
    rcases mem_setHASHTABLENode tbl _ e he with h | h
    · rw [h]
      obtain ⟨h1, h2, h3⟩ := findHDFSNameIndex_spec pool id req.preferredhostname.length
        req.preferredhostname 0 (by simp)
      refine ⟨?_, h2, h3⟩
      intro hlt
      obtain ⟨name, hname, hr, _⟩ := h1 hlt
      exact ⟨name, by simpa using hname, hr⟩
    · exact hT e h

/-- Witness of C7: four segments of 16384 MB / 16 cores, `preferred = [h2]`, 4 vsegs of
1024 MB: the entry with index 0 is the one of segment 2 (`h2`), and the index array of
the response holds exactly one 0 and three times 1 (= `preferredcount`). -/
theorem allocate_hdfs_name_index_witness :
    (∃ r, allocateResourceFromResourcePoolIOBytes exGlobals exPool4
        (exRequest 4 ["h2"] false 8) = some r ∧
      ∀ e ∈ r.vsegcounters,
        (e.HDFSNameIndex < (exRequest 4 ["h2"] false 8).preferredhostname.length →
          ∃ name, (exRequest 4 ["h2"] false 8).preferredhostname[e.HDFSNameIndex]? = some name ∧
            getSegIDByHDFSHostName exPool4 name = some e.SegId) ∧
        (e.HDFSNameIndex = (exRequest 4 ["h2"] false 8).preferredhostname.length →
          ∀ name ∈ (exRequest 4 ["h2"] false 8).preferredhostname,
            getSegIDByHDFSHostName exPool4 name ≠ some e.SegId) ∧
        e.HDFSNameIndex ≤ (exRequest 4 ["h2"] false 8).preferredhostname.length) ∧
    (allocateResourceFromResourcePoolIOBytes exGlobals exPool4
      (exRequest 4 ["h2"] false 8)).map
        (fun r => r.vsegcounters.filter (fun e => e.HDFSNameIndex == 0))
      = some [{ HDFSNameIndex := 0, SegId := 2, VSegmentCount := 1 }] ∧
    (allocateResourceFromResourcePoolIOBytes exGlobals exPool4
      (exRequest 4 ["h2"] false 8)).map
        (fun r => ((hdfsIndexArray r.vsegcounters).length,
          (hdfsIndexArray r.vsegcounters).count 0, (hdfsIndexArray r.vsegcounters).count 1))
      = some (4, 1, 3) :=
  ⟨allocate_hdfs_name_index exGlobals exPool4 (exRequest 4 ["h2"] false 8),
   by decide!, by decide!⟩

/-! ## C8: the quota of an EVEN queue -/

/-- C8, counterexample: on the EVEN queue `exTrack` (8 segments, 2 active statements,
at most 16 segments) a request with minimum 1 makes `computeQueryQuota` return
`FUNC_RETURN_OK` with `segnummin = 1`, not `min(max(1, 8 / 2), min(16, 100)) = 4`. -/
theorem computeQueryQuota_EVEN_segnummin_is_request_min :
    exTrack.QueueInfo.AllocatePolicy = 0 ∧
    (computeQueryQuota exTrack 10 1 0 0 100).res = FUNC_RETURN_OK ∧
    (computeQueryQuota exTrack 10 1 0 0 100).segnummin = 1 ∧
    min (max 1 (exTrack.ClusterSegNumber / exTrack.QueueInfo.ParallelCount))
      (min exTrack.ClusterSegNumberMax 100) = 4 ∧
    (computeQueryQuota exTrack 10 1 0 0 100).segnummin ≠
      min (max 1 (exTrack.ClusterSegNumber / exTrack.QueueInfo.ParallelCount))
        (min exTrack.ClusterSegNumberMax 100) := by
  decide

/-- The outputs of `computeQueryQuota_EVEN`, with C integer division. -/
theorem computeQueryQuota_EVEN_eq (track : DynResourceQueueTrack) (limit : Int) :
    computeQueryQuota_EVEN track limit =
      (min track.ClusterSegNumberMax limit,
       min (max 1 (Int.tdiv track.ClusterSegNumber track.QueueInfo.ParallelCount))
         (min track.ClusterSegNumberMax limit)) := by
  unfold computeQueryQuota_EVEN
  have h1 : (if limit < track.ClusterSegNumberMax then limit else track.ClusterSegNumberMax)
      = min track.ClusterSegNumberMax limit := by
    split_ifs with h
    · exact (min_eq_right (le_of_lt h)).symm
    · exact (min_eq_left (not_lt.mp h)).symm
  have h2 : (if Int.tdiv track.ClusterSegNumber track.QueueInfo.ParallelCount ≤ 0 then 1
      else Int.tdiv track.ClusterSegNumber track.QueueInfo.ParallelCount)
      = max 1 (Int.tdiv track.ClusterSegNumber track.QueueInfo.ParallelCount) := by
    split_ifs with h
    · exact (max_eq_left (by omega)).symm
    · exact (max_eq_right (by omega)).symm
  simp only [h1, h2]
  congr 1
  split_ifs with h
  · exact (min_eq_right (le_of_lt h)).symm
  · exact (min_eq_left (not_lt.mp h)).symm

/-- C8, amended: for a queue whose allocation policy is EVEN, the policy function
`computeQueryQuota_EVEN` computes `segnum = min(ClusterSegNumberMax, segnumlimit)` and
`segnummin = min(max(1, floor(ClusterSegNumber / ActiveStatements)), segnum)`; whenever
`computeQueryQuota` returns `FUNC_RETURN_OK` it outputs that `segnum`, but its
`segnummin` is the request's `min_segcountfix`, which replaces the policy's value. -/
theorem computeQueryQuota_EVEN_outputs (track : DynResourceQueueTrack)
    (maxfx minfx segnum segnummin limit : Int)
    (hp : track.QueueInfo.AllocatePolicy = 0)
    (hcsn : 0 ≤ track.ClusterSegNumber) (hpc : 0 < track.QueueInfo.ParallelCount)
    (hok : (computeQueryQuota track maxfx minfx segnum segnummin limit).res = FUNC_RETURN_OK) :
    computeQueryQuota_EVEN track limit =
      (min track.ClusterSegNumberMax limit,
       min (max 1 (track.ClusterSegNumber / track.QueueInfo.ParallelCount))
         (min track.ClusterSegNumberMax limit)) ∧
    (computeQueryQuota track maxfx minfx segnum segnummin limit).segnum
      = min track.ClusterSegNumberMax limit ∧
    (computeQueryQuota track maxfx minfx segnum segnummin limit).segnummin = minfx := by
  obtain ⟨_, _, hqe⟩ := computeQueryQuota_ok track maxfx minfx segnum segnummin limit hok
  have he := computeQueryQuota_EVEN_eq track limit
  rw [Int.tdiv_eq_ediv hcsn (le_of_lt hpc)] at he
  refine ⟨he, ?_, ?_⟩
  · rw [hqe]
    simp only [AllocationPolicy, hp, if_true, he]
  · rw [hqe]

/-- Witness of C8 (amended) on `exTrack`: `segnum = 16` and `segnummin = 1`. -/
theorem computeQueryQuota_EVEN_outputs_witness :
    exTrack.QueueInfo.AllocatePolicy = 0 ∧ 0 ≤ exTrack.ClusterSegNumber ∧
    0 < exTrack.QueueInfo.ParallelCount ∧
    (computeQueryQuota exTrack 10 1 0 0 100).res = FUNC_RETURN_OK ∧
    computeQueryQuota_EVEN exTrack 100 = (16, 4) ∧
    (computeQueryQuota exTrack 10 1 0 0 100).segnum = 16 ∧
    (computeQueryQuota exTrack 10 1 0 0 100).segnummin = 1 :=
  ⟨by decide, by decide, by decide, by decide,
   (computeQueryQuota_EVEN_outputs exTrack 10 1 0 0 100 (by decide) (by decide) (by decide)
      (by decide)).1.trans (by decide),
   (computeQueryQuota_EVEN_outputs exTrack 10 1 0 0 100 (by decide) (by decide) (by decide)
      (by decide)).2.1.trans (by decide),
   (computeQueryQuota_EVEN_outputs exTrack 10 1 0 0 100 (by decide) (by decide) (by decide)
      (by decide)).2.2⟩

/-! ## C9: the result code of a failed reconciliation -/

/-- The early returns of the three-case block carry `RESQUEMGR_NO_RESOURCE`: on the
local values `Gmin = 2`, `Gmax = 5`, `Rmin = 4`, `Rmax = 3`, `RmaxL = 10` the block
produces `SegNumMin = 4 > SegNum = 3` and its code is `RESQUEMGR_NO_RESOURCE`.  Inside
`acquireResourceFromResQueMgr` the block never receives such values, see
`reconcileSegNum_after_quota`. -/
theorem reconcileSegNum_early_return_code :
    (reconcileSegNum 2 5 4 3 10).2.1 > (reconcileSegNum 2 5 4 3 10).2.2 ∧
    (reconcileSegNum 2 5 4 3 10).1 = some RESQUEMGR_NO_RESOURCE := by
  decide

/-- C10, the code at the failing input: under `pg_root` with the children `pg_default`
(20%) and `q10` (60%), the new queue `q1` asking for 60% is accepted, because the
sibling `q10` agrees with `q1` on its first `NameLen = 2` characters and is left out of
the sum; the percentages of the parent's percent-expressed children and of the new
queue then add up to 140. -/
theorem checkAndCompleteNewResourceQueueAttributes_accepts_over_100 :
    (checkAndCompleteNewResourceQueueAttributes exDefaults exQueueManager exNewQueue).map
      (fun r => r.1) = some FUNC_RETURN_OK ∧
    sumSiblingMemoryPer exQueueManager exNewQueue [1, 2] 0 = 20 ∧
    sumPercentOfChildren exQueueManager [1, 2] + exNewQueue.ClusterMemoryPer = 140 ∧
    ¬ (sumPercentOfChildren exQueueManager [1, 2] + exNewQueue.ClusterMemoryPer ≤ 100) := by
  decide!

/-! ## C11: a percent-expressed queue under a parent that is not percent-expressed -/

/-- C11 (counterexample): in the tree `exTree` the queue `qv` is neither `pg_root` nor
percent-expressed, and the request `CREATE qp` with `parent=qv`,
`memory_limit_cluster=50%` and `core_limit_cluster=50%` is answered with
`FUNC_RETURN_OK`: afterwards the percent-expressed queue `qp` is in the tree as a child
of `qv`. -/
theorem create_percent_queue_under_value_queue :
    (getQueueTrackByQueueName exTree "qv".toList).map
        (fun p => (p.TrackID, p.QueueInfo.Status.isRoot, p.QueueInfo.Status.isPercent))
      = some (3, false, false) ∧
    (handleRMDDLRequestManipulateResourceQueue exOps exDefaults exSystemOids exCatalogOk 100
        exTree ManipulateAction.CREATE "qp".toList
        (exAttrs [("parent", "qv"), ("memory_limit_cluster", "50%"),
                  ("core_limit_cluster", "50%")])).map
        (fun r => (r.1, (getQueueTrackByQueueName r.2 "qp".toList).map
          (fun t => (t.QueueInfo.Status.isPercent, t.ParentTrack))))
      = some (FUNC_RETURN_OK, some (true, some 3)) := by
  decide!

theorem checkQuotaPolicyFactor_fields (d : QueueDefaults) (queue : DynResourceQueueData) :
    (checkQuotaPolicyFactor d queue).2.ParentOID = queue.ParentOID ∧
    (checkQuotaPolicyFactor d queue).2.Status = queue.Status ∧
    (checkQuotaPolicyFactor d queue).2.OID = queue.OID ∧
    (checkQuotaPolicyFactor d queue).2.Name = queue.Name ∧
    (checkQuotaPolicyFactor d queue).2.NameLen = queue.NameLen := by
  unfold checkQuotaPolicyFactor
  simp only
  split_ifs <;> simp

theorem checkAndComplete_fields (d : QueueDefaults) (qm : QueueManager)
    (queue : DynResourceQueueData) (r : ResultCode × DynResourceQueueData)
    (h : checkAndCompleteNewResourceQueueAttributes d qm queue = some r) :
    r.2.ParentOID = queue.ParentOID ∧ r.2.Status = queue.Status ∧ r.2.OID = queue.OID ∧
    r.2.Name = queue.Name ∧ r.2.NameLen = queue.NameLen := by
  unfold checkAndCompleteNewResourceQueueAttributes at h
  have hq := checkQuotaPolicyFactor_fields d
  repeat' (first | split at h | split_ifs at h | dsimp only at h)
  all_goals first
    | (simp at h; done)
    | (cases h; simp [hq])


theorem checkAndComplete_isSome (d : QueueDefaults) (qm : QueueManager)
    (queue : DynResourceQueueData) (parenttrack : DynResourceQueueTrack)
    (hparent : getQueueTrackByQueueOID qm queue.ParentOID = some parenttrack) :
    checkAndCompleteNewResourceQueueAttributes d qm queue ≠ none := by
  intro h
  unfold checkAndCompleteNewResourceQueueAttributes at h
  rw [hparent] at h
  repeat' (first | split at h | split_ifs at h | dsimp only at h)
  all_goals simp_all

theorem createQueueAndTrack_rejects (qm : QueueManager) (queue : DynResourceQueueData)
    (parenttrack : DynResourceQueueTrack)
    (hroot : queue.Status.isRoot = false)
    (hparent : getQueueTrackByQueueOID qm queue.ParentOID = some parenttrack)
    (hbad : parenttrack.QueueInfo.Status.isDefault = true ∨ parenttrack.CurConnCounter > 0) :
    (createQueueAndTrack qm queue).1 ≠ FUNC_RETURN_OK ∧ (createQueueAndTrack qm queue).2.1 = qm := by
  unfold createQueueAndTrack
  rw [hparent, hroot]
  simp only
  split_ifs <;> simp_all

/-- C11 (amended): a `CREATE` whose attribute list names a parent that is `pg_default`
or that has active connections is answered with a code other than `FUNC_RETURN_OK` and
leaves the queue manager as it was, whether the new queue is percent-expressed or not.
Here `queue` is the definition parsed from the attribute list (not the root queue) and
`parenttrack` the tracker of its parent. -/
theorem create_rejected_for_unfit_parent (ops : SimpleStringOps) (d : QueueDefaults)
    (sys : SystemQueueOids) (cat : CatalogOutcome) (rm_max_resource_queue_number : Int)
    (qm : QueueManager) (name : List Char) (withattrs fineattr : List KVProperty)
    (queue : DynResourceQueueData) (parenttrack : DynResourceQueueTrack)
    (hfine : shallowparseResourceQueueWithAttributes ops qm
      ({ Key := getRSQTBLAttributeName AttrIndex.NAME, Val := name } :: withattrs)
        = Except.ok fineattr)
    (hparse : parseResourceQueueAttributes ops d fineattr zeroQueue = (FUNC_RETURN_OK, queue))
    (hroot : queue.Status.isRoot = false)
    (hparent : getQueueTrackByQueueOID qm queue.ParentOID = some parenttrack)
    (hbad : parenttrack.QueueInfo.Status.isDefault = true ∨ parenttrack.CurConnCounter > 0) :
    ∃ code, handleRMDDLRequestManipulateResourceQueue ops d sys cat rm_max_resource_queue_number
        qm ManipulateAction.CREATE name withattrs = some (code, qm) ∧
      code ≠ FUNC_RETURN_OK := by
  unfold handleRMDDLRequestManipulateResourceQueue
  simp only [hfine]
  unfold handleCreate
  by_cases hmax : (qm.Queues.length : Int) ≥ rm_max_resource_queue_number
  · rw [if_pos hmax]
    exact ⟨_, rfl, by decide⟩
  · rw [if_neg hmax]
    simp only [hparse, ne_eq, not_true_eq_false, if_false]
    cases hc : checkAndCompleteNewResourceQueueAttributes d qm queue with
    | none => exact absurd hc (checkAndComplete_isSome d qm queue parenttrack hparent)
    | some checked =>
      simp only
      have hf := checkAndComplete_fields d qm queue checked hc
      have hrej := createQueueAndTrack_rejects qm checked.2 parenttrack
        (by rw [hf.2.1]; exact hroot) (by rw [hf.1]; exact hparent) hbad
      by_cases h1 : checked.1 = FUNC_RETURN_OK
      · rw [if_neg (not_not.mpr h1), if_pos hrej.1, hrej.2]
        exact ⟨_, rfl, hrej.1⟩
      · rw [if_pos h1]
        exact ⟨_, rfl, h1⟩

/-- Witness of C11 (amended): the request `CREATE qp` with `parent=pg_default` and 50%
of memory and cores on `exTree` is answered with `RESQUEMGR_WRONG_ATTR`. -/
theorem create_rejected_for_unfit_parent_witness :
    ∃ code, handleRMDDLRequestManipulateResourceQueue exOps exDefaults exSystemOids exCatalogOk 100
        exTree ManipulateAction.CREATE "qp".toList
        (exAttrs [("parent", "pg_default"), ("memory_limit_cluster", "50%"),
                  ("core_limit_cluster", "50%")]) = some (code, exTree) ∧
      code ≠ FUNC_RETURN_OK :=
  create_rejected_for_unfit_parent exOps exDefaults exSystemOids exCatalogOk 100 exTree
    "qp".toList _ exFineAttrs exParsedQueue exPgDefaultTrack (by decide!) (by decide!)
    (by decide!) (by decide!) (Or.inl (by decide!))

/-! ## C12: a `vsegment_resource_quota` value without the `mem:` or `core:` prefix -/

/-- C12 (code_bug): the value `1gb` is not empty and starts with neither `mem:` nor
`core:`, yet `parseResourceQueueAttributes` and `updateResourceQueueAttributes` return
`FUNC_RETURN_OK` on an attribute list that carries it (the attributes behind it, here an
invalid `active_statements`, are not looked at), the request `CREATE qb` with that list
creates the queue, and the request `ALTER qv` with it is answered with
`FUNC_RETURN_OK`. -/
theorem quota_without_prefix_is_accepted :
    exOps.Empty "1gb".toList = false ∧
    exOps.StartWith "1gb".toList RESOURCE_QUEUE_SEG_RES_QUOTA_MEM ≠ FUNC_RETURN_OK ∧
    exOps.StartWith "1gb".toList RESOURCE_QUEUE_SEG_RES_QUOTA_CORE ≠ FUNC_RETURN_OK ∧
    (parseResourceQueueAttributes exOps exDefaults
        (exAttrs [("name", "qb"), ("parent", "1"), ("memory_limit_cluster", "20%"),
                  ("core_limit_cluster", "20%"), ("vsegment_resource_quota", "1gb"),
                  ("active_statements", "zz")]) zeroQueue).1 = FUNC_RETURN_OK ∧
    (updateResourceQueueAttributes exOps (exAttrs [("vsegment_resource_quota", "1gb")])
        (exValueQueue 3 1 "qv".toList 8192 8)).1 = FUNC_RETURN_OK ∧
    (handleRMDDLRequestManipulateResourceQueue exOps exDefaults exSystemOids exCatalogOk 100
        exTree ManipulateAction.CREATE "qb".toList
        (exAttrs [("parent", "pg_root"), ("memory_limit_cluster", "20%"),
                  ("core_limit_cluster", "20%"), ("vsegment_resource_quota", "1gb"),
                  ("active_statements", "zz")])).map
        (fun r => (r.1, (getQueueTrackByQueueName r.2 "qb".toList).isSome))
      = some (FUNC_RETURN_OK, true) ∧
    (handleRMDDLRequestManipulateResourceQueue exOps exDefaults exSystemOids exCatalogOk 100
        exTree ManipulateAction.ALTER "qv".toList
        (exAttrs [("vsegment_resource_quota", "1gb")])).map (fun r => r.1)
      = some FUNC_RETURN_OK := by
  decide!

/-! ## C13: the `ExpressPercent` flag after `updateResourceQueueAttributes` -/

/-- C13 (code_bug): on the value-expressed queue `qv` (8192 MB, 8 cores),
`updateResourceQueueAttributes` with the two absolute values `4096mb` and `4` returns
`FUNC_RETURN_OK` and leaves the queue flagged as percent-expressed (with the new values
and no percentage); with the two percentages `50%` it returns `FUNC_RETURN_OK` and
leaves the queue value-expressed; and with the single percentage
`memory_limit_cluster=50%` it returns `FUNC_RETURN_OK` instead of
`RESQUEMGR_INCONSISTENT_RESOURCE_EXP`. -/
theorem updateResourceQueueAttributes_value_queue_flag :
    (exValueQueue 3 1 "qv".toList 8192 8).Status.isPercent = false ∧
    (let r := updateResourceQueueAttributes exOps
        (exAttrs [("memory_limit_cluster", "4096mb"), ("core_limit_cluster", "4")])
        (exValueQueue 3 1 "qv".toList 8192 8)
     (r.1, r.2.Status.isPercent, r.2.ClusterMemoryMB, r.2.ClusterVCore, r.2.ClusterMemoryPer)
       = (FUNC_RETURN_OK, true, 4096, 4, -1)) ∧
    (let r := updateResourceQueueAttributes exOps
        (exAttrs [("memory_limit_cluster", "50%"), ("core_limit_cluster", "50%")])
        (exValueQueue 3 1 "qv".toList 8192 8)
     (r.1, r.2.Status.isPercent, r.2.ClusterMemoryPer, r.2.ClusterVCorePer)
       = (FUNC_RETURN_OK, false, 50, 50)) ∧
    (let r := updateResourceQueueAttributes exOps
        (exAttrs [("memory_limit_cluster", "50%")]) (exValueQueue 3 1 "qv".toList 8192 8)
     (r.1, r.2.Status.isPercent, r.2.ClusterMemoryPer, r.2.ClusterVCore)
       = (FUNC_RETURN_OK, false, 50, 8)) := by
  decide!

/-! ## C14: an `ALTER` that fails leaves the queue definition as it was -/

theorem getTrackByID_updateTrack (qm : QueueManager) (tid x : Nat)
    (f : DynResourceQueueTrack → DynResourceQueueTrack)
    (hf : ∀ t, (f t).TrackID = t.TrackID) :
    getTrackByID (updateTrack qm tid f) x =
      (getTrackByID qm x).map (fun t => if t.TrackID = tid then f t else t) := by
  unfold getTrackByID updateTrack
  simp only
  induction qm.Queues with
  | nil => rfl
  | cons a l ih =>
    simp only [List.map, List.find?]
    have hkey : ((if a.TrackID = tid then f a else a).TrackID == x) = (a.TrackID == x) := by
      split_ifs <;> simp [hf]
    rw [hkey]
    cases (a.TrackID == x)
    · simpa using ih
    · simp

theorem getQueueTrackByQueueName_setQueueInfo (qm : QueueManager) (name : List Char)
    (track : DynResourceQueueTrack) (q q1 : DynResourceQueueData)
    (h : getQueueTrackByQueueName qm name = some { track with QueueInfo := q }) :
    getQueueTrackByQueueName (setQueueInfo qm track.TrackID q1) name =
      some { track with QueueInfo := q1 } := by
  unfold getQueueTrackByQueueName at h ⊢
  have hidx : (setQueueInfo qm track.TrackID q1).QueuesNameIndex = qm.QueuesNameIndex := rfl
  rw [hidx]
  cases hl : qm.QueuesNameIndex.lookup name with
  | none => rw [hl] at h; simp at h
  | some tid =>
    rw [hl] at h
    simp only at h ⊢
    unfold setQueueInfo
    rw [getTrackByID_updateTrack qm track.TrackID tid (fun t => { t with QueueInfo := q1 })
      (fun _ => rfl), h]
    simp

theorem updateResqueueCatalog_alter (cat : CatalogOutcome) (qm : QueueManager) (tid : Nat) :
    (updateResqueueCatalog cat ManipulateAction.ALTER qm tid).2 = qm := by
  unfold updateResqueueCatalog
  cases getTrackByID qm tid <;> rfl

theorem handleAlter_failure (ops : SimpleStringOps) (d : QueueDefaults) (cat : CatalogOutcome)
    (qm : QueueManager) (name : List Char) (fineattr : List KVProperty) (code : ResultCode)
    (qm1 : QueueManager) (track : DynResourceQueueTrack)
    (hres : handleAlter ops d cat qm name fineattr = some (code, qm1))
    (hcode : code ≠ FUNC_RETURN_OK)
    (htrack : getQueueTrackByQueueName qm name = some track) :
    getQueueTrackByQueueName qm1 name = some track := by
  have h0 : getQueueTrackByQueueName qm name = some { track with QueueInfo := track.QueueInfo } :=
    htrack
  unfold handleAlter at hres
  rw [htrack] at hres
  simp only at hres
  have step := fun q1 => getQueueTrackByQueueName_setQueueInfo qm name track track.QueueInfo q1 h0
  split_ifs at hres with h1
  · simp only [Option.some.injEq, Prod.mk.injEq] at hres
    rw [← hres.2]
    exact getQueueTrackByQueueName_setQueueInfo _ name track _ track.QueueInfo (step _)
  · cases hc : checkAndCompleteNewResourceQueueAttributes d
        (setQueueInfo qm track.TrackID (updateResourceQueueAttributes ops fineattr track.QueueInfo).2)
        (updateResourceQueueAttributes ops fineattr track.QueueInfo).2 with
    | none => rw [hc] at hres; simp at hres
    | some checked =>
      rw [hc] at hres
      simp only at hres
      have step2 := fun q2 => getQueueTrackByQueueName_setQueueInfo _ name track _ q2 (step
        (updateResourceQueueAttributes ops fineattr track.QueueInfo).2)
      split_ifs at hres with h2 h3
      · simp only [Option.some.injEq, Prod.mk.injEq] at hres
        rw [← hres.2]
        exact getQueueTrackByQueueName_setQueueInfo _ name track _ track.QueueInfo (step2 _)
      · simp only [Option.some.injEq, Prod.mk.injEq] at hres
        rw [← hres.2, updateResqueueCatalog_alter]
        exact getQueueTrackByQueueName_setQueueInfo _ name track _ track.QueueInfo (step2 _)
      · simp only [Option.some.injEq, Prod.mk.injEq] at hres
        exact absurd hres.1.symm hcode

/-- C14: if the request `ALTER name` is answered with a code other than
`FUNC_RETURN_OK` - the attribute list was not recognised, the attribute update or the
validation failed, or the catalog statement failed - the tracker of the queue `name`,
and with it every field of its `DynResourceQueueData`, is what it was before the
request. -/
theorem alter_failure_restores_queue (ops : SimpleStringOps) (d : QueueDefaults)
    (sys : SystemQueueOids) (cat : CatalogOutcome) (rm_max_resource_queue_number : Int)
    (qm : QueueManager) (name : List Char) (withattrs : List KVProperty) (code : ResultCode)
    (qm1 : QueueManager) (track : DynResourceQueueTrack)
    (hres : handleRMDDLRequestManipulateResourceQueue ops d sys cat rm_max_resource_queue_number
      qm ManipulateAction.ALTER name withattrs = some (code, qm1))
    (hcode : code ≠ FUNC_RETURN_OK)
    (htrack : getQueueTrackByQueueName qm name = some track) :
    getQueueTrackByQueueName qm1 name = some track ∧
    (getQueueTrackByQueueName qm1 name).map (fun t => t.QueueInfo) = some track.QueueInfo := by
  have key : getQueueTrackByQueueName qm1 name = some track := by
    unfold handleRMDDLRequestManipulateResourceQueue at hres
    simp only at hres
    split at hres
    · simp only [Option.some.injEq, Prod.mk.injEq] at hres
      rw [← hres.2]; exact htrack
    · exact handleAlter_failure ops d cat qm name _ code qm1 track hres hcode htrack
  exact ⟨key, by rw [key]; rfl⟩

/-- Witness of C14: the request `ALTER qv` with `active_statements=5` on `exTree`, with a
catalog whose statements fail, is answered with `LIBPQ_FAIL_EXECUTE` and leaves the
tracker of `qv` as it was. -/
theorem alter_failure_restores_queue_witness :
    getQueueTrackByQueueName exTree "qv".toList = some exQvTrack ∧
    getQueueTrackByQueueName exAlterFailed "qv".toList = some exQvTrack ∧
    (getQueueTrackByQueueName exAlterFailed "qv".toList).map (fun t => t.QueueInfo)
      = some exQvTrack.QueueInfo :=
  ⟨by decide!,
   alter_failure_restores_queue exOps exDefaults exSystemOids exCatalogFail 100 exTree
     "qv".toList (exAttrs [("active_statements", "5")]) LIBPQ_FAIL_EXECUTE exAlterFailed
     exQvTrack (by decide!) (by decide) (by decide!)⟩

/-! ## C15: a `CREATE` that fails at catalog persistence -/

/-- C15 (code_bug): in `exTree` the queue `qv` is a leaf registered with the tracker of
ratio 1024, the only ratio.  The request `CREATE qp` with `parent=qv` on a failing
catalog is answered with `LIBPQ_FAIL_EXECUTE`; afterwards `qp` is gone, but `qv` is a
branch without children that no ratio tracker lists, and the ratio is no longer
tracked. -/
theorem create_rollback_leaves_parent_branch :
    (getTrackByID exTree 3).map
        (fun t => (t.QueueInfo.Status.isLeaf, t.QueueInfo.Status.isBranch, t.ChildrenTracks,
                   t.trackedMemCoreRatio))
      = some (true, false, [], true) ∧
    (exTree.RatioCount, exTree.RatioIndex) = (1, [(1024, 0)]) ∧
    exTree.RatioTrackers.map (fun o => o.map (fun m => m.QueueTrackers))
      = [some [3], none, none, none] ∧
    (exFailedCreate.map (fun r => r.1) = some LIBPQ_FAIL_EXECUTE ∧
     exFailedCreate.map (fun r => (getQueueTrackByQueueName r.2 "qp".toList).isSome)
       = some false ∧
     exFailedCreate.map (fun r => r.2.Queues.map (fun t => t.TrackID)) = some [1, 2, 3]) ∧
    exFailedCreate.map (fun r => (getTrackByID r.2 3).map
        (fun t => (t.QueueInfo.Status.isLeaf, t.QueueInfo.Status.isBranch, t.ChildrenTracks,
                   t.trackedMemCoreRatio)))
      = some (some (false, true, [], false)) ∧
    exFailedCreate.map (fun r => (r.2.RatioCount, r.2.RatioIndex)) = some (0, []) ∧
    exFailedCreate.map (fun r => r.2.RatioTrackers.map (fun o => o.map (fun m => m.QueueTrackers)))
      = some [none, none, none, none] := by
  decide!

/-! ## C16: a `DROP` of a queue that has connections -/

/-- C16 (code_bug): in `exTreeInUse` the leaf queue `qv` has one connection
(`CurConnCounter = 1`); the request `DROP qv` is answered with `FUNC_RETURN_OK` and
removes the queue from the list of queues, from the children of `pg_root` and from
both indices. -/
theorem drop_removes_queue_with_connections :
    (getQueueTrackByQueueName exTreeInUse "qv".toList).map
        (fun t => (t.TrackID, t.CurConnCounter, t.ChildrenTracks, t.QueueInfo.OID))
      = some (3, 1, [], 3) ∧
    exDropInUse.map (fun r => r.1) = some FUNC_RETURN_OK ∧
    exDropInUse.map (fun r => r.2.Queues.map (fun t => t.TrackID)) = some [1, 2] ∧
    exDropInUse.map (fun r => (getTrackByID r.2 1).map (fun t => t.ChildrenTracks))
      = some (some [2]) ∧
    exDropInUse.map (fun r => r.2.QueuesIDIndex) = some [(1, 1), (2, 2)] ∧
    exDropInUse.map (fun r => (getQueueTrackByQueueName r.2 "qv".toList).isSome)
      = some false := by
  decide!

/-! ## C17: the capacity of a percent-expressed leaf -/

theorem getTrackByID_mem (qm : QueueManager) (x : Nat) (t : DynResourceQueueTrack)
    (h : getTrackByID qm x = some t) : t ∈ qm.Queues ∧ t.TrackID = x := by
  unfold getTrackByID at h
  exact ⟨List.mem_of_find?_eq_some h, by simpa using List.find?_some h⟩

theorem find_track_of_mem_nodup (l : List DynResourceQueueTrack) (t : DynResourceQueueTrack)
    (hnd : (l.map (fun t => t.TrackID)).Nodup) (hmem : t ∈ l) :
    l.find? (fun u => u.TrackID == t.TrackID) = some t := by
  induction l with
  | nil => simp at hmem
  | cons a l ih =>
    simp only [List.map, List.nodup_cons, List.mem_map, not_exists, not_and] at hnd
    rcases List.mem_cons.mp hmem with rfl | hin
    · simp [List.find?]
    · have hne : a.TrackID ≠ t.TrackID := fun he => hnd.1 t hin he.symm
      simp only [List.find?]
      have : (a.TrackID == t.TrackID) = false := by simpa using hne
      rw [this]
      exact ih hnd.2 hin

theorem RefreshInv_refl (l : List DynResourceQueueTrack) : RefreshInv l l := by
  unfold RefreshInv
  induction l with
  | nil => exact List.Forall₂.nil
  | cons a l ih => exact List.Forall₂.cons ⟨rfl, fun _ => rfl⟩ ih

theorem RefreshInv_ids (l l1 : List DynResourceQueueTrack) (h : RefreshInv l l1) :
    l1.map (fun t => t.TrackID) = l.map (fun t => t.TrackID) ∧ l1.length = l.length := by
  unfold RefreshInv at h
  induction h with
  | nil => exact ⟨rfl, rfl⟩
  | cons hab _ ih =>
    have hid := congrArg Prod.fst hab.1
    simp only [treeView] at hid
    simp [hid, ih.1, ih.2]

theorem RefreshInv_find (l l1 : List DynResourceQueueTrack) (h : RefreshInv l l1) (x : Nat) :
    (l.find? (fun u => u.TrackID == x) = none ∧ l1.find? (fun u => u.TrackID == x) = none) ∨
    ∃ t t1, l.find? (fun u => u.TrackID == x) = some t ∧
      l1.find? (fun u => u.TrackID == x) = some t1 ∧
      treeView t1 = treeView t ∧ (isPercentLeaf t = false → t1 = t) := by
  unfold RefreshInv at h
  induction h with
  | nil => left; simp
  | @cons a b l l1 hab _ ih =>
    have hid : b.TrackID = a.TrackID := by
      have := congrArg Prod.fst hab.1
      simpa [treeView] using this
    simp only [List.find?, hid]
    cases hx : (a.TrackID == x)
    · simpa using ih
    · right
      exact ⟨a, b, rfl, rfl, hab.1, hab.2⟩
theorem isPercentLeaf_of_treeView (t t1 : DynResourceQueueTrack) (h : treeView t1 = treeView t) :
    isPercentLeaf t1 = isPercentLeaf t ∧ t1.TrackID = t.TrackID ∧ t1.ParentTrack = t.ParentTrack ∧
    t1.QueueInfo.Status = t.QueueInfo.Status ∧
    t1.QueueInfo.ClusterMemoryPer = t.QueueInfo.ClusterMemoryPer ∧
    t1.QueueInfo.ClusterVCorePer = t.QueueInfo.ClusterVCorePer ∧
    t1.QueueInfo.ResourceUpperFactor = t.QueueInfo.ResourceUpperFactor := by
  simp only [treeView, Prod.mk.injEq] at h
  obtain ⟨h1, h2, h3, h4, h5, h6⟩ := h
  exact ⟨by unfold isPercentLeaf; rw [h3], h1, h2, h3, h4, h5, h6⟩

theorem walkPercentChain_inv (qm qm1 : QueueManager) (h : RefreshInv qm.Queues qm1.Queues)
    (fuel : Nat) (ptr : Option Nat) (mem core : ℚ) :
    walkPercentChain qm1 fuel ptr mem core = walkPercentChain qm fuel ptr mem core := by
  induction fuel generalizing ptr mem core with
  | zero => cases ptr <;> rfl
  | succ n ih =>
    cases ptr with
    | none => rfl
    | some pid =>
      simp only [walkPercentChain, getTrackByID]
      rcases RefreshInv_find _ _ h pid with ⟨h0, h1⟩ | ⟨t, t1, h0, h1, hv, hsame⟩
      · rw [h0, h1]
      · rw [h0, h1]
        obtain ⟨_, _, hpar, hst, hm, hc, _⟩ := isPercentLeaf_of_treeView t t1 hv
        simp only [hst, hm, hc, hpar]
        by_cases hp : t.QueueInfo.Status.isPercent = true
        · simp only [hp, if_true]
          exact ih _ _ _
        · simp only [hp, if_false]
          have : isPercentLeaf t = false := by
            unfold isPercentLeaf
            simp [hp]
          rw [hsame this]
          simp

theorem computePercentCapacity_inv (qm qm1 : QueueManager)
    (h : RefreshInv qm.Queues qm1.Queues) (clustermemmb clustercore : Nat)
    (t t1 : DynResourceQueueTrack) (hv : treeView t1 = treeView t) :
    computePercentCapacity qm1 clustermemmb clustercore t1 =
      computePercentCapacity qm clustermemmb clustercore t := by
  obtain ⟨_, _, hpar, _, hm, hc, hf⟩ := isPercentLeaf_of_treeView t t1 hv
  unfold computePercentCapacity
  rw [(RefreshInv_ids _ _ h).2, walkPercentChain_inv qm qm1 h, hpar, hm, hc, hf]

theorem map_edit_id (l : List DynResourceQueueTrack) (tid : Nat) :
    l.map (fun t => if t.TrackID = tid then t else t) = l := by
  simp

theorem map_edit_comp (l : List DynResourceQueueTrack) (tid : Nat)
    (f g : DynResourceQueueTrack → DynResourceQueueTrack) (hf : ∀ t, (f t).TrackID = t.TrackID) :
    (l.map (fun t => if t.TrackID = tid then f t else t)).map
        (fun t => if t.TrackID = tid then g t else t) =
      l.map (fun t => if t.TrackID = tid then g (f t) else t) := by
  rw [List.map_map]
  apply List.map_congr_left
  intro t _
  simp only [Function.comp]
  by_cases h : t.TrackID = tid
  · simp [h, hf]
  · simp [h]

theorem removeResourceQueueRatio_queues (qm : QueueManager) (tid : Nat) :
    ∃ b : Option Bool, (removeResourceQueueRatio qm tid).Queues =
      qm.Queues.map (fun t => if t.TrackID = tid then setTracked b t else t) := by
  unfold removeResourceQueueRatio
  split
  · exact ⟨none, by simp [setTracked]⟩
  · split_ifs
    · exact ⟨none, by simp [setTracked]⟩
    · simp only
      split
      · exact ⟨none, by simp [setTracked]⟩
      · split
        · exact ⟨none, by simp [setTracked]⟩
        · refine ⟨some false, ?_⟩
          simp only [updateTrack, setTracked]
          split_ifs <;> simp [deleteRatio] <;> split_ifs <;> rfl

theorem addResourceQueueRatio_queues (qm : QueueManager) (tid : Nat) :
    ∃ b : Option Bool, (addResourceQueueRatio qm tid).Queues =
      qm.Queues.map (fun t => if t.TrackID = tid then setTracked b t else t) := by
  unfold addResourceQueueRatio
  split
  · exact ⟨none, by simp [setTracked]⟩
  · split_ifs
    · exact ⟨none, by simp [setTracked]⟩
    · refine ⟨some true, ?_⟩
      simp only [updateTrack, setTracked]
      split <;> rfl
theorem refreshStep1Track_skip (clustermemmb clustercore : Nat) (qm : QueueManager) (tid : Nat)
    (h : ∀ track, getTrackByID qm tid = some track → isPercentLeaf track = false) :
    refreshStep1Track clustermemmb clustercore qm tid = some qm := by
  unfold refreshStep1Track
  cases ht : getTrackByID qm tid with
  | none => rfl
  | some track =>
    have hl : (track.QueueInfo.Status.isPercent && track.QueueInfo.Status.isLeaf) = false :=
      h track ht
    simp only [hl]
    rfl

theorem refreshStep1Track_leaf (clustermemmb clustercore : Nat) (qm : QueueManager) (tid : Nat)
    (track : DynResourceQueueTrack) (v : PercentCapacity)
    (ht : getTrackByID qm tid = some track) (hl : isPercentLeaf track = true)
    (hv : computePercentCapacity qm clustermemmb clustercore track = some v) :
    ∃ (qm1 : QueueManager) (g : DynResourceQueueTrack → DynResourceQueueTrack),
      refreshStep1Track clustermemmb clustercore qm tid = some qm1 ∧
      (∀ t, (g t).QueueInfo = (storePercentCapacity v t).QueueInfo ∧
        (g t).TrackID = t.TrackID ∧ (g t).ParentTrack = t.ParentTrack) ∧
      qm1.Queues = qm.Queues.map (fun t => if t.TrackID = tid then g t else t) := by
  have hl1 : (track.QueueInfo.Status.isPercent && track.QueueInfo.Status.isLeaf) = true := hl
  unfold refreshStep1Track
  simp only [ht, hl1, hv, if_true]
  -- the manager after the optional removal from the ratio tracker
  have hq2 : ∃ b : Option Bool,
      (if v.tmpratio ≠ track.MemCoreRatio ∧ track.trackedMemCoreRatio = true then
          removeResourceQueueRatio (updateTrack qm tid (storePercentCapacity v)) tid
        else updateTrack qm tid (storePercentCapacity v)).Queues =
        qm.Queues.map (fun t => if t.TrackID = tid then setTracked b (storePercentCapacity v t) else t) := by
    split_ifs
    · obtain ⟨b, hb⟩ := removeResourceQueueRatio_queues (updateTrack qm tid (storePercentCapacity v)) tid
      refine ⟨b, ?_⟩
      rw [hb]
      exact map_edit_comp _ _ _ _ (fun _ => rfl)
    · exact ⟨none, rfl⟩
  obtain ⟨b, hb⟩ := hq2
  generalize (if v.tmpratio ≠ track.MemCoreRatio ∧ track.trackedMemCoreRatio = true then
          removeResourceQueueRatio (updateTrack qm tid (storePercentCapacity v)) tid
        else updateTrack qm tid (storePercentCapacity v)) = qm2 at hb ⊢
  have hb1 : ∀ t, (setTracked b (storePercentCapacity v t)).QueueInfo
        = (storePercentCapacity v t).QueueInfo ∧
      (setTracked b (storePercentCapacity v t)).TrackID = t.TrackID ∧
      (setTracked b (storePercentCapacity v t)).ParentTrack = t.ParentTrack := by
    intro t
    cases b <;> exact ⟨rfl, rfl, rfl⟩
  cases ht2 : getTrackByID qm2 tid with
  | none => exact ⟨qm2, _, rfl, hb1, hb⟩
  | some track2 =>
    simp only
    split_ifs
    · obtain ⟨b2, hb2⟩ := addResourceQueueRatio_queues
        (updateTrack qm2 tid (fun t => { t with MemCoreRatio := v.tmpratio })) tid
      refine ⟨_, fun t => setTracked b2
        { setTracked b (storePercentCapacity v t) with MemCoreRatio := v.tmpratio }, rfl, ?_, ?_⟩
      · intro t
        cases b <;> cases b2 <;> exact ⟨rfl, rfl, rfl⟩
      · rw [hb2]
        simp only [updateTrack, hb]
        rw [map_edit_comp _ _ _ _ (fun t => (hb1 t).2.1), map_edit_comp]
        intro t
        exact (hb1 t).2.1
    · exact ⟨qm2, _, rfl, hb1, hb⟩
theorem getTrackByID_of_queues (qm qm1 : QueueManager) (tid : Nat)
    (g : DynResourceQueueTrack → DynResourceQueueTrack) (hg : ∀ t, (g t).TrackID = t.TrackID)
    (hq : qm1.Queues = qm.Queues.map (fun t => if t.TrackID = tid then g t else t)) (x : Nat) :
    getTrackByID qm1 x = (getTrackByID qm x).map (fun t => if t.TrackID = tid then g t else t) := by
  have h := getTrackByID_updateTrack qm tid x g hg
  unfold getTrackByID updateTrack at h
  unfold getTrackByID
  rw [hq]
  exact h

theorem RefreshInv_edit (l l1 : List DynResourceQueueTrack) (h : RefreshInv l l1) (tid : Nat)
    (g : DynResourceQueueTrack → DynResourceQueueTrack)
    (hg : ∀ t1 ∈ l1, t1.TrackID = tid → treeView (g t1) = treeView t1 ∧ isPercentLeaf t1 = true) :
    RefreshInv l (l1.map (fun t => if t.TrackID = tid then g t else t)) := by
  unfold RefreshInv at h ⊢
  induction h with
  | nil => exact List.Forall₂.nil
  | @cons a b l l1 hab _ ih =>
    refine List.Forall₂.cons ?_ (ih (fun t1 ht1 => hg t1 (List.mem_cons_of_mem _ ht1)))
    by_cases hb : b.TrackID = tid
    · obtain ⟨hv, hleaf⟩ := hg b (List.mem_cons_self _ _) hb
      simp only [hb, if_true]
      refine ⟨hv.trans hab.1, fun ha => ?_⟩
      rw [(isPercentLeaf_of_treeView a b hab.1).1, ha] at hleaf
      exact absurd hleaf (by decide)
    · simp only [hb, if_false]
      exact hab

theorem foreach_refreshStep1 (clustermemmb clustercore : Nat) (qm0 : QueueManager)
    (hnd : (qm0.Queues.map (fun t => t.TrackID)).Nodup)
    (hdef : ∀ t ∈ qm0.Queues, isPercentLeaf t = true →
      (computePercentCapacity qm0 clustermemmb clustercore t).isSome = true)
    (tids : List Nat) (qm : QueueManager) (hinv : RefreshInv qm0.Queues qm.Queues) :
    ∃ qm1, foreachTrack (refreshStep1Track clustermemmb clustercore) tids qm = some qm1 ∧
      RefreshInv qm0.Queues qm1.Queues ∧
      (∀ x, x ∉ tids → getTrackByID qm1 x = getTrackByID qm x) ∧
      (∀ x ∈ tids, ∀ t0 v, getTrackByID qm0 x = some t0 → isPercentLeaf t0 = true →
        computePercentCapacity qm0 clustermemmb clustercore t0 = some v →
        ∃ t1, getTrackByID qm1 x = some t1 ∧
          t1.QueueInfo.ClusterMemoryMB = v.ClusterMemoryMB ∧
          t1.QueueInfo.ClusterVCore = v.ClusterVCore) := by
  induction tids generalizing qm with
  | nil => exact ⟨qm, rfl, hinv, fun _ _ => rfl, fun x hx => absurd hx (List.not_mem_nil x)⟩
  | cons tid rest ih =>
    -- one iteration on `qm`
    have hstep : ∃ qm2, refreshStep1Track clustermemmb clustercore qm tid = some qm2 ∧
        RefreshInv qm0.Queues qm2.Queues ∧
        (∀ x, x ≠ tid → getTrackByID qm2 x = getTrackByID qm x) ∧
        (∀ t0 v, getTrackByID qm0 tid = some t0 → isPercentLeaf t0 = true →
          computePercentCapacity qm0 clustermemmb clustercore t0 = some v →
          ∃ t1, getTrackByID qm2 tid = some t1 ∧
            t1.QueueInfo.ClusterMemoryMB = v.ClusterMemoryMB ∧
            t1.QueueInfo.ClusterVCore = v.ClusterVCore) := by
      rcases RefreshInv_find _ _ hinv tid with ⟨h0, h1⟩ | ⟨t, t1, h0, h1, hv, -⟩
      · refine ⟨qm, refreshStep1Track_skip _ _ _ _ (fun track ht => ?_), hinv, fun _ _ => rfl, ?_⟩
        · unfold getTrackByID at ht
          rw [h1] at ht
          exact absurd ht (by simp)
        · intro t0 v ht0
          unfold getTrackByID at ht0
          rw [h0] at ht0
          exact absurd ht0 (by simp)
      · have ht : getTrackByID qm tid = some t1 := h1
        have ht0 : getTrackByID qm0 tid = some t := h0
        by_cases hleaf : isPercentLeaf t1 = true
        · have hleaf0 : isPercentLeaf t = true := by
            rw [← (isPercentLeaf_of_treeView t t1 hv).1]; exact hleaf
          have hsome := hdef t (getTrackByID_mem qm0 tid t ht0).1 hleaf0
          obtain ⟨v, hv0⟩ := Option.isSome_iff_exists.mp hsome
          have hv1 : computePercentCapacity qm clustermemmb clustercore t1 = some v := by
            rw [computePercentCapacity_inv qm0 qm hinv _ _ t t1 hv]; exact hv0
          obtain ⟨qm2, g, hres, hg, hq⟩ :=
            refreshStep1Track_leaf clustermemmb clustercore qm tid t1 v ht hleaf hv1
          have hgid : ∀ u, (g u).TrackID = u.TrackID := fun u => (hg u).2.1
          have hview : ∀ u, treeView (g u) = treeView u := by
            intro u
            obtain ⟨hq1, hq2, hq3⟩ := hg u
            simp only [treeView, hq1, hq2, hq3, storePercentCapacity]
          have hnd1 : (qm.Queues.map (fun t => t.TrackID)).Nodup := by
            rw [(RefreshInv_ids _ _ hinv).1]; exact hnd
          refine ⟨qm2, hres, ?_, ?_, ?_⟩
          · rw [hq]
            refine RefreshInv_edit _ _ hinv tid g (fun u hu hutid => ⟨hview u, ?_⟩)
            have hfind := find_track_of_mem_nodup qm.Queues u hnd1 hu
            rw [hutid] at hfind
            have : some u = some t1 := hfind.symm.trans ht
            rw [Option.some.inj this]
            exact hleaf
          · intro x hx
            rw [getTrackByID_of_queues qm qm2 tid g hgid hq x]
            cases hgx : getTrackByID qm x with
            | none => rfl
            | some u =>
              have := (getTrackByID_mem qm x u hgx).2
              simp [this, hx]
          · intro t0 v0 ht00 _ hv00
            rw [ht0] at ht00
            have ht0eq : t = t0 := Option.some.inj ht00
            subst ht0eq
            rw [hv0] at hv00
            have hveq : v = v0 := Option.some.inj hv00
            subst hveq
            refine ⟨g t1, ?_, ?_, ?_⟩
            · rw [getTrackByID_of_queues qm qm2 tid g hgid hq tid, ht]
              simp [(getTrackByID_mem qm tid t1 ht).2]
            · rw [(hg t1).1]; rfl
            · rw [(hg t1).1]; rfl
        · have hleaf1 : isPercentLeaf t1 = false := by simpa using hleaf
          refine ⟨qm, refreshStep1Track_skip _ _ _ _ (fun track htr => ?_), hinv,
            fun _ _ => rfl, ?_⟩
          · rw [ht] at htr
            rw [← Option.some.inj htr]; exact hleaf1
          · intro t0 v ht00 hl0
            rw [ht0] at ht00
            rw [← Option.some.inj ht00, ← (isPercentLeaf_of_treeView t t1 hv).1, hleaf1] at hl0
            exact absurd hl0 (by decide)
    obtain ⟨qm2, hres2, hinv2, hother2, hval2⟩ := hstep
    obtain ⟨qm1, hres1, hinv1, hother1, hval1⟩ := ih qm2 hinv2
    refine ⟨qm1, ?_, hinv1, ?_, ?_⟩
    · simp only [foreachTrack, hres2]
      exact hres1
    · intro x hx
      simp only [List.mem_cons, not_or] at hx
      rw [hother1 x hx.2, hother2 x hx.1]
    · intro x hx t0 v ht0 hl0 hv0
      by_cases hxr : x ∈ rest
      · exact hval1 x hxr t0 v ht0 hl0 hv0
      · have hxt : x = tid := by
          rcases List.mem_cons.mp hx with h | h
          · exact h
          · exact absurd h hxr
        subst hxt
        rw [hother1 x hxr]
        exact hval2 t0 v ht0 hl0 hv0
theorem foreachTrack_preserves {α : Type} (body : QueueManager → Nat → Option QueueManager)
    (F : DynResourceQueueTrack → α)
    (hbody : ∀ qm tid qm1, body qm tid = some qm1 →
      ∀ x, (getTrackByID qm1 x).map F = (getTrackByID qm x).map F)
    (tids : List Nat) (qm qm1 : QueueManager) (h : foreachTrack body tids qm = some qm1) (x : Nat) :
    (getTrackByID qm1 x).map F = (getTrackByID qm x).map F := by
  induction tids generalizing qm with
  | nil =>
    simp only [foreachTrack, Option.some.injEq] at h
    rw [h]
  | cons tid rest ih =>
    simp only [foreachTrack] at h
    cases hb : body qm tid with
    | none => rw [hb] at h; simp at h
    | some qm2 =>
      rw [hb] at h
      rw [ih qm2 h, hbody qm tid qm2 hb x]

theorem refreshStep2_capacity (qm qm1 : QueueManager) (h : refreshStep2 qm = some qm1) (x : Nat) :
    (getTrackByID qm1 x).map (fun t => (t.QueueInfo.ClusterMemoryMB, t.QueueInfo.ClusterVCore)) =
      (getTrackByID qm x).map (fun t => (t.QueueInfo.ClusterMemoryMB, t.QueueInfo.ClusterVCore)) := by
  refine foreachTrack_preserves refreshStep2Track _ ?_ _ qm qm1 h x
  intro q tid q1 hq y
  unfold refreshStep2Track at hq
  cases ht : getTrackByID q tid with
  | none =>
    rw [ht] at hq
    simp only [Option.some.injEq] at hq
    rw [hq]
  | some track =>
    rw [ht] at hq
    simp only at hq
    split_ifs at hq
    · simp only [Option.some.injEq] at hq
      rw [hq]
    · cases hc : computeLeafLimits track with
      | none => rw [hc] at hq; simp at hq
      | some v =>
        rw [hc] at hq
        simp only [Option.some.injEq] at hq
        rw [← hq, getTrackByID_updateTrack q tid y (storeLeafLimits v) (fun _ => rfl)]
        cases getTrackByID q y with
        | none => rfl
        | some u =>
          simp only [Option.map_some']
          split_ifs <;> rfl

theorem toInt32_of_lt (x : Nat) (h : x < 2147483648) : toInt32 (x : Int) = x := by
  unfold toInt32
  omega

theorem ctrunc_intCast (n : Int) : ctrunc (n : ℚ) = n := by
  unfold ctrunc
  split_ifs <;> simp [Rat.floor, Rat.ceil]

/-! ## C18: the number of idle containers asked back -/

theorem mem_insertOrderedBy (comp : Nat → Nat → Int) (node x : Nat) (l : List Nat) :
    x ∈ insertOrderedBy comp node l ↔ x = node ∨ x ∈ l := by
  induction l with
  | nil => simp [insertOrderedBy]
  | cons y rest ih =>
    unfold insertOrderedBy
    split_ifs
    · simp
    · simp only [List.mem_cons, ih]; tauto

theorem mem_insertBBSTNodeBy (comp : Nat → Nat → Int) (tree : List Nat) (node x : Nat) :
    x ∈ insertBBSTNodeBy comp tree node ↔ x = node ∨ x ∈ tree := by
  unfold insertBBSTNodeBy
  split_ifs with h
  · constructor
    · intro hx; exact Or.inr hx
    · rintro (rfl | hx)
      · exact h
      · exact hx
  · exact mem_insertOrderedBy comp node x tree

theorem mem_reorderBBSTNodeData (comp : Nat → Nat → Int) (tree : List Nat) (id x : Nat)
    (h : x ∈ reorderBBSTNodeData comp tree id) : x ∈ tree := by
  unfold reorderBBSTNodeData at h
  split_ifs at h with hid
  · rcases (mem_insertBBSTNodeBy _ _ _ _).1 h with rfl | hx
    · exact hid
    · exact List.mem_of_mem_erase hx
  · exact h

theorem mem_foldl_insertBBSTNodeBy (comp : Nat → Nat → Int) (nodes tree : List Nat) (x : Nat) :
    x ∈ nodes.foldl (insertBBSTNodeBy comp) tree ↔ x ∈ nodes ∨ x ∈ tree := by
  induction nodes generalizing tree with
  | nil => simp
  | cons n rest ih =>
    simp only [List.foldl_cons, ih, mem_insertBBSTNodeBy, List.mem_cons]
    tauto

theorem sum_map_set {α : Type} (f : α → Nat) (l : List α) (i : Nat) (x y : α)
    (h : l[i]? = some y) : ((l.set i x).map f).sum + f y = (l.map f).sum + f x := by
  induction l generalizing i with
  | nil => simp at h
  | cons a rest ih =>
    cases i with
    | zero =>
      simp at h
      subst h
      simp only [List.set_cons_zero, List.map_cons, List.sum_cons]
      omega
    | succ j =>
      simp at h
      have := ih j h
      simp only [List.set_cons_succ, List.map_cons, List.sum_cons]
      omega

theorem lessContainers_append (b : ResourceBundle) (l : List GRMContainer) (c : GRMContainer) :
    lessContainers b (l ++ [c]) = minusResourceBundleData (lessContainers b l) c.MemoryMB c.Core := by
  simp [lessContainers, List.foldl_append]

theorem dropContainers_zero (ctns : GRMContainerSet) : dropContainers ctns 0 = ctns := by
  simp [dropContainers, lessContainers]

theorem TakenFrom_refl (segminnum : Int) (a : Option GRMContainerSet) : TakenFrom segminnum a a := by
  cases a with
  | none => simp [TakenFrom]
  | some ctns =>
    refine ⟨0, Nat.zero_le _, by rw [dropContainers_zero], Or.inl rfl, ?_⟩
    intro j c hj
    omega

/-- One more container taken from the head of the current set. -/
theorem TakenFrom_pop (segminnum : Int) (a : Option GRMContainerSet) (cur : GRMContainerSet)
    (c : GRMContainer) (rest : List GRMContainer)
    (h : TakenFrom segminnum a (some cur)) (hc : cur.Containers = c :: rest)
    (hmin : ¬ ((cur.Containers.length : Int) ≤ segminnum))
    (hmem : cur.Available.MemoryMB ≥ c.MemoryMB) (hcore : cur.Available.Core ≥ c.Core) :
    TakenFrom segminnum a (some (popGRMContainerSetContainerList cur).2) := by
  cases a with
  | none => simp [TakenFrom] at h
  | some ctns =>
    obtain ⟨k, hk, hcur, hleft, htaken⟩ := h
    have hcur : cur = dropContainers ctns k := Option.some.inj hcur
    have hdrop : ctns.Containers.drop k = c :: rest := by
      rw [← hc, hcur]; rfl
    have hklt : k < ctns.Containers.length := by
      by_contra hge
      rw [List.drop_eq_nil_of_le (by omega)] at hdrop
      cases hdrop
    have hget : ctns.Containers[k]? = some c := by
      have h0 : (ctns.Containers.drop k)[0]? = some c := by rw [hdrop]; simp
      rw [List.getElem?_drop] at h0
      simpa using h0
    have htake : ctns.Containers.take (k + 1) = ctns.Containers.take k ++ [c] := by
      rw [List.take_succ, hget]; rfl
    have hdrop1 : ctns.Containers.drop (k + 1) = rest := by
      have := List.drop_drop 1 k ctns.Containers
      rw [hdrop] at this
      simpa [Nat.add_comm] using this.symm
    have hlen : (cur.Containers.length : Int) = (ctns.Containers.length : Int) - k := by
      rw [hcur]
      simp only [dropContainers, List.length_drop]
      omega
    refine ⟨k + 1, hklt, ?_, Or.inr ?_, ?_⟩
    · congr 1
      simp only [popGRMContainerSetContainerList, hc, dropContainers, htake, hdrop1,
        lessContainers_append]
      rw [hcur]
      simp [dropContainers]
    · rw [hlen] at hmin
      push_cast
      omega
    · intro j c1 hj hc1
      rcases Nat.lt_succ_iff_lt_or_eq.1 hj with hjk | rfl
      · exact htaken j c1 hjk hc1
      · rw [hget] at hc1
        cases hc1
        have : lessContainers ctns.Available (List.take j ctns.Containers) = cur.Available := by
          rw [hcur]; rfl
        rw [this]
        exact ⟨hmem, hcore⟩
/-! ## The to-be-kicked buffer -/

theorem lookup_none_of_not_any (tbl : List (String × GRMContainerSet)) (key : String)
    (h : ¬ tbl.any (fun e => decide (e.1 = key)) = true) : tbl.lookup key = none := by
  induction tbl with
  | nil => rfl
  | cons e rest ih =>
    obtain ⟨k0, v0⟩ := e
    simp only [List.any_cons, Bool.or_eq_true, decide_eq_true_eq, not_or] at h
    have hne : (key == k0) = false := by
      simp only [beq_eq_false_iff_ne, ne_eq]
      exact fun hk => h.1 hk.symm
    simp only [List.lookup, hne]
    exact ih h.2

theorem map_replace_of_not_mem (tbl : List (String × GRMContainerSet)) (key : String)
    (v : GRMContainerSet) (h : key ∉ tbl.map Prod.fst) :
    tbl.map (fun e => if e.1 = key then (key, v) else e) = tbl := by
  induction tbl with
  | nil => rfl
  | cons e rest ih =>
    simp only [List.map_cons, List.mem_cons, not_or] at h
    simp only [List.map_cons]
    rw [ih h.2, if_neg (fun hk => h.1 hk.symm)]

theorem kickSum_replace (tbl : List (String × GRMContainerSet)) (key : String)
    (v old : GRMContainerSet) (hnodup : (tbl.map Prod.fst).Nodup)
    (hold : tbl.lookup key = some old) :
    ((tbl.map (fun e => if e.1 = key then (key, v) else e)).map
        fun e => e.2.Containers.length).sum + old.Containers.length =
      (tbl.map fun e => e.2.Containers.length).sum + v.Containers.length := by
  induction tbl with
  | nil => simp [List.lookup] at hold
  | cons e rest ih =>
    obtain ⟨k0, v0⟩ := e
    simp only [List.map_cons, List.nodup_cons] at hnodup
    by_cases hk : k0 = key
    · subst hk
      have : (k0 == k0) = true := by simp
      simp only [List.lookup, this] at hold
      cases hold
      rw [List.map_cons, if_pos rfl, map_replace_of_not_mem rest k0 v hnodup.1]
      simp only [List.map_cons, List.sum_cons]
      omega
    · have hne : (key == k0) = false := by
        simp only [beq_eq_false_iff_ne, ne_eq]
        exact fun h => hk h.symm
      simp only [List.lookup, hne] at hold
      have := ih hnodup.2 hold
      rw [List.map_cons, if_neg hk]
      simp only [List.map_cons, List.sum_cons]
      omega

theorem any_of_lookup_some (tbl : List (String × GRMContainerSet)) (key : String)
    (old : GRMContainerSet) (h : tbl.lookup key = some old) :
    tbl.any (fun e => decide (e.1 = key)) = true := by
  by_contra hn
  rw [lookup_none_of_not_any tbl key hn] at h
  cases h

theorem not_any_of_lookup_none (tbl : List (String × GRMContainerSet)) (key : String)
    (h : tbl.lookup key = none) : ¬ tbl.any (fun e => decide (e.1 = key)) = true := by
  induction tbl with
  | nil => simp
  | cons e rest ih =>
    obtain ⟨k0, v0⟩ := e
    by_cases hk : key = k0
    · have : (key == k0) = true := by simp [hk]
      simp only [List.lookup, this] at h
      cases h
    · have hne : (key == k0) = false := by simp [hk]
      simp only [List.lookup, hne] at h
      simp only [List.any_cons, Bool.or_eq_true, decide_eq_true_eq, not_or]
      exact ⟨fun hh => hk hh.symm, ih h⟩

theorem hashtableSet_keys (tbl : List (String × GRMContainerSet)) (key : String)
    (v : GRMContainerSet) (hnodup : (tbl.map Prod.fst).Nodup) :
    ((hashtableSet tbl key v).map Prod.fst).Nodup := by
  unfold hashtableSet
  split_ifs with h
  · have : (tbl.map (fun e => if e.1 = key then (key, v) else e)).map Prod.fst =
        tbl.map Prod.fst := by
      rw [List.map_map]
      apply List.map_congr_left
      intro e _
      simp only [Function.comp]
      split_ifs with he
      · exact he.symm
      · rfl
    rw [this]
    exact hnodup
  · rw [List.map_append, List.map_cons, List.map_nil]
    apply List.Nodup.append hnodup (List.nodup_singleton _)
    simp only [List.disjoint_singleton]
    intro hmem
    apply h
    obtain ⟨e, he, hek⟩ := List.mem_map.1 hmem
    simp only [List.any_eq_true, decide_eq_true_eq]
    exact ⟨e, he, hek⟩

theorem kickSum_hashtableSet (tbl : List (String × GRMContainerSet)) (ctn : GRMContainer)
    (hnodup : (tbl.map Prod.fst).Nodup) :
    ((hashtableSet tbl ctn.HostName
        (appendGRMContainerSetContainer
          ((tbl.lookup ctn.HostName).getD createGRMContainerSet)
          { ctn with CalcDecPending := true })).map fun e => e.2.Containers.length).sum =
      (tbl.map fun e => e.2.Containers.length).sum + 1 := by
  cases hl : tbl.lookup ctn.HostName with
  | none =>
    have hany := not_any_of_lookup_none tbl ctn.HostName hl
    unfold hashtableSet
    rw [if_neg hany]
    simp [appendGRMContainerSetContainer, createGRMContainerSet]
  | some old =>
    unfold hashtableSet
    rw [if_pos (any_of_lookup_some tbl _ old hl)]
    have := kickSum_replace tbl ctn.HostName
      (appendGRMContainerSetContainer old { ctn with CalcDecPending := true }) old hnodup hl
    simp only [Option.getD_some]
    simp only [appendGRMContainerSetContainer, List.length_append, List.length_singleton] at this ⊢
    omega
/-! ## The effect of returning one container -/

/-- The segment `node` after one of its containers has been returned. -/
theorem timeoutTakeContainer_segments (g : RMGlobals) (ratio rindex : Nat) (st : TimeoutState)
    (tree : List Nat) (node : Nat) (resource : SegResource) (ctns : GRMContainerSet)
    (c : GRMContainer) (hseg : getSegResource st.pool.Segments node = some resource) :
    (timeoutTakeContainer g ratio rindex st tree node resource ctns c).pool.Segments =
      st.pool.Segments.set node
        { resource with
          ContainerSets :=
            resource.ContainerSets.set rindex (some (popGRMContainerSetContainerList ctns).2),
          Allocated := minusResourceBundleData resource.Allocated c.MemoryMB c.Core,
          Available := minusResourceBundleData resource.Available c.MemoryMB c.Core,
          GRMContainerCount := resource.GRMContainerCount - 1,
          DecPending := addResourceBundleData resource.DecPending c.MemoryMB c.Core } := by
  have hlt : node < st.pool.Segments.length := by
    unfold getSegResource at hseg
    exact (List.getElem?_eq_some_iff.1 hseg).1
  simp only [timeoutTakeContainer, addGRMContainerToToBeKicked, getSegResource,
    List.getElem?_set_self hlt, List.set_set]

theorem timeoutTakeContainer_set_self (g : RMGlobals) (ratio rindex : Nat) (st : TimeoutState)
    (tree : List Nat) (node : Nat) (resource : SegResource) (ctns : GRMContainerSet)
    (c : GRMContainer) (hseg : getSegResource st.pool.Segments node = some resource)
    (hset : resource.ContainerSets.getD rindex none = some ctns) :
    containerSetOf (timeoutTakeContainer g ratio rindex st tree node resource ctns c).pool
      rindex node = some (popGRMContainerSetContainerList ctns).2 := by
  have hlt : node < st.pool.Segments.length := by
    unfold getSegResource at hseg
    exact (List.getElem?_eq_some_iff.1 hseg).1
  have hr : rindex < resource.ContainerSets.length := by
    by_contra hge
    rw [List.getD_eq_default _ _ (by omega)] at hset
    cases hset
  unfold containerSetOf
  rw [timeoutTakeContainer_segments g ratio rindex st tree node resource ctns c hseg]
  simp only [getSegResource, List.getElem?_set_self hlt, Option.some_bind]
  rw [List.getD_eq_getElem?_getD, List.getElem?_set_self hr]
  rfl

theorem timeoutTakeContainer_set_other (g : RMGlobals) (ratio rindex : Nat) (st : TimeoutState)
    (tree : List Nat) (node : Nat) (resource : SegResource) (ctns : GRMContainerSet)
    (c : GRMContainer) (hseg : getSegResource st.pool.Segments node = some resource)
    (segid : Nat) (hne : segid ≠ node) :
    containerSetOf (timeoutTakeContainer g ratio rindex st tree node resource ctns c).pool
      rindex segid = containerSetOf st.pool rindex segid := by
  unfold containerSetOf
  rw [timeoutTakeContainer_segments g ratio rindex st tree node resource ctns c hseg]
  simp only [getSegResource, List.getElem?_set_ne (Ne.symm hne)]

theorem timeoutTakeContainer_total (g : RMGlobals) (ratio rindex : Nat) (st : TimeoutState)
    (tree : List Nat) (node : Nat) (resource : SegResource) (ctns : GRMContainerSet)
    (c : GRMContainer) (rest : List GRMContainer)
    (hseg : getSegResource st.pool.Segments node = some resource)
    (hset : resource.ContainerSets.getD rindex none = some ctns)
    (hc : ctns.Containers = c :: rest) :
    totalContainerCount (timeoutTakeContainer g ratio rindex st tree node resource ctns c).pool
      rindex + 1 = totalContainerCount st.pool rindex := by
  have hr : rindex < resource.ContainerSets.length := by
    by_contra hge
    rw [List.getD_eq_default _ _ (by omega)] at hset
    cases hset
  unfold totalContainerCount
  rw [timeoutTakeContainer_segments g ratio rindex st tree node resource ctns c hseg]
  have h := sum_map_set (segContainerCount rindex) st.pool.Segments node
    { resource with
      ContainerSets :=
        resource.ContainerSets.set rindex (some (popGRMContainerSetContainerList ctns).2),
      Allocated := minusResourceBundleData resource.Allocated c.MemoryMB c.Core,
      Available := minusResourceBundleData resource.Available c.MemoryMB c.Core,
      GRMContainerCount := resource.GRMContainerCount - 1,
      DecPending := addResourceBundleData resource.DecPending c.MemoryMB c.Core }
    resource hseg
  have h1 : segContainerCount rindex resource = rest.length + 1 := by
    unfold segContainerCount
    rw [hset]
    simp [hc]
  have h2 : segContainerCount rindex
      { resource with
        ContainerSets :=
          resource.ContainerSets.set rindex (some (popGRMContainerSetContainerList ctns).2),
        Allocated := minusResourceBundleData resource.Allocated c.MemoryMB c.Core,
        Available := minusResourceBundleData resource.Available c.MemoryMB c.Core,
        GRMContainerCount := resource.GRMContainerCount - 1,
        DecPending := addResourceBundleData resource.DecPending c.MemoryMB c.Core } =
      rest.length := by
    simp only [segContainerCount]
    rw [List.getD_eq_getElem?_getD, List.getElem?_set_self hr]
    simp [popGRMContainerSetContainerList, hc]
  omega

theorem timeoutTakeContainer_kicked (g : RMGlobals) (ratio rindex : Nat) (st : TimeoutState)
    (tree : List Nat) (node : Nat) (resource : SegResource) (ctns : GRMContainerSet)
    (c : GRMContainer) (hkeys : (st.pool.ToKickContainers.map Prod.fst).Nodup) :
    toKickCount (timeoutTakeContainer g ratio rindex st tree node resource ctns c).pool =
        toKickCount st.pool + 1 ∧
      ((timeoutTakeContainer g ratio rindex st tree node resource ctns c).pool.ToKickContainers.map
        Prod.fst).Nodup ∧
      (timeoutTakeContainer g ratio rindex st tree node resource ctns c).pool.RetPendingContainerCount
        = st.pool.RetPendingContainerCount + 1 ∧
      (timeoutTakeContainer g ratio rindex st tree node resource ctns c).realretcontnum =
        st.realretcontnum + 1 ∧
      (timeoutTakeContainer g ratio rindex st tree node resource ctns c).tempskipnodes =
        st.tempskipnodes ∧
      ∃ tree1 : List Nat,
        (timeoutTakeContainer g ratio rindex st tree node resource ctns
            c).pool.OrderedSegResAllocByRatio =
          st.pool.OrderedSegResAllocByRatio.set rindex (some tree1) ∧
        ∀ x ∈ tree1, x ∈ tree := by
  refine ⟨?_, ?_, rfl, rfl, rfl, _, rfl, ?_⟩
  · exact kickSum_hashtableSet st.pool.ToKickContainers c hkeys
  · exact hashtableSet_keys st.pool.ToKickContainers c.HostName _ hkeys
  · intro x hx
    exact mem_reorderBBSTNodeData _ _ _ _ hx
/-! ## One iteration of the loop -/

/-- The three ways in which an iteration ends without dereferencing `NULL`: the loop
is left with the state unchanged, the left-most node is skipped, or the first container
of the left-most node is returned. -/
theorem timeoutIteration_cases (g : RMGlobals) (ratio rindex : Nat) (segminnum : Int)
    (st st1 : TimeoutState) (b : Bool)
    (hidx : getResourceQueueRatioIndex g ratio = some rindex)
    (h : timeoutIteration g ratio rindex segminnum st = some (b, st1)) :
    (b = false ∧ st1 = st) ∨
    (b = true ∧ ∃ node rest,
      st.pool.OrderedSegResAllocByRatio.getD rindex none = some (node :: rest) ∧
      st1 = { st with
              pool := { st.pool with
                        OrderedSegResAllocByRatio :=
                          st.pool.OrderedSegResAllocByRatio.set rindex (some rest) },
              tempskipnodes := st.tempskipnodes ++ [node] }) ∨
    (b = true ∧ ∃ node rest resource ctns c crest,
      st.pool.OrderedSegResAllocByRatio.getD rindex none = some (node :: rest) ∧
      getSegResource st.pool.Segments node = some resource ∧
      resource.ContainerSets.getD rindex none = some ctns ∧
      ctns.Containers = c :: crest ∧
      ¬ ((ctns.Containers.length : Int) ≤ segminnum) ∧
      ctns.Available.MemoryMB ≥ c.MemoryMB ∧ ctns.Available.Core ≥ c.Core ∧
      st1 = timeoutTakeContainer g ratio rindex st (node :: rest) node resource ctns c) := by
  unfold timeoutIteration at h
  cases htree : st.pool.OrderedSegResAllocByRatio.getD rindex none with
  | none => rw [htree] at h; cases h
  | some tree =>
    rw [htree] at h
    cases tree with
    | nil =>
      simp only [Option.some.injEq, Prod.mk.injEq] at h
      exact Or.inl ⟨h.1.symm, h.2.symm⟩
    | cons node rest =>
      dsimp only at h
      cases hseg : getSegResource st.pool.Segments node with
      | none => rw [hseg] at h; cases h
      | some resource =>
        rw [hseg] at h
        simp only [getGRMContainerSet, hidx, ne_eq, not_true_eq_false, if_false] at h
        cases hset : resource.ContainerSets.getD rindex none with
        | none => rw [hset] at h; cases h
        | some ctns =>
          rw [hset] at h
          dsimp only at h
          by_cases hmin : (ctns.Containers.length : Int) ≤ segminnum
          · rw [if_pos hmin] at h
            simp only [Option.some.injEq, Prod.mk.injEq] at h
            exact Or.inl ⟨h.1.symm, h.2.symm⟩
          · rw [if_neg hmin] at h
            cases hc : ctns.Containers with
            | nil => rw [hc] at h; cases h
            | cons c crest =>
              rw [hc] at h
              dsimp only at h
              by_cases havail : ctns.Available.MemoryMB ≥ c.MemoryMB ∧
                  ctns.Available.Core ≥ c.Core
              · rw [if_pos havail] at h
                simp only [Option.some.injEq, Prod.mk.injEq] at h
                exact Or.inr (Or.inr ⟨h.1.symm, node, rest, resource, ctns, c, crest, rfl, hseg,
                  hset, hc, hmin, havail.1, havail.2, h.2.symm⟩)
              · rw [if_neg havail] at h
                simp only [Option.some.injEq, Prod.mk.injEq] at h
                exact Or.inr (Or.inl ⟨h.1.symm, node, rest, rfl, h.2.symm⟩)

/-- An iteration keeps what holds of the loop state. -/
theorem timeoutIteration_inv (g : RMGlobals) (ratio rindex : Nat) (segminnum : Int)
    (orig : ResourcePool) (st st1 : TimeoutState) (b : Bool)
    (hidx : getResourceQueueRatioIndex g ratio = some rindex)
    (h : timeoutIteration g ratio rindex segminnum st = some (b, st1))
    (hinv : TimeoutInv segminnum rindex orig st) :
    TimeoutInv segminnum rindex orig st1 ∧ st1.realretcontnum ≤ st.realretcontnum + 1 := by
  rcases timeoutIteration_cases g ratio rindex segminnum st st1 b hidx h with
    ⟨_, rfl⟩ | ⟨_, node, rest, _, rfl⟩ |
    ⟨_, node, rest, resource, ctns, c, crest, _, hseg, hset, hc, hmin, hmem, hcore, rfl⟩
  · exact ⟨hinv, Nat.le_succ _⟩
  · exact ⟨⟨hinv.sets, hinv.kicked, hinv.keys, hinv.pending, hinv.total⟩, Nat.le_succ _⟩
  · obtain ⟨hk1, hk2, hk3, hk4, _, _⟩ :=
      timeoutTakeContainer_kicked g ratio rindex st (node :: rest) node resource ctns c hinv.keys
    refine ⟨⟨?_, ?_, hk2, ?_, ?_⟩, by rw [hk4]⟩
    · intro segid
      by_cases hs : segid = node
      · subst hs
        rw [timeoutTakeContainer_set_self g ratio rindex st _ segid resource ctns c hseg hset]
        have hcur : containerSetOf st.pool rindex segid = some ctns := by
          unfold containerSetOf; rw [hseg]; exact hset
        have := hinv.sets segid
        rw [hcur] at this
        exact TakenFrom_pop segminnum _ ctns c crest this hc hmin hmem hcore
      · rw [timeoutTakeContainer_set_other g ratio rindex st _ node resource ctns c hseg segid hs]
        exact hinv.sets segid
    · rw [hk1, hk4, hinv.kicked]; omega
    · rw [hk3, hk4, hinv.pending]; push_cast; omega
    · have := timeoutTakeContainer_total g ratio rindex st (node :: rest) node resource ctns c
        crest hseg hset hc
      rw [hk4]
      have := hinv.total
      omega

/-- The loop keeps what holds of the loop state and returns at most `n` containers. -/
theorem timeoutLoop_inv (g : RMGlobals) (ratio rindex : Nat) (segminnum : Int)
    (orig : ResourcePool) (hidx : getResourceQueueRatioIndex g ratio = some rindex) :
    ∀ (n : Nat) (st st1 : TimeoutState),
      timeoutLoop g ratio rindex segminnum n st = some st1 →
      TimeoutInv segminnum rindex orig st →
      TimeoutInv segminnum rindex orig st1 ∧ st1.realretcontnum ≤ st.realretcontnum + n := by
  intro n
  induction n with
  | zero =>
    intro st st1 h hinv
    simp only [timeoutLoop, Option.some.injEq] at h
    subst h
    exact ⟨hinv, Nat.le_refl _⟩
  | succ n ih =>
    intro st st1 h hinv
    unfold timeoutLoop at h
    cases hit : timeoutIteration g ratio rindex segminnum st with
    | none => rw [hit] at h; cases h
    | some r =>
      obtain ⟨b, st2⟩ := r
      rw [hit] at h
      have h2 := timeoutIteration_inv g ratio rindex segminnum orig st st2 b hidx hit hinv
      cases b with
      | false =>
        simp only [Option.some.injEq] at h
        subst h
        exact ⟨h2.1, by omega⟩
      | true =>
        have h3 := ih st2 st1 h h2.1
        exact ⟨h3.1, by omega⟩
/-! ## The loop returns -/

theorem timeoutTakeContainer_tree (g : RMGlobals) (ratio rindex : Nat) (st : TimeoutState)
    (tree : List Nat) (node : Nat) (resource : SegResource) (ctns : GRMContainerSet)
    (c : GRMContainer) :
    ∃ tree1 : List Nat,
      (timeoutTakeContainer g ratio rindex st tree node resource ctns
          c).pool.OrderedSegResAllocByRatio =
        st.pool.OrderedSegResAllocByRatio.set rindex (some tree1) ∧
      ∀ x ∈ tree1, x ∈ tree :=
  ⟨_, rfl, fun _ hx => mem_reorderBBSTNodeData _ _ _ _ hx⟩

theorem getD_set_self_of_getD {α : Type} (l : List (Option α)) (i : Nat) (x : α) {y : α}
    (h : l.getD i none = some y) : (l.set i (some x)).getD i none = some x := by
  have hi : i < l.length := by
    by_contra hge
    rw [List.getD_eq_default _ _ (by omega)] at h
    cases h
  rw [List.getD_eq_getElem?_getD, List.getElem?_set_self hi]
  rfl

/-- With an index whose nodes all have a container set, and `segminnum` not negative,
an iteration dereferences no `NULL` pointer, and the index stays such. -/
theorem timeoutIteration_total (g : RMGlobals) (ratio rindex : Nat) (segminnum : Int)
    (st : TimeoutState) (hidx : getResourceQueueRatioIndex g ratio = some rindex)
    (hsegmin : 0 ≤ segminnum) (hsets : IndexedSegmentsHaveSets st.pool rindex) :
    ∃ b st1, timeoutIteration g ratio rindex segminnum st = some (b, st1) ∧
      IndexedSegmentsHaveSets st1.pool rindex := by
  obtain ⟨tree, htree, hnodes⟩ := hsets
  unfold timeoutIteration
  rw [htree]
  cases tree with
  | nil => exact ⟨false, st, rfl, [], htree, fun _ h => by cases h⟩
  | cons node rest =>
    obtain ⟨ctns, hctns⟩ := hnodes node (List.mem_cons_self _ _)
    unfold containerSetOf at hctns
    cases hseg : getSegResource st.pool.Segments node with
    | none => rw [hseg] at hctns; cases hctns
    | some resource =>
      rw [hseg] at hctns
      simp only [Option.some_bind] at hctns
      simp only [hseg, getGRMContainerSet, hidx, ne_eq, not_true_eq_false, if_false, hctns]
      by_cases hmin : (ctns.Containers.length : Int) ≤ segminnum
      · rw [if_pos hmin]
        exact ⟨false, st, rfl, node :: rest, htree, hnodes⟩
      · rw [if_neg hmin]
        cases hc : ctns.Containers with
        | nil => rw [hc] at hmin; simp at hmin; omega
        | cons c crest =>
          simp only [hc]
          by_cases havail : ctns.Available.MemoryMB ≥ c.MemoryMB ∧ ctns.Available.Core ≥ c.Core
          · rw [if_pos havail]
            refine ⟨true, _, rfl, ?_⟩
            obtain ⟨tree1, htree1, hsub⟩ :=
              timeoutTakeContainer_tree g ratio rindex st (node :: rest) node resource ctns c
            refine ⟨tree1, ?_, ?_⟩
            · rw [htree1]
              exact getD_set_self_of_getD _ _ _ htree
            · intro x hx
              by_cases hxn : x = node
              · subst hxn
                exact ⟨_, timeoutTakeContainer_set_self g ratio rindex st _ x resource ctns c
                  hseg hctns⟩
              · rw [timeoutTakeContainer_set_other g ratio rindex st _ node resource ctns c
                  hseg x hxn]
                exact hnodes x (hsub x hx)
          · rw [if_neg havail]
            refine ⟨true, _, rfl, rest, ?_, ?_⟩
            · exact getD_set_self_of_getD _ _ _ htree
            · intro x hx
              exact hnodes x (List.mem_cons_of_mem _ hx)

theorem timeoutLoop_total (g : RMGlobals) (ratio rindex : Nat) (segminnum : Int)
    (hidx : getResourceQueueRatioIndex g ratio = some rindex) (hsegmin : 0 ≤ segminnum) :
    ∀ (n : Nat) (st : TimeoutState), IndexedSegmentsHaveSets st.pool rindex →
      ∃ st1, timeoutLoop g ratio rindex segminnum n st = some st1 := by
  intro n
  induction n with
  | zero => intro st _; exact ⟨st, rfl⟩
  | succ n ih =>
    intro st hsets
    obtain ⟨b, st1, hit, hsets1⟩ :=
      timeoutIteration_total g ratio rindex segminnum st hidx hsegmin hsets
    unfold timeoutLoop
    rw [hit]
    cases b with
    | false => exact ⟨st1, rfl⟩
    | true => exact ih st1 hsets1

theorem timeoutReinsert_fields (g : RMGlobals) (ratio rindex : Nat) (st : TimeoutState) :
    (timeoutReinsert g ratio rindex st).Segments = st.pool.Segments ∧
      (timeoutReinsert g ratio rindex st).ToKickContainers = st.pool.ToKickContainers ∧
      (timeoutReinsert g ratio rindex st).RetPendingContainerCount =
        st.pool.RetPendingContainerCount := by
  unfold timeoutReinsert
  split <;> exact ⟨rfl, rfl, rfl⟩

theorem containerCountOf_of_TakenFrom (segminnum : Int) (pool pool1 : ResourcePool)
    (rindex segid : Nat)
    (h : TakenFrom segminnum (containerSetOf pool rindex segid)
      (containerSetOf pool1 rindex segid)) :
    min (containerCountOf pool rindex segid : Int) segminnum ≤
        (containerCountOf pool1 rindex segid : Int) ∧
      containerCountOf pool1 rindex segid ≤ containerCountOf pool rindex segid := by
  unfold containerCountOf
  cases hb : containerSetOf pool rindex segid with
  | none =>
    rw [hb] at h
    simp only [TakenFrom] at h
    rw [h]
    simp
  | some ctns =>
    rw [hb] at h
    obtain ⟨k, hk, hafter, hleft, _⟩ := h
    rw [hafter]
    simp only [dropContainers, List.length_drop]
    rcases hleft with rfl | hleft
    · simp
    · constructor
      · apply le_trans (min_le_right _ _)
        omega
      · omega

/-! ## C19: the return of containers of one ratio -/

/-- C19, the code at the failing input: the pool has the segment `h0` with 2 containers
of the ratio, both in use, and the segment `h1` that has no container yet, so that its
container set of the ratio is `NULL`; both are nodes of the allocation index, `h0` first
(the order in which the index keeps them).  Asked for 2 containers with `segminnum = 0`,
the first iteration skips `h0` (nothing available) and takes it out of the index; the
second reaches `h1`, for which `getGRMContainerSet` returns `FUNC_RETURN_OK` and a `NULL`
set, and `list_length(containerset->Containers)` dereferences it: the call does not
return.  Asked for 1 container it returns 0 after the first iteration. -/
theorem timeoutIdleGRMResourceToRBByRatio_null_container_set :
    getGRMContainerSet exBreathGlobals (exSegmentWithoutSet "h1") 1024 = (FUNC_RETURN_OK, none) ∧
    insertBBSTNodeBy (compAllocNodes exBreathGlobals 1024 exSetlessPool.Segments) [0] 1 = [0, 1] ∧
    timeoutIdleGRMResourceToRBByRatio exBreathGlobals [some { MemCoreRatio := 1024 }]
      exSetlessPool 0 2 0 = none ∧
    (timeoutIdleGRMResourceToRBByRatio exBreathGlobals [some { MemCoreRatio := 1024 }]
      exSetlessPool 0 1 0).map (fun r => r.2) = some 0 := by
  refine ⟨by decide!, by decide!, by decide!, by decide!⟩

/-- The call `timeoutIdleGRMResourceToRBByRatio(ratioindex, retcontnum, segminnum)` on
the pools where it is defined: with a tracker at `ratioindex`, `segminnum` not negative,
a to-be-kicked table with distinct keys and, when the ratio is indexed, an allocation
index whose nodes all have a container set for the ratio, it returns; `realretcontnum`
is at most `retcontnum`; the to-be-kicked buffer (and `RetPendingContainerCount`) grows
by exactly `realretcontnum` containers, which the container sets of the ratio lose; each
segment's set loses a prefix of its container list, each container of it taken while the
`Available` memory and core of the set covered the container's (`TakenFrom`); and the
container count of a segment for the ratio does not fall below
`min(count_before, segminnum)`.  When the ratio is not indexed the pool is left as it
was and `realretcontnum` is 0. -/
theorem timeoutIdleGRMResourceToRBByRatio_returns (g : RMGlobals)
    (trackers : List (Option DynMemoryCoreRatioTrack)) (pool : ResourcePool)
    (ratioindex retcontnum : Nat) (segminnum : Int) (tracker : DynMemoryCoreRatioTrack)
    (htracker : trackers.getD ratioindex none = some tracker)
    (hsegmin : 0 ≤ segminnum)
    (hkeys : (pool.ToKickContainers.map Prod.fst).Nodup)
    (hsets : ∀ rindex, getResourceQueueRatioIndex g tracker.MemCoreRatio.toNat = some rindex →
      IndexedSegmentsHaveSets pool rindex) :
    ∃ pool1 realretcontnum,
      timeoutIdleGRMResourceToRBByRatio g trackers pool ratioindex retcontnum segminnum =
        some (pool1, realretcontnum) ∧
      realretcontnum ≤ retcontnum ∧
      toKickCount pool1 = toKickCount pool + realretcontnum ∧
      pool1.RetPendingContainerCount = pool.RetPendingContainerCount + (realretcontnum : Int) ∧
      (getResourceQueueRatioIndex g tracker.MemCoreRatio.toNat = none →
        pool1 = pool ∧ realretcontnum = 0) ∧
      ∀ rindex, getResourceQueueRatioIndex g tracker.MemCoreRatio.toNat = some rindex →
        totalContainerCount pool1 rindex + realretcontnum = totalContainerCount pool rindex ∧
        ∀ segid,
          TakenFrom segminnum (containerSetOf pool rindex segid)
            (containerSetOf pool1 rindex segid) ∧
          min (containerCountOf pool rindex segid : Int) segminnum ≤
            (containerCountOf pool1 rindex segid : Int) := by
  unfold timeoutIdleGRMResourceToRBByRatio
  rw [htracker]
  dsimp only
  cases hidx : getResourceQueueRatioIndex g tracker.MemCoreRatio.toNat with
  | none =>
    refine ⟨pool, 0, rfl, Nat.zero_le _, rfl, by simp, fun _ => ⟨rfl, rfl⟩, ?_⟩
    intro rindex h
    cases h
  | some rindex =>
    dsimp only
    have hinv0 : TimeoutInv segminnum rindex pool
        { pool := pool, realretcontnum := 0, tempskipnodes := [] } :=
      ⟨fun segid => TakenFrom_refl _ _, rfl, hkeys, by simp, rfl⟩
    obtain ⟨st, hloop⟩ := timeoutLoop_total g _ rindex segminnum hidx hsegmin retcontnum
      { pool := pool, realretcontnum := 0, tempskipnodes := [] } (hsets rindex hidx)
    obtain ⟨hinv, hle⟩ := timeoutLoop_inv g _ rindex segminnum pool hidx retcontnum _ st hloop
      hinv0
    rw [hloop]
    obtain ⟨hsegs, hkick, hpend⟩ := timeoutReinsert_fields g tracker.MemCoreRatio.toNat rindex st
    have hset : ∀ r segid, containerSetOf (timeoutReinsert g tracker.MemCoreRatio.toNat rindex st)
        r segid = containerSetOf st.pool r segid := by
      intro r segid
      unfold containerSetOf
      rw [hsegs]
    have hle1 : st.realretcontnum ≤ retcontnum := by simpa using hle
    refine ⟨_, _, rfl, hle1, ?_, ?_, (fun h => by cases h), ?_⟩
    · unfold toKickCount
      rw [hkick]
      exact hinv.kicked
    · rw [hpend]
      exact hinv.pending
    · intro r hr
      have hrr : rindex = r := Option.some.inj hr
      subst hrr
      refine ⟨?_, ?_⟩
      · unfold totalContainerCount
        rw [hsegs]
        exact hinv.total
      · intro segid
        have h := hinv.sets segid
        rw [← hset rindex segid] at h
        exact ⟨h, (containerCountOf_of_TakenFrom segminnum _ _ _ _ h).1⟩

/-- The statement above on a pool of two segments (4 containers with 1 free, 3 containers
all free) asked for 4 containers with `segminnum` 2: one container leaves each segment,
the busy segment is then skipped and the other one ends the loop. -/
theorem timeoutIdleGRMResourceToRBByRatio_returns_witness :
    ∃ pool1,
      timeoutIdleGRMResourceToRBByRatio exBreathGlobals [some { MemCoreRatio := 1024 }]
        exBreathPool 0 4 2 = some (pool1, 2) ∧
      toKickCount pool1 = 2 ∧ containerCountOf pool1 0 0 = 3 ∧ containerCountOf pool1 0 1 = 2 := by
  obtain ⟨pool1, n, hret, _, hkick, _, _, hrest⟩ :=
    timeoutIdleGRMResourceToRBByRatio_returns exBreathGlobals [some { MemCoreRatio := 1024 }]
      exBreathPool 0 4 2 { MemCoreRatio := 1024 } rfl (by decide) (by decide!)
      (by
        intro rindex h
        have h0 : rindex = 0 := by
          have : getResourceQueueRatioIndex exBreathGlobals 1024 = some 0 := by decide!
          have h1 : getResourceQueueRatioIndex exBreathGlobals 1024 = some rindex := h
          rw [this] at h1
          exact (Option.some.inj h1).symm
        subst h0
        refine ⟨[0, 1], by decide!, ?_⟩
        intro node hnode
        simp only [List.mem_cons, List.mem_singleton, List.not_mem_nil, or_false] at hnode
        rcases hnode with rfl | rfl
        · exact ⟨_, rfl⟩
        · exact ⟨_, rfl⟩)
  have hval : (timeoutIdleGRMResourceToRBByRatio exBreathGlobals [some { MemCoreRatio := 1024 }]
      exBreathPool 0 4 2).map (fun r => (r.2, toKickCount r.1, containerCountOf r.1 0 0,
        containerCountOf r.1 0 1)) = some (2, 2, 3, 2) := by decide!
  rw [hret] at hval
  simp only [Option.map_some', Option.some.injEq, Prod.mk.injEq] at hval
  obtain ⟨rfl, h1, h2, h3⟩ := hval
  exact ⟨pool1, hret, h1, h2, h3⟩

/-! ## Deadlock detection: the walk from the tail and the session table -/

theorem walkFromTail_some (detector : ResqueueDeadLockDetector) :
    ∀ (l passed : List ConnectionTrack) (c : ConnectionTrack) (strack : SessionTrack)
      (prev : List ConnectionTrack),
      walkFromTail detector l = some (passed, c, strack, prev) →
      l = passed ++ c :: prev ∧ findSession detector c.SessionID = some strack ∧
        strack.InUseTotalMemoryMB > 0 ∧ ∀ r ∈ passed, holdsInUse detector r = false := by
  intro l
  induction l with
  | nil => intro passed c strack prev h; simp [walkFromTail] at h
  | cons tail rest ih =>
    intro passed c strack prev h
    unfold walkFromTail at h
    have hrec : ∀ (hno : holdsInUse detector tail = false)
        (h1 : (walkFromTail detector rest).map (fun r => (tail :: r.1, r.2)) =
          some (passed, c, strack, prev)),
        tail :: rest = passed ++ c :: prev ∧ findSession detector c.SessionID = some strack ∧
          strack.InUseTotalMemoryMB > 0 ∧ ∀ r ∈ passed, holdsInUse detector r = false := by
      intro hno h1
      cases hw : walkFromTail detector rest with
      | none => rw [hw] at h1; cases h1
      | some r =>
        obtain ⟨p1, c1, s1, prev1⟩ := r
        rw [hw] at h1
        simp only [Option.map_some', Option.some.injEq, Prod.mk.injEq] at h1
        obtain ⟨rfl, rfl, rfl, rfl⟩ := h1
        obtain ⟨h2, h3, h4, h5⟩ := ih p1 c1 s1 prev1 hw
        refine ⟨by rw [h2]; rfl, h3, h4, ?_⟩
        intro r hr
        rcases List.mem_cons.1 hr with rfl | hr
        · exact hno
        · exact h5 r hr
    cases hf : findSession detector tail.SessionID with
    | none =>
      rw [hf] at h
      exact hrec (by simp [holdsInUse, hf]) h
    | some s =>
      rw [hf] at h
      dsimp only at h
      by_cases hs : s.InUseTotalMemoryMB > 0
      · rw [if_pos hs] at h
        simp only [Option.some.injEq, Prod.mk.injEq] at h
        obtain ⟨rfl, rfl, rfl, rfl⟩ := h
        exact ⟨rfl, hf, hs, fun r hr => by cases hr⟩
      · rw [if_neg hs] at h
        exact hrec (by simp [holdsInUse, hf, hs]) h

theorem walkFromTail_none (detector : ResqueueDeadLockDetector) :
    ∀ l : List ConnectionTrack, walkFromTail detector l = none →
      ∀ r ∈ l, holdsInUse detector r = false := by
  intro l
  induction l with
  | nil => intro _ r hr; cases hr
  | cons tail rest ih =>
    intro h r hr
    unfold walkFromTail at h
    cases hf : findSession detector tail.SessionID with
    | none =>
      rw [hf] at h
      simp only [Option.map_eq_none'] at h
      rcases List.mem_cons.1 hr with rfl | hr
      · simp [holdsInUse, hf]
      · exact ih h r hr
    | some s =>
      rw [hf] at h
      dsimp only at h
      by_cases hs : s.InUseTotalMemoryMB > 0
      · rw [if_pos hs] at h; cases h
      · rw [if_neg hs] at h
        simp only [Option.map_eq_none'] at h
        rcases List.mem_cons.1 hr with rfl | hr
        · simp [holdsInUse, hf, hs]
        · exact ih h r hr

theorem find_map_unlock (sessions : List SessionTrack) (sid key : Int) :
    (sessions.map fun s => if s.SessionID = sid then { s with Locked := false } else s).find?
        (fun s => s.SessionID == key) =
      (sessions.find? fun s => s.SessionID == key).map
        fun s => if s.SessionID = sid then { s with Locked := false } else s := by
  induction sessions with
  | nil => rfl
  | cons s rest ih =>
    simp only [List.map_cons, List.find?_cons]
    have : ((if s.SessionID = sid then { s with Locked := false } else s).SessionID == key) =
        (s.SessionID == key) := by
      split_ifs <;> rfl
    rw [this]
    cases hk : s.SessionID == key with
    | true => rfl
    | false => exact ih

/-- The session table after `unlockSessionResource`: a session keeps its in-use
resource. -/
theorem findSession_unlock (detector : ResqueueDeadLockDetector) (sid key : Int) :
    (findSession (unlockSessionResource detector sid) key).map
        (fun s => (s.InUseTotalMemoryMB, s.InUseTotalCore)) =
      (findSession detector key).map fun s => (s.InUseTotalMemoryMB, s.InUseTotalCore) := by
  unfold unlockSessionResource
  split
  · rfl
  · split_ifs
    · unfold findSession
      dsimp only
      rw [find_map_unlock]
      cases List.find? (fun s => s.SessionID == key) detector.Sessions with
      | none => rfl
      | some s =>
        simp only [Option.map_some']
        split_ifs <;> rfl
    · rfl

theorem holdsInUse_unlock (detector : ResqueueDeadLockDetector) (sid : Int)
    (r : ConnectionTrack) :
    holdsInUse (unlockSessionResource detector sid) r = holdsInUse detector r := by
  have h := findSession_unlock detector sid r.SessionID
  unfold holdsInUse
  cases h1 : findSession (unlockSessionResource detector sid) r.SessionID with
  | none =>
    rw [h1] at h
    cases h2 : findSession detector r.SessionID with
    | none => rfl
    | some s => rw [h2] at h; cases h
  | some s1 =>
    rw [h1] at h
    cases h2 : findSession detector r.SessionID with
    | none => rw [h2] at h; cases h
    | some s2 =>
      rw [h2] at h
      simp only [Option.map_some', Option.some.injEq, Prod.mk.injEq] at h
      simp only [h.1]

/-- After `unlockSessionResource` the session is not locked. -/
theorem unlockSessionResource_unlocked (detector : ResqueueDeadLockDetector) (sid : Int)
    (s : SessionTrack) (h : findSession (unlockSessionResource detector sid) sid = some s) :
    s.Locked = false := by
  unfold unlockSessionResource at h
  cases hf : findSession detector sid with
  | none =>
    rw [hf] at h
    dsimp only at h
    rw [hf] at h
    cases h
  | some strack =>
    rw [hf] at h
    dsimp only at h
    by_cases hl : strack.Locked = true
    · rw [if_pos hl] at h
      unfold findSession at h hf
      dsimp only at h
      rw [find_map_unlock, hf] at h
      simp only [Option.map_some', Option.some.injEq] at h
      have hsid : strack.SessionID = sid := by
        have := List.find?_some hf
        simpa using this
      rw [if_pos hsid] at h
      rw [← h]
    · rw [if_neg hl, hf] at h
      cases h
      simpa using hl
/-! ## Deadlock detection: one iteration and the loop -/

/-- What one iteration of the outer loop does: nothing when no request's session holds
in-use memory; otherwise it cancels the request nearest the tail whose session does. -/
theorem deadLockIteration_spec (st : DeadLockState) :
    (deadLockIteration st = st ∧ ∀ r ∈ st.reqs, holdsInUse st.DLDetector r = false) ∨
    ∃ older c newer,
      st.reqs = older ++ c :: newer ∧ holdsInUse st.DLDetector c = true ∧
      (∀ r ∈ newer, holdsInUse st.DLDetector r = false) ∧
      (deadLockIteration st).reqs = older ++ newer ∧
      (deadLockIteration st).ConnToSend = st.ConnToSend ++ [cancelForDeadLock c] ∧
      (deadLockIteration st).DLDetector = unlockSessionResource st.DLDetector c.SessionID := by
  unfold deadLockIteration
  cases hw : walkFromTail st.DLDetector st.reqs.reverse with
  | none =>
    refine Or.inl ⟨rfl, ?_⟩
    intro r hr
    exact walkFromTail_none _ _ hw r (List.mem_reverse.2 hr)
  | some res =>
    obtain ⟨passed, c, strack, prev⟩ := res
    obtain ⟨h1, h2, h3, h4⟩ := walkFromTail_some _ _ _ _ _ _ hw
    refine Or.inr ⟨prev.reverse, c, passed.reverse, ?_, ?_, ?_, rfl, rfl, rfl⟩
    · have := congrArg List.reverse h1
      rw [List.reverse_reverse] at this
      rw [this]
      simp
    · simp only [holdsInUse, h2, decide_eq_true_eq]
      exact h3
    · intro r hr
      exact h4 r (List.mem_reverse.1 hr)

theorem filter_remove_middle {α : Type} (p : α → Bool) (older newer : List α) (c : α)
    (hc : p c = false) : (older ++ c :: newer).filter p = (older ++ newer).filter p := by
  simp [List.filter_append, List.filter_cons, hc]

/-- The relation between the state `st` in which the loop is entered and a later state
`st1`: the sessions hold the same in-use resource; the requests are a sublist of those of
`st` with every request whose session holds no in-use memory still there; and
`ConnToSend` has grown by cancelled requests of `st` whose sessions hold in-use memory. -/
theorem deadLockAfter_spec (expmemorymb : Int) (expcore : ℚ) :
    ∀ (n : Nat) (st : DeadLockState),
      (∀ r, holdsInUse (deadLockAfter expmemorymb expcore n st).DLDetector r =
        holdsInUse st.DLDetector r) ∧
      (deadLockAfter expmemorymb expcore n st).reqs.Sublist st.reqs ∧
      (deadLockAfter expmemorymb expcore n st).reqs.filter
          (fun r => !holdsInUse st.DLDetector r) =
        st.reqs.filter (fun r => !holdsInUse st.DLDetector r) ∧
      ∃ cancelled : List ConnectionTrack,
        (deadLockAfter expmemorymb expcore n st).ConnToSend =
          st.ConnToSend ++ cancelled.map cancelForDeadLock ∧
        cancelled.length ≤ n ∧
        (deadLockAfter expmemorymb expcore n st).reqs.length + cancelled.length =
          st.reqs.length ∧
        ∀ c ∈ cancelled, c ∈ st.reqs ∧ holdsInUse st.DLDetector c = true := by
  intro n
  induction n with
  | zero =>
    intro st
    exact ⟨fun _ => rfl, List.Sublist.refl _, rfl, [], by simp [deadLockAfter], Nat.le_refl _,
      rfl, fun c hc => by cases hc⟩
  | succ n ih =>
    intro st
    unfold deadLockAfter
    by_cases hcond : deadLockCondition expmemorymb expcore st = true
    · rw [if_pos hcond]
      obtain ⟨ih1, ih2, ih3, cancelled, ih4, ih5, ih6, ih7⟩ := ih (deadLockIteration st)
      rcases deadLockIteration_spec st with ⟨hsame, _⟩ | ⟨older, c, newer, h1, h2, h3, h4, h5, h6⟩
      · rw [hsame] at ih1 ih2 ih3 ih4 ih6 ih7 ⊢
        exact ⟨ih1, ih2, ih3, cancelled, ih4, Nat.le_succ_of_le ih5, ih6, ih7⟩
      · have hdet : ∀ r, holdsInUse (deadLockIteration st).DLDetector r =
            holdsInUse st.DLDetector r := by
          intro r
          rw [h6]
          exact holdsInUse_unlock _ _ _
        have hfun : (fun r => !holdsInUse (deadLockIteration st).DLDetector r) =
            fun r => !holdsInUse st.DLDetector r := by
          funext r
          rw [hdet]
        have hsub : (older ++ newer).Sublist (older ++ c :: newer) :=
          List.Sublist.append_left (List.sublist_cons_self c newer) older
        refine ⟨fun r => (ih1 r).trans (hdet r), ?_, ?_, c :: cancelled, ?_, ?_, ?_, ?_⟩
        · rw [h4] at ih2
          rw [h1]
          exact ih2.trans hsub
        · rw [hfun, h4] at ih3
          rw [ih3, h1]
          exact (filter_remove_middle _ older newer c (by simp [h2])).symm
        · rw [ih4, h5]
          simp
        · simp only [List.length_cons]
          omega
        · rw [h4] at ih6
          rw [h1]
          simp only [List.length_cons, List.length_append] at ih6 ⊢
          omega
        · intro x hx
          rcases List.mem_cons.1 hx with rfl | hx
          · exact ⟨by rw [h1]; simp, h2⟩
          · obtain ⟨hmem, hhold⟩ := ih7 x hx
            rw [h4] at hmem
            rw [hdet] at hhold
            exact ⟨by rw [h1]; exact hsub.subset hmem, hhold⟩
    · rw [if_neg hcond]
      exact ⟨fun _ => rfl, List.Sublist.refl _, rfl, [], by simp, Nat.zero_le _, rfl,
        fun c hc => by cases hc⟩

theorem deadLockLoop_eq_after (expmemorymb : Int) (expcore : ℚ) :
    ∀ (n : Nat) (st st1 : DeadLockState),
      deadLockLoop expmemorymb expcore n st = some st1 →
      st1 = deadLockAfter expmemorymb expcore n st ∧
        deadLockCondition expmemorymb expcore st1 = false := by
  intro n
  induction n with
  | zero =>
    intro st st1 h
    unfold deadLockLoop at h
    split_ifs at h with hc
    cases h
    exact ⟨rfl, by simpa using hc⟩
  | succ n ih =>
    intro st st1 h
    unfold deadLockLoop at h
    unfold deadLockAfter
    split_ifs at h ⊢ with hc
    · exact ih _ _ h
    · cases h
      exact ⟨rfl, by simpa using hc⟩
/-- The deadlock of two sessions in a queue of 4096 MB: the head request (session 2,
which holds nothing) needs 2048 MB while session 1 holds 3072 MB and waits behind it.
The request of session 1 is cancelled, session 1 is unlocked, and the head request
stays. -/
theorem detectAndDealWithDeadLock_example :
    (detectAndDealWithDeadLock 1 exDeadLockTrack [exWaiting 7 2 2, exWaiting 8 1 1] []).map
        (fun st => (st.reqs, st.ConnToSend, st.availmemorymb)) =
      some ([exWaiting 7 2 2], [cancelForDeadLock (exWaiting 8 1 1)], 4096) ∧
    (detectAndDealWithDeadLock 1 exDeadLockTrack [exWaiting 7 2 2, exWaiting 8 1 1] []).map
        (fun st => (findSession st.DLDetector 1).map (·.Locked)) = some (some false) := by
  constructor <;> decide!

/-! ## C20: the request cancelled by deadlock detection -/

/-- C20: in every iteration of the loop of `detectAndDealWithDeadLock` that cancels a
request, the request is the one nearest the tail of the FIFO whose session holds in-use
memory > 0 (`holdsInUse`); it is removed from the FIFO, it is answered with
`RESQUEMGR_DEADLOCK_DETECTED` (progress `CONN_PP_RESOURCE_QUEUE_ALLOC_FAIL`, put on
`ConnToSend`), and its session is unlocked.  After any number `n` of iterations the FIFO
is a sublist of the FIFO at the call in which every request of a session that holds no
in-use memory is still present, in the same order, and the requests added to
`ConnToSend` are cancelled requests of the FIFO whose sessions hold in-use memory.  The
state in which the function returns is the state after its iterations. -/
theorem deadlock_cancels_nearest_tail_holder (track : DynResourceQueueTrack)
    (reqs connToSend : List ConnectionTrack) (n : Nat) :
    (∀ st : DeadLockState,
      (deadLockIteration st = st ∧ ∀ r ∈ st.reqs, holdsInUse st.DLDetector r = false) ∨
      ∃ older c newer,
        st.reqs = older ++ c :: newer ∧ holdsInUse st.DLDetector c = true ∧
        (∀ r ∈ newer, holdsInUse st.DLDetector r = false) ∧
        (deadLockIteration st).reqs = older ++ newer ∧
        (deadLockIteration st).ConnToSend = st.ConnToSend ++ [cancelForDeadLock c] ∧
        (cancelForDeadLock c).ResponseResult = some RESQUEMGR_DEADLOCK_DETECTED ∧
        (cancelForDeadLock c).Progress = ConnProgress.CONN_PP_RESOURCE_QUEUE_ALLOC_FAIL ∧
        (deadLockIteration st).DLDetector = unlockSessionResource st.DLDetector c.SessionID ∧
        ∀ s, findSession (deadLockIteration st).DLDetector c.SessionID = some s →
          s.Locked = false) ∧
    ((detectAndDealWithDeadLockAfter n track reqs connToSend).reqs.Sublist reqs ∧
      (detectAndDealWithDeadLockAfter n track reqs connToSend).reqs.filter
          (fun r => !holdsInUse track.DLDetector r) =
        reqs.filter (fun r => !holdsInUse track.DLDetector r) ∧
      ∃ cancelled : List ConnectionTrack,
        (detectAndDealWithDeadLockAfter n track reqs connToSend).ConnToSend =
          connToSend ++ cancelled.map cancelForDeadLock ∧
        (detectAndDealWithDeadLockAfter n track reqs connToSend).reqs.length +
          cancelled.length = reqs.length ∧
        ∀ c ∈ cancelled, c ∈ reqs ∧ holdsInUse track.DLDetector c = true) ∧
    ∀ st1, detectAndDealWithDeadLock n track reqs connToSend = some st1 →
      st1 = detectAndDealWithDeadLockAfter n track reqs connToSend := by
  refine ⟨?_, ?_, ?_⟩
  · intro st
    rcases deadLockIteration_spec st with h | ⟨older, c, newer, h1, h2, h3, h4, h5, h6⟩
    · exact Or.inl h
    · refine Or.inr ⟨older, c, newer, h1, h2, h3, h4, h5, rfl, rfl, h6, ?_⟩
      intro s hs
      rw [h6] at hs
      exact unlockSessionResource_unlocked _ _ s hs
  · unfold detectAndDealWithDeadLockAfter
    cases deadLockExpected track reqs with
    | none =>
      exact ⟨List.Sublist.refl _, rfl, [], by simp [deadLockInitial], rfl,
        fun c hc => by cases hc⟩
    | some e =>
      obtain ⟨expmemorymb, expcore⟩ := e
      obtain ⟨_, h2, h3, cancelled, h4, _, h6, h7⟩ :=
        deadLockAfter_spec expmemorymb expcore n (deadLockInitial track reqs connToSend)
      exact ⟨h2, h3, cancelled, h4, h6, h7⟩
  · intro st1 h
    unfold detectAndDealWithDeadLock at h
    unfold detectAndDealWithDeadLockAfter
    cases he : deadLockExpected track reqs with
    | none =>
      rw [he] at h
      cases h
      rfl
    | some e =>
      obtain ⟨expmemorymb, expcore⟩ := e
      rw [he] at h
      exact (deadLockLoop_eq_after expmemorymb expcore n _ st1 h).1

/-! ## C21: enqueue followed by cancel -/

/-- C21: `addQueryResourceRequestToQueue` followed by `cancelResourceAllocRequest` of the
same request takes the request out of the FIFO again but leaves `TotalRequest` at its
value after the enqueue, the previous value plus `SegMemoryMB * SegNum` and `SegCore *
SegNum`: for a queue with an empty FIFO and `TotalRequest` (0, 0) and a request of 2
segments of 1024 MB and 1 core the FIFO is empty again, `TotalRequest` is (2048, 2). -/
theorem cancel_keeps_TotalRequest :
    (∀ (queuetrack : DynResourceQueueTrack) (conntrack : ConnectionTrack),
      (cancelResourceAllocRequest (addQueryResourceRequestToQueue queuetrack conntrack).2
          conntrack).1.TotalRequest =
        addResourceBundleData queuetrack.TotalRequest
          (conntrack.SegMemoryMB * conntrack.SegNum) (conntrack.SegCore * conntrack.SegNum) ∧
      (cancelResourceAllocRequest (addQueryResourceRequestToQueue queuetrack conntrack).2
          conntrack).1.QueryResRequests =
        (queuetrack.QueryResRequests ++ [conntrack.ConnID]).erase conntrack.ConnID) ∧
    (cancelResourceAllocRequest (addQueryResourceRequestToQueue exTrack (exWaiting 7 1 2)).2
        (exWaiting 7 1 2)).1.QueryResRequests = exTrack.QueryResRequests ∧
    exTrack.TotalRequest = { MemoryMB := 0, Core := 0 } ∧
    (cancelResourceAllocRequest (addQueryResourceRequestToQueue exTrack (exWaiting 7 1 2)).2
        (exWaiting 7 1 2)).1.TotalRequest = { MemoryMB := 2048, Core := 2 } := by
  refine ⟨fun queuetrack conntrack => ⟨rfl, rfl⟩, by decide!, by decide!, by decide!⟩

/-! ## C27: the flags of a queue that has children -/

/-- C27: from the tree that holds only `pg_root` (Branch) and `pg_default`, two successful
calls of `createQueueAndTrack` create the percent-expressed queue `dept` under `pg_root`
and the queue `team` under `dept`; `dept`, which no ratio tracker has registered, then
has the child `team` and is still flagged Leaf and not Branch. -/
theorem createQueueAndTrack_leaves_parent_leaf :
    exRootAndDefault.Queues.map
        (fun t => (t.TrackID, t.ChildrenTracks, t.QueueInfo.Status.isLeaf,
          t.QueueInfo.Status.isBranch)) = [(1, [2], false, true), (2, [], true, false)] ∧
    exCreateDept.1 = FUNC_RETURN_OK ∧ exCreateDept.2.2 = some 3 ∧
    exCreateTeam.1 = FUNC_RETURN_OK ∧ exCreateTeam.2.2 = some 4 ∧
    (getTrackByID exCreateDept.2.1 3).map (fun t => t.trackedMemCoreRatio) = some false ∧
    (getTrackByID exCreateTeam.2.1 3).map
        (fun t => (t.ChildrenTracks, t.QueueInfo.Status.isLeaf, t.QueueInfo.Status.isBranch,
          t.CurConnCounter)) = some ([4], true, false, 0) := by
  refine ⟨by decide!, by decide!, by decide!, by decide!, by decide!, by decide!, by decide!⟩

/-! ## C28: the arrays of the ratio trackers -/

/-- C28: with the ratios 1024 and 2048 at the ratio indices 0 and 1, each with one queue,
`removeResourceQueueRatio` for the queue of ratio 1024 moves the tracker of ratio 2048 to
the index 0 (`RatioCount` 1, `RatioReverseIndex[0]` 2048, `RatioIndex` 2048 to 0) but
leaves `RatioReferenceCounter[0]` at 0, while the tracker at index 0 lists one queue. -/
theorem removeResourceQueueRatio_loses_counter :
    (exTwoRatios.RatioCount, exTwoRatios.RatioIndex, exTwoRatios.RatioReverseIndex.take 2,
        exTwoRatios.RatioReferenceCounter.take 2) = (2, [(1024, 0), (2048, 1)], [1024, 2048], [1, 1]) ∧
    (exTwoRatios.RatioTrackers.take 2).map
        (fun o => o.map fun m => (m.MemCoreRatio, m.QueueTrackers)) =
      [some (1024, [3]), some (2048, [4])] ∧
    (removeResourceQueueRatio exTwoRatios 3).RatioCount = 1 ∧
    (removeResourceQueueRatio exTwoRatios 3).RatioIndex = [(2048, 0)] ∧
    (removeResourceQueueRatio exTwoRatios 3).RatioReverseIndex.getD 0 0 = 2048 ∧
    ((removeResourceQueueRatio exTwoRatios 3).RatioTrackers.getD 0 none).map
        (fun m => (m.MemCoreRatio, m.QueueTrackers)) = some (2048, [4]) ∧
    (removeResourceQueueRatio exTwoRatios 3).RatioReferenceCounter.getD 0 0 = 0 := by
  refine ⟨by decide!, by decide!, by decide!, by decide!, by decide!, by decide!, by decide!⟩

/-! ## Water marks: the two pruning loops -/

theorem mem_dropWhile_or {α : Type} (p : α → Bool) (l : List α) (x : α) (h : x ∈ l) :
    x ∈ l.dropWhile p ∨ p x = true := by
  rw [← List.takeWhile_append_dropWhile p l, List.mem_append] at h
  rcases h with h | h
  · exact Or.inr (List.mem_takeWhile_imp h)
  · exact Or.inl h

theorem mem_rdropWhile_or {α : Type} (p : α → Bool) (l : List α) (x : α) (h : x ∈ l) :
    x ∈ l.rdropWhile p ∨ p x = true := by
  unfold List.rdropWhile
  rw [List.mem_reverse]
  exact mem_dropWhile_or p l.reverse x (List.mem_reverse.2 h)

theorem dropWhile_sublist_mem {α : Type} (p : α → Bool) (l : List α) (x : α)
    (h : x ∈ l.dropWhile p) : x ∈ l :=
  (List.dropWhile_sublist p).subset h

theorem rdropWhile_mem {α : Type} (p : α → Bool) (l : List α) (x : α)
    (h : x ∈ l.rdropWhile p) : x ∈ l := by
  unfold List.rdropWhile at h
  rw [List.mem_reverse] at h
  exact List.mem_reverse.1 (dropWhile_sublist_mem p _ x h)

theorem rdropWhile_sublist_self {α : Type} (p : α → Bool) (l : List α) :
    (l.rdropWhile p).Sublist l := by
  unfold List.rdropWhile
  have := (List.dropWhile_sublist p (l := l.reverse)).reverse
  simpa using this

/-- After the loop that removes marks from the head no mark satisfies the condition of
the loop, when the condition gets weaker along the list. -/
theorem dropWhile_all_not {α : Type} (p : α → Bool) (r : α → α → Prop)
    (hr : ∀ a b, r a b → p a = false → p b = false) :
    ∀ l : List α, l.Pairwise r → ∀ x ∈ l.dropWhile p, p x = false := by
  intro l
  induction l with
  | nil => intro _ x hx; simp at hx
  | cons a rest ih =>
    intro hp x hx
    rw [List.pairwise_cons] at hp
    rw [List.dropWhile_cons] at hx
    cases hpa : p a with
    | true =>
      rw [hpa] at hx
      exact ih hp.2 x hx
    | false =>
      rw [hpa] at hx
      simp only [Bool.false_eq_true, if_false] at hx
      rcases List.mem_cons.1 hx with rfl | hx
      · exact hpa
      · exact hr a x (hp.1 x hx) hpa

theorem rdropWhile_all_not {α : Type} (p : α → Bool) (r : α → α → Prop)
    (hr : ∀ a b, r a b → p b = false → p a = false) (l : List α) (hl : l.Pairwise r) :
    ∀ x ∈ l.rdropWhile p, p x = false := by
  intro x hx
  unfold List.rdropWhile at hx
  rw [List.mem_reverse] at hx
  exact dropWhile_all_not p (fun a b => r b a) (fun a b hab => hr b a hab) l.reverse
    (List.pairwise_reverse.2 hl) x hx
/-! ## Water marks: one call -/

theorem toUInt64_sub (a b : Nat) (hab : a ≤ b) (hb : b < 18446744073709551616) :
    toUInt64 ((b : Int) - (a : Int)) = ((b - a : Nat) : Int) := by
  unfold toUInt64
  rw [Int.emod_eq_of_lt (by omega) (by omega)]
  omega

/-- The list left by the two pruning loops and the insertion of `lastmark`, from the
list `B` that remains once `lastmark` is cut. -/
theorem waterMark_prune (timeout L : Nat) (calls : List (Nat × Int × ℚ))
    (B : List DynMemoryCoreRatioWaterMark) (lastmark : DynMemoryCoreRatioWaterMark)
    (htimes : B.Pairwise fun a b => a.LastRecordTime < b.LastRecordTime)
    (hmems : B.Pairwise fun a b => a.ClusterMemoryMB > b.ClusterMemoryMB)
    (hB : ∀ m ∈ B, m.LastRecordTime < L)
    (hlast : lastmark.LastRecordTime = L) (hL : L < 18446744073709551616)
    (hattB : ∀ m ∈ B, ∃ c ∈ calls, c.1 / 1000000 = m.LastRecordTime ∧
      c.2.1 = m.ClusterMemoryMB)
    (hattlast : ∃ c ∈ calls, c.1 / 1000000 = L ∧ c.2.1 = lastmark.ClusterMemoryMB)
    (hdom : ∀ c ∈ calls, c.1 / 1000000 ≤ L ∧ (L - c.1 / 1000000 ≤ timeout →
      (∃ m ∈ B, c.1 / 1000000 ≤ m.LastRecordTime ∧ c.2.1 ≤ m.ClusterMemoryMB) ∨
        c.2.1 ≤ lastmark.ClusterMemoryMB)) :
    WaterMarkInv timeout L calls
      (((B.dropWhile fun firstmark =>
          decide (toUInt64 ((lastmark.LastRecordTime : Int) - (firstmark.LastRecordTime : Int)) >
            (timeout : Int))).rdropWhile fun last2mark =>
          decide (last2mark.ClusterMemoryMB ≤ lastmark.ClusterMemoryMB)) ++ [lastmark]) := by
  set pexp : DynMemoryCoreRatioWaterMark → Bool := fun firstmark =>
    decide (toUInt64 ((lastmark.LastRecordTime : Int) - (firstmark.LastRecordTime : Int)) >
      (timeout : Int)) with hpexp
  set pdom : DynMemoryCoreRatioWaterMark → Bool := fun last2mark =>
    decide (last2mark.ClusterMemoryMB ≤ lastmark.ClusterMemoryMB) with hpdom
  have hexp : ∀ m ∈ B, (pexp m = false ↔ L - m.LastRecordTime ≤ timeout) := by
    intro m hm
    have hlt := hB m hm
    simp only [hpexp, hlast, decide_eq_false_iff_not, not_lt]
    rw [toUInt64_sub _ _ (le_of_lt hlt) hL]
    omega
  have hsub2 : (B.dropWhile pexp).Sublist B := List.dropWhile_sublist pexp
  have hsub3 : ((B.dropWhile pexp).rdropWhile pdom).Sublist B :=
    (rdropWhile_sublist_self pdom _).trans hsub2
  have hfresh2 : ∀ m ∈ B.dropWhile pexp, pexp m = false := by
    apply dropWhile_all_not pexp (fun a b => a ∈ B ∧ b ∈ B ∧ a.LastRecordTime < b.LastRecordTime)
    · intro a b ⟨ha, hb, hab⟩ hpa
      rw [hexp a ha] at hpa
      rw [hexp b hb]
      omega
    · have : B.Pairwise fun a b => a ∈ B ∧ b ∈ B ∧ a.LastRecordTime < b.LastRecordTime := by
        rw [List.pairwise_iff_forall_sublist] at htimes ⊢
        intro a b hab
        have ha : a ∈ B := hab.subset (by simp)
        have hb : b ∈ B := hab.subset (by simp)
        exact ⟨ha, hb, htimes hab⟩
      exact this
  have hbig3 : ∀ m ∈ (B.dropWhile pexp).rdropWhile pdom, pdom m = false := by
    apply rdropWhile_all_not pdom (fun a b => a.ClusterMemoryMB > b.ClusterMemoryMB)
    · intro a b hab hpb
      simp only [hpdom, decide_eq_false_iff_not, not_le] at hpb ⊢
      omega
    · exact hmems.sublist hsub2
  refine ⟨⟨_, lastmark, rfl, hlast⟩, ?_, ?_, ?_, ?_, ?_⟩
  · rw [List.pairwise_append]
    refine ⟨htimes.sublist hsub3, List.pairwise_singleton _ _, ?_⟩
    intro a ha b hb
    rw [List.mem_singleton] at hb
    subst hb
    rw [hlast]
    exact hB a (hsub3.subset ha)
  · rw [List.pairwise_append]
    refine ⟨hmems.sublist hsub3, List.pairwise_singleton _ _, ?_⟩
    intro a ha b hb
    rw [List.mem_singleton] at hb
    subst hb
    have := hbig3 a ha
    simp only [hpdom, decide_eq_false_iff_not, not_le] at this
    exact this
  · intro m hm
    rcases List.mem_append.1 hm with hm | hm
    · have hmB := hsub3.subset hm
      have h2 := hfresh2 m (rdropWhile_mem pdom _ m hm)
      rw [hexp m hmB] at h2
      exact ⟨le_of_lt (hB m hmB), h2⟩
    · rw [List.mem_singleton] at hm
      subst hm
      rw [hlast]
      exact ⟨le_refl _, by omega⟩
  · intro m hm
    rcases List.mem_append.1 hm with hm | hm
    · exact hattB m (hsub3.subset hm)
    · rw [List.mem_singleton] at hm
      subst hm
      rw [hlast]
      exact hattlast
  · intro c hc
    obtain ⟨hle, hwin⟩ := hdom c hc
    refine ⟨hle, fun hw => ?_⟩
    have hlastdom : c.2.1 ≤ lastmark.ClusterMemoryMB →
        ∃ m ∈ (B.dropWhile pexp).rdropWhile pdom ++ [lastmark],
          c.1 / 1000000 ≤ m.LastRecordTime ∧ c.2.1 ≤ m.ClusterMemoryMB := by
      intro h
      exact ⟨lastmark, by simp, by rw [hlast]; exact hle, h⟩
    rcases hwin hw with ⟨m, hmB, hmt, hmm⟩ | h
    · rcases mem_dropWhile_or pexp B m hmB with h2 | hp
      · rcases mem_rdropWhile_or pdom _ m h2 with h3 | hp
        · exact ⟨m, List.mem_append_left _ h3, hmt, hmm⟩
        · apply hlastdom
          simp only [hpdom, decide_eq_true_eq] at hp
          omega
      · exfalso
        have hnot : ¬ (pexp m = false) := by rw [hp]; simp
        rw [hexp m hmB] at hnot
        have := hB m hmB
        omega
    · exact hlastdom h
theorem waterMark_first (timeout t : Nat) (mem : Int) (core : ℚ)
    (ht : t < 18446744073709551616) :
    WaterMarkInv timeout (t / 1000000) [(t, mem, core)]
      (markMemoryCoreRatioWaterMark timeout [] t mem core) := by
  have hL : t / 1000000 < 18446744073709551616 :=
    lt_of_le_of_lt (Nat.div_le_self _ _) ht
  have h := waterMark_prune timeout (t / 1000000) [(t, mem, core)] []
    { LastRecordTime := t / 1000000, ClusterMemoryMB := mem, ClusterVCore := core }
    List.Pairwise.nil List.Pairwise.nil (fun m hm => by cases hm) rfl hL
    (fun m hm => by cases hm) ⟨(t, mem, core), by simp, rfl, rfl⟩
    (by
      intro c hc
      rw [List.mem_singleton] at hc
      subst hc
      exact ⟨le_refl _, fun _ => Or.inr (le_refl _)⟩)
  exact h

theorem waterMark_step (timeout L t : Nat) (mem : Int) (core : ℚ)
    (calls : List (Nat × Int × ℚ)) (marks : List DynMemoryCoreRatioWaterMark)
    (hinv : WaterMarkInv timeout L calls marks) (hL : L ≤ t / 1000000)
    (ht : t < 18446744073709551616) :
    WaterMarkInv timeout (t / 1000000) (calls ++ [(t, mem, core)])
      (markMemoryCoreRatioWaterMark timeout marks t mem core) := by
  have hL2 : t / 1000000 < 18446744073709551616 :=
    lt_of_le_of_lt (Nat.div_le_self _ _) ht
  obtain ⟨init, lm, hmarks, hlm⟩ := hinv.last
  have hget : marks.getLast? = some lm := by rw [hmarks]; simp
  have hdrop : marks.dropLast = init := by rw [hmarks]; simp
  have htimes := hinv.times
  have hmems := hinv.mems
  rw [hmarks, List.pairwise_append] at htimes hmems
  unfold markMemoryCoreRatioWaterMark
  rw [hget]
  by_cases hsame : lm.LastRecordTime = t / 1000000
  · simp only [hsame, if_true, hdrop, Option.getD_some]
    have hLL : L = t / 1000000 := by rw [← hlm, hsame]
    apply waterMark_prune timeout (t / 1000000) (calls ++ [(t, mem, core)]) init
      { LastRecordTime := t / 1000000,
        ClusterMemoryMB := if lm.ClusterMemoryMB > mem then lm.ClusterMemoryMB else mem,
        ClusterVCore := if lm.ClusterVCore > core then lm.ClusterVCore else core }
      htimes.1 hmems.1
    · intro m hm
      have := htimes.2.2 m hm lm (by simp)
      omega
    · rfl
    · exact hL2
    · intro m hm
      obtain ⟨c, hc, h1, h2⟩ := hinv.attained m (by rw [hmarks]; simp [hm])
      exact ⟨c, List.mem_append_left _ hc, h1, h2⟩
    · dsimp only
      split_ifs with hgt
      · obtain ⟨c, hc, h1, h2⟩ := hinv.attained lm (by rw [hmarks]; simp)
        exact ⟨c, List.mem_append_left _ hc, by rw [h1, hsame], h2⟩
      · exact ⟨(t, mem, core), by simp, rfl, rfl⟩
    · intro c hc
      dsimp only
      rcases List.mem_append.1 hc with hc | hc
      · obtain ⟨hle, hwin⟩ := hinv.dominated c hc
        refine ⟨by omega, fun hw => ?_⟩
        obtain ⟨m, hm, hmt, hmm⟩ := hwin (by omega)
        rw [hmarks, List.mem_append, List.mem_singleton] at hm
        rcases hm with hm | rfl
        · exact Or.inl ⟨m, hm, hmt, hmm⟩
        · right
          split_ifs with hgt <;> omega
      · rw [List.mem_singleton] at hc
        subst hc
        refine ⟨le_refl _, fun _ => Or.inr ?_⟩
        dsimp only
        split_ifs with hgt <;> omega
  · simp only [hsame, if_false, Option.getD_none]
    have hlt : L < t / 1000000 := by
      rcases Nat.lt_or_eq_of_le hL with h | h
      · exact h
      · exact absurd (by rw [hlm, h]) hsame
    apply waterMark_prune timeout (t / 1000000) (calls ++ [(t, mem, core)]) marks
      { LastRecordTime := t / 1000000, ClusterMemoryMB := mem, ClusterVCore := core }
      hinv.times hinv.mems
    · intro m hm
      have := (hinv.fresh m hm).1
      omega
    · rfl
    · exact hL2
    · intro m hm
      obtain ⟨c, hc, h1, h2⟩ := hinv.attained m hm
      exact ⟨c, List.mem_append_left _ hc, h1, h2⟩
    · exact ⟨(t, mem, core), by simp, rfl, rfl⟩
    · intro c hc
      rcases List.mem_append.1 hc with hc | hc
      · obtain ⟨hle, hwin⟩ := hinv.dominated c hc
        refine ⟨by omega, fun hw => ?_⟩
        exact Or.inl (hwin (by omega))
      · rw [List.mem_singleton] at hc
        subst hc
        exact ⟨le_refl _, fun _ => Or.inr (le_refl _)⟩

theorem markAll_snoc (timeout : Nat) (calls : List (Nat × Int × ℚ)) (c : Nat × Int × ℚ) :
    markAll timeout (calls ++ [c]) =
      markMemoryCoreRatioWaterMark timeout (markAll timeout calls) c.1 c.2.1 c.2.2 := by
  simp [markAll, List.foldl_append]

/-- The invariant of the water marks after a non-empty sequence of calls with
non-decreasing times. -/
theorem markAll_inv (timeout : Nat) :
    ∀ (calls : List (Nat × Int × ℚ)) (c : Nat × Int × ℚ),
      ((calls ++ [c]).map Prod.fst).Pairwise (· ≤ ·) →
      (∀ x ∈ calls ++ [c], x.1 < 18446744073709551616) →
      WaterMarkInv timeout (c.1 / 1000000) (calls ++ [c]) (markAll timeout (calls ++ [c])) := by
  intro calls
  induction calls using List.reverseRecOn with
  | nil =>
    intro c _ hb
    obtain ⟨t, mem, core⟩ := c
    exact waterMark_first timeout t mem core (hb (t, mem, core) (by simp))
  | append_singleton calls d ih =>
    intro c hmono hb
    obtain ⟨t, mem, core⟩ := c
    rw [markAll_snoc]
    have hmono1 : ((calls ++ [d]).map Prod.fst).Pairwise (· ≤ ·) := by
      rw [List.map_append, List.pairwise_append] at hmono
      exact hmono.1
    have hd : d.1 ≤ t := by
      rw [List.map_append, List.pairwise_append] at hmono
      exact hmono.2.2 d.1 (by simp) t (by simp)
    have hinv := ih d hmono1 (fun x hx => hb x (List.mem_append_left _ hx))
    exact waterMark_step timeout (d.1 / 1000000) t mem core (calls ++ [d]) _ hinv
      (Nat.div_le_div_right hd) (hb (t, mem, core) (by simp))

/-! ## C30: the head water mark -/

/-- C30: after each call of a sequence of calls `markMemoryCoreRatioWaterMark(marks, t,
mem, core)` with non-decreasing times (`uint64_t` values) that starts from the empty
list, the list is not empty and the `ClusterMemoryMB` of its head is the maximum of the
`mem` of the calls whose second is no more than `rm_resource_timeout` seconds before the
second of the latest call: no such call has a greater `mem`, and one of them has this
`mem`. -/
theorem head_water_mark_is_window_maximum (timeout : Nat) (calls : List (Nat × Int × ℚ))
    (c : Nat × Int × ℚ)
    (hmono : ((calls ++ [c]).map Prod.fst).Pairwise (· ≤ ·))
    (hbound : ∀ x ∈ calls ++ [c], x.1 < 18446744073709551616) :
    ∃ head rest, markAll timeout (calls ++ [c]) = head :: rest ∧
      (∀ x ∈ calls ++ [c], c.1 / 1000000 - x.1 / 1000000 ≤ timeout →
        x.2.1 ≤ head.ClusterMemoryMB) ∧
      ∃ x ∈ calls ++ [c], c.1 / 1000000 - x.1 / 1000000 ≤ timeout ∧
        x.2.1 = head.ClusterMemoryMB := by
  have hinv := markAll_inv timeout calls c hmono hbound
  obtain ⟨init, lm, hmarks, _⟩ := hinv.last
  cases hm : markAll timeout (calls ++ [c]) with
  | nil => rw [hm] at hmarks; simp at hmarks
  | cons head rest =>
    refine ⟨head, rest, rfl, ?_, ?_⟩
    · intro x hx hw
      obtain ⟨_, hwin⟩ := hinv.dominated x hx
      obtain ⟨m, hmem, _, hmm⟩ := hwin hw
      have hmems := hinv.mems
      rw [hm] at hmem hmems
      rcases List.mem_cons.1 hmem with rfl | hmem
      · exact hmm
      · have := (List.pairwise_cons.1 hmems).1 m hmem
        omega
    · have hhead : head ∈ markAll timeout (calls ++ [c]) := by rw [hm]; simp
      obtain ⟨x, hx, h1, h2⟩ := hinv.attained head hhead
      refine ⟨x, hx, ?_, h2⟩
      rw [h1]
      exact (hinv.fresh head hhead).2

/-- The C30 statement for six calls in the seconds 0, 1, 1, 2, 3 and 4 with the memory
5, 3, 4, 1, 2 and 0 and a time-out of 2 seconds: the head mark is that of second 3,
with 2 MB. -/
theorem head_water_mark_is_window_maximum_witness :
    (markAll 2 [(0, 5, 1), (1000000, 3, 1), (1500000, 4, 1), (2000000, 1, 1), (3000000, 2, 1),
        (4000000, 0, 0)]).map (fun m => (m.LastRecordTime, m.ClusterMemoryMB)) = [(3, 2), (4, 0)] ∧
    ∃ head rest, markAll 2 ([(0, 5, 1), (1000000, 3, 1), (1500000, 4, 1), (2000000, 1, 1),
        (3000000, 2, 1)] ++ [(4000000, 0, 0)]) = head :: rest ∧
      (∀ x ∈ [(0, 5, 1), (1000000, 3, 1), (1500000, 4, 1), (2000000, 1, 1),
          (3000000, (2 : Int), (1 : ℚ))] ++ [(4000000, 0, 0)],
        (4000000, (0 : Int), (0 : ℚ)).1 / 1000000 - x.1 / 1000000 ≤ 2 →
          x.2.1 ≤ head.ClusterMemoryMB) ∧
      ∃ x ∈ [(0, 5, 1), (1000000, 3, 1), (1500000, 4, 1), (2000000, 1, 1),
          (3000000, (2 : Int), (1 : ℚ))] ++ [(4000000, 0, 0)],
        (4000000, (0 : Int), (0 : ℚ)).1 / 1000000 - x.1 / 1000000 ≤ 2 ∧
          x.2.1 = head.ClusterMemoryMB :=
  ⟨by decide!,
   head_water_mark_is_window_maximum 2
    [(0, 5, 1), (1000000, 3, 1), (1500000, 4, 1), (2000000, 1, 1), (3000000, 2, 1)]
    (4000000, 0, 0) (by decide) (by decide)⟩

/-! ## Registration: what the index maintenance leaves alone -/

theorem lookup_hashtableSet_self (tbl : List (String × Nat)) (key : String) (value : Nat) :
    (hashtableSet tbl key value).lookup key = some value := by
  unfold hashtableSet
  split_ifs with h
  · induction tbl with
    | nil => simp at h
    | cons e rest ih =>
      obtain ⟨k0, v0⟩ := e
      by_cases hk : k0 = key
      · subst hk
        rw [List.map_cons]
        dsimp only
        rw [if_pos rfl]
        simp [List.lookup]
      · have hne : (key == k0) = false := by
          simp only [beq_eq_false_iff_ne, ne_eq]
          exact fun hh => hk hh.symm
        rw [List.map_cons]
        dsimp only
        rw [if_neg hk]
        simp only [List.lookup, hne]
        apply ih
        simpa [hk] using h
  · induction tbl with
    | nil => simp [List.lookup]
    | cons e rest ih =>
      obtain ⟨k0, v0⟩ := e
      simp only [List.any_cons, Bool.or_eq_true, decide_eq_true_eq, not_or] at h
      have hne : (key == k0) = false := by
        simp only [beq_eq_false_iff_ne, ne_eq]
        exact fun hh => h.1 hh.symm
      simp only [List.cons_append, List.lookup, hne]
      exact ih (by simpa using h.2)

theorem SameButTrees_refl (p : ResourcePool) : SameButTrees p p :=
  ⟨p.OrderedSegResAllocByRatio, by cases p; rfl⟩

theorem SameButTrees_trans (p p1 p2 : ResourcePool) (h1 : SameButTrees p p1)
    (h2 : SameButTrees p1 p2) : SameButTrees p p2 := by
  obtain ⟨t1, rfl⟩ := h1
  obtain ⟨t2, rfl⟩ := h2
  exact ⟨t2, rfl⟩

theorem SameButTrees_set (p : ResourcePool) (trees : List (Option (List Nat))) :
    SameButTrees p { p with OrderedSegResAllocByRatio := trees } := ⟨trees, rfl⟩

theorem reorderAllocIndexByRatio_same (g : RMGlobals) (segid : Nat) (pool p1 : ResourcePool)
    (ratio : Nat) (h : reorderAllocIndexByRatio g segid pool ratio = some p1) :
    SameButTrees pool p1 := by
  unfold reorderAllocIndexByRatio at h
  split at h
  · cases h; exact SameButTrees_refl _
  · split at h
    · cases h
    · cases h; exact SameButTrees_set _ _

theorem reorderAllocIndices_same (g : RMGlobals) (segid : Nat) (ratios : List Int) :
    ∀ (pool p1 : ResourcePool), reorderAllocIndices g segid ratios pool = some p1 →
      SameButTrees pool p1 := by
  induction ratios with
  | nil =>
    intro pool p1 h
    simp only [reorderAllocIndices, List.foldl_nil, Option.some.injEq] at h
    subst h
    exact SameButTrees_refl _
  | cons r rest ih =>
    intro pool p1 h
    unfold reorderAllocIndices at h
    rw [List.foldl_cons] at h
    cases hr : reorderAllocIndexByRatio g segid pool r.toNat with
    | none =>
      simp only [Option.some_bind, hr] at h
      have : ∀ l : List Int, l.foldl (fun acc ratio => acc.bind fun p =>
          reorderAllocIndexByRatio g segid p ratio.toNat) none = none := by
        intro l; induction l with
        | nil => rfl
        | cons a l ihl => simpa using ihl
      rw [this] at h
      cases h
    | some p0 =>
      simp only [Option.some_bind, hr] at h
      exact SameButTrees_trans _ _ _ (reorderAllocIndexByRatio_same g segid pool p0 _ hr)
        (ih p0 p1 h)

theorem foldl_bind_none {α β : Type} (f : α → β → Option α) (l : List β) :
    l.foldl (fun acc x => acc.bind fun p => f p x) none = none := by
  induction l with
  | nil => rfl
  | cons a l ih => simpa using ih

theorem addSegResourceAllocIndex_same (g : RMGlobals) (segid : Nat) (ratios : List Int) :
    ∀ (pool p1 : ResourcePool), addSegResourceAllocIndex g segid ratios pool = some p1 →
      SameButTrees pool p1 := by
  induction ratios with
  | nil =>
    intro pool p1 h
    simp only [addSegResourceAllocIndex, List.foldl_nil, Option.some.injEq] at h
    subst h
    exact SameButTrees_refl _
  | cons r rest ih =>
    intro pool p1 h
    unfold addSegResourceAllocIndex at h
    rw [List.foldl_cons] at h
    simp only [Option.some_bind] at h
    cases hidx : getResourceQueueRatioIndex g r.toNat with
    | none =>
      rw [hidx] at h
      dsimp only at h
      rw [foldl_bind_none] at h
      cases h
    | some rindex =>
      rw [hidx] at h
      dsimp only at h
      cases htree : pool.OrderedSegResAllocByRatio.getD rindex none with
      | none =>
        rw [htree] at h
        dsimp only at h
        rw [foldl_bind_none] at h
        cases h
      | some tree =>
        rw [htree] at h
        dsimp only at h
        exact SameButTrees_trans _ _ _ (SameButTrees_set _ _) (ih _ p1 h)

/-- `setSegResHAWQAvailability(segres, RESOURCE_SEG_STATUS_AVAILABLE)` for a segment that
is not available: the status changes, the capacity of the segment joins the totals and
its allocated resource the ratio tracker. -/
theorem setSegResHAWQAvailability_available (g : RMGlobals) (qm qm1 : QueueManager)
    (pool pool2 : ResourcePool) (segid : Nat) (segres : SegResource) (old : SegStatus)
    (hseg : getSegResource pool.Segments segid = some segres)
    (hun : segres.FTSAvailable = false)
    (h : setSegResHAWQAvailability g qm pool segid RESOURCE_SEG_STATUS_AVAILABLE =
      some (old, qm1, pool2)) :
    qm1 = (addNewResourceToResourceManager qm segres.Allocated.MemoryMB
      segres.Allocated.Core).2 ∧
    SameButTrees
      { pool with
        Segments := pool.Segments.set segid
          { segres with FTSAvailable := true, FTSStatusUnset := false },
        FTSTotal := addResourceBundleData pool.FTSTotal segres.FTSTotalMemoryMB
          segres.FTSTotalCore,
        GRMTotal := addResourceBundleData pool.GRMTotal segres.GRMTotalMemoryMB
          segres.GRMTotalCore,
        AvailNodeCount := pool.AvailNodeCount + 1 } pool2 := by
  unfold setSegResHAWQAvailability at h
  rw [hseg] at h
  have hne : ¬ (segFTSStatus segres = RESOURCE_SEG_STATUS_AVAILABLE) := by
    unfold segFTSStatus
    rw [hun]
    simp only [Bool.false_eq_true, if_false]
    split_ifs <;> exact fun hh => by cases hh
  simp only [setSegStatHAWQAvailability, hne, if_false, reduceCtorEq, decide_True,
    decide_False, Option.some_bind] at h
  cases hr : reorderAllocIndices { g with RatioIndex := qm.RatioIndex } segid
      (trackedRatios (addNewResourceToResourceManager qm segres.Allocated.MemoryMB
        segres.Allocated.Core).2)
      { pool with
        Segments := pool.Segments.set segid
          { segres with FTSAvailable := true, FTSStatusUnset := false },
        FTSTotal := addResourceBundleData pool.FTSTotal segres.FTSTotalMemoryMB
          segres.FTSTotalCore,
        GRMTotal := addResourceBundleData pool.GRMTotal segres.GRMTotalMemoryMB
          segres.GRMTotalCore,
        AvailNodeCount := pool.AvailNodeCount + 1 } with
  | none =>
    rw [hr] at h
    cases h
  | some p3 =>
    rw [hr] at h
    simp only [Option.map_some', Option.some.injEq, Prod.mk.injEq] at h
    obtain ⟨_, rfl, rfl⟩ := h
    exact ⟨rfl, reorderAllocIndices_same _ _ _ _ _ hr⟩
/-! ## Registration: a host that the pool knows -/

/-- `addHAWQSegWithSegStat` for the stat of a segment that is registered and available,
has the port of the stat and needs no capacity update: only `LastUpdateTime` changes. -/
theorem addHAWQSegWithSegStat_known (g : RMGlobals) (st : PoolSettings) (now : Nat)
    (qm : QueueManager) (pool : ResourcePool) (segstat : SegStat) (segid : Nat)
    (segres : SegResource)
    (hfind : findSegmentOfStat st pool segstat = some segid)
    (hseg : getSegResource pool.Segments segid = some segres)
    (havail : segres.FTSAvailable = true)
    (hport : segres.port = segstat.port)
    (hcap : ¬ (((segstat.FTSTotalCore > 0 ∧ segres.FTSTotalCore ≠ segstat.FTSTotalCore) ∨
        (segstat.FTSTotalMemoryMB > 0 ∧ segres.FTSTotalMemoryMB ≠ segstat.FTSTotalMemoryMB)) ∧
      (segstat.FTSTotalMemoryMB > 0 ∧ segstat.FTSTotalCore > 0))) :
    addHAWQSegWithSegStat g st now qm pool segstat =
      some ( RESOURCEPOOL_DUPLICATE_HOST, qm,
        { pool with Segments := pool.Segments.set segid { segres with LastUpdateTime := now } }) := by
  have hsame : ({ segres with port := segstat.port } : SegResource) = segres := by
    rw [← hport]
  unfold addHAWQSegWithSegStat
  rw [hfind]
  unfold updateExistingSegment
  simp only [hseg, havail, Bool.not_true, Bool.false_eq_true, if_false, Option.some_bind, hsame]
  by_cases hch : (segstat.FTSTotalCore > 0 ∧ segres.FTSTotalCore ≠ segstat.FTSTotalCore) ∨
      (segstat.FTSTotalMemoryMB > 0 ∧ segres.FTSTotalMemoryMB ≠ segstat.FTSTotalMemoryMB)
  · have hpos : ¬ (segstat.FTSTotalMemoryMB > 0 ∧ segstat.FTSTotalCore > 0) :=
      fun hp => hcap ⟨hch, hp⟩
    simp [hch, hpos, updateClusterRatio, hport]
  · simp [hch, updateClusterRatio, hport]
/-! ## Registration: the pool after a call -/

theorem findSegmentOfStat_congr (st : PoolSettings) (p p1 : ResourcePool) (segstat : SegStat)
    (hn : p1.SegmentHostNameIndexed = p.SegmentHostNameIndexed)
    (ha : p1.SegmentHostAddrIndexed = p.SegmentHostAddrIndexed) :
    findSegmentOfStat st p1 segstat = findSegmentOfStat st p segstat := by
  unfold findSegmentOfStat
  rw [hn, ha]

/-- The block `if ( segcapchanged )` changes only the cluster ratio and its counter. -/
theorem updateClusterRatio_fields (st : PoolSettings) (p p1 : ResourcePool) (segid : Nat)
    (b : Bool) (h : updateClusterRatio st p segid b = some p1) :
    ∃ ratio counter,
      p1 = { p with MemCoreRatio := ratio, MemCoreRatioMajorityCounter := counter } := by
  unfold updateClusterRatio at h
  split_ifs at h with hb
  · split at h
    · cases h
    · split_ifs at h with hz
      cases h
      unfold voteMemCoreRatio
      split_ifs
      · exact ⟨_, _, rfl⟩
      · exact ⟨p.MemCoreRatio, p.MemCoreRatioMajorityCounter - 1, rfl⟩
      · exact ⟨p.MemCoreRatio, p.MemCoreRatioMajorityCounter + 1, rfl⟩
  · cases h
    exact ⟨p.MemCoreRatio, p.MemCoreRatioMajorityCounter, rfl⟩

theorem getSegResource_append_set (segs : List SegResource) (a b : SegResource) :
    getSegResource ((segs ++ [a]).set segs.length b) segs.length = some b := by
  unfold getSegResource
  rw [List.getElem?_set_self (by simp)]

/-- The pool after CASE 1: the new segment is the last one, available, and the host
name index leads to it. -/
theorem registerNewSegment_post (g : RMGlobals) (st : PoolSettings) (now : Nat)
    (qm qm1 : QueueManager) (pool p1 : ResourcePool) (segstat : SegStat) (segid : Nat)
    (hcounter : pool.SegmentIDCounter = pool.Segments.length)
    (h : registerNewSegment g st now qm pool segstat = some (qm1, p1, segid)) :
    segid = pool.Segments.length ∧
    p1.SegmentHostNameIndexed =
      hashtableSet pool.SegmentHostNameIndexed segstat.HostName segid ∧
    p1.SegmentHostAddrIndexed =
      indexHostAddrs segid pool.SegmentHostAddrIndexed segstat.HostAddrs ∧
    p1.SegmentIDCounter = pool.SegmentIDCounter + 1 ∧
    p1.Segments = pool.Segments ++
      [{ createSegResource st segstat segid now with
         FTSAvailable := true, FTSStatusUnset := false }] ∧
    p1.FTSTotal = addResourceBundleData pool.FTSTotal segstat.FTSTotalMemoryMB
      segstat.FTSTotalCore ∧
    p1.AvailNodeCount = pool.AvailNodeCount + 1 ∧
    p1.MemCoreRatio = pool.MemCoreRatio ∧
    p1.MemCoreRatioMajorityCounter = pool.MemCoreRatioMajorityCounter ∧
    qm1 = qm := by
  unfold registerNewSegment at h
  dsimp only at h
  rw [hcounter] at h
  cases hs : setSegResHAWQAvailability g qm
      { pool with
        SegmentIDCounter := pool.Segments.length + 1,
        Segments := pool.Segments ++ [createSegResource st segstat pool.Segments.length now],
        SegmentHostNameIndexed :=
          hashtableSet pool.SegmentHostNameIndexed segstat.HostName pool.Segments.length,
        SegmentHostAddrIndexed :=
          indexHostAddrs pool.Segments.length pool.SegmentHostAddrIndexed segstat.HostAddrs }
      pool.Segments.length RESOURCE_SEG_STATUS_AVAILABLE with
  | none => rw [hs] at h; cases h
  | some r =>
    obtain ⟨old, qm2, pool2⟩ := r
    rw [hs] at h
    dsimp only at h
    have hget : getSegResource
        (pool.Segments ++ [createSegResource st segstat pool.Segments.length now])
        pool.Segments.length = some (createSegResource st segstat pool.Segments.length now) := by
      unfold getSegResource
      simp
    obtain ⟨hqm, trees, hp2⟩ := setSegResHAWQAvailability_available g qm qm2 _ pool2
      pool.Segments.length _ old hget rfl hs
    cases ha : addSegResourceAllocIndex { g with RatioIndex := qm.RatioIndex }
        pool.Segments.length (trackedRatios qm2)
        { pool2 with
          OrderedIOBytesWorkload :=
            insertBBSTNode pool2.Segments pool2.OrderedIOBytesWorkload pool.Segments.length } with
    | none => rw [ha] at h; cases h
    | some p3 =>
      rw [ha] at h
      simp only [Option.map_some', Option.some.injEq, Prod.mk.injEq] at h
      obtain ⟨rfl, rfl, rfl⟩ := h
      obtain ⟨trees3, hp3⟩ := addSegResourceAllocIndex_same _ _ _ _ _ ha
      subst hp3
      subst hp2
      have hq : qm2 = qm := by
        rw [hqm]
        simp [addNewResourceToResourceManager, createSegResource]
      refine ⟨rfl, rfl, rfl, by simp [hcounter], ?_, ?_, rfl, rfl, rfl, hq⟩
      · show (pool.Segments ++ [createSegResource st segstat pool.Segments.length now]).set
            pool.Segments.length _ = _
        rw [List.set_append_right _ _ (le_refl _)]
        simp
      · simp [createSegResource]
/-- The pool after CASE 2: the indices are as before, the segment is available, has the
port of the stat, and a further call finds no capacity to update. -/
theorem updateExistingSegment_post (g : RMGlobals) (now : Nat) (qm qm1 : QueueManager)
    (pool p1 : ResourcePool) (segstat : SegStat) (segid : Nat) (cap : Bool)
    (h : updateExistingSegment g now qm pool segstat segid = some (qm1, p1, cap)) :
    p1.SegmentHostNameIndexed = pool.SegmentHostNameIndexed ∧
    p1.SegmentHostAddrIndexed = pool.SegmentHostAddrIndexed ∧
    ∃ segres, getSegResource p1.Segments segid = some segres ∧ segres.FTSAvailable = true ∧
      segres.port = segstat.port ∧
      ¬ (((segstat.FTSTotalCore > 0 ∧ segres.FTSTotalCore ≠ segstat.FTSTotalCore) ∨
          (segstat.FTSTotalMemoryMB > 0 ∧
            segres.FTSTotalMemoryMB ≠ segstat.FTSTotalMemoryMB)) ∧
        (segstat.FTSTotalMemoryMB > 0 ∧ segstat.FTSTotalCore > 0)) := by
  unfold updateExistingSegment at h
  cases hseg0 : getSegResource pool.Segments segid with
  | none => rw [hseg0] at h; cases h
  | some seg0 =>
    rw [hseg0] at h
    dsimp only at h
    have hlt : segid < pool.Segments.length := by
      unfold getSegResource at hseg0
      exact (List.getElem?_eq_some_iff.1 hseg0).1
    -- the state after the availability update
    have hup : ∃ (s : QueueManager × ResourcePool) (seg1 : SegResource),
        (if (!seg0.FTSAvailable) = true then
            (setSegResHAWQAvailability g qm pool segid RESOURCE_SEG_STATUS_AVAILABLE).map
              fun r => r.2
          else some (qm, pool)) = some s ∧
        s.2.SegmentHostNameIndexed = pool.SegmentHostNameIndexed ∧
        s.2.SegmentHostAddrIndexed = pool.SegmentHostAddrIndexed ∧
        getSegResource s.2.Segments segid = some seg1 ∧ seg1.FTSAvailable = true ∧
        segid < s.2.Segments.length := by
      by_cases hav : seg0.FTSAvailable = true
      · refine ⟨(qm, pool), seg0, by simp [hav], rfl, rfl, hseg0, hav, hlt⟩
      · have hav2 : seg0.FTSAvailable = false := by simpa using hav
        cases hs : setSegResHAWQAvailability g qm pool segid RESOURCE_SEG_STATUS_AVAILABLE with
        | none =>
          rw [hs] at h
          simp [hav2] at h
        | some r =>
          obtain ⟨old, qm2, pool2⟩ := r
          obtain ⟨_, trees, hp2⟩ := setSegResHAWQAvailability_available g qm qm2 pool pool2
            segid seg0 old hseg0 hav2 hs
          refine ⟨(qm2, pool2), { seg0 with FTSAvailable := true, FTSStatusUnset := false },
            by simp [hav2], ?_, ?_, ?_, rfl, ?_⟩
          · rw [hp2]
          · rw [hp2]
          · rw [hp2]
            show (pool.Segments.set segid _)[segid]? = _
            exact List.getElem?_set_self hlt
          · rw [hp2]
            show segid < (pool.Segments.set segid _).length
            simpa using hlt
    obtain ⟨s, seg1, hs, hn, ha, hseg1, hav1, hlt1⟩ := hup
    rw [hs, Option.some_bind] at h
    rw [hseg1] at h
    dsimp only at h
    by_cases hu : (decide ((segstat.FTSTotalCore > 0 ∧ seg1.FTSTotalCore ≠ segstat.FTSTotalCore) ∨
          (segstat.FTSTotalMemoryMB > 0 ∧ seg1.FTSTotalMemoryMB ≠ segstat.FTSTotalMemoryMB)) &&
        decide (segstat.FTSTotalMemoryMB > 0 ∧ segstat.FTSTotalCore > 0)) = true
    · simp only [hu, if_true, Option.some.injEq, Prod.mk.injEq] at h
      obtain ⟨_, hp1, _⟩ := h
      subst hp1
      refine ⟨hn, ha, _, List.getElem?_set_self hlt1, hav1, rfl, ?_⟩
      intro hc
      rcases hc.1 with hc1 | hc1
      · exact hc1.2 rfl
      · exact hc1.2 rfl
    · simp only [hu, if_false, Option.some.injEq, Prod.mk.injEq] at h
      obtain ⟨_, hp1, _⟩ := h
      subst hp1
      refine ⟨hn, ha, _, List.getElem?_set_self hlt1, hav1, rfl, ?_⟩
      intro hc
      apply hu
      simp only [Bool.and_eq_true, decide_eq_true_eq]
      exact hc
/-! ## C22: a segment stat registered twice -/

/-- C22: when a call of `addHAWQSegWithSegStat` has returned (in a pool whose
`SegmentIDCounter` is the number of its segments), a second call with the same stat
returns `RESOURCEPOOL_DUPLICATE_HOST` and changes nothing but the `LastUpdateTime` of the
segment: the id of the segment, `SegmentIDCounter`, the registered segments, the host
name and address indices, the ordered indices, `FTSTotal`, `AvailNodeCount`,
`MemCoreRatio` and its majority counter, and the queue manager are as the first call
left them. -/
theorem addHAWQSegWithSegStat_twice (g : RMGlobals) (st : PoolSettings) (now1 now2 : Nat)
    (qm qm1 : QueueManager) (pool pool1 : ResourcePool) (segstat : SegStat) (res1 : ResultCode)
    (hcounter : pool.SegmentIDCounter = pool.Segments.length)
    (hfirst : addHAWQSegWithSegStat g st now1 qm pool segstat = some (res1, qm1, pool1)) :
    ∃ segid segres pool2,
      findSegmentOfStat st pool1 segstat = some segid ∧
      getSegResource pool1.Segments segid = some segres ∧
      addHAWQSegWithSegStat g st now2 qm1 pool1 segstat =
        some ( RESOURCEPOOL_DUPLICATE_HOST, qm1, pool2) ∧
      pool2 = { pool1 with
                Segments := pool1.Segments.set segid { segres with LastUpdateTime := now2 } } ∧
      getSegResource pool2.Segments segid = some { segres with LastUpdateTime := now2 } ∧
      pool2.SegmentIDCounter = pool1.SegmentIDCounter ∧
      pool2.Segments.length = pool1.Segments.length ∧
      pool2.SegmentHostNameIndexed = pool1.SegmentHostNameIndexed ∧
      pool2.SegmentHostAddrIndexed = pool1.SegmentHostAddrIndexed ∧
      pool2.OrderedIOBytesWorkload = pool1.OrderedIOBytesWorkload ∧
      pool2.OrderedSegResAllocByRatio = pool1.OrderedSegResAllocByRatio ∧
      pool2.FTSTotal = pool1.FTSTotal ∧ pool2.AvailNodeCount = pool1.AvailNodeCount ∧
      pool2.MemCoreRatio = pool1.MemCoreRatio ∧
      pool2.MemCoreRatioMajorityCounter = pool1.MemCoreRatioMajorityCounter := by
  have hpost : ∃ segid segres, findSegmentOfStat st pool1 segstat = some segid ∧
      getSegResource pool1.Segments segid = some segres ∧ segres.FTSAvailable = true ∧
      segres.port = segstat.port ∧
      ¬ (((segstat.FTSTotalCore > 0 ∧ segres.FTSTotalCore ≠ segstat.FTSTotalCore) ∨
          (segstat.FTSTotalMemoryMB > 0 ∧
            segres.FTSTotalMemoryMB ≠ segstat.FTSTotalMemoryMB)) ∧
        (segstat.FTSTotalMemoryMB > 0 ∧ segstat.FTSTotalCore > 0)) := by
    unfold addHAWQSegWithSegStat at hfirst
    cases hfind : findSegmentOfStat st pool segstat with
    | none =>
      rw [hfind] at hfirst
      dsimp only at hfirst
      cases hreg : registerNewSegment g st now1 qm pool segstat with
      | none => rw [hreg] at hfirst; cases hfirst
      | some r =>
        obtain ⟨qmA, pA, segid⟩ := r
        rw [hreg, Option.some_bind] at hfirst
        dsimp only at hfirst
        cases hvote : updateClusterRatio st pA segid true with
        | none => rw [hvote] at hfirst; cases hfirst
        | some pB =>
          rw [hvote] at hfirst
          simp only [Option.map_some', Option.some.injEq, Prod.mk.injEq] at hfirst
          obtain ⟨_, _, rfl⟩ := hfirst
          obtain ⟨hid, hn, ha, _, hsegs, _⟩ :=
            registerNewSegment_post g st now1 qm qmA pool pA segstat segid hcounter hreg
          obtain ⟨ratio, counter, hpB⟩ := updateClusterRatio_fields st pA pB segid true hvote
          subst hpB
          refine ⟨segid, { createSegResource st segstat segid now1 with
            FTSAvailable := true, FTSStatusUnset := false }, ?_, ?_, rfl, rfl, ?_⟩
          · unfold findSegmentOfStat
            show (match List.lookup segstat.HostName pA.SegmentHostNameIndexed with
              | some segid => some segid
              | none => _) = _
            rw [hn, lookup_hashtableSet_self]
          · show getSegResource pA.Segments segid = _
            rw [hsegs, hid]
            unfold getSegResource
            simp
          · intro hc
            rcases hc.1 with hc1 | hc1
            · exact hc1.2 rfl
            · exact hc1.2 rfl
    | some segid =>
      rw [hfind] at hfirst
      dsimp only at hfirst
      cases hup : updateExistingSegment g now1 qm pool segstat segid with
      | none => rw [hup] at hfirst; cases hfirst
      | some r =>
        obtain ⟨qmA, pA, cap⟩ := r
        rw [hup, Option.some_bind] at hfirst
        dsimp only at hfirst
        cases hvote : updateClusterRatio st pA segid cap with
        | none => rw [hvote] at hfirst; cases hfirst
        | some pB =>
          rw [hvote] at hfirst
          simp only [Option.map_some', Option.some.injEq, Prod.mk.injEq] at hfirst
          obtain ⟨_, _, rfl⟩ := hfirst
          obtain ⟨hn, ha, segres, hseg, hav, hport, hcap⟩ :=
            updateExistingSegment_post g now1 qm qmA pool pA segstat segid cap hup
          obtain ⟨ratio, counter, hpB⟩ := updateClusterRatio_fields st pA pB segid cap hvote
          subst hpB
          refine ⟨segid, segres, ?_, hseg, hav, hport, hcap⟩
          rw [← hfind]
          exact findSegmentOfStat_congr st pool _ segstat hn ha
  obtain ⟨segid, segres, hfind, hseg, hav, hport, hcap⟩ := hpost
  have hlt : segid < pool1.Segments.length := by
    unfold getSegResource at hseg
    exact (List.getElem?_eq_some_iff.1 hseg).1
  refine ⟨segid, segres, _, hfind, hseg,
    addHAWQSegWithSegStat_known g st now2 qm1 pool1 segstat segid segres hfind hseg hav hport
      hcap, rfl, ?_, rfl, ?_, rfl, rfl, rfl, rfl, rfl, rfl, rfl, rfl⟩
  · exact List.getElem?_set_self hlt
  · simp

/-- A host registered twice in the empty pool: the first call returns `FUNC_RETURN_OK`
and gives the host the id 0, the second returns `RESOURCEPOOL_DUPLICATE_HOST` and leaves
one segment, the counter 1 and one available node. -/
theorem addHAWQSegWithSegStat_twice_witness :
    exRegistered.1 = FUNC_RETURN_OK ∧ exRegistered.2.2.SegmentIDCounter = 1 ∧
    exRegistered.2.2.AvailNodeCount = 1 ∧
    ∃ pool2,
      addHAWQSegWithSegStat exGlobals exPoolSettings 9 exRegistered.2.1 exRegistered.2.2
        (exHost "h0" "10.0.0.1" 8192 8) =
          some ( RESOURCEPOOL_DUPLICATE_HOST, exRegistered.2.1, pool2) ∧
      pool2.SegmentIDCounter = 1 ∧ pool2.AvailNodeCount = 1 ∧ pool2.Segments.length = 1 := by
  have h1 : exRegistered.2.2.SegmentIDCounter = 1 := by decide!
  have h2 : exRegistered.2.2.AvailNodeCount = 1 := by decide!
  have h3 : exRegistered.2.2.Segments.length = 1 := by decide!
  have hfirst : addHAWQSegWithSegStat exGlobals exPoolSettings 5 exEmptyManager exEmptyPool
      (exHost "h0" "10.0.0.1" 8192 8) = some (exRegistered.1, exRegistered.2.1, exRegistered.2.2) := by
    decide!
  obtain ⟨segid, segres, pool2, _, _, hsecond, _, _, hc, hl, _, _, _, _, _, ha, _⟩ :=
    addHAWQSegWithSegStat_twice exGlobals exPoolSettings 5 9 exEmptyManager exRegistered.2.1
      exEmptyPool exRegistered.2.2 (exHost "h0" "10.0.0.1" 8192 8) exRegistered.1 rfl hfirst
  exact ⟨by decide!, h1, h2, pool2, hsecond, by rw [hc, h1], by rw [ha, h2], by rw [hl, h3]⟩

/-! ## The vote on the cluster ratio -/

/-- The invariant of the vote for the ratio `r`, after `n` votes of which `k` were for
`r`. -/
theorem voteMemCoreRatio_inv (r x : Int) (n k : Int) (pool : ResourcePool)
    (hcnt : 0 ≤ pool.MemCoreRatioMajorityCounter)
    (h1 : pool.MemCoreRatio = r → 2 * k - n ≤ pool.MemCoreRatioMajorityCounter)
    (h2 : pool.MemCoreRatio ≠ r → 2 * k - n ≤ -pool.MemCoreRatioMajorityCounter) :
    0 ≤ (voteMemCoreRatio pool x).MemCoreRatioMajorityCounter ∧
    ((voteMemCoreRatio pool x).MemCoreRatio = r →
      2 * (k + if x = r then 1 else 0) - (n + 1) ≤
        (voteMemCoreRatio pool x).MemCoreRatioMajorityCounter) ∧
    ((voteMemCoreRatio pool x).MemCoreRatio ≠ r →
      2 * (k + if x = r then 1 else 0) - (n + 1) ≤
        -(voteMemCoreRatio pool x).MemCoreRatioMajorityCounter) := by
  unfold voteMemCoreRatio
  by_cases hx : x = pool.MemCoreRatio
  · rw [if_neg (by simpa using hx)]
    dsimp only
    by_cases hr : pool.MemCoreRatio = r
    · have := h1 hr
      have hxr : x = r := by rw [hx, hr]
      simp only [hxr, if_true, hr]
      refine ⟨by omega, fun _ => by omega, fun h => absurd rfl h⟩
    · have := h2 hr
      have hxr : ¬ x = r := by rw [hx]; exact hr
      simp only [hxr, if_false]
      refine ⟨by omega, fun h => absurd h hr, fun _ => by omega⟩
  · rw [if_pos hx]
    by_cases hz : pool.MemCoreRatioMajorityCounter - 1 = -1
    · rw [if_pos hz]
      dsimp only
      have hz0 : pool.MemCoreRatioMajorityCounter = 0 := by omega
      by_cases hr : pool.MemCoreRatio = r
      · have := h1 hr
        have hxr : ¬ x = r := by rw [← hr]; exact hx
        refine ⟨by omega, fun h => absurd h hxr, fun _ => ?_⟩
        rw [if_neg hxr]
        omega
      · have := h2 hr
        refine ⟨by omega, fun h => ?_, fun h => ?_⟩
        · simp only [h, if_true]; omega
        · simp only [h, if_false]; omega
    · rw [if_neg hz]
      dsimp only
      by_cases hr : pool.MemCoreRatio = r
      · have := h1 hr
        have hxr : ¬ x = r := by rw [← hr]; exact hx
        simp only [hxr, if_false]
        refine ⟨by omega, fun _ => by omega, fun h => absurd hr h⟩
      · have := h2 hr
        refine ⟨by omega, fun h => absurd h hr, fun _ => ?_⟩
        split_ifs <;> omega

/-- A call of `addHAWQSegWithSegStat` that returns `FUNC_RETURN_OK` in self-contained
mode registers a new segment and casts the vote of its ratio. -/
theorem addHAWQSegWithSegStat_new (g : RMGlobals) (st : PoolSettings) (now : Nat)
    (qm qm1 : QueueManager) (pool pool1 : ResourcePool) (segstat : SegStat)
    (hmode : st.noneHawq2 = true)
    (hcounter : pool.SegmentIDCounter = pool.Segments.length)
    (h : addHAWQSegWithSegStat g st now qm pool segstat = some (FUNC_RETURN_OK, qm1, pool1)) :
    pool1.SegmentIDCounter = pool1.Segments.length ∧
    pool1.MemCoreRatio =
      (voteMemCoreRatio pool (Int.tdiv segstat.FTSTotalMemoryMB segstat.FTSTotalCore)).MemCoreRatio ∧
    pool1.MemCoreRatioMajorityCounter =
      (voteMemCoreRatio pool
        (Int.tdiv segstat.FTSTotalMemoryMB segstat.FTSTotalCore)).MemCoreRatioMajorityCounter := by
  unfold addHAWQSegWithSegStat at h
  cases hfind : findSegmentOfStat st pool segstat with
  | some segid =>
    rw [hfind] at h
    dsimp only at h
    cases hb : (updateExistingSegment g now qm pool segstat segid).bind fun r =>
        (updateClusterRatio st r.2.1 segid r.2.2).map fun p =>
          ( RESOURCEPOOL_DUPLICATE_HOST, r.1, p) with
    | none => rw [hb] at h; cases h
    | some v =>
      obtain ⟨r, _, hv⟩ := Option.bind_eq_some.1 hb
      obtain ⟨p, _, hp⟩ := Option.map_eq_some'.1 hv
      rw [hb] at h
      cases h
      cases hp
  | none =>
    rw [hfind] at h
    dsimp only at h
    cases hreg : registerNewSegment g st now qm pool segstat with
    | none => rw [hreg] at h; cases h
    | some r =>
      obtain ⟨qmA, pA, segid⟩ := r
      rw [hreg, Option.some_bind] at h
      dsimp only at h
      obtain ⟨hid, _, _, hc, hsegs, _, _, hratio, hmaj, _⟩ :=
        registerNewSegment_post g st now qm qmA pool pA segstat segid hcounter hreg
      have hget : getSegResource pA.Segments segid =
          some { createSegResource st segstat segid now with
                 FTSAvailable := true, FTSStatusUnset := false } := by
        rw [hsegs, hid]
        unfold getSegResource
        simp
      unfold updateClusterRatio at h
      simp only [hmode, Bool.and_self, if_true, hget] at h
      by_cases hz : segstat.FTSTotalCore = 0
      · simp [createSegResource, hz] at h
      · simp only [createSegResource, hz, if_false, Option.map_some', Option.some.injEq,
          Prod.mk.injEq, true_and] at h
        obtain ⟨_, rfl⟩ := h
        refine ⟨?_, ?_, ?_⟩
        · have : (voteMemCoreRatio pA
              (Int.tdiv segstat.FTSTotalMemoryMB segstat.FTSTotalCore)).SegmentIDCounter =
              pA.SegmentIDCounter := by
            unfold voteMemCoreRatio; split_ifs <;> rfl
          have h2 : (voteMemCoreRatio pA
              (Int.tdiv segstat.FTSTotalMemoryMB segstat.FTSTotalCore)).Segments =
              pA.Segments := by
            unfold voteMemCoreRatio; split_ifs <;> rfl
          rw [this, h2, hc, hsegs, hcounter]
          simp
        · unfold voteMemCoreRatio
          rw [hratio, hmaj]
          split_ifs <;> rfl
        · unfold voteMemCoreRatio
          rw [hratio, hmaj]
          split_ifs <;> rfl

theorem registerAll_codes (g : RMGlobals) (st : PoolSettings) (now : Nat) :
    ∀ (stats : List SegStat) (s s1 : QueueManager × ResourcePool × List ResultCode),
      registerAll g st now stats s = some s1 → ∀ c ∈ s.2.2, c ∈ s1.2.2 := by
  intro stats
  induction stats with
  | nil =>
    intro s s1 h c hc
    simp only [registerAll, Option.some.injEq] at h
    subst h
    exact hc
  | cons x rest ih =>
    intro s s1 h c hc
    unfold registerAll at h
    cases hx : addHAWQSegWithSegStat g st now s.1 s.2.1 x with
    | none => rw [hx] at h; cases h
    | some r =>
      rw [hx] at h
      exact ih _ s1 h c (List.mem_append_left _ hc)

/-- The invariant of the vote through a sequence of registrations of new hosts. -/
theorem registerAll_vote (g : RMGlobals) (st : PoolSettings) (now : Nat) (r : Int)
    (hmode : st.noneHawq2 = true) :
    ∀ (stats : List SegStat) (qm : QueueManager) (pool : ResourcePool) (codes0 : List ResultCode)
      (s1 : QueueManager × ResourcePool × List ResultCode) (n k : Int),
      registerAll g st now stats (qm, pool, codes0) = some s1 →
      (∀ c ∈ s1.2.2, c = FUNC_RETURN_OK) →
      pool.SegmentIDCounter = pool.Segments.length →
      0 ≤ pool.MemCoreRatioMajorityCounter →
      (pool.MemCoreRatio = r → 2 * k - n ≤ pool.MemCoreRatioMajorityCounter) →
      (pool.MemCoreRatio ≠ r → 2 * k - n ≤ -pool.MemCoreRatioMajorityCounter) →
      0 ≤ s1.2.1.MemCoreRatioMajorityCounter ∧
      (s1.2.1.MemCoreRatio ≠ r →
        2 * (k + ((stats.filter fun s =>
            decide (Int.tdiv s.FTSTotalMemoryMB s.FTSTotalCore = r)).length : Int)) -
          (n + (stats.length : Int)) ≤ -s1.2.1.MemCoreRatioMajorityCounter) := by
  intro stats
  induction stats with
  | nil =>
    intro qm pool codes0 s1 n k h _ _ hcnt _ h2
    simp only [registerAll, Option.some.injEq] at h
    subst h
    refine ⟨hcnt, fun hr => ?_⟩
    have := h2 hr
    simp only [List.filter_nil, List.length_nil, Nat.cast_zero, add_zero]
    exact this
  | cons x rest ih =>
    intro qm pool codes0 s1 n k h hcodes hcounter hcnt h1 h2
    unfold registerAll at h
    cases hx : addHAWQSegWithSegStat g st now qm pool x with
    | none =>
      simp only [hx] at h
      cases h
    | some v =>
      obtain ⟨c1, qmA, pA⟩ := v
      simp only [hx] at h
      have hc1 : c1 = FUNC_RETURN_OK :=
        hcodes c1 (registerAll_codes g st now rest _ s1 h c1 (by simp))
      subst hc1
      obtain ⟨hcA, hrA, hmA⟩ :=
        addHAWQSegWithSegStat_new g st now qm qmA pool pA x hmode hcounter hx
      obtain ⟨v1, v2, v3⟩ := voteMemCoreRatio_inv r
        (Int.tdiv x.FTSTotalMemoryMB x.FTSTotalCore) n k pool hcnt h1 h2
      rw [← hmA] at v1 v2 v3
      rw [← hrA] at v2 v3
      have := ih qmA pA _ s1 (n + 1)
        (k + if Int.tdiv x.FTSTotalMemoryMB x.FTSTotalCore = r then 1 else 0) h hcodes hcA
        v1 v2 v3
      refine ⟨this.1, fun hr => ?_⟩
      have h3 := this.2 hr
      simp only [List.filter_cons, List.length_cons]
      by_cases hxr : Int.tdiv x.FTSTotalMemoryMB x.FTSTotalCore = r
      · simp only [hxr, if_true, decide_True, List.length_cons] at h3 ⊢
        push_cast at h3 ⊢
        omega
      · simp only [hxr, if_false, decide_False] at h3 ⊢
        push_cast at h3 ⊢
        omega

/-! ## C23: the memory/core ratio of the cluster -/

/-- C23: in self-contained mode, starting from a pool with the majority counter 0 (as the
empty pool) and `SegmentIDCounter` equal to the number of its segments, after the hosts
of `stats` have been registered by `addHAWQSegWithSegStat`, each call returning
`FUNC_RETURN_OK` (a new host), if strictly more than half of them have the ratio
`r = FTSTotalMemoryMB / FTSTotalCore` (integer division) then `MemCoreRatio` is `r`. -/
theorem majority_ratio_after_registration (g : RMGlobals) (st : PoolSettings) (now : Nat)
    (qm qm1 : QueueManager) (pool pool1 : ResourcePool) (stats : List SegStat)
    (codes : List ResultCode) (r : Int)
    (hmode : st.noneHawq2 = true)
    (hcounter : pool.SegmentIDCounter = pool.Segments.length)
    (hvote : pool.MemCoreRatioMajorityCounter = 0)
    (hrun : registerAll g st now stats (qm, pool, []) = some (qm1, pool1, codes))
    (hnew : ∀ c ∈ codes, c = FUNC_RETURN_OK)
    (hmajor : stats.length <
      2 * (stats.filter fun s =>
        decide (Int.tdiv s.FTSTotalMemoryMB s.FTSTotalCore = r)).length) :
    pool1.MemCoreRatio = r := by
  by_contra hne
  have h := (registerAll_vote g st now r hmode stats qm pool [] (qm1, pool1, codes) 0 0 hrun
    hnew hcounter (by omega) (fun _ => by omega) (fun _ => by omega))
  have h1 := h.1
  have h2 := h.2 hne
  dsimp only at h1 h2
  omega

theorem majority_ratio_after_registration_witness :
    registerAll exGlobals exPoolSettings 5 exThreeHosts (exEmptyManager, exEmptyPool, []) =
      some (exThreeRegistered.1, exThreeRegistered.2.1, exThreeRegistered.2.2) ∧
    exThreeRegistered.2.2 = [FUNC_RETURN_OK, FUNC_RETURN_OK, FUNC_RETURN_OK] ∧
    exThreeRegistered.2.1.Segments.length = 3 ∧
    exThreeRegistered.2.1.MemCoreRatio = 1024 := by
  have hrun : registerAll exGlobals exPoolSettings 5 exThreeHosts
      (exEmptyManager, exEmptyPool, []) =
      some (exThreeRegistered.1, exThreeRegistered.2.1, exThreeRegistered.2.2) := by decide!
  have hcodes : exThreeRegistered.2.2 = [FUNC_RETURN_OK, FUNC_RETURN_OK, FUNC_RETURN_OK] := by
    decide!
  exact ⟨hrun, hcodes, by decide!,
    majority_ratio_after_registration exGlobals exPoolSettings 5 exEmptyManager
      exThreeRegistered.1 exEmptyPool exThreeRegistered.2.1 exThreeHosts exThreeRegistered.2.2
      1024 rfl rfl rfl hrun (by rw [hcodes]; decide) (by decide)⟩

/-! ## C25: the allocated memory of the segments and of the ratio trackers -/

/-- C25: `timeoutIdleGRMResourceToRB` does not preserve the equality of the allocated
memory of the segments and of the ratio trackers when a container has more than one
core.  One segment holds two free containers of 2048 MB and 2 cores, the tracker of the
ratio 1024 has 4096 MB and 4 cores allocated and the head water mark is 0: both sums
are 4096 and Validation 5 passes.  The call returns both containers, the segments are
left with 0 MB, the tracker with 2048 MB (it loses `realretcontnum * ratio`), and
Validation 5, which the function runs at its end, fails. -/
theorem timeoutIdleGRMResourceToRB_breaks_allocated_sum :
    segmentsAllocatedMemory exTwoCorePool = 4096 ∧
    trackersAllocatedMemory exTwoCoreManager = 4096 ∧
    validateTotalAllocated exTwoCoreManager exTwoCorePool = true ∧
    timeoutIdleGRMResourceToRB exBreathGlobals false 1 exTwoCoreManager exTwoCorePool =
      some exTwoCoreReturned ∧
    toKickCount exTwoCoreReturned.2 = 2 ∧
    segmentsAllocatedMemory exTwoCoreReturned.2 = 0 ∧
    trackersAllocatedMemory exTwoCoreReturned.1 = 2048 ∧
    validateTotalAllocated exTwoCoreReturned.1 exTwoCoreReturned.2 = false := by
  refine ⟨by decide!, by decide!, by decide!, by decide!, by decide!, by decide!, by decide!,
    by decide!⟩

/-! ## The counters of the container sets: sums under an update -/

theorem sum_map_set_sub {α β : Type} [AddCommGroup β] (f : α → β) (l : List α) (i : Nat)
    (x y : α) (h : l[i]? = some x) :
    ((l.set i y).map f).sum = (l.map f).sum - f x + f y := by
  induction l generalizing i with
  | nil => simp at h
  | cons a l ih =>
    cases i with
    | zero =>
      simp only [List.getElem?_cons_zero, Option.some.injEq] at h
      subst h
      simp only [List.set_cons_zero, List.map_cons, List.sum_cons]
      abel
    | succ i =>
      simp only [List.getElem?_cons_succ] at h
      simp only [List.set_cons_succ, List.map_cons, List.sum_cons, ih i h]
      abel

theorem containersMemory_append (l : List GRMContainer) (c : GRMContainer) :
    containersMemory (l ++ [c]) = containersMemory l + c.MemoryMB := by
  simp [containersMemory]

theorem containersMemory_remove (kept rest : List GRMContainer) (c : GRMContainer) :
    containersMemory (kept ++ rest) = containersMemory (kept ++ c :: rest) - c.MemoryMB := by
  simp only [containersMemory, List.map_append, List.sum_append, List.map_cons, List.sum_cons]
  omega

/-- A container set that loses one of its containers and the resource of the
container from both counters keeps its invariant. -/
theorem ContainerSetInv_remove (ctns : GRMContainerSet) (kept rest : List GRMContainer)
    (c : GRMContainer) (h : ContainerSetInv ctns) (hc : ctns.Containers = kept ++ c :: rest) :
    ContainerSetInv
      { Containers := kept ++ rest,
        Allocated := minusResourceBundleData ctns.Allocated c.MemoryMB c.Core,
        Available := minusResourceBundleData ctns.Available c.MemoryMB c.Core } := by
  obtain ⟨h1, h2⟩ := h
  refine ⟨?_, ?_⟩
  · show ctns.Allocated.MemoryMB - c.MemoryMB = containersMemory (kept ++ rest)
    rw [containersMemory_remove kept rest c, ← hc, h1]
  · show ctns.Available.MemoryMB - c.MemoryMB ≤ ctns.Allocated.MemoryMB - c.MemoryMB
    omega

theorem ContainerSetInv_append (ctns : GRMContainerSet) (ctn : GRMContainer)
    (h : ContainerSetInv ctns) : ContainerSetInv (appendGRMContainerSetContainer ctns ctn) := by
  obtain ⟨h1, h2⟩ := h
  refine ⟨?_, ?_⟩
  · show ctns.Allocated.MemoryMB + ctn.MemoryMB = containersMemory (ctns.Containers ++ [ctn])
    rw [containersMemory_append, h1]
  · show ctns.Available.MemoryMB + ctn.MemoryMB ≤ ctns.Allocated.MemoryMB + ctn.MemoryMB
    omega

theorem ContainerSetInv_pop (ctns : GRMContainerSet) (h : ContainerSetInv ctns) :
    ContainerSetInv (popGRMContainerSetContainerList ctns).2 := by
  unfold popGRMContainerSetContainerList
  cases hc : ctns.Containers with
  | nil => exact h
  | cons c rest =>
    exact ContainerSetInv_remove ctns [] rest c h hc

theorem ContainerSetInv_create : ContainerSetInv createGRMContainerSet := by
  refine ⟨?_, ?_⟩ <;> simp [createGRMContainerSet, containersMemory]

theorem ContainerSetInv_emptied : ContainerSetInv emptiedGRMContainerSet := by
  refine ⟨?_, ?_⟩ <;> simp [emptiedGRMContainerSet, containersMemory]

theorem ContainerSetInv_move (tctns sctns : GRMContainerSet) (ht : ContainerSetInv tctns)
    (hs : ContainerSetInv sctns) :
    ContainerSetInv (moveGRMContainerSetContainerList tctns sctns).1 ∧
    ContainerSetInv (moveGRMContainerSetContainerList tctns sctns).2 := by
  obtain ⟨h1, h2⟩ := ht
  obtain ⟨h3, h4⟩ := hs
  refine ⟨⟨?_, ?_⟩, ContainerSetInv_emptied⟩
  · show tctns.Allocated.MemoryMB + sctns.Allocated.MemoryMB =
      containersMemory (tctns.Containers ++ sctns.Containers)
    simp only [containersMemory, List.map_append, List.sum_append] at h1 h3 ⊢
    omega
  · show tctns.Available.MemoryMB + sctns.Available.MemoryMB ≤
      tctns.Allocated.MemoryMB + sctns.Allocated.MemoryMB
    omega

/-- A segment whose container set of one ratio index is replaced, and whose counters
change by the difference of the counters of the old and the new set, keeps its
invariant. -/
theorem SegResourceInv_update (r r1 : SegResource) (j : Nat) (o : Option GRMContainerSet)
    (new : GRMContainerSet) (hinv : SegResourceInv r) (hold : r.ContainerSets[j]? = some o)
    (hsets : r1.ContainerSets = r.ContainerSets.set j (some new))
    (hnew : ContainerSetInv new)
    (hAm : r1.Allocated.MemoryMB =
      r.Allocated.MemoryMB - entryMemory (fun s => s.Allocated.MemoryMB) o +
        new.Allocated.MemoryMB)
    (hAc : r1.Allocated.Core =
      r.Allocated.Core - entryCore (fun s => s.Allocated.Core) o + new.Allocated.Core)
    (hVm : r1.Available.MemoryMB =
      r.Available.MemoryMB - entryMemory (fun s => s.Available.MemoryMB) o +
        new.Available.MemoryMB)
    (hVc : r1.Available.Core =
      r.Available.Core - entryCore (fun s => s.Available.Core) o + new.Available.Core) :
    SegResourceInv r1 := by
  obtain ⟨h0, h1, h2, h3, h4⟩ := hinv
  refine ⟨?_, ?_, ?_, ?_, ?_⟩
  · intro e he
    rw [hsets] at he
    rcases List.mem_or_eq_of_mem_set he with h | h
    · exact h0 e h
    · subst h; exact hnew
  · rw [hAm, hsets, h1]
    unfold setsMemory
    rw [sum_map_set_sub _ _ j o (some new) hold]
    rfl
  · rw [hAc, hsets, h2]
    unfold setsCore
    rw [sum_map_set_sub _ _ j o (some new) hold]
    rfl
  · rw [hVm, hsets, h3]
    unfold setsMemory
    rw [sum_map_set_sub _ _ j o (some new) hold]
    rfl
  · rw [hVc, hsets, h4]
    unfold setsCore
    rw [sum_map_set_sub _ _ j o (some new) hold]
    rfl

theorem mem_of_getElem?_some {α : Type} (l : List α) (i : Nat) (x : α) (h : l[i]? = some x) :
    x ∈ l := by
  obtain ⟨hlt, rfl⟩ := List.getElem?_eq_some_iff.1 h
  exact List.getElem_mem hlt

theorem getElem?_of_getD_some {α : Type} (l : List (Option α)) (j : Nat) (x : α)
    (h : l.getD j none = some x) : l[j]? = some (some x) := by
  rw [List.getD_eq_getElem?_getD] at h
  cases hj : l[j]? with
  | none => rw [hj] at h; cases h
  | some o =>
    rw [hj] at h
    simp only [Option.getD_some] at h
    rw [h]

/-- The segments of a pool in which the segment `i` has been replaced by one that
satisfies the invariant. -/
theorem PoolInv_set (segs : List SegResource) (i : Nat) (r1 : SegResource)
    (h : ∀ r ∈ segs, SegResourceInv r) (h1 : SegResourceInv r1) :
    ∀ r ∈ segs.set i r1, SegResourceInv r := by
  intro r hr
  rcases List.mem_or_eq_of_mem_set hr with h2 | h2
  · exact h r h2
  · subst h2; exact h1

theorem mem_of_getSegResource (segs : List SegResource) (i : Nat) (r : SegResource)
    (h : getSegResource segs i = some r) : r ∈ segs := by
  unfold getSegResource at h
  obtain ⟨hlt, rfl⟩ := List.getElem?_eq_some_iff.1 h
  exact List.getElem_mem hlt
/-! ## The counters of the container sets: the operations on a segment -/

/-- The segment after one container has left the set of a ratio index and the counters
of the segment, whatever else changes in fields that the invariant does not read. -/
theorem SegResourceInv_take (r r1 : SegResource) (j : Nat) (ctns : GRMContainerSet)
    (kept rest : List GRMContainer) (c : GRMContainer) (hinv : SegResourceInv r)
    (hset : r.ContainerSets.getD j none = some ctns)
    (hc : ctns.Containers = kept ++ c :: rest)
    (hsets : r1.ContainerSets = r.ContainerSets.set j
      (some { Containers := kept ++ rest,
              Allocated := minusResourceBundleData ctns.Allocated c.MemoryMB c.Core,
              Available := minusResourceBundleData ctns.Available c.MemoryMB c.Core }))
    (hA : r1.Allocated = minusResourceBundleData r.Allocated c.MemoryMB c.Core)
    (hV : r1.Available = minusResourceBundleData r.Available c.MemoryMB c.Core) :
    SegResourceInv r1 := by
  have hold := getElem?_of_getD_some _ _ _ hset
  have hctns : ContainerSetInv ctns := hinv.1 (some ctns) (mem_of_getElem?_some _ _ _ hold)
  refine SegResourceInv_update r r1 j (some ctns) _ hinv hold hsets
    (ContainerSetInv_remove ctns kept rest c hctns hc) ?_ ?_ ?_ ?_
  · rw [hA]; simp only [minusResourceBundleData, entryMemory]; omega
  · rw [hA]; simp only [minusResourceBundleData, entryCore]; ring
  · rw [hV]; simp only [minusResourceBundleData, entryMemory]; omega
  · rw [hV]; simp only [minusResourceBundleData, entryCore]; ring

theorem allocateResourceFromSegment_inv (segres : SegResource) (rindex : Nat)
    (ctns : GRMContainerSet) (memory : Int) (core : ℚ) (slicesize : Int)
    (hinv : SegResourceInv segres)
    (hset : segres.ContainerSets.getD rindex none = some ctns) (hmem : 0 ≤ memory) :
    SegResourceInv (allocateResourceFromSegment segres rindex ctns memory core slicesize) := by
  have hold := getElem?_of_getD_some _ _ _ hset
  have hctns : ContainerSetInv ctns := hinv.1 (some ctns) (mem_of_getElem?_some _ _ _ hold)
  refine SegResourceInv_update segres _ rindex (some ctns)
    { ctns with Available := minusResourceBundleData ctns.Available memory core } hinv hold rfl
    ⟨hctns.1, ?_⟩ ?_ ?_ ?_ ?_
  · show ctns.Available.MemoryMB - memory ≤ ctns.Allocated.MemoryMB
    have := hctns.2
    omega
  · simp only [allocateResourceFromSegment, entryMemory]; omega
  · simp only [allocateResourceFromSegment, entryCore]; ring
  · simp only [allocateResourceFromSegment, minusResourceBundleData, entryMemory]; omega
  · simp only [allocateResourceFromSegment, minusResourceBundleData, entryCore]; ring

theorem recycleResourceToSegment_inv (segres : SegResource) (rindex : Nat)
    (ctns : Option GRMContainerSet) (memory : Int) (core : ℚ) (iobytes slicesize : Int)
    (hinv : SegResourceInv segres)
    (hset : segres.ContainerSets.getD rindex none = ctns)
    (hmem : ∀ c, ctns = some c → c.Available.MemoryMB + memory ≤ c.Allocated.MemoryMB) :
    SegResourceInv
      (recycleResourceToSegment segres rindex ctns memory core iobytes slicesize) := by
  cases ctns with
  | none => exact hinv
  | some c =>
    have hold := getElem?_of_getD_some _ _ _ hset
    have hctns : ContainerSetInv c := hinv.1 (some c) (mem_of_getElem?_some _ _ _ hold)
    refine SegResourceInv_update segres _ rindex (some c)
      { c with Available := addResourceBundleData c.Available memory core } hinv hold rfl
      ⟨hctns.1, hmem c rfl⟩ ?_ ?_ ?_ ?_
    · simp only [recycleResourceToSegment, entryMemory]; omega
    · simp only [recycleResourceToSegment, entryCore]; ring
    · simp only [recycleResourceToSegment, addResourceBundleData, entryMemory]; omega
    · simp only [recycleResourceToSegment, addResourceBundleData, entryCore]; ring

theorem reorderAllocIndexByRatio_segments (g : RMGlobals) (segid : Nat)
    (pool pool1 : ResourcePool) (ratio : Nat)
    (h : reorderAllocIndexByRatio g segid pool ratio = some pool1) :
    ∃ trees, pool1 = { pool with OrderedSegResAllocByRatio := trees } := by
  unfold reorderAllocIndexByRatio at h
  cases hidx : getResourceQueueRatioIndex g ratio with
  | none =>
    rw [hidx] at h
    simp only [Option.some.injEq] at h
    exact ⟨pool.OrderedSegResAllocByRatio, h.symm⟩
  | some rindex =>
    rw [hidx] at h
    dsimp only at h
    cases htree : pool.OrderedSegResAllocByRatio.getD rindex none with
    | none => rw [htree] at h; cases h
    | some tree =>
      rw [htree] at h
      simp only [Option.some.injEq] at h
      exact ⟨_, h.symm⟩

theorem addGRMContainerToResPool_inv (g : RMGlobals) (pool pool1 : ResourcePool)
    (container : GRMContainer) (hinv : PoolInv pool)
    (h : addGRMContainerToResPool g pool container = some pool1) : PoolInv pool1 := by
  unfold addGRMContainerToResPool at h
  cases hres : container.Resource with
  | none => rw [hres] at h; cases h
  | some segid =>
    rw [hres] at h
    dsimp only at h
    cases hseg : getSegResource pool.Segments segid with
    | none => rw [hseg] at h; cases h
    | some segresource =>
      rw [hseg] at h
      dsimp only at h
      by_cases hcore : container.Core = 0
      · rw [if_pos hcore] at h; cases h
      · rw [if_neg hcore] at h
        cases hidx : getResourceQueueRatioIndex g (containerRatio container) with
        | none => rw [hidx] at h; cases h
        | some rindex =>
          rw [hidx] at h
          dsimp only at h
          by_cases hlt : rindex < segresource.ContainerSets.length
          · rw [if_pos hlt] at h
            obtain ⟨trees, rfl⟩ := reorderAllocIndexByRatio_segments g segid _ pool1 _ h
            have hr : SegResourceInv segresource :=
              hinv segresource (mem_of_getSegResource _ _ _ hseg)
            have hold : segresource.ContainerSets[rindex]? =
                some (segresource.ContainerSets.getD rindex none) := by
              rw [List.getD_eq_getElem?_getD, List.getElem?_eq_getElem hlt]
              rfl
            have hctns : ContainerSetInv
                ((segresource.ContainerSets.getD rindex none).getD createGRMContainerSet) := by
              cases ho : segresource.ContainerSets.getD rindex none with
              | none => exact ContainerSetInv_create
              | some c =>
                rw [ho] at hold
                exact hr.1 (some c) (mem_of_getElem?_some _ _ _ hold)
            refine PoolInv_set pool.Segments segid _ hinv ?_
            refine SegResourceInv_update segresource _ rindex _ _ hr hold rfl
              (ContainerSetInv_append _ container hctns) ?_ ?_ ?_ ?_
            · cases ho : segresource.ContainerSets.getD rindex none <;>
                simp only [appendGRMContainerSetContainer, addResourceBundleData, entryMemory,
                  createGRMContainerSet, Option.getD_none, Option.getD_some] <;> omega
            · cases ho : segresource.ContainerSets.getD rindex none <;>
                simp only [appendGRMContainerSetContainer, addResourceBundleData, entryCore,
                  createGRMContainerSet, Option.getD_none, Option.getD_some] <;> ring
            · cases ho : segresource.ContainerSets.getD rindex none <;>
                simp only [appendGRMContainerSetContainer, addResourceBundleData, entryMemory,
                  createGRMContainerSet, Option.getD_none, Option.getD_some] <;> omega
            · cases ho : segresource.ContainerSets.getD rindex none <;>
                simp only [appendGRMContainerSetContainer, addResourceBundleData, entryCore,
                  createGRMContainerSet, Option.getD_none, Option.getD_some] <;> ring
          · rw [if_neg hlt] at h; cases h
/-! ## What the loops over the containers preserve -/

/-- A property kept by each pass of a loop that threads an optional state is kept by
the loop. -/
theorem foldl_bind_preserves {α β : Type} (P : α → Prop) (f : α → β → Option α)
    (hstep : ∀ (p p1 : α) (x : β), P p → f p x = some p1 → P p1) :
    ∀ (l : List β) (p p1 : α),
      l.foldl (fun acc x => acc.bind fun q => f q x) (some p) = some p1 → P p → P p1 := by
  intro l
  induction l with
  | nil =>
    intro p p1 h hp
    simp only [List.foldl_nil, Option.some.injEq] at h
    subst h
    exact hp
  | cons a l ih =>
    intro p p1 h hp
    simp only [List.foldl_cons, Option.some_bind] at h
    cases hf : f p a with
    | none =>
      rw [hf, foldl_bind_none] at h
      cases h
    | some p2 =>
      rw [hf] at h
      exact ih p2 p1 h (hstep p p2 a hp hf)

/-- What holds of the pool, is kept when the allocation indices change and is kept when
the first container of a set is returned, holds after the loop of
`timeoutIdleGRMResourceToRBByRatio`. -/
theorem timeoutLoop_preserves (P : ResourcePool → Prop) (g : RMGlobals) (ratio rindex : Nat)
    (segminnum : Int) (hidx : getResourceQueueRatioIndex g ratio = some rindex)
    (htree : ∀ (pool : ResourcePool) (trees : List (Option (List Nat))),
      P pool → P { pool with OrderedSegResAllocByRatio := trees })
    (htake : ∀ (st : TimeoutState) (tree : List Nat) (node : Nat) (resource : SegResource)
      (ctns : GRMContainerSet) (c : GRMContainer) (crest : List GRMContainer),
      P st.pool → getSegResource st.pool.Segments node = some resource →
      resource.ContainerSets.getD rindex none = some ctns → ctns.Containers = c :: crest →
      P (timeoutTakeContainer g ratio rindex st tree node resource ctns c).pool) :
    ∀ (n : Nat) (st st1 : TimeoutState),
      timeoutLoop g ratio rindex segminnum n st = some st1 → P st.pool → P st1.pool := by
  intro n
  induction n with
  | zero =>
    intro st st1 h hp
    simp only [timeoutLoop, Option.some.injEq] at h
    subst h
    exact hp
  | succ n ih =>
    intro st st1 h hp
    unfold timeoutLoop at h
    cases hit : timeoutIteration g ratio rindex segminnum st with
    | none => rw [hit] at h; cases h
    | some r =>
      obtain ⟨b, st2⟩ := r
      rw [hit] at h
      have hp2 : P st2.pool := by
        rcases timeoutIteration_cases g ratio rindex segminnum st st2 b hidx hit with
          ⟨_, rfl⟩ | ⟨_, node, rest, _, rfl⟩ |
          ⟨_, node, rest, resource, ctns, c, crest, _, hseg, hset, hc, _, _, _, rfl⟩
        · exact hp
        · exact htree _ _ hp
        · exact htake st _ node resource ctns c crest hp hseg hset hc
      cases b with
      | false =>
        simp only [Option.some.injEq] at h
        subst h
        exact hp2
      | true => exact ih st2 st1 h hp2

theorem timeoutIdleGRMResourceToRBByRatio_preserves (P : ResourcePool → Prop) (g : RMGlobals)
    (trackers : List (Option DynMemoryCoreRatioTrack)) (pool pool1 : ResourcePool)
    (ratioindex retcontnum : Nat) (segminnum : Int) (real : Nat)
    (htree : ∀ (pool : ResourcePool) (trees : List (Option (List Nat))),
      P pool → P { pool with OrderedSegResAllocByRatio := trees })
    (htake : ∀ (ratio rindex : Nat) (st : TimeoutState) (tree : List Nat) (node : Nat)
      (resource : SegResource) (ctns : GRMContainerSet) (c : GRMContainer)
      (crest : List GRMContainer),
      P st.pool → getSegResource st.pool.Segments node = some resource →
      resource.ContainerSets.getD rindex none = some ctns → ctns.Containers = c :: crest →
      P (timeoutTakeContainer g ratio rindex st tree node resource ctns c).pool)
    (h : timeoutIdleGRMResourceToRBByRatio g trackers pool ratioindex retcontnum segminnum =
      some (pool1, real))
    (hp : P pool) : P pool1 := by
  unfold timeoutIdleGRMResourceToRBByRatio at h
  cases htr : trackers.getD ratioindex none with
  | none => rw [htr] at h; cases h
  | some tracker =>
    rw [htr] at h
    dsimp only at h
    cases hidx : getResourceQueueRatioIndex g tracker.MemCoreRatio.toNat with
    | none =>
      rw [hidx] at h
      simp only [Option.some.injEq, Prod.mk.injEq] at h
      rw [← h.1]
      exact hp
    | some rindex =>
      rw [hidx] at h
      dsimp only at h
      cases hloop : timeoutLoop g tracker.MemCoreRatio.toNat rindex segminnum retcontnum
          { pool := pool, realretcontnum := 0, tempskipnodes := [] } with
      | none => rw [hloop] at h; cases h
      | some st =>
        rw [hloop] at h
        simp only [Option.some.injEq, Prod.mk.injEq] at h
        rw [← h.1]
        have hst : P st.pool :=
          timeoutLoop_preserves P g _ rindex segminnum hidx htree
            (htake tracker.MemCoreRatio.toNat rindex) retcontnum _ st hloop hp
        unfold timeoutReinsert
        split
        · exact hst
        · exact htree _ _ hst

/-! ## The counters of the container sets through the loops -/

theorem PoolInv_trees (pool : ResourcePool) (trees : List (Option (List Nat)))
    (h : PoolInv pool) : PoolInv { pool with OrderedSegResAllocByRatio := trees } := h

theorem timeoutTakeContainer_inv (g : RMGlobals) (ratio rindex : Nat) (st : TimeoutState)
    (tree : List Nat) (node : Nat) (resource : SegResource) (ctns : GRMContainerSet)
    (c : GRMContainer) (crest : List GRMContainer) (hinv : PoolInv st.pool)
    (hseg : getSegResource st.pool.Segments node = some resource)
    (hset : resource.ContainerSets.getD rindex none = some ctns)
    (hc : ctns.Containers = c :: crest) :
    PoolInv (timeoutTakeContainer g ratio rindex st tree node resource ctns c).pool := by
  unfold PoolInv
  rw [timeoutTakeContainer_segments g ratio rindex st tree node resource ctns c hseg]
  refine PoolInv_set _ node _ hinv ?_
  refine SegResourceInv_take resource _ rindex ctns [] crest c
    (hinv resource (mem_of_getSegResource _ _ _ hseg)) hset hc ?_ rfl rfl
  simp only [popGRMContainerSetContainerList, hc, List.nil_append]

theorem timeoutIdleGRMResourceToRBByRatio_inv (g : RMGlobals)
    (trackers : List (Option DynMemoryCoreRatioTrack)) (pool pool1 : ResourcePool)
    (ratioindex retcontnum : Nat) (segminnum : Int) (real : Nat) (hinv : PoolInv pool)
    (h : timeoutIdleGRMResourceToRBByRatio g trackers pool ratioindex retcontnum segminnum =
      some (pool1, real)) : PoolInv pool1 :=
  timeoutIdleGRMResourceToRBByRatio_preserves PoolInv g trackers pool pool1 ratioindex
    retcontnum segminnum real PoolInv_trees
    (fun ratio rindex st tree node resource ctns c crest hp hseg hset hc =>
      timeoutTakeContainer_inv g ratio rindex st tree node resource ctns c crest hp hseg hset hc)
    h hinv

/-- The segment `segid` of the pool after a removal by `checkGRMContainerStatus`. -/
theorem poolAfterCheckRemoval_segments (pool : ResourcePool) (segid ridx : Nat)
    (segres : SegResource) (ctnset : GRMContainerSet) (kept rest : List GRMContainer)
    (ctn : GRMContainer) (trees : List (Option (List Nat)))
    (hseg : getSegResource pool.Segments segid = some segres) :
    (poolAfterCheckRemoval pool segid ridx segres ctnset kept rest ctn trees).Segments =
      pool.Segments.set segid
        { segres with
          ContainerSets := segres.ContainerSets.set ridx
            (some { Containers := kept ++ rest,
                    Allocated := minusResourceBundleData ctnset.Allocated ctn.MemoryMB ctn.Core,
                    Available :=
                      minusResourceBundleData ctnset.Available ctn.MemoryMB ctn.Core }),
          Allocated := minusResourceBundleData segres.Allocated ctn.MemoryMB ctn.Core,
          Available := minusResourceBundleData segres.Available ctn.MemoryMB ctn.Core,
          DecPending := addResourceBundleData segres.DecPending ctn.MemoryMB ctn.Core } := by
  have hlt : segid < pool.Segments.length := by
    unfold getSegResource at hseg
    exact (List.getElem?_eq_some_iff.1 hseg).1
  simp only [poolAfterCheckRemoval, addGRMContainerToToBeKicked, getSegResource,
    List.getElem?_set_self hlt, List.set_set]

/-- What holds of the pool and is kept by each removal holds after the walk of
`checkGRMContainerStatus` over the containers of a set. -/
theorem checkContainerCells_preserves (P : ResourcePool → Prop) (g : RMGlobals)
    (stattbl : List (Nat × Bool)) (segid ridx : Nat) (ratio : Int)
    (hstep : ∀ (pool : ResourcePool) (segres : SegResource) (ctnset : GRMContainerSet)
      (kept rest : List GRMContainer) (ctn : GRMContainer) (trees : List (Option (List Nat))),
      P pool → getSegResource pool.Segments segid = some segres →
      segres.ContainerSets.getD ridx none = some ctnset →
      ctnset.Containers = kept ++ ctn :: rest →
      P (poolAfterCheckRemoval pool segid ridx segres ctnset kept rest ctn trees)) :
    ∀ (cells kept : List GRMContainer) (pool pool1 : ResourcePool),
      checkContainerCells g stattbl segid ridx ratio cells kept pool = some pool1 →
      (∃ segres ctnset, getSegResource pool.Segments segid = some segres ∧
        segres.ContainerSets.getD ridx none = some ctnset ∧
        ctnset.Containers = kept ++ cells) →
      P pool → P pool1 := by
  intro cells
  induction cells with
  | nil =>
    intro kept pool pool1 h _ hp
    simp only [checkContainerCells, Option.some.injEq] at h
    subst h
    exact hp
  | cons ctn rest ih =>
    intro kept pool pool1 h hcur hp
    obtain ⟨segres, ctnset, hseg, hset, hc⟩ := hcur
    unfold checkContainerCells at h
    by_cases hact : stattbl.lookup ctn.ID = some true
    · rw [if_pos hact] at h
      exact ih (kept ++ [ctn]) pool pool1 h
        ⟨segres, ctnset, hseg, hset, by rw [hc]; simp⟩ hp
    · rw [if_neg hact, hseg] at h
      dsimp only at h
      rw [hset] at h
      dsimp only at h
      cases hre : reorderAllocIndexByRatio g segid
          { pool with
            Segments := pool.Segments.set segid
              { segres with
                ContainerSets := segres.ContainerSets.set ridx
                  (some { Containers := kept ++ rest,
                          Allocated :=
                            minusResourceBundleData ctnset.Allocated ctn.MemoryMB ctn.Core,
                          Available :=
                            minusResourceBundleData ctnset.Available ctn.MemoryMB ctn.Core }),
                Allocated := minusResourceBundleData segres.Allocated ctn.MemoryMB ctn.Core,
                Available := minusResourceBundleData segres.Available ctn.MemoryMB ctn.Core } }
          ratio.toNat with
      | none => rw [hre] at h; cases h
      | some pool2 =>
        rw [hre] at h
        dsimp only at h
        obtain ⟨trees, rfl⟩ := reorderAllocIndexByRatio_segments g segid _ pool2 _ hre
        have hlt : segid < pool.Segments.length := by
          unfold getSegResource at hseg
          exact (List.getElem?_eq_some_iff.1 hseg).1
        have hr : ridx < segres.ContainerSets.length := by
          by_contra hge
          rw [List.getD_eq_default _ _ (by omega)] at hset
          cases hset
        have hh : checkContainerCells g stattbl segid ridx ratio rest kept
            (poolAfterCheckRemoval pool segid ridx segres ctnset kept rest ctn trees) =
            some pool1 := h
        have hsegs := poolAfterCheckRemoval_segments pool segid ridx segres ctnset kept rest
          ctn trees hseg
        refine ih kept _ pool1 hh
          ⟨{ segres with
             ContainerSets := segres.ContainerSets.set ridx
               (some { Containers := kept ++ rest,
                       Allocated :=
                         minusResourceBundleData ctnset.Allocated ctn.MemoryMB ctn.Core,
                       Available :=
                         minusResourceBundleData ctnset.Available ctn.MemoryMB ctn.Core }),
             Allocated := minusResourceBundleData segres.Allocated ctn.MemoryMB ctn.Core,
             Available := minusResourceBundleData segres.Available ctn.MemoryMB ctn.Core,
             DecPending := addResourceBundleData segres.DecPending ctn.MemoryMB ctn.Core },
           { Containers := kept ++ rest,
             Allocated := minusResourceBundleData ctnset.Allocated ctn.MemoryMB ctn.Core,
             Available := minusResourceBundleData ctnset.Available ctn.MemoryMB ctn.Core },
           ?_, ?_, rfl⟩
          (hstep pool segres ctnset kept rest ctn trees hp hseg hset hc)
        · rw [hsegs]
          unfold getSegResource
          rw [List.getElem?_set_self hlt]
        · show (segres.ContainerSets.set ridx _).getD ridx none = _
          rw [List.getD_eq_getElem?_getD, List.getElem?_set_self hr]
          rfl

theorem checkGRMContainerStatus_preserves (P : ResourcePool → Prop) (g : RMGlobals)
    (ratios : List Int) (ctnstats : List (Nat × Bool))
    (hstep : ∀ (pool : ResourcePool) (segid ridx : Nat) (segres : SegResource)
      (ctnset : GRMContainerSet) (kept rest : List GRMContainer) (ctn : GRMContainer)
      (trees : List (Option (List Nat))),
      P pool → getSegResource pool.Segments segid = some segres →
      segres.ContainerSets.getD ridx none = some ctnset →
      ctnset.Containers = kept ++ ctn :: rest →
      P (poolAfterCheckRemoval pool segid ridx segres ctnset kept rest ctn trees))
    (pool pool1 : ResourcePool)
    (h : checkGRMContainerStatus g ratios ctnstats pool = some pool1) (hp : P pool) :
    P pool1 := by
  unfold checkGRMContainerStatus at h
  refine foldl_bind_preserves P _ ?_ _ pool pool1 h hp
  intro p p1 i hp1 hi
  cases hseg : getSegResource p.Segments i with
  | none => rw [hseg] at hi; cases hi
  | some segres0 =>
    rw [hseg] at hi
    dsimp only at hi
    refine foldl_bind_preserves P _ ?_ _ p p1 hi hp1
    intro q q1 ridx hq hr
    unfold checkContainerSet at hr
    cases hs : getSegResource q.Segments i with
    | none => rw [hs] at hr; cases hr
    | some segres =>
      rw [hs] at hr
      dsimp only at hr
      cases hset : segres.ContainerSets.getD ridx none with
      | none =>
        rw [hset] at hr
        simp only [Option.some.injEq] at hr
        subst hr
        exact hq
      | some ctnset =>
        rw [hset] at hr
        dsimp only at hr
        exact checkContainerCells_preserves P g _ i ridx _
          (fun pool segres ctnset kept rest ctn trees =>
            hstep pool i ridx segres ctnset kept rest ctn trees)
          ctnset.Containers [] q q1 hr ⟨segres, ctnset, hs, hset, rfl⟩ hq

theorem poolAfterCheckRemoval_inv (pool : ResourcePool) (segid ridx : Nat)
    (segres : SegResource) (ctnset : GRMContainerSet) (kept rest : List GRMContainer)
    (ctn : GRMContainer) (trees : List (Option (List Nat))) (hinv : PoolInv pool)
    (hseg : getSegResource pool.Segments segid = some segres)
    (hset : segres.ContainerSets.getD ridx none = some ctnset)
    (hc : ctnset.Containers = kept ++ ctn :: rest) :
    PoolInv (poolAfterCheckRemoval pool segid ridx segres ctnset kept rest ctn trees) := by
  unfold PoolInv
  rw [poolAfterCheckRemoval_segments pool segid ridx segres ctnset kept rest ctn trees hseg]
  refine PoolInv_set _ segid _ hinv ?_
  exact SegResourceInv_take segres _ ridx ctnset kept rest ctn
    (hinv segres (mem_of_getSegResource _ _ _ hseg)) hset hc rfl rfl rfl

theorem checkGRMContainerStatus_inv (g : RMGlobals) (ratios : List Int)
    (ctnstats : List (Nat × Bool)) (pool pool1 : ResourcePool) (hinv : PoolInv pool)
    (h : checkGRMContainerStatus g ratios ctnstats pool = some pool1) : PoolInv pool1 :=
  checkGRMContainerStatus_preserves PoolInv g ratios ctnstats
    (fun pool segid ridx segres ctnset kept rest ctn trees hp hseg hset hc =>
      poolAfterCheckRemoval_inv pool segid ridx segres ctnset kept rest ctn trees hp hseg hset hc)
    pool pool1 h hinv

/-! ## C26: the counters of the container sets -/

/-- C26: the invariants of the container sets are preserved.  `ContainerSetInv`
(`Allocated.MemoryMB` is the sum of the memory of the listed containers and
`Available.MemoryMB <= Allocated.MemoryMB`) is preserved by
`appendGRMContainerSetContainer`, `popGRMContainerSetContainerList` and
`moveGRMContainerSetContainerList`; `SegResourceInv` (every set of the segment satisfies
`ContainerSetInv` and `Allocated`, `Available` of the segment are the sums over its
sets), for every segment of the pool, is preserved by `addGRMContainerToResPool`,
`allocateResourceFromSegment` (of a non-negative amount of memory),
`recycleResourceToSegment` (of an amount that the set has allocated and not available),
`timeoutIdleGRMResourceToRBByRatio` and `checkGRMContainerStatus`. -/
theorem container_set_invariants_preserved :
    (∀ (ctns : GRMContainerSet) (ctn : GRMContainer),
      ContainerSetInv ctns → ContainerSetInv (appendGRMContainerSetContainer ctns ctn)) ∧
    (∀ ctns : GRMContainerSet,
      ContainerSetInv ctns → ContainerSetInv (popGRMContainerSetContainerList ctns).2) ∧
    (∀ tctns sctns : GRMContainerSet, ContainerSetInv tctns → ContainerSetInv sctns →
      ContainerSetInv (moveGRMContainerSetContainerList tctns sctns).1 ∧
      ContainerSetInv (moveGRMContainerSetContainerList tctns sctns).2) ∧
    (∀ (g : RMGlobals) (pool pool1 : ResourcePool) (container : GRMContainer),
      PoolInv pool → addGRMContainerToResPool g pool container = some pool1 → PoolInv pool1) ∧
    (∀ (segres : SegResource) (rindex : Nat) (ctns : GRMContainerSet) (memory : Int) (core : ℚ)
      (slicesize : Int),
      SegResourceInv segres → segres.ContainerSets.getD rindex none = some ctns → 0 ≤ memory →
      SegResourceInv (allocateResourceFromSegment segres rindex ctns memory core slicesize)) ∧
    (∀ (segres : SegResource) (rindex : Nat) (ctns : Option GRMContainerSet) (memory : Int)
      (core : ℚ) (iobytes slicesize : Int),
      SegResourceInv segres → segres.ContainerSets.getD rindex none = ctns →
      (∀ c, ctns = some c → c.Available.MemoryMB + memory ≤ c.Allocated.MemoryMB) →
      SegResourceInv
        (recycleResourceToSegment segres rindex ctns memory core iobytes slicesize)) ∧
    (∀ (g : RMGlobals) (trackers : List (Option DynMemoryCoreRatioTrack))
      (pool pool1 : ResourcePool) (ratioindex retcontnum : Nat) (segminnum : Int) (real : Nat),
      PoolInv pool →
      timeoutIdleGRMResourceToRBByRatio g trackers pool ratioindex retcontnum segminnum =
        some (pool1, real) →
      PoolInv pool1) ∧
    (∀ (g : RMGlobals) (ratios : List Int) (ctnstats : List (Nat × Bool))
      (pool pool1 : ResourcePool),
      PoolInv pool → checkGRMContainerStatus g ratios ctnstats pool = some pool1 →
      PoolInv pool1) :=
  ⟨ContainerSetInv_append, ContainerSetInv_pop, ContainerSetInv_move,
   fun g pool pool1 container hinv h => addGRMContainerToResPool_inv g pool pool1 container hinv h,
   allocateResourceFromSegment_inv, recycleResourceToSegment_inv,
   fun g trackers pool pool1 ratioindex retcontnum segminnum real hinv h =>
     timeoutIdleGRMResourceToRBByRatio_inv g trackers pool pool1 ratioindex retcontnum
       segminnum real hinv h,
   fun g ratios ctnstats pool pool1 hinv h =>
     checkGRMContainerStatus_inv g ratios ctnstats pool pool1 hinv h⟩

/-- The invariant holds of the pool `exBreathPool`; `timeoutIdleGRMResourceToRBByRatio`
returns 2 of its containers and the invariant holds of the pool left. -/
theorem container_set_invariants_preserved_witness :
    PoolInv exBreathPool ∧
    timeoutIdleGRMResourceToRBByRatio exBreathGlobals [some { MemCoreRatio := 1024 }]
      exBreathPool 0 4 2 = some (exBreathReturned.1, exBreathReturned.2) ∧
    exBreathReturned.2 = 2 ∧
    PoolInv exBreathReturned.1 := by
  have hinv : PoolInv exBreathPool := by decide!
  have hrun : timeoutIdleGRMResourceToRBByRatio exBreathGlobals [some { MemCoreRatio := 1024 }]
      exBreathPool 0 4 2 = some (exBreathReturned.1, exBreathReturned.2) := by decide!
  exact ⟨hinv, hrun, by decide!,
    container_set_invariants_preserved.2.2.2.2.2.2.1 exBreathGlobals
      [some { MemCoreRatio := 1024 }] exBreathPool exBreathReturned.1 0 4 2 exBreathReturned.2
      hinv hrun⟩

/-! ## The stages of the containers: membership -/

theorem mem_containerIDs (l : List GRMContainer) (id : Nat) :
    id ∈ containerIDs l ↔ ∃ c ∈ l, c.ID = id := by
  simp [containerIDs]

theorem mem_tableContainerIDs (tbl : List (String × GRMContainerSet)) (id : Nat) :
    id ∈ tableContainerIDs tbl ↔ ∃ e ∈ tbl, id ∈ containerIDs e.2.Containers := by
  simp [tableContainerIDs, List.mem_flatMap]

theorem mem_segmentContainerIDs (r : SegResource) (id : Nat) :
    id ∈ segmentContainerIDs r ↔
      ∃ s, some s ∈ r.ContainerSets ∧ id ∈ containerIDs s.Containers := by
  unfold segmentContainerIDs
  rw [List.mem_flatMap]
  constructor
  · rintro ⟨o, ho, hid⟩
    cases o with
    | none => simp at hid
    | some s => exact ⟨s, ho, hid⟩
  · rintro ⟨s, hs, hid⟩
    exact ⟨some s, hs, hid⟩

theorem mem_inPool (pool : ResourcePool) (id : Nat) :
    id ∈ stageIDs Stage.inPool pool ↔ ∃ r ∈ pool.Segments, id ∈ segmentContainerIDs r := by
  simp [stageIDs, List.mem_flatMap]

/-- The containers of the segments after the segment `i` has been replaced. -/
theorem mem_segments_set (segs : List SegResource) (i : Nat) (r1 : SegResource) (id : Nat)
    (h : id ∈ (segs.set i r1).flatMap segmentContainerIDs) :
    id ∈ segs.flatMap segmentContainerIDs ∨ id ∈ segmentContainerIDs r1 := by
  rw [List.mem_flatMap] at h
  obtain ⟨r, hr, hid⟩ := h
  rcases List.mem_or_eq_of_mem_set hr with h1 | h1
  · exact Or.inl (List.mem_flatMap.2 ⟨r, h1, hid⟩)
  · subst h1; exact Or.inr hid

/-- The containers of a segment after the set of one ratio index has been replaced. -/
theorem mem_sets_set (sets : List (Option GRMContainerSet)) (r r1 : SegResource) (j : Nat)
    (s1 : GRMContainerSet) (id : Nat) (hr : r.ContainerSets = sets)
    (hsets : r1.ContainerSets = sets.set j (some s1))
    (h : id ∈ segmentContainerIDs r1) :
    id ∈ segmentContainerIDs r ∨ id ∈ containerIDs s1.Containers := by
  rw [mem_segmentContainerIDs] at h
  obtain ⟨s, hs, hid⟩ := h
  rw [hsets] at hs
  rcases List.mem_or_eq_of_mem_set hs with h1 | h1
  · rw [← hr] at h1
    exact Or.inl ((mem_segmentContainerIDs r id).2 ⟨s, h1, hid⟩)
  · cases h1; exact Or.inr hid

theorem segmentContainerIDs_congr (r r1 : SegResource)
    (h : r1.ContainerSets = r.ContainerSets) :
    segmentContainerIDs r1 = segmentContainerIDs r := by
  unfold segmentContainerIDs
  rw [h]

theorem mem_inPool_of_segment (segs : List SegResource) (i : Nat) (r : SegResource) (id : Nat)
    (hseg : getSegResource segs i = some r) (h : id ∈ segmentContainerIDs r) :
    id ∈ segs.flatMap segmentContainerIDs :=
  List.mem_flatMap.2 ⟨r, mem_of_getSegResource segs i r hseg, h⟩

theorem mem_segment_of_set (r : SegResource) (j : Nat) (s : GRMContainerSet) (id : Nat)
    (hset : r.ContainerSets.getD j none = some s) (h : id ∈ containerIDs s.Containers) :
    id ∈ segmentContainerIDs r :=
  (mem_segmentContainerIDs r id).2
    ⟨s, mem_of_getElem?_some _ _ _ (getElem?_of_getD_some _ _ _ hset), h⟩

/-- The containers of the segments after the segment `i` has been replaced by one
whose containers were containers of the segment, or are among `extra`. -/
theorem mem_segments_update (segs : List SegResource) (i : Nat) (r r1 : SegResource)
    (extra : List Nat) (hseg : getSegResource segs i = some r)
    (hsub : ∀ id ∈ segmentContainerIDs r1, id ∈ segmentContainerIDs r ∨ id ∈ extra)
    (id : Nat) (h : id ∈ (segs.set i r1).flatMap segmentContainerIDs) :
    id ∈ segs.flatMap segmentContainerIDs ∨ id ∈ extra := by
  rcases mem_segments_set segs i r1 id h with h1 | h1
  · exact Or.inl h1
  · rcases hsub id h1 with h2 | h2
    · exact Or.inl (mem_inPool_of_segment segs i r id hseg h2)
    · exact Or.inr h2

/-- The containers of a table after the set of a host has been given one more
container. -/
theorem mem_table_hashtableSet (tbl : List (String × GRMContainerSet)) (key : String)
    (c : GRMContainer) (id : Nat)
    (h : id ∈ tableContainerIDs
      (hashtableSet tbl key
        (appendGRMContainerSetContainer ((tbl.lookup key).getD createGRMContainerSet) c))) :
    id ∈ tableContainerIDs tbl ∨ id = c.ID := by
  have hlook : ∀ id ∈ containerIDs ((tbl.lookup key).getD createGRMContainerSet).Containers,
      id ∈ tableContainerIDs tbl := by
    intro x hx
    cases hl : tbl.lookup key with
    | none =>
      rw [hl] at hx
      simp [createGRMContainerSet, containerIDs] at hx
    | some s =>
      rw [hl] at hx
      simp only [Option.getD_some] at hx
      have hmem : (key, s) ∈ tbl := by
        clear hx h
        induction tbl with
        | nil => simp at hl
        | cons e tbl ih =>
          obtain ⟨k, v⟩ := e
          by_cases hk : key = k
          · subst hk
            simp only [List.lookup_cons, beq_self_eq_true, Option.some.injEq] at hl
            subst hl
            exact List.mem_cons_self _ _
          · have hb : (key == k) = false := by simpa using hk
            simp only [List.lookup_cons, hb] at hl
            exact List.mem_cons_of_mem _ (ih hl)
      exact (mem_tableContainerIDs tbl x).2 ⟨(key, s), hmem, hx⟩
  have hnew : ∀ x ∈ containerIDs
      (appendGRMContainerSetContainer ((tbl.lookup key).getD createGRMContainerSet)
        c).Containers, x ∈ tableContainerIDs tbl ∨ x = c.ID := by
    intro x hx
    simp only [appendGRMContainerSetContainer, containerIDs, List.map_append, List.map_cons,
      List.map_nil, List.mem_append, List.mem_singleton] at hx
    rcases hx with hx | hx
    · exact Or.inl (hlook x hx)
    · exact Or.inr hx
  rw [mem_tableContainerIDs] at h
  obtain ⟨e, he, hid⟩ := h
  unfold hashtableSet at he
  split at he
  · rw [List.mem_map] at he
    obtain ⟨e0, he0, hee⟩ := he
    by_cases hk : e0.1 = key
    · rw [if_pos hk] at hee
      subst hee
      exact hnew id hid
    · rw [if_neg hk] at hee
      subst hee
      exact Or.inl ((mem_tableContainerIDs tbl id).2 ⟨e0, he0, hid⟩)
  · rw [List.mem_append, List.mem_singleton] at he
    rcases he with he | he
    · exact Or.inl ((mem_tableContainerIDs tbl id).2 ⟨e, he, hid⟩)
    · subst he
      exact hnew id hid

/-- The containers of a table after one of its sets has been emptied. -/
theorem mem_table_emptied (tbl : List (String × GRMContainerSet)) (i : Nat) (key : String)
    (id : Nat) (h : id ∈ tableContainerIDs (tbl.set i (key, emptiedGRMContainerSet))) :
    id ∈ tableContainerIDs tbl := by
  rw [mem_tableContainerIDs] at h
  obtain ⟨e, he, hid⟩ := h
  rcases List.mem_or_eq_of_mem_set he with h1 | h1
  · exact (mem_tableContainerIDs tbl id).2 ⟨e, h1, hid⟩
  · subst h1
    simp [emptiedGRMContainerSet, containerIDs] at hid

theorem mem_table_of_entry (tbl : List (String × GRMContainerSet)) (i : Nat) (key : String)
    (ctns : GRMContainerSet) (id : Nat) (he : tbl[i]? = some (key, ctns))
    (h : id ∈ containerIDs ctns.Containers) : id ∈ tableContainerIDs tbl :=
  (mem_tableContainerIDs tbl id).2 ⟨(key, ctns), mem_of_getElem?_some _ _ _ he, h⟩

/-! ## The stages of the containers: moves -/

theorem Moves_refl (s d : Stage) (p : ResourcePool) : Moves s d p p :=
  fun _ _ h => Or.inl h

theorem Moves_trans (s d : Stage) (hsd : s ≠ d) (p q r : ResourcePool) (h1 : Moves s d p q)
    (h2 : Moves s d q r) : Moves s d p r := by
  intro t id h
  rcases h2 t id h with h3 | ⟨ht, h3⟩
  · exact h1 t id h3
  · rcases h1 s id h3 with h4 | ⟨h4, _⟩
    · exact Or.inr ⟨ht, h4⟩
    · exact absurd h4 hsd

/-- Two pools with the same segments and the same four container lists have the same
stages. -/
theorem Moves_of_same (s d : Stage) (p q : ResourcePool) (hS : q.Segments = p.Segments)
    (hTA : q.ToAcceptContainers = p.ToAcceptContainers)
    (hA : q.AcceptedContainers = p.AcceptedContainers)
    (hTK : q.ToKickContainers = p.ToKickContainers)
    (hK : q.KickedContainers = p.KickedContainers) : Moves s d p q := by
  intro t id h
  left
  cases t <;> simp only [stageIDs] at h ⊢
  · rw [hTA] at h; exact h
  · rw [hA] at h; exact h
  · rw [hS] at h; exact h
  · rw [hTK] at h; exact h
  · rw [hK] at h; exact h
/-! ## The stages of the containers: one container leaves a segment -/

/-- A container of a set of a segment goes to the to-be-kicked table, the set keeping
only containers that it had. -/
theorem Moves_toKick_step (p : ResourcePool) (segid j : Nat) (r rX : SegResource)
    (s s1 : GRMContainerSet) (c : GRMContainer) (trees : List (Option (List Nat)))
    (hseg : getSegResource p.Segments segid = some r)
    (hset : r.ContainerSets.getD j none = some s) (hc : c ∈ s.Containers)
    (hs1 : ∀ x ∈ s1.Containers, x ∈ s.Containers)
    (hsets : rX.ContainerSets = r.ContainerSets.set j (some s1)) :
    Moves Stage.inPool Stage.toKick p
      (addGRMContainerToToBeKicked
        { p with Segments := p.Segments.set segid rX, OrderedSegResAllocByRatio := trees }
        segid c) := by
  have hlt : segid < p.Segments.length := by
    unfold getSegResource at hseg
    exact (List.getElem?_eq_some_iff.1 hseg).1
  have hcin : c.ID ∈ stageIDs Stage.inPool p := by
    refine mem_inPool_of_segment _ segid r _ hseg (mem_segment_of_set r j s _ hset ?_)
    exact (mem_containerIDs _ _).2 ⟨c, hc, rfl⟩
  intro t id h
  cases t
  · exact Or.inl h
  · exact Or.inl h
  · left
    simp only [stageIDs, addGRMContainerToToBeKicked, getSegResource,
      List.getElem?_set_self hlt, List.set_set] at h
    have := mem_segments_update p.Segments segid r _ [] hseg ?_ id h
    · exact this.resolve_right (List.not_mem_nil _)
    · intro x hx
      left
      rcases mem_sets_set r.ContainerSets r _ j s1 x rfl hsets hx with h1 | h1
      · exact h1
      · obtain ⟨c1, hc1, rfl⟩ := (mem_containerIDs _ _).1 h1
        exact mem_segment_of_set r j s _ hset ((mem_containerIDs _ _).2 ⟨c1, hs1 c1 hc1, rfl⟩)
  · simp only [stageIDs, addGRMContainerToToBeKicked] at h
    rcases mem_table_hashtableSet p.ToKickContainers c.HostName
      { c with CalcDecPending := true } id h with h1 | h1
    · exact Or.inl h1
    · exact Or.inr ⟨rfl, by rw [h1]; exact hcin⟩
  · exact Or.inl h

/-- A container of a set of a segment goes to the kicked list, the set keeping only
containers that it had. -/
theorem Moves_kicked_step (p : ResourcePool) (segid j : Nat) (r rX : SegResource)
    (s s1 : GRMContainerSet) (c : GRMContainer)
    (hseg : getSegResource p.Segments segid = some r)
    (hset : r.ContainerSets.getD j none = some s) (hc : c ∈ s.Containers)
    (hs1 : ∀ x ∈ s1.Containers, x ∈ s.Containers)
    (hsets : rX.ContainerSets = r.ContainerSets.set j (some s1)) :
    Moves Stage.inPool Stage.kicked p
      (addGRMContainerToKicked { p with Segments := p.Segments.set segid rX } c) := by
  have hcin : c.ID ∈ stageIDs Stage.inPool p := by
    refine mem_inPool_of_segment _ segid r _ hseg (mem_segment_of_set r j s _ hset ?_)
    exact (mem_containerIDs _ _).2 ⟨c, hc, rfl⟩
  intro t id h
  cases t
  · exact Or.inl h
  · exact Or.inl h
  · left
    simp only [stageIDs, addGRMContainerToKicked] at h
    have := mem_segments_update p.Segments segid r _ [] hseg ?_ id h
    · exact this.resolve_right (List.not_mem_nil _)
    · intro x hx
      left
      rcases mem_sets_set r.ContainerSets r _ j s1 x rfl hsets hx with h1 | h1
      · exact h1
      · obtain ⟨c1, hc1, rfl⟩ := (mem_containerIDs _ _).1 h1
        exact mem_segment_of_set r j s _ hset ((mem_containerIDs _ _).2 ⟨c1, hs1 c1 hc1, rfl⟩)
  · exact Or.inl h
  · simp only [stageIDs, addGRMContainerToKicked, containerIDs, List.map_append, List.map_cons,
      List.map_nil, List.mem_append, List.mem_singleton] at h
    rcases h with h1 | h1
    · exact Or.inl h1
    · exact Or.inr ⟨rfl, by rw [h1]; exact hcin⟩

/-- A segment is replaced by one with the same container sets. -/
theorem Moves_segment_same (s d : Stage) (p : ResourcePool) (segid : Nat) (r rX : SegResource)
    (hseg : getSegResource p.Segments segid = some r)
    (hsets : rX.ContainerSets = r.ContainerSets) :
    Moves s d p { p with Segments := p.Segments.set segid rX } := by
  intro t id h
  left
  cases t
  · exact h
  · exact h
  · simp only [stageIDs] at h
    have := mem_segments_update p.Segments segid r rX [] hseg ?_ id h
    · exact this.resolve_right (List.not_mem_nil _)
    · intro x hx
      left
      rw [segmentContainerIDs_congr r rX hsets] at hx
      exact hx
  · exact h
  · exact h

theorem Moves_trees (s d : Stage) (orig pool : ResourcePool) (trees : List (Option (List Nat)))
    (h : Moves s d orig pool) : Moves s d orig { pool with OrderedSegResAllocByRatio := trees } :=
  fun t id hid => h t id (by cases t <;> exact hid)

/-! ## The stages of the containers: from the segments to the to-be-kicked table -/

theorem timeoutIdleGRMResourceToRBByRatio_moves (g : RMGlobals)
    (trackers : List (Option DynMemoryCoreRatioTrack)) (pool pool1 : ResourcePool)
    (ratioindex retcontnum : Nat) (segminnum : Int) (real : Nat)
    (h : timeoutIdleGRMResourceToRBByRatio g trackers pool ratioindex retcontnum segminnum =
      some (pool1, real)) :
    Moves Stage.inPool Stage.toKick pool pool1 := by
  refine timeoutIdleGRMResourceToRBByRatio_preserves (Moves Stage.inPool Stage.toKick pool) g
    trackers pool pool1 ratioindex retcontnum segminnum real
    (fun p trees hp => Moves_trees _ _ pool p trees hp) ?_ h (Moves_refl _ _ pool)
  intro ratio rindex st tree node resource ctns c crest hp hseg hset hc
  refine Moves_trans _ _ (by decide) pool st.pool _ hp ?_
  exact Moves_toKick_step st.pool node rindex resource _ ctns
    (popGRMContainerSetContainerList ctns).2 c _ hseg hset (by rw [hc]; simp)
    (by
      intro x hx
      simp only [popGRMContainerSetContainerList, hc] at hx
      rw [hc]
      exact List.mem_cons_of_mem _ hx)
    rfl

theorem checkGRMContainerStatus_moves (g : RMGlobals) (ratios : List Int)
    (ctnstats : List (Nat × Bool)) (pool pool1 : ResourcePool)
    (h : checkGRMContainerStatus g ratios ctnstats pool = some pool1) :
    Moves Stage.inPool Stage.toKick pool pool1 := by
  refine checkGRMContainerStatus_preserves (Moves Stage.inPool Stage.toKick pool) g ratios
    ctnstats ?_ pool pool1 h (Moves_refl _ _ pool)
  intro p segid ridx segres ctnset kept rest ctn trees hp hseg hset hc
  refine Moves_trans _ _ (by decide) pool p _ hp ?_
  exact Moves_toKick_step p segid ridx segres _ ctnset
    { Containers := kept ++ rest,
      Allocated := minusResourceBundleData ctnset.Allocated ctn.MemoryMB ctn.Core,
      Available := minusResourceBundleData ctnset.Available ctn.MemoryMB ctn.Core }
    ctn trees hseg hset (by rw [hc]; simp)
    (by
      intro x hx
      rw [hc]
      simp only [List.mem_append, List.mem_cons] at hx ⊢
      rcases hx with hx | hx
      · exact Or.inl hx
      · exact Or.inr (Or.inr hx))
    rfl
/-! ## The stages of the containers: a segment gives up all its containers -/

theorem popAllToToBeKicked_moves (segid i : Nat) :
    ∀ (n : Nat) (pool pool1 : ResourcePool),
      popAllToToBeKicked segid i n pool = some pool1 →
      Moves Stage.inPool Stage.toKick pool pool1 := by
  intro n
  induction n with
  | zero =>
    intro pool pool1 h
    simp only [popAllToToBeKicked, Option.some.injEq] at h
    subst h
    exact Moves_refl _ _ _
  | succ n ih =>
    intro pool pool1 h
    unfold popAllToToBeKicked at h
    cases hseg : getSegResource pool.Segments segid with
    | none => rw [hseg] at h; cases h
    | some segres =>
      rw [hseg] at h
      dsimp only at h
      cases hset : segres.ContainerSets.getD i none with
      | none => rw [hset] at h; cases h
      | some ctns =>
        rw [hset] at h
        dsimp only at h
        cases hc : ctns.Containers with
        | nil =>
          simp only [popGRMContainerSetContainerList, hc, Option.some.injEq] at h
          subst h
          exact Moves_refl _ _ _
        | cons c rest =>
          simp only [popGRMContainerSetContainerList, hc] at h
          refine Moves_trans _ _ (by decide) pool _ pool1 ?_ (ih _ pool1 h)
          exact Moves_toKick_step pool segid i segres _ ctns _ c pool.OrderedSegResAllocByRatio
            hseg hset (by rw [hc]; simp)
            (fun x hx => by rw [hc]; exact List.mem_cons_of_mem _ hx) rfl

theorem popAllToKicked_moves (segid i : Nat) :
    ∀ (n : Nat) (pool pool1 : ResourcePool),
      popAllToKicked segid i n pool = some pool1 →
      Moves Stage.inPool Stage.kicked pool pool1 := by
  intro n
  induction n with
  | zero =>
    intro pool pool1 h
    simp only [popAllToKicked, Option.some.injEq] at h
    subst h
    exact Moves_refl _ _ _
  | succ n ih =>
    intro pool pool1 h
    unfold popAllToKicked at h
    cases hseg : getSegResource pool.Segments segid with
    | none => rw [hseg] at h; cases h
    | some segres =>
      rw [hseg] at h
      dsimp only at h
      cases hset : segres.ContainerSets.getD i none with
      | none => rw [hset] at h; cases h
      | some ctns =>
        rw [hset] at h
        dsimp only at h
        cases hc : ctns.Containers with
        | nil =>
          simp only [popGRMContainerSetContainerList, hc, Option.some.injEq] at h
          subst h
          exact Moves_refl _ _ _
        | cons c rest =>
          simp only [popGRMContainerSetContainerList, hc] at h
          refine Moves_trans _ _ (by decide) pool _ pool1 ?_ (ih _ pool1 h)
          exact Moves_kicked_step pool segid i segres _ ctns _ c hseg hset (by rw [hc]; simp)
            (fun x hx => by rw [hc]; exact List.mem_cons_of_mem _ hx) rfl

theorem reorderAllocIndexByRatio_moves (s d : Stage) (g : RMGlobals) (segid : Nat)
    (orig pool pool1 : ResourcePool) (ratio : Nat) (hp : Moves s d orig pool)
    (h : reorderAllocIndexByRatio g segid pool ratio = some pool1) : Moves s d orig pool1 := by
  obtain ⟨trees, rfl⟩ := reorderAllocIndexByRatio_segments g segid pool pool1 ratio h
  exact Moves_trees s d orig pool trees hp

theorem dropAllOfRatio_moves (g : RMGlobals) (segid : Nat) (pool pool1 : ResourcePool) (i : Nat)
    (ratio : Int) (h : dropAllOfRatio g segid pool i ratio = some pool1) :
    Moves Stage.inPool Stage.toKick pool pool1 := by
  unfold dropAllOfRatio at h
  cases hseg : getSegResource pool.Segments segid with
  | none => rw [hseg] at h; cases h
  | some segres =>
    rw [hseg] at h
    dsimp only at h
    cases hset : segres.ContainerSets.getD i none with
    | none =>
      rw [hset] at h
      simp only [Option.some.injEq] at h
      subst h
      exact Moves_refl _ _ _
    | some ctns =>
      rw [hset] at h
      dsimp only at h
      cases hpop : popAllToToBeKicked segid i ctns.Containers.length pool with
      | none => rw [hpop] at h; cases h
      | some p1 =>
        rw [hpop] at h
        dsimp only at h
        have hm1 := popAllToToBeKicked_moves segid i _ pool p1 hpop
        cases hseg1 : getSegResource p1.Segments segid with
        | none => rw [hseg1] at h; cases h
        | some segres1 =>
          rw [hseg1] at h
          dsimp only at h
          cases hset1 : segres1.ContainerSets.getD i none with
          | none => rw [hset1] at h; cases h
          | some ctns1 =>
            rw [hset1] at h
            dsimp only at h
            refine reorderAllocIndexByRatio_moves _ _ g segid pool _ pool1 _ ?_ h
            refine Moves_trans _ _ (by decide) pool p1 _ hm1 ?_
            intro t id hid
            left
            cases t
            · exact hid
            · exact hid
            · simp only [stageIDs] at hid
              refine (mem_segments_update p1.Segments segid segres1 _ [] hseg1 ?_ id
                hid).resolve_right (List.not_mem_nil _)
              intro x hx
              left
              rcases mem_sets_set segres1.ContainerSets segres1 _ i _ x rfl rfl hx with h1 | h1
              · exact h1
              · exact mem_segment_of_set segres1 i ctns1 _ hset1 h1
            · exact hid
            · exact hid

theorem dropAllGRMContainersFromSegment_moves (g : RMGlobals) (ratios : List Int)
    (pool pool1 : ResourcePool) (segid : Nat)
    (h : dropAllGRMContainersFromSegment g ratios pool segid = some pool1) :
    Moves Stage.inPool Stage.toKick pool pool1 := by
  unfold dropAllGRMContainersFromSegment at h
  cases hseg : getSegResource pool.Segments segid with
  | none => rw [hseg] at h; cases h
  | some segres =>
    rw [hseg] at h
    dsimp only at h
    have h0 : Moves Stage.inPool Stage.toKick pool
        { pool with
          Segments := pool.Segments.set segid
            { segres with
              OldInuse :=
                minusResourceBundleData
                  (addResourceBundleData segres.OldInuse segres.Allocated.MemoryMB
                    segres.Allocated.Core)
                  segres.Available.MemoryMB segres.Available.Core } } :=
      Moves_segment_same _ _ pool segid segres _ hseg rfl
    cases hfold : (List.range ratios.length).foldl
        (fun acc i => acc.bind fun p => dropAllOfRatio g segid p i (ratios.getD i 0))
        (some { pool with
                Segments := pool.Segments.set segid
                  { segres with
                    OldInuse :=
                      minusResourceBundleData
                        (addResourceBundleData segres.OldInuse segres.Allocated.MemoryMB
                          segres.Allocated.Core)
                        segres.Available.MemoryMB segres.Available.Core } }) with
    | none => rw [hfold] at h; cases h
    | some p1 =>
      rw [hfold] at h
      dsimp only at h
      have h1 : Moves Stage.inPool Stage.toKick pool p1 :=
        foldl_bind_preserves (Moves Stage.inPool Stage.toKick pool)
          (fun p i => dropAllOfRatio g segid p i (ratios.getD i 0))
          (fun p p2 i hp hi =>
            Moves_trans _ _ (by decide) pool p p2 hp (dropAllOfRatio_moves g segid p p2 i _ hi))
          _ _ p1 hfold h0
      cases hseg1 : getSegResource p1.Segments segid with
      | none => rw [hseg1] at h; cases h
      | some segres1 =>
        rw [hseg1] at h
        simp only [Option.some.injEq] at h
        subst h
        exact Moves_trans _ _ (by decide) pool p1 _ h1
          (Moves_segment_same _ _ p1 segid segres1 _ hseg1 rfl)

theorem dropAllResPoolGRMContainersToToBeKicked_moves (g : RMGlobals) (ratios : List Int)
    (pool pool1 : ResourcePool)
    (h : dropAllResPoolGRMContainersToToBeKicked g ratios pool = some pool1) :
    Moves Stage.inPool Stage.toKick pool pool1 :=
  foldl_bind_preserves (Moves Stage.inPool Stage.toKick pool)
    (fun p idx => dropAllGRMContainersFromSegment g ratios p idx)
    (fun p p2 idx hp hi =>
      Moves_trans _ _ (by decide) pool p p2 hp
        (dropAllGRMContainersFromSegment_moves g ratios p p2 idx hi))
    _ pool pool1 h (Moves_refl _ _ pool)

theorem returnAllOfRatio_moves (g : RMGlobals) (segid : Nat) (pool pool1 : ResourcePool)
    (i : Nat) (ratio : Int) (h : returnAllOfRatio g segid pool i ratio = some pool1) :
    Moves Stage.inPool Stage.kicked pool pool1 := by
  unfold returnAllOfRatio at h
  cases hseg : getSegResource pool.Segments segid with
  | none => rw [hseg] at h; cases h
  | some segres =>
    rw [hseg] at h
    dsimp only at h
    cases hset : segres.ContainerSets.getD i none with
    | none =>
      rw [hset] at h
      simp only [Option.some.injEq] at h
      subst h
      exact Moves_refl _ _ _
    | some ctns =>
      rw [hset] at h
      dsimp only at h
      cases hpop : popAllToKicked segid i ctns.Containers.length pool with
      | none => rw [hpop] at h; cases h
      | some p1 =>
        rw [hpop] at h
        dsimp only at h
        exact reorderAllocIndexByRatio_moves _ _ g segid pool p1 pool1 _
          (popAllToKicked_moves segid i _ pool p1 hpop) h

theorem returnAllGRMResourceFromSegment_moves (g : RMGlobals) (ratios : List Int)
    (pool pool1 : ResourcePool) (segid : Nat)
    (h : returnAllGRMResourceFromSegment g ratios pool segid = some pool1) :
    Moves Stage.inPool Stage.kicked pool pool1 := by
  unfold returnAllGRMResourceFromSegment at h
  cases hfold : (List.range ratios.length).foldl
      (fun acc i => acc.bind fun p => returnAllOfRatio g segid p i (ratios.getD i 0))
      (some pool) with
  | none => rw [hfold] at h; cases h
  | some p1 =>
    rw [hfold] at h
    dsimp only at h
    have h1 : Moves Stage.inPool Stage.kicked pool p1 :=
      foldl_bind_preserves (Moves Stage.inPool Stage.kicked pool)
        (fun p i => returnAllOfRatio g segid p i (ratios.getD i 0))
        (fun p p2 i hp hi =>
          Moves_trans _ _ (by decide) pool p p2 hp (returnAllOfRatio_moves g segid p p2 i _ hi))
        _ pool p1 hfold (Moves_refl _ _ pool)
    cases hseg1 : getSegResource p1.Segments segid with
    | none => rw [hseg1] at h; cases h
    | some segres1 =>
      rw [hseg1] at h
      dsimp only at h
      split at h
      · simp only [Option.some.injEq] at h
        subst h
        exact Moves_trans _ _ (by decide) pool p1 _ h1
          (Moves_segment_same _ _ p1 segid segres1 _ hseg1 rfl)
      · cases h
/-! ## The stages of the containers: the tables and the accepted list -/

theorem moveGRMContainerSetToAccepted_moves (pool : ResourcePool) (i : Nat) :
    Moves Stage.toAccept Stage.accepted pool (moveGRMContainerSetToAccepted pool i) := by
  unfold moveGRMContainerSetToAccepted
  cases he : pool.ToAcceptContainers[i]? with
  | none => exact Moves_refl _ _ _
  | some e =>
    obtain ⟨key, ctns⟩ := e
    intro t id h
    cases t
    · exact Or.inl (mem_table_emptied _ i key id h)
    · simp only [stageIDs, containerIDs, List.map_append, List.mem_append] at h
      rcases h with h1 | h1
      · exact Or.inl h1
      · exact Or.inr ⟨rfl, mem_table_of_entry _ i key ctns id he h1⟩
    · exact Or.inl h
    · exact Or.inl h
    · exact Or.inl h

theorem moveGRMContainerSetToKicked_moves_toKick (pool : ResourcePool) (i : Nat) :
    Moves Stage.toKick Stage.kicked pool (moveGRMContainerSetToKicked false pool i) := by
  unfold moveGRMContainerSetToKicked
  simp only [Bool.false_eq_true, if_false]
  cases he : pool.ToKickContainers[i]? with
  | none => exact Moves_refl _ _ _
  | some e =>
    obtain ⟨key, ctns⟩ := e
    intro t id h
    cases t
    · exact Or.inl h
    · exact Or.inl h
    · exact Or.inl h
    · exact Or.inl (mem_table_emptied _ i key id h)
    · simp only [stageIDs, containerIDs, List.map_append, List.mem_append] at h
      rcases h with h1 | h1
      · exact Or.inl h1
      · exact Or.inr ⟨rfl, mem_table_of_entry _ i key ctns id he h1⟩

theorem moveGRMContainerSetToKicked_moves_toAccept (pool : ResourcePool) (i : Nat) :
    Moves Stage.toAccept Stage.kicked pool (moveGRMContainerSetToKicked true pool i) := by
  unfold moveGRMContainerSetToKicked
  simp only [if_true]
  cases he : pool.ToAcceptContainers[i]? with
  | none => exact Moves_refl _ _ _
  | some e =>
    obtain ⟨key, ctns⟩ := e
    intro t id h
    cases t
    · exact Or.inl (mem_table_emptied _ i key id h)
    · exact Or.inl h
    · exact Or.inl h
    · exact Or.inl h
    · simp only [stageIDs, containerIDs, List.map_append, List.mem_append] at h
      rcases h with h1 | h1
      · exact Or.inl h1
      · exact Or.inr ⟨rfl, mem_table_of_entry _ i key ctns id he h1⟩

theorem notifyToBeAcceptedGRMContainersToRMSEG_moves (pool pool1 : ResourcePool)
    (h : notifyToBeAcceptedGRMContainersToRMSEG pool = some pool1) :
    Moves Stage.toAccept Stage.accepted pool pool1 := by
  refine foldl_bind_preserves (Moves Stage.toAccept Stage.accepted pool)
    (fun p i => notifyToBeAcceptedEntry p i) ?_ _ pool pool1 h (Moves_refl _ _ pool)
  intro p p2 i hp hi
  refine Moves_trans _ _ (by decide) pool p p2 hp ?_
  replace hi : notifyToBeAcceptedEntry p i = some p2 := hi
  unfold notifyToBeAcceptedEntry at hi
  cases he : p.ToAcceptContainers[i]? with
  | none =>
    rw [he] at hi
    simp only [Option.some.injEq] at hi
    subst hi
    exact Moves_refl _ _ _
  | some e =>
    obtain ⟨key, ctns⟩ := e
    rw [he] at hi
    dsimp only at hi
    split at hi
    · simp only [Option.some.injEq] at hi
      subst hi
      exact Moves_refl _ _ _
    · split at hi
      · cases hi
      · simp only [Option.some.injEq] at hi
        subst hi
        exact moveGRMContainerSetToAccepted_moves p i

theorem notifyToBeKickedGRMContainersToRMSEG_moves (pool pool1 : ResourcePool)
    (h : notifyToBeKickedGRMContainersToRMSEG pool = some pool1) :
    Moves Stage.toKick Stage.kicked pool pool1 := by
  refine foldl_bind_preserves (Moves Stage.toKick Stage.kicked pool)
    (fun p i => notifyToBeKickedEntry p i) ?_ _ pool pool1 h (Moves_refl _ _ pool)
  intro p p2 i hp hi
  refine Moves_trans _ _ (by decide) pool p p2 hp ?_
  replace hi : notifyToBeKickedEntry p i = some p2 := hi
  unfold notifyToBeKickedEntry at hi
  cases he : p.ToKickContainers[i]? with
  | none =>
    rw [he] at hi
    simp only [Option.some.injEq] at hi
    subst hi
    exact Moves_refl _ _ _
  | some e =>
    obtain ⟨key, ctns⟩ := e
    rw [he] at hi
    dsimp only at hi
    split at hi
    · simp only [Option.some.injEq] at hi
      subst hi
      exact Moves_refl _ _ _
    · split at hi
      · cases hi
      · simp only [Option.some.injEq] at hi
        subst hi
        exact moveGRMContainerSetToKicked_moves_toKick p i

theorem dropAllToAcceptGRMContainersToKicked_moves (pool pool1 : ResourcePool)
    (h : dropAllToAcceptGRMContainersToKicked pool = some pool1) :
    Moves Stage.toAccept Stage.kicked pool pool1 := by
  refine foldl_bind_preserves (Moves Stage.toAccept Stage.kicked pool)
    (fun p i => dropToAcceptEntry p i) ?_ _ pool pool1 h (Moves_refl _ _ pool)
  intro p p2 i hp hi
  refine Moves_trans _ _ (by decide) pool p p2 hp ?_
  replace hi : dropToAcceptEntry p i = some p2 := hi
  unfold dropToAcceptEntry at hi
  cases he : p.ToAcceptContainers[i]? with
  | none =>
    rw [he] at hi
    simp only [Option.some.injEq] at hi
    subst hi
    exact Moves_refl _ _ _
  | some e =>
    obtain ⟨key, ctns⟩ := e
    rw [he] at hi
    dsimp only at hi
    split at hi
    · simp only [Option.some.injEq] at hi
      subst hi
      exact Moves_refl _ _ _
    · cases hc : ctns.Containers with
      | nil => rw [hc] at hi; cases hi
      | cons ctn1st rest =>
        rw [hc] at hi
        dsimp only at hi
        cases hres : ctn1st.Resource with
        | none => rw [hres] at hi; cases hi
        | some segid =>
          rw [hres] at hi
          dsimp only at hi
          cases hseg : getSegResource p.Segments segid with
          | none => rw [hseg] at hi; cases hi
          | some resource =>
            rw [hseg] at hi
            simp only [Option.some.injEq] at hi
            subst hi
            refine Moves_trans _ _ (by decide) p _ _ ?_
              (moveGRMContainerSetToKicked_moves_toAccept _ i)
            intro t id hid
            exact Moves_segment_same _ _ p segid resource
              { resource with
                IncPending := minusResourceBundleData resource.IncPending
                  ctns.Allocated.MemoryMB ctns.Allocated.Core } hseg rfl t id
              (by cases t <;> exact hid)

/-- One container of the accepted list joins a set of its segment. -/
theorem addGRMContainerToResPool_moves (g : RMGlobals) (pool pool1 : ResourcePool)
    (container : GRMContainer) (rest : List GRMContainer)
    (hacc : pool.AcceptedContainers = container :: rest)
    (h : addGRMContainerToResPool g { pool with AcceptedContainers := rest } container =
      some pool1) :
    Moves Stage.accepted Stage.inPool pool pool1 ∧ pool1.AcceptedContainers = rest := by
  unfold addGRMContainerToResPool at h
  cases hres : container.Resource with
  | none => rw [hres] at h; cases h
  | some segid =>
    rw [hres] at h
    dsimp only at h
    cases hseg : getSegResource pool.Segments segid with
    | none => rw [hseg] at h; cases h
    | some segresource =>
      rw [hseg] at h
      dsimp only at h
      by_cases hcore : container.Core = 0
      · rw [if_pos hcore] at h; cases h
      · rw [if_neg hcore] at h
        cases hidx : getResourceQueueRatioIndex g (containerRatio container) with
        | none => rw [hidx] at h; cases h
        | some rindex =>
          rw [hidx] at h
          dsimp only at h
          by_cases hlt : rindex < segresource.ContainerSets.length
          · rw [if_pos hlt] at h
            obtain ⟨trees, rfl⟩ := reorderAllocIndexByRatio_segments g segid _ pool1 _ h
            refine ⟨?_, rfl⟩
            intro t id hid
            cases t
            · exact Or.inl hid
            · left
              simp only [stageIDs, hacc, containerIDs, List.map_cons, List.mem_cons] at hid ⊢
              exact Or.inr hid
            · simp only [stageIDs] at hid
              have hnew : id = container.ID → id ∈ stageIDs Stage.accepted pool := by
                intro h1
                subst h1
                simp [stageIDs, hacc, containerIDs]
              rcases mem_segments_set pool.Segments segid _ id hid with h1 | hx
              · exact Or.inl h1
              · rcases mem_sets_set segresource.ContainerSets segresource _ rindex _ id rfl rfl
                  hx with h1 | h1
                · exact Or.inl (mem_inPool_of_segment _ segid segresource id hseg h1)
                · simp only [appendGRMContainerSetContainer, containerIDs, List.map_append,
                    List.map_cons, List.map_nil, List.mem_append, List.mem_singleton] at h1
                  rcases h1 with h2 | h2
                  · left
                    cases ho : segresource.ContainerSets.getD rindex none with
                    | none =>
                      rw [ho] at h2
                      simp [createGRMContainerSet] at h2
                    | some s0 =>
                      rw [ho] at h2
                      exact mem_inPool_of_segment _ segid segresource id hseg
                        (mem_segment_of_set segresource rindex s0 id ho
                          (by simpa [containerIDs] using h2))
                  · exact Or.inr ⟨rfl, hnew h2⟩
            · exact Or.inl hid
            · exact Or.inl hid
          · rw [if_neg hlt] at h; cases h

theorem moveAllAcceptedFrom_moves (g : RMGlobals) :
    ∀ (l : List GRMContainer) (pool pool1 : ResourcePool),
      pool.AcceptedContainers = l → moveAllAcceptedFrom g l pool = some pool1 →
      Moves Stage.accepted Stage.inPool pool pool1 := by
  intro l
  induction l with
  | nil =>
    intro pool pool1 _ h
    simp only [moveAllAcceptedFrom, Option.some.injEq] at h
    subst h
    exact Moves_refl _ _ _
  | cons ctn rest ih =>
    intro pool pool1 hacc h
    unfold moveAllAcceptedFrom at h
    cases hadd : addGRMContainerToResPool g { pool with AcceptedContainers := rest } ctn with
    | none => rw [hadd] at h; cases h
    | some p1 =>
      rw [hadd] at h
      dsimp only at h
      obtain ⟨hm, hrest⟩ := addGRMContainerToResPool_moves g pool p1 ctn rest hacc hadd
      refine Moves_trans _ _ (by decide) pool p1 pool1 hm ?_
      have := ih { p1 with AddPendingContainerCount := p1.AddPendingContainerCount - 1 } pool1
        hrest h
      intro t id hid
      exact this t id hid |>.imp (fun h1 => by cases t <;> exact h1)
        (fun h1 => ⟨h1.1, h1.2⟩)

theorem moveAllAcceptedGRMContainersToResPool_moves (g : RMGlobals) (pool pool1 : ResourcePool)
    (h : moveAllAcceptedGRMContainersToResPool g pool = some pool1) :
    Moves Stage.accepted Stage.inPool pool pool1 :=
  moveAllAcceptedFrom_moves g pool.AcceptedContainers pool pool1 rfl h

/-- A container handed to `addGRMContainerToToBeAccepted` joins the to-be-accepted
table when its host is registered and the kicked list when it is not; nothing else
moves. -/
theorem addGRMContainerToToBeAccepted_stages (pool pool1 : ResourcePool) (ctn : GRMContainer)
    (res : ResultCode) (h : addGRMContainerToToBeAccepted pool ctn = some (res, pool1))
    (t : Stage) (id : Nat) (hid : id ∈ stageIDs t pool1) :
    id ∈ stageIDs t pool ∨
      (id = ctn.ID ∧
        ((t = Stage.toAccept ∧ res = FUNC_RETURN_OK) ∨
         (t = Stage.kicked ∧ res ≠ FUNC_RETURN_OK ∧ ctn.Resource = none ∧
           getSegIDByGRMHostName pool ctn.HostName = none))) := by
  unfold addGRMContainerToToBeAccepted at h
  have hkick : ctn.Resource = none → getSegIDByGRMHostName pool ctn.HostName = none →
      (res, pool1) = ( RESOURCEPOOL_UNRESOLVED_HOST, addGRMContainerToKicked pool ctn) →
      id ∈ stageIDs t pool ∨
        (id = ctn.ID ∧
          ((t = Stage.toAccept ∧ res = FUNC_RETURN_OK) ∨
           (t = Stage.kicked ∧ res ≠ FUNC_RETURN_OK ∧ ctn.Resource = none ∧
             getSegIDByGRMHostName pool ctn.HostName = none))) := by
    intro h1 h2 h3
    simp only [Prod.mk.injEq] at h3
    obtain ⟨rfl, rfl⟩ := h3
    cases t
    · exact Or.inl hid
    · exact Or.inl hid
    · exact Or.inl hid
    · exact Or.inl hid
    · simp only [stageIDs, addGRMContainerToKicked, containerIDs, List.map_append,
        List.map_cons, List.map_nil, List.mem_append, List.mem_singleton] at hid
      rcases hid with h4 | h4
      · exact Or.inl h4
      · exact Or.inr ⟨h4, Or.inr ⟨rfl, by decide, h1, h2⟩⟩
  have hacc : ∀ s resource, getSegResource pool.Segments s = some resource →
      (res, pool1) = (FUNC_RETURN_OK,
        ({ pool with
           Segments := pool.Segments.set s
             { resource with
               IncPending := addResourceBundleData resource.IncPending ctn.MemoryMB ctn.Core },
           ToAcceptContainers :=
             hashtableSet pool.ToAcceptContainers ctn.HostName
               (appendGRMContainerSetContainer
                 ((pool.ToAcceptContainers.lookup ctn.HostName).getD createGRMContainerSet)
                 { ctn with Resource := some s }),
           AddPendingContainerCount := pool.AddPendingContainerCount + 1 } : ResourcePool)) →
      id ∈ stageIDs t pool ∨
        (id = ctn.ID ∧
          ((t = Stage.toAccept ∧ res = FUNC_RETURN_OK) ∨
           (t = Stage.kicked ∧ res ≠ FUNC_RETURN_OK ∧ ctn.Resource = none ∧
             getSegIDByGRMHostName pool ctn.HostName = none))) := by
    intro s resource hseg h3
    simp only [Prod.mk.injEq] at h3
    obtain ⟨rfl, rfl⟩ := h3
    cases t
    · simp only [stageIDs] at hid
      rcases mem_table_hashtableSet pool.ToAcceptContainers ctn.HostName
        { ctn with Resource := some s } id hid with h4 | h4
      · exact Or.inl h4
      · exact Or.inr ⟨h4, Or.inl ⟨rfl, rfl⟩⟩
    · exact Or.inl hid
    · left
      simp only [stageIDs] at hid
      refine (mem_segments_update pool.Segments s resource _ [] hseg ?_ id
        hid).resolve_right (List.not_mem_nil _)
      intro x hx
      exact Or.inl hx
    · exact Or.inl hid
    · exact Or.inl hid
  cases hres : ctn.Resource with
  | some s =>
    rw [hres] at h
    dsimp only at h
    cases hseg : getSegResource pool.Segments s with
    | none => rw [hseg] at h; cases h
    | some resource =>
      rw [hseg] at h
      simp only [Option.some.injEq] at h
      have := hacc s resource hseg h.symm
      rw [hres] at this
      exact this
  | none =>
    rw [hres] at h
    dsimp only at h
    cases hhost : getSegIDByGRMHostName pool ctn.HostName with
    | none =>
      rw [hhost] at h
      simp only [Option.some.injEq] at h
      have := hkick hres hhost h.symm
      rw [hres, hhost] at this
      exact this
    | some s =>
      rw [hhost] at h
      dsimp only at h
      cases hseg : getSegResource pool.Segments s with
      | none => rw [hseg] at h; cases h
      | some resource =>
        rw [hseg] at h
        simp only [Option.some.injEq] at h
        have := hacc s resource hseg h.symm
        rw [hres, hhost] at this
        exact this

/-! ## C29: the order of the stages of a container -/

/-- C29, as claimed, fails: containers reach `KickedContainers` that were not in
`ToKickContainers` immediately before.  `addGRMContainerToToBeAccepted` puts the
container 7 of an unknown host there, from no stage at all;
`returnAllGRMResourceFromSegment` puts there the containers 0, 1 and 2 of the segment 1,
from its container set; `dropAllToAcceptGRMContainersToKicked` puts there the container
8, from `ToAcceptContainers`. -/
theorem kicked_without_to_kick :
    stageIDs Stage.toKick exBreathPool = [] ∧ stageIDs Stage.kicked exBreathPool = [] ∧
    (runPoolOperation exBreathGlobals [1024] (PoolOperation.toBeAccepted exUnknownHostContainer)
      exBreathPool).map (stageIDs Stage.kicked) = some [7] ∧
    (runPoolOperation exBreathGlobals [1024] (PoolOperation.returnAllFromSegment 1)
      exBreathPool).map (stageIDs Stage.kicked) = some [0, 1, 2] ∧
    stageIDs Stage.toAccept exToAcceptPool = [8] ∧
    stageIDs Stage.toKick exToAcceptPool = [] ∧ stageIDs Stage.kicked exToAcceptPool = [] ∧
    (runPoolOperation exBreathGlobals [1024] PoolOperation.dropAllToAccept
      exToAcceptPool).map (stageIDs Stage.kicked) = some [8] := by
  refine ⟨by decide!, by decide!, by decide!, by decide!, by decide!, by decide!, by decide!,
    by decide!⟩

/-- C29, amended: every operation on the pool moves containers along one edge only.
The operations that return containers of the segments
(`timeoutIdleGRMResourceToRBByRatio`, `checkGRMContainerStatus`,
`dropAllGRMContainersFromSegment`, `dropAllResPoolGRMContainersToToBeKicked`) move them
from the container sets to `ToKickContainers`;
`notifyToBeKickedGRMContainersToRMSEG` moves from `ToKickContainers` to
`KickedContainers`; `moveAllAcceptedGRMContainersToResPool` moves from
`AcceptedContainers` to the container sets; `notifyToBeAcceptedGRMContainersToRMSEG`
moves from `ToAcceptContainers` to `AcceptedContainers`.  Three operations reach
`KickedContainers` by a shorter way: `returnAllGRMResourceFromSegment` from the
container sets, `dropAllToAcceptGRMContainersToKicked` from `ToAcceptContainers`, and
`addGRMContainerToToBeAccepted`, which puts its container into `ToAcceptContainers`, or
into `KickedContainers` when the container names no segment and its host is not
resolved. -/
theorem pool_operation_moves (g : RMGlobals) (ratios : List Int) (op : PoolOperation)
    (pool pool1 : ResourcePool) (h : runPoolOperation g ratios op pool = some pool1) :
    match op with
    | PoolOperation.toBeAccepted ctn =>
      ∀ (t : Stage) (id : Nat), id ∈ stageIDs t pool1 →
        id ∈ stageIDs t pool ∨
          (id = ctn.ID ∧
            (t = Stage.toAccept ∨
             (t = Stage.kicked ∧ ctn.Resource = none ∧
               getSegIDByGRMHostName pool ctn.HostName = none)))
    | PoolOperation.notifyToBeAccepted => Moves Stage.toAccept Stage.accepted pool pool1
    | PoolOperation.moveAllAccepted => Moves Stage.accepted Stage.inPool pool pool1
    | PoolOperation.timeoutIdle _ _ _ _ => Moves Stage.inPool Stage.toKick pool pool1
    | PoolOperation.checkStatus _ => Moves Stage.inPool Stage.toKick pool pool1
    | PoolOperation.dropAllFromSegment _ => Moves Stage.inPool Stage.toKick pool pool1
    | PoolOperation.dropAllResPool => Moves Stage.inPool Stage.toKick pool pool1
    | PoolOperation.notifyToBeKicked => Moves Stage.toKick Stage.kicked pool pool1
    | PoolOperation.returnAllFromSegment _ => Moves Stage.inPool Stage.kicked pool pool1
    | PoolOperation.dropAllToAccept => Moves Stage.toAccept Stage.kicked pool pool1 := by
  cases op with
  | toBeAccepted ctn =>
    simp only [runPoolOperation, Option.map_eq_some'] at h
    obtain ⟨⟨res, p⟩, h1, rfl⟩ := h
    intro t id hid
    rcases addGRMContainerToToBeAccepted_stages pool p ctn res h1 t id hid with h2 | ⟨h2, h3⟩
    · exact Or.inl h2
    · refine Or.inr ⟨h2, ?_⟩
      rcases h3 with ⟨h4, _⟩ | ⟨h4, _, h5, h6⟩
      · exact Or.inl h4
      · exact Or.inr ⟨h4, h5, h6⟩
  | notifyToBeAccepted => exact notifyToBeAcceptedGRMContainersToRMSEG_moves pool pool1 h
  | moveAllAccepted => exact moveAllAcceptedGRMContainersToResPool_moves g pool pool1 h
  | timeoutIdle trackers ratioindex retcontnum segminnum =>
    simp only [runPoolOperation, Option.map_eq_some'] at h
    obtain ⟨⟨p, real⟩, h1, rfl⟩ := h
    exact timeoutIdleGRMResourceToRBByRatio_moves g trackers pool p ratioindex retcontnum
      segminnum real h1
  | checkStatus ctnstats => exact checkGRMContainerStatus_moves g ratios ctnstats pool pool1 h
  | dropAllFromSegment segid =>
    exact dropAllGRMContainersFromSegment_moves g ratios pool pool1 segid h
  | dropAllResPool => exact dropAllResPoolGRMContainersToToBeKicked_moves g ratios pool pool1 h
  | notifyToBeKicked => exact notifyToBeKickedGRMContainersToRMSEG_moves pool pool1 h
  | returnAllFromSegment segid =>
    exact returnAllGRMResourceFromSegment_moves g ratios pool pool1 segid h
  | dropAllToAccept => exact dropAllToAcceptGRMContainersToKicked_moves pool pool1 h

/-- The check of the containers of `exCountedPool` against a report that holds the
containers 0 and 1 as active: the containers 2 and 3 of the segment 0 and the container
2 of the segment 1 go from the container sets to `ToKickContainers`. -/
theorem pool_operation_moves_witness :
    runPoolOperation exBreathGlobals [1024]
      (PoolOperation.checkStatus [(0, true), (1, true), (2, false)]) exCountedPool =
      some exCheckedPool ∧
    stageIDs Stage.toKick exCheckedPool = [2, 3, 2] ∧
    stageIDs Stage.inPool exCheckedPool = [0, 1, 0, 1] ∧
    Moves Stage.inPool Stage.toKick exCountedPool exCheckedPool := by
  have hrun : runPoolOperation exBreathGlobals [1024]
      (PoolOperation.checkStatus [(0, true), (1, true), (2, false)]) exCountedPool =
      some exCheckedPool := by decide!
  exact ⟨hrun, by decide!, by decide!,
    pool_operation_moves exBreathGlobals [1024]
      (PoolOperation.checkStatus [(0, true), (1, true), (2, false)]) exCountedPool
      exCheckedPool hrun⟩

/-! ## C24: the allocation of a queue after the distribution -/

/-- C24: the distribution of `dispatchResourceToQueries` can leave a busy queue with
less allocated than it uses.  The tracker of the ratio has 90 MB allocated; three busy
queues of capacity 30 MB and maximum 90 MB use 50, 29 and 11 MB, which is within their
maximum and sums to 90 MB.  The first queue over-uses and keeps its 50 MB; the other two
share the remaining 40 MB by weight (CASE 2), 20 MB each: the second queue, which uses
29 MB, is left with `TotalAllocated.MemoryMB = 20`, and the `Assert` that follows in
the loop, `TotalAllocated.MemoryMB >= TotalUsed.MemoryMB`, does not hold. -/
theorem distribution_leaves_queue_below_usage :
    (∀ t ∈ exDistributeManager.Queues,
      t.isBusy = true ∧ t.TotalUsed.MemoryMB ≤ t.ClusterMemoryMaxMB) ∧
    (exDistributeManager.RatioTrackers.getD 0 none).map
      (fun m => (m.QueueTrackers, m.TotalAllocated.MemoryMB)) = some ([1, 2, 3], 90) ∧
    (exDistributeManager.Queues.map fun t => t.TotalUsed.MemoryMB).sum = 90 ∧
    distributeResourceToQueues exDistributeManager 0 = some exDistributed ∧
    (exDistributed.1.Queues.map fun t =>
      (t.TrackID, t.isBusy, t.TotalUsed.MemoryMB, t.TotalAllocated.MemoryMB,
        t.ClusterMemoryMaxMB)) =
      [(1, true, 50, 50, 90), (2, true, 29, 20, 90), (3, true, 11, 20, 90)] ∧
    exDistributed.2.2 = false := by
  refine ⟨by decide!, by decide!, by decide!, by decide!, by decide!, by decide!⟩

/-! ## C40: `find` after `insert` in the LRU map -/

/-- C40: in a map of capacity 1, after `insert(1, 10)`, `insert(2, 20)` (which evicts
the key 1 and leaves `count` at 2) and `erase(2)` (which leaves the map empty with
`count` 1), `insert(3, 30)` raises `count` to 2, above the capacity, and evicts the last
item of the list, which is the item just inserted: the map is empty again and `find(3)`
returns false.  In a new map of capacity 1 `find(3)` after `insert(3, 30)` returns true
with the value 30. -/
theorem LruMap_find_after_insert_fails :
    (((LruMap.new 1 : LruMap Nat Nat).insert 1 10).bind fun m => m.insert 2 20).map
        (fun m => (m.count, m.list.map fun node => node.2)) = some (2, [(2, 20)]) ∧
    (exLruErased.count, exLruErased.size, exLruErased.list, exLruErased.map) = (1, 1, [], []) ∧
    exLruErased.insert 3 30 = some exLruInserted ∧
    (exLruInserted.count, exLruInserted.list, exLruInserted.map) = (2, [], []) ∧
    exLruInserted.find 3 = some (false, none, exLruInserted) ∧
    (((LruMap.new 1 : LruMap Nat Nat).insert 3 30).bind fun m => m.find 3).map
        (fun r => (r.1, r.2.1)) = some (true, some 30) := by
  refine ⟨by decide!, by decide!, by decide!, by decide!, by decide!, by decide!⟩

/-! ## C31: the termination of deadlock detection -/

/-- The loop of `detectAndDealWithDeadLock` does not end from a state in which its
condition holds and the walk from the tail finds no request to cancel: the body leaves
such a state as it is. -/
theorem deadLockLoop_stuck (expmemorymb : Int) (expcore : ℚ) (st : DeadLockState)
    (hcond : deadLockCondition expmemorymb expcore st = true)
    (hwalk : walkFromTail st.DLDetector st.reqs.reverse = none) :
    ∀ fuel : Nat, deadLockLoop expmemorymb expcore fuel st = none := by
  have hit : deadLockIteration st = st := by
    unfold deadLockIteration
    rw [hwalk]
  intro fuel
  induction fuel with
  | zero => simp [deadLockLoop, hcond]
  | succ n ih => simp [deadLockLoop, hcond, hit, ih]

/-- C31: `detectAndDealWithDeadLock` does not return for the queue `exStuckTrack`
(maximum 4096 MB and 4 cores, nothing locked, no session with resource in use) whose only
request asks for 6144 MB and 3 cores at least.  The request exceeds the maximum in
memory and not in core, so the early return is not taken; the loop condition holds
(4096 < 6144, one request queued), the walk from the tail finds no request of a session
that holds resource, and the body changes nothing: whatever the number of iterations,
the loop is still running. -/
theorem detectAndDealWithDeadLock_never_returns :
    deadLockExpected exStuckTrack [exBigRequest] = some (6144, 3) ∧
    deadLockCondition 6144 3 (deadLockInitial exStuckTrack [exBigRequest] []) = true ∧
    walkFromTail exStuckTrack.DLDetector [exBigRequest] = none ∧
    deadLockIteration (deadLockInitial exStuckTrack [exBigRequest] []) =
      deadLockInitial exStuckTrack [exBigRequest] [] ∧
    ∀ fuel : Nat, detectAndDealWithDeadLock fuel exStuckTrack [exBigRequest] [] = none := by
  have hexp : deadLockExpected exStuckTrack [exBigRequest] = some (6144, 3) := by decide!
  have hcond : deadLockCondition 6144 3 (deadLockInitial exStuckTrack [exBigRequest] []) =
      true := by decide!
  have hwalk : walkFromTail exStuckTrack.DLDetector [exBigRequest] = none := by decide!
  refine ⟨hexp, hcond, hwalk, by decide!, ?_⟩
  intro fuel
  unfold detectAndDealWithDeadLock
  rw [hexp]
  exact deadLockLoop_stuck 6144 3 _ hcond hwalk fuel

/-! ## C35: the indices of the queues by OID and by name -/

/-- C35: after the request `CREATE qn` on the tree of `pg_root` (OID 1), `pg_default`
(OID 2) and `qv` (OID 3), with a catalog that assigns OID 10, `QueuesIDIndex` holds two
entries for the new tracker 4: one under the key -1, the OID it had when
`createQueueAndTrack` indexed it, and one under its OID 10.  After the request `DROP qn`
the list `Queues` and `QueuesNameIndex` are as before the `CREATE`, and `QueuesIDIndex`
still holds the entry under -1, for a tracker that is not in the list. -/
theorem create_leaves_stale_oid_index :
    exTree.QueuesIDIndex = [(1, 1), (2, 2), (3, 3)] ∧
    exCreatedQn.1 = FUNC_RETURN_OK ∧
    exCreatedQn.2.Queues.map (fun t => (t.TrackID, t.QueueInfo.OID)) =
      [(1, 1), (2, 2), (3, 3), (4, 10)] ∧
    exCreatedQn.2.QueuesIDIndex = [(1, 1), (2, 2), (3, 3), (-1, 4), (10, 4)] ∧
    exCreatedQn.2.QueuesNameIndex.map (fun e => e.2) = [1, 2, 3, 4] ∧
    exDroppedQn.1 = FUNC_RETURN_OK ∧
    exDroppedQn.2.Queues.map (fun t => (t.TrackID, t.QueueInfo.OID)) =
      [(1, 1), (2, 2), (3, 3)] ∧
    exDroppedQn.2.QueuesNameIndex = exTree.QueuesNameIndex ∧
    exDroppedQn.2.QueuesIDIndex = [(1, 1), (2, 2), (3, 3), (-1, 4)] := by
  refine ⟨by decide!, by decide!, by decide!, by decide!, by decide!, by decide!, by decide!,
    by decide!, by decide!⟩

/-! ## C38: the segment numbers of a leaf after the refresh -/

/-- C38: `refreshResourceQueuePercentageCapacityInternal` leaves leaves with
`ClusterSegNumber > ClusterSegNumberMax`.  For a cluster of 16384 MB and 16 cores the
leaf `qv`, expressed by 8192 MB and 8 cores with a segment quota of 256 MB, keeps the
`ClusterMemoryMaxMB = 0` of its creation, which STEP 1 sets only for percent-expressed
leaves: its `ClusterSegNumber` is 32 and its `ClusterSegNumberMax` is 0.  For a cluster
of 1024 MB and 3 cores the leaf `pg_default`, expressed by 100% with the upper factor 1,
has the ratio 341, STEP 2 lowers its `ClusterMemoryMaxMB` from 1024 to 3 * 341 = 1023,
and with the quota of 256 MB `ClusterSegNumber` is 4 and `ClusterSegNumberMax` is 3. -/
theorem refresh_leaves_segment_number_above_maximum :
    refreshResourceQueuePercentageCapacityInternal exValueLeafTree 16384 16 =
      some exValueLeafRefreshed ∧
    (getTrackByID exValueLeafRefreshed 3).map
      (fun t => (t.QueueInfo.Status.isLeaf, t.QueueInfo.Status.isPercent,
        t.QueueInfo.ClusterMemoryMB, t.ClusterMemoryMaxMB)) = some (true, false, 8192, 0) ∧
    (getTrackByID exValueLeafRefreshed 3).map
      (fun t => (t.QueueInfo.SegResourceQuotaMemoryMB, t.ClusterSegNumber,
        t.ClusterSegNumberMax)) = some (256, 32, 0) ∧
    refreshResourceQueuePercentageCapacityInternal exUnitFactorTree 1024 3 =
      some exUnitFactorRefreshed ∧
    (getTrackByID exUnitFactorRefreshed 2).map
      (fun t => (t.QueueInfo.Status.isLeaf, t.QueueInfo.Status.isPercent,
        t.QueueInfo.ResourceUpperFactor, t.MemCoreRatio, t.QueueInfo.ClusterMemoryMB,
        t.ClusterMemoryMaxMB)) = some (true, true, 1, 341, 1024, 1023) ∧
    (getTrackByID exUnitFactorRefreshed 2).map
      (fun t => (t.QueueInfo.SegResourceQuotaMemoryMB, t.ClusterSegNumber,
        t.ClusterSegNumberMax)) = some (256, 4, 3) := by
  refine ⟨by decide!, by decide!, by decide!, by decide!, by decide!, by decide!⟩

/-! ## C36: the return of old resource ignores the number of vsegs -/

/-- C36 (fails): `dropAllGRMContainersFromSegment` records the 3 containers in use on
the segment 0 of `exBreathPool` as `OldInuse = (3072 MB, 3 cores)`.  The one allocation
that holds them is 3 vsegs of `(1024 MB, 1 core)` on that segment; returning it through
`returnResourceToResourcePool` with `isold = true` subtracts `(memory, core)` once for
the host entry, not `VSegmentCount` times as the branch `!isold` does, and leaves
`OldInuse = (2048 MB, 2 cores)`; `Allocated` and `Available` are unchanged.  With one
vseg per host entry the same return brings `OldInuse` to zero. -/
theorem returnResourceToResourcePool_old_ignores_vseg_count :
    (dropAllGRMContainersFromSegment exBreathGlobals [1024] exBreathPool 0 =
        some exDroppedPool) ∧
    (exDroppedPool.Segments.map fun r => (r.Allocated, r.Available, r.OldInuse)) =
      [(⟨0, 0⟩, ⟨0, 0⟩, ⟨3072, 3⟩), (⟨3072, 3⟩, ⟨3072, 3⟩, ⟨0, 0⟩)] ∧
    ((returnResourceToResourcePool exBreathGlobals 1024 1 0 1 exThreeVSegs true
        exDroppedPool).Segments.map fun r => (r.Allocated, r.Available, r.OldInuse)) =
      [(⟨0, 0⟩, ⟨0, 0⟩, ⟨2048, 2⟩), (⟨3072, 3⟩, ⟨3072, 3⟩, ⟨0, 0⟩)] ∧
    ((returnResourceToResourcePool exBreathGlobals 1024 1 0 1
        [createVSegmentCounter 0 0, createVSegmentCounter 0 0, createVSegmentCounter 0 0]
        true exDroppedPool).Segments.map fun r => (r.Allocated, r.Available, r.OldInuse)) =
      [(⟨0, 0⟩, ⟨0, 0⟩, ⟨0, 0⟩), (⟨3072, 3⟩, ⟨3072, 3⟩, ⟨0, 0⟩)] := by
  refine ⟨?_, ?_, ?_, ?_⟩ <;> decide!

/-! ## C37: the host list against the vsegs taken from the segments -/

/-- C37 (fails): on the four-segment pool a request for 3 vsegs of 1024 MB whose
preferred host names `h0`, `h1`, `h0.example.com` resolve to the segments 0, 1, 0 takes
two vsegs from segment 0 and one from segment 1 in stage 1, and returns
`totalvsegcount = 3`; the counter made for the third name replaces the one of the first
in `vsegcnttbl`, so the host list holds one entry per segment, each with
`VSegmentCount = 1`: their sum is 2, and the `Available` memory of segment 0 went down by
2048 MB, not by `memory * VSegmentCount = 1024`.  With three names of three different
segments the sum is 3 and each segment gave 1024 MB. -/
theorem allocate_host_list_misses_duplicate_host :
    (allocateResourceFromResourcePoolIOBytes exGlobals exPool4
      (exRequest 3 ["h0", "h1", "h0.example.com"] false 8)).map
        (fun r => (r.res, r.totalvsegcount, r.vsegcounters,
          (r.vsegcounters.map fun c => c.VSegmentCount).sum))
      = some (FUNC_RETURN_OK, 3,
          [{ HDFSNameIndex := 2, SegId := 0, VSegmentCount := 1 },
           { HDFSNameIndex := 1, SegId := 1, VSegmentCount := 1 }], 2) ∧
    (allocateResourceFromResourcePoolIOBytes exGlobals exPool4
      (exRequest 3 ["h0", "h1", "h0.example.com"] false 8)).map
        (fun r => (List.zip exPool4.Segments r.pool.Segments).map
          (fun s => s.1.Available.MemoryMB - s.2.Available.MemoryMB))
      = some [2048, 1024, 0, 0] ∧
    (allocateResourceFromResourcePoolIOBytes exGlobals exPool4
      (exRequest 3 ["h0", "h1", "h2"] false 8)).map
        (fun r => (r.totalvsegcount, (r.vsegcounters.map fun c => c.VSegmentCount).sum,
          r.vsegcounters.map (fun c => (c.SegId, c.VSegmentCount)),
          (List.zip exPool4.Segments r.pool.Segments).map
            (fun s => s.1.Available.MemoryMB - s.2.Available.MemoryMB)))
      = some (3, 3, [(0, 1), (1, 1), (2, 1)], [1024, 1024, 1024, 0]) := by
  refine ⟨?_, ?_, ?_⟩ <;> decide!

/-! ## C32: the round-robin stage stops -/

/-- The part of `stage2Measure` that an iteration without an allocation decreases. -/
theorem stage2Body_pass (g : RMGlobals) (pool : ResourcePool) (req : AllocRequest)
    (fullcount : Nat) (st : AllocState) (hc : stage2Cond fullcount st = true) :
    (stage2Body g pool req fullcount st).nodecountleft < st.nodecountleft ∨
    ((stage2Body g pool req fullcount st).nodecountleft = st.nodecountleft ∧
      (if (stage2Body g pool req fullcount st).skipchosenmachine then fullcount else 0)
          + (fullcount - (stage2Body g pool req fullcount st).impossiblecount)
        < (if st.skipchosenmachine then fullcount else 0)
          + (fullcount - st.impossiblecount)) := by
  obtain ⟨hnl, htree, himp⟩ := stage2Cond_true fullcount st hc
  obtain ⟨leftnode, rest, ht⟩ := List.exists_cons_of_ne_nil htree
  obtain ⟨hsome, hnone⟩ := stage2Body_fields g pool req fullcount st leftnode rest ht himp
  rcases htry : stage2Try g pool req st leftnode with _ | r
  · right
    obtain ⟨_, _, h3, h4, h5⟩ := hnone htry
    refine ⟨h3, ?_⟩
    by_cases hlt : st.impossiblecount + 1 < fullcount
    · obtain ⟨h6, h7⟩ := h4 hlt
      rw [h6, h7]
      omega
    · obtain ⟨h6, h7⟩ := h5 hlt
      rw [h6, h7]
      by_cases hs : st.skipchosenmachine = true
      · simp only [hs, if_true]
        simp
        omega
      · simp only [hs, if_false]
        simp
        omega
  · left
    obtain ⟨_, _, h3, _, _⟩ := hsome r htry
    rw [h3]
    omega

/-- From a state whose measure is at most `m`, at most `m` iterations lead to the end
of the loop or to an allocation. -/
theorem stage2_passes_bounded (g : RMGlobals) (pool : ResourcePool) (req : AllocRequest)
    (fullcount : Nat) :
    ∀ (m : Nat) (st : AllocState),
      (if st.skipchosenmachine then fullcount else 0) + (fullcount - st.impossiblecount) ≤ m →
      ∃ j, j ≤ m ∧
        (stage2Cond fullcount ((stage2Body g pool req fullcount)^[j] st) = false ∨
         ((stage2Body g pool req fullcount)^[j] st).nodecountleft < st.nodecountleft) := by
  intro m
  induction m with
  | zero =>
    intro st hm
    refine ⟨0, le_refl _, Or.inl ?_⟩
    by_cases hc : stage2Cond fullcount st = true
    · obtain ⟨_, _, himp⟩ := stage2Cond_true fullcount st hc
      omega
    · simpa using hc
  | succ m ih =>
    intro st hm
    by_cases hc : stage2Cond fullcount st = true
    · rcases stage2Body_pass g pool req fullcount st hc with h | ⟨h1, h2⟩
      · exact ⟨1, by omega, Or.inr (by simpa using h)⟩
      · obtain ⟨j, hj, hend⟩ := ih (stage2Body g pool req fullcount st) (by omega)
        refine ⟨j + 1, by omega, ?_⟩
        rw [Function.iterate_succ_apply]
        rcases hend with h | h
        · exact Or.inl h
        · exact Or.inr (by omega)
    · exact ⟨0, Nat.zero_le _, Or.inl (by simpa using hc)⟩

/-- C32: `allocateResourceFromResourcePoolIOBytes` returns on every pool and every
request, from a state `st` in which the round-robin loop has stopped: the request is
satisfied (`nodecountleft ≤ 0`), the IO-workload index is empty, or `impossiblecount`
has reached `fullcount`, the number of indexed segments.  From every state of the loop,
at most `2 * fullcount` iterations (two full passes, within the three of the
requirement) lead to the end of the loop or to the allocation of a vseg. -/
theorem allocate_round_robin_terminates (g : RMGlobals) (pool : ResourcePool)
    (req : AllocRequest) :
    (∃ st : AllocState,
      (st.nodecountleft ≤ 0 ∨ st.tree = [] ∨
        pool.OrderedIOBytesWorkload.length ≤ st.impossiblecount) ∧
      allocateResourceFromResourcePoolIOBytes g pool req
        = some (finishAllocation pool req st)) ∧
    (∀ st : AllocState, ∃ j, j ≤ 2 * pool.OrderedIOBytesWorkload.length ∧
      j ≤ 3 * pool.OrderedIOBytesWorkload.length ∧
      (stage2Cond pool.OrderedIOBytesWorkload.length
          ((stage2Body g pool req pool.OrderedIOBytesWorkload.length)^[j] st) = false ∨
       ((stage2Body g pool req pool.OrderedIOBytesWorkload.length)^[j] st).nodecountleft
          < st.nodecountleft)) := by
  constructor
  · obtain ⟨st, _, hc, h⟩ := allocate_of_invariant g pool req (fun _ => True) trivial
      (fun _ _ _ => trivial)
    refine ⟨st, ?_, h⟩
    unfold stage2Cond at hc
    simp only [Bool.and_eq_false_iff, decide_eq_false_iff_not, Bool.not_eq_false,
      List.isEmpty_iff] at hc
    rcases hc with (hc | hc) | hc
    · exact Or.inl (by omega)
    · exact Or.inr (Or.inl (by simpa using hc))
    · exact Or.inr (Or.inr (by omega))
  · intro st
    obtain ⟨j, hj, hend⟩ := stage2_passes_bounded g pool req
      pool.OrderedIOBytesWorkload.length (2 * pool.OrderedIOBytesWorkload.length) st
      (by split_ifs <;> omega)
    exact ⟨j, hj, by omega, hend⟩

/-! ## The loops of `dispatchResourceToQueries_EVEN` -/

/-- The first loop counts on from `counter`, by at most the number of requests, and
never past `ParallelCount - NumOfRunningQueries`. -/
theorem countToDispatch_bounds (track : DynResourceQueueTrack) (availsegnum : Int) :
    ∀ (reqs : List ConnectionTrack) (counter : Nat) (segmincounter : Int),
      counter ≤ countToDispatch track availsegnum reqs counter segmincounter ∧
      countToDispatch track availsegnum reqs counter segmincounter ≤ counter + reqs.length ∧
      ((counter : Int) + track.NumOfRunningQueries ≤ track.QueueInfo.ParallelCount →
        (countToDispatch track availsegnum reqs counter segmincounter : Int)
          + track.NumOfRunningQueries ≤ track.QueueInfo.ParallelCount) := by
  intro reqs
  induction reqs with
  | nil =>
    intro counter segmincounter
    simp [countToDispatch]
  | cons conntrack rest ih =>
    intro counter segmincounter
    unfold countToDispatch
    split_ifs with h1 h2
    · simp
    · simp
    · obtain ⟨i1, i2, i3⟩ := ih (counter + 1) (segmincounter + conntrack.SegNumMin)
      refine ⟨by omega, by simp only [List.length_cons]; omega, ?_⟩
      intro _
      apply i3
      push_cast
      omega

/-- The loop that fills `todisp` takes the first `n` requests of the FIFO. -/
theorem moveToDispatch_spec :
    ∀ (n : Nat) (todisp reqs : List ConnectionTrack) (availsegnum : Int),
      n ≤ reqs.length →
      ∃ availsegnum1, moveToDispatch n todisp reqs availsegnum =
        some (todisp ++ (reqs.take n).map (fun conn => { conn with SegNumActual := conn.SegNumMin }),
          reqs.drop n, availsegnum1) := by
  intro n
  induction n with
  | zero =>
    intro todisp reqs availsegnum _
    exact ⟨availsegnum, by simp [moveToDispatch]⟩
  | succ n ih =>
    intro todisp reqs availsegnum hn
    cases reqs with
    | nil => simp at hn
    | cons conn rest =>
      obtain ⟨a1, h1⟩ := ih (todisp ++ [{ conn with SegNumActual := conn.SegNumMin }]) rest
        (availsegnum - conn.SegNumMin) (by simpa using hn)
      exact ⟨a1, by simp [moveToDispatch, h1]⟩

theorem map_set_same {α β : Type} (f : α → β) :
    ∀ (l : List α) (i : Nat) (a b : α), l[i]? = some a → f b = f a →
      (l.set i b).map f = l.map f := by
  intro l
  induction l with
  | nil => intro i a b h _; simp at h
  | cons x rest ih =>
    intro i a b h hf
    cases i with
    | zero =>
      simp only [List.getElem?_cons_zero, Option.some.injEq] at h
      subst h
      simp [hf]
    | succ i =>
      simp only [List.getElem?_cons_succ] at h
      simp [ih i a b h hf]

/-- The loop `while(availsegnum > 0)` ends within `topUpFuel` iterations; it changes
`SegNumActual` only. -/
theorem topUpLoop_spec (counter : Nat) :
    ∀ (fuel : Nat) (st : TopUpState),
      st.pnode < st.todisp.length → st.fullcount < counter →
      st.availsegnum.toNat * (counter + 1) + (counter - st.fullcount) ≤ fuel →
      ∃ t, topUpLoop counter fuel st = some t ∧
        t.todisp.map (fun c => (c.ConnID, c.isOld)) =
          st.todisp.map (fun c => (c.ConnID, c.isOld)) := by
  intro fuel
  induction fuel with
  | zero =>
    intro st _ hf hm
    omega
  | succ fuel ih =>
    intro st hp hf hm
    unfold topUpLoop
    by_cases ha : st.availsegnum > 0
    · rw [if_pos ha]
      obtain ⟨conn, hconn⟩ : ∃ conn, st.todisp[st.pnode]? = some conn :=
        ⟨st.todisp[st.pnode], List.getElem?_eq_getElem hp⟩
      rw [hconn]
      dsimp only
      by_cases hs : conn.SegNum > conn.SegNumActual
      · rw [if_pos hs]
        dsimp only
        have hc0 : ¬ (0 = counter) := by omega
        rw [if_neg hc0]
        have hkeys : (st.todisp.set st.pnode
            { conn with SegNumActual := conn.SegNumActual + 1 }).map
              (fun c => (c.ConnID, c.isOld)) = st.todisp.map (fun c => (c.ConnID, c.isOld)) :=
          map_set_same _ _ _ conn _ hconn rfl
        obtain ⟨t, ht, hk⟩ := ih
          { todisp := st.todisp.set st.pnode { conn with SegNumActual := conn.SegNumActual + 1 },
            pnode := if st.pnode + 1 < (st.todisp.set st.pnode
                { conn with SegNumActual := conn.SegNumActual + 1 }).length
              then st.pnode + 1 else 0,
            availsegnum := st.availsegnum - 1, fullcount := 0 }
          (by
            dsimp only
            rw [List.length_set]
            split_ifs <;> omega)
          (by dsimp only; omega)
          (by
            dsimp only
            have h1 : (st.availsegnum - 1).toNat + 1 = st.availsegnum.toNat := by omega
            have h2 : st.availsegnum.toNat * (counter + 1)
                = (st.availsegnum - 1).toNat * (counter + 1) + (counter + 1) := by
              rw [← h1]; ring
            omega)
        exact ⟨t, ht, hk.trans hkeys⟩
      · rw [if_neg hs]
        dsimp only
        by_cases hfull : st.fullcount + 1 = counter
        · rw [if_pos hfull]
          exact ⟨_, rfl, rfl⟩
        · rw [if_neg hfull]
          obtain ⟨t, ht, hk⟩ := ih
            { todisp := st.todisp,
              pnode := if st.pnode + 1 < st.todisp.length then st.pnode + 1 else 0,
              availsegnum := st.availsegnum, fullcount := st.fullcount + 1 }
            (by dsimp only; split_ifs <;> omega)
            (by dsimp only; omega)
            (by dsimp only; omega)
          exact ⟨t, ht, hk⟩
    · rw [if_neg ha]
      exact ⟨st, rfl, rfl⟩

/-- The pool side of a dispatch always returns. -/
theorem dispatchAllocateStep_returns (g : RMGlobals) (pool : ResourcePool)
    (req : AllocRequest) : ∃ x, dispatchAllocateStep g pool req = some x := by
  obtain ⟨r, hr⟩ := allocate_returns g pool req
  unfold dispatchAllocateStep
  rw [hr]
  dsimp only
  split_ifs <;> exact ⟨_, rfl⟩

/-- The loop `for ( processidx < counter )` returns when no request to try is an old
one (`Assert(!conn->isOld)`). -/
theorem dispatchLoop_returns (g : RMGlobals) (rm_force_fifo_queue : Bool) (curtime : Nat) :
    ∀ (n : Nat) (st : DispatchState) (xs ys : List ConnectionTrack),
      st.todisp = xs ++ ys → xs.length = n → (∀ c ∈ xs, c.isOld = false) →
      ∃ r : DispatchState, dispatchLoop g rm_force_fifo_queue curtime n st = some r := by
  intro n
  induction n with
  | zero =>
    intro st xs ys _ _ _
    exact ⟨st, rfl⟩
  | succ n ih =>
    intro st xs ys hst hlen hold
    cases xs with
    | nil => simp at hlen
    | cons conn xs1 =>
      have hlen1 : xs1.length = n := by simpa using hlen
      have hold1 : ∀ c ∈ xs1, c.isOld = false := fun c hc => hold c (List.mem_cons_of_mem _ hc)
      have hconn : conn.isOld = false := hold conn (List.mem_cons_self _ _)
      obtain ⟨⟨segnumact, pool⟩, hstep⟩ := dispatchAllocateStep_returns g st.pool
        (allocRequestOf conn)
      unfold dispatchLoop
      rw [hst]
      simp only [List.cons_append, hstep]
      by_cases hok : segnumact ≥ conn.SegNumMin
      · rw [if_pos hok]
        exact ih _ xs1 ys rfl hlen1 hold1
      · rw [if_neg hok]
        have hassert : ¬ (segnumact > 0 ∧ conn.isOld = true) := by
          rw [hconn]
          simp
        rw [if_neg hassert]
        cases rm_force_fifo_queue with
        | true => exact ⟨_, rfl⟩
        | false =>
          simp only [Bool.false_eq_true, if_false]
          exact ih _ xs1 (ys ++ [if (!conn.troubledByFragment) = true then
              { conn with troubledByFragmentTimestamp := curtime, troubledByFragment := true }
            else conn]) (by simp) hlen1 hold1

/-- The loop `for ( processidx < counter )` on `todisp = xs ++ ys`, where `xs` are the
`n` requests not yet tried and `ys` the requests put back at the tail: `fs` are the
identifiers of the requests of `xs` that stay in `todisp` and `ds` those of the requests
dispatched, both in the order of `xs`. -/
theorem dispatchLoop_spec (g : RMGlobals) (rm_force_fifo_queue : Bool) (curtime : Nat) :
    ∀ (n : Nat) (st : DispatchState) (xs ys : List ConnectionTrack) (r : DispatchState),
      st.todisp = xs ++ ys → xs.length = n → (rm_force_fifo_queue = true → ys = []) →
      dispatchLoop g rm_force_fifo_queue curtime n st = some r →
      ∃ fs ds : List Nat,
        r.todisp.map (fun c => c.ConnID) = ys.map (fun c => c.ConnID) ++ fs ∧
        r.dispatched.map (fun c => c.ConnID) = st.dispatched.map (fun c => c.ConnID) ++ ds ∧
        fs.Sublist (xs.map fun c => c.ConnID) ∧ ds.Sublist (xs.map fun c => c.ConnID) ∧
        (ds ++ fs).Perm (xs.map fun c => c.ConnID) ∧
        r.track.NumOfRunningQueries = st.track.NumOfRunningQueries + (ds.length : Int) ∧
        r.track.QueueInfo = st.track.QueueInfo := by
  intro n
  induction n with
  | zero =>
    intro st xs ys r hst hlen _ hr
    have hxs : xs = [] := List.length_eq_zero.1 hlen
    subst hxs
    simp only [dispatchLoop, Option.some.injEq] at hr
    subst hr
    refine ⟨[], [], ?_, by simp, List.Sublist.refl _, List.Sublist.refl _,
      List.Perm.refl _, by simp, rfl⟩
    rw [hst]
    simp
  | succ n ih =>
    intro st xs ys r hst hlen hforce hr
    cases xs with
    | nil => simp at hlen
    | cons conn xs1 =>
      have hlen1 : xs1.length = n := by simpa using hlen
      obtain ⟨⟨segnumact, pool⟩, hstep⟩ := dispatchAllocateStep_returns g st.pool
        (allocRequestOf conn)
      unfold dispatchLoop at hr
      rw [hst] at hr
      simp only [List.cons_append, hstep] at hr
      by_cases hok : segnumact ≥ conn.SegNumMin
      · rw [if_pos hok] at hr
        obtain ⟨fs, ds, h2, h3, h4, h5, h6, h7, h8⟩ := ih _ xs1 ys r rfl hlen1 hforce hr
        refine ⟨fs, conn.ConnID :: ds, h2, ?_, ?_, ?_, ?_, ?_, ?_⟩
        · rw [h3]
          simp
        · exact List.Sublist.cons _ h4
        · exact List.Sublist.cons₂ _ h5
        · simpa using List.Perm.cons conn.ConnID h6
        · rw [h7]
          simp only [markDispatched, List.length_cons]
          push_cast
          ring
        · rw [h8]
          rfl
      · rw [if_neg hok] at hr
        by_cases hassert : segnumact > 0 ∧ conn.isOld = true
        · rw [if_pos hassert] at hr
          cases hr
        · rw [if_neg hassert] at hr
          have hid : (if (!conn.troubledByFragment) = true then
                  { conn with troubledByFragmentTimestamp := curtime,
                              troubledByFragment := true }
                 else conn).ConnID = conn.ConnID := by
            split_ifs <;> rfl
          cases rm_force_fifo_queue with
          | true =>
            have hys : ys = [] := hforce rfl
            subst hys
            simp only [if_true, Option.some.injEq] at hr
            subst hr
            refine ⟨conn.ConnID :: xs1.map (fun c => c.ConnID), [], ?_, by simp,
              by simp, by simp, by simp, by simp, rfl⟩
            simp only [List.map_cons, List.append_nil, List.map_nil, List.nil_append, hid]
          | false =>
            simp only [Bool.false_eq_true, if_false] at hr
            obtain ⟨fs, ds, h2, h3, h4, h5, h6, h7, h8⟩ := ih _ xs1
              (ys ++ [if (!conn.troubledByFragment) = true then
                  { conn with troubledByFragmentTimestamp := curtime,
                              troubledByFragment := true }
                 else conn]) r (by simp) hlen1 (by simp) hr
            refine ⟨conn.ConnID :: fs, ds, ?_, h3, ?_, ?_, ?_, h7, h8⟩
            · rw [h2]
              simp only [List.map_append, List.map_cons, List.map_nil, hid, List.append_assoc,
                List.singleton_append]
            · exact List.Sublist.cons₂ _ h4
            · exact List.Sublist.cons _ h5
            · exact List.perm_middle.trans (List.Perm.cons _ h6)

/-- The requests that `detectAndDealWithDeadLock` leaves in the FIFO are requests of
the FIFO, in their order. -/
theorem detectAndDealWithDeadLock_sublist (fuel : Nat) (track : DynResourceQueueTrack)
    (reqs connToSend : List ConnectionTrack) (d : DeadLockState)
    (h : detectAndDealWithDeadLock fuel track reqs connToSend = some d) :
    d.reqs.Sublist reqs ∧
    ∃ cancelled : List ConnectionTrack,
      d.ConnToSend = connToSend ++ cancelled.map cancelForDeadLock ∧
      d.reqs.length + cancelled.length = reqs.length ∧
      ∀ c ∈ cancelled, c ∈ reqs ∧ holdsInUse track.DLDetector c = true := by
  unfold detectAndDealWithDeadLock at h
  cases he : deadLockExpected track reqs with
  | none =>
    rw [he] at h
    cases h
    exact ⟨List.Sublist.refl _, [], by simp [deadLockInitial], rfl, fun c hc => by cases hc⟩
  | some e =>
    obtain ⟨expmemorymb, expcore⟩ := e
    rw [he] at h
    obtain ⟨hd, _⟩ := deadLockLoop_eq_after expmemorymb expcore fuel _ d h
    obtain ⟨_, h2, _, cancelled, h4, _, h6, h7⟩ :=
      deadLockAfter_spec expmemorymb expcore fuel (deadLockInitial track reqs connToSend)
    rw [hd]
    exact ⟨h2, cancelled, h4, h6, h7⟩

/-- The part of `dispatchResourceToQueries_EVEN` that follows the choice of `counter`
requests, when at least one is chosen: the function returns if no request of the FIFO is
an old one. -/
theorem dispatchResourceToQueries_EVEN_returns (g : RMGlobals) (rm_force_fifo_queue : Bool)
    (curtime fuel : Nat) (track : DynResourceQueueTrack)
    (reqs connToSend : List ConnectionTrack) (pool : ResourcePool) (availsegnum : Int)
    (ha : dispatchAvailSegNum track = some availsegnum)
    (hc : countToDispatch track availsegnum reqs 0 0 ≠ 0)
    (hold : ∀ c ∈ reqs, c.isOld = false) :
    ∃ r, dispatchResourceToQueries_EVEN g rm_force_fifo_queue curtime fuel track reqs
      connToSend pool = some r := by
  obtain ⟨_, hle, _⟩ := countToDispatch_bounds track availsegnum reqs 0 0
  obtain ⟨a1, hmove⟩ := moveToDispatch_spec (countToDispatch track availsegnum reqs 0 0) []
    reqs availsegnum (by omega)
  have hlen : ((reqs.take (countToDispatch track availsegnum reqs 0 0)).map
      (fun conn : ConnectionTrack => { conn with SegNumActual := conn.SegNumMin })).length
      = countToDispatch track availsegnum reqs 0 0 := by
    rw [List.length_map, List.length_take]
    omega
  obtain ⟨t, ht, hk⟩ := topUpLoop_spec (countToDispatch track availsegnum reqs 0 0)
    (topUpFuel (countToDispatch track availsegnum reqs 0 0) a1)
    { todisp := (reqs.take (countToDispatch track availsegnum reqs 0 0)).map
        (fun conn => { conn with SegNumActual := conn.SegNumMin }),
      pnode := 0, availsegnum := a1, fullcount := 0 }
    (by dsimp only; omega) (by dsimp only; omega)
    (by dsimp only; unfold topUpFuel; omega)
  have hold2 : ∀ c ∈ t.todisp, c.isOld = false := by
    intro c hcm
    have h1 : (c.ConnID, c.isOld) ∈ t.todisp.map (fun c => (c.ConnID, c.isOld)) :=
      List.mem_map.2 ⟨c, hcm, rfl⟩
    rw [hk] at h1
    obtain ⟨c1, hc1, he⟩ := List.mem_map.1 h1
    obtain ⟨c0, hc0, rfl⟩ := List.mem_map.1 hc1
    have h0 := hold c0 (List.mem_of_mem_take hc0)
    simp only [Prod.mk.injEq] at he
    rw [← he.2]
    exact h0
  have hlen2 : t.todisp.length = countToDispatch track availsegnum reqs 0 0 := by
    have := congrArg List.length hk
    simp only [List.length_map] at this
    rw [this]
    simp only [List.length_take]
    omega
  obtain ⟨st, hst⟩ := dispatchLoop_returns g rm_force_fifo_queue curtime
    (countToDispatch track availsegnum reqs 0 0)
    { track := track, pool := pool, todisp := t.todisp, dispatched := [] }
    t.todisp [] (by simp) hlen2 hold2
  unfold dispatchResourceToQueries_EVEN
  simp only [ha, if_neg hc, hmove, List.nil_append, ht, hst]
  exact ⟨_, rfl⟩

/-- What `dispatchResourceToQueries_EVEN` leaves when it returns: `ds` are the
identifiers of the requests dispatched and `fs` those of the chosen requests that stay,
both in the order of the FIFO. -/
theorem dispatchResourceToQueries_EVEN_spec (g : RMGlobals) (rm_force_fifo_queue : Bool)
    (curtime fuel : Nat) (track : DynResourceQueueTrack)
    (reqs connToSend : List ConnectionTrack) (pool : ResourcePool) (r : DispatchResult)
    (h : dispatchResourceToQueries_EVEN g rm_force_fifo_queue curtime fuel track reqs
      connToSend pool = some r) :
    ∃ availsegnum, dispatchAvailSegNum track = some availsegnum ∧
      r.track.QueueInfo = track.QueueInfo ∧
      r.track.NumOfRunningQueries = track.NumOfRunningQueries + (r.dispatched.length : Int) ∧
      (countToDispatch track availsegnum reqs 0 0 = 0 →
        r.dispatched = [] ∧ r.reqs.Sublist reqs ∧
        ∃ cancelled : List ConnectionTrack,
          r.ConnToSend = connToSend ++ cancelled.map cancelForDeadLock ∧
          r.reqs.length + cancelled.length = reqs.length ∧
          ∀ c ∈ cancelled, c ∈ reqs ∧ holdsInUse track.DLDetector c = true) ∧
      (countToDispatch track availsegnum reqs 0 0 ≠ 0 →
        r.ConnToSend = connToSend ∧
        ∃ fs : List Nat,
          r.reqs.map (fun c => c.ConnID) = fs ++
            (reqs.drop (countToDispatch track availsegnum reqs 0 0)).map (fun c => c.ConnID) ∧
          fs.Sublist ((reqs.take (countToDispatch track availsegnum reqs 0 0)).map
            fun c => c.ConnID) ∧
          (r.dispatched.map fun c => c.ConnID).Sublist
            ((reqs.take (countToDispatch track availsegnum reqs 0 0)).map fun c => c.ConnID) ∧
          ((r.dispatched.map fun c => c.ConnID) ++ fs).Perm
            ((reqs.take (countToDispatch track availsegnum reqs 0 0)).map fun c => c.ConnID)) := by
  unfold dispatchResourceToQueries_EVEN at h
  cases ha : dispatchAvailSegNum track with
  | none =>
    rw [ha] at h
    cases h
  | some availsegnum =>
    rw [ha] at h
    dsimp only at h
    refine ⟨availsegnum, rfl, ?_⟩
    by_cases hc : countToDispatch track availsegnum reqs 0 0 = 0
    · rw [if_pos hc] at h
      cases hd : detectAndDealWithDeadLock fuel track reqs connToSend with
      | none =>
        rw [hd] at h
        cases h
      | some d =>
        rw [hd] at h
        simp only [Option.some.injEq] at h
        subst h
        obtain ⟨h1, h2⟩ := detectAndDealWithDeadLock_sublist fuel track reqs connToSend d hd
        exact ⟨rfl, by simp, fun _ => ⟨rfl, h1, h2⟩, fun hne => absurd hc hne⟩
    · rw [if_neg hc] at h
      obtain ⟨_, hle, _⟩ := countToDispatch_bounds track availsegnum reqs 0 0
      obtain ⟨a1, hmove⟩ := moveToDispatch_spec (countToDispatch track availsegnum reqs 0 0) []
        reqs availsegnum (by omega)
      rw [hmove] at h
      simp only [List.nil_append] at h
      cases ht : topUpLoop (countToDispatch track availsegnum reqs 0 0)
          (topUpFuel (countToDispatch track availsegnum reqs 0 0) a1)
          { todisp := (reqs.take (countToDispatch track availsegnum reqs 0 0)).map
              (fun conn => { conn with SegNumActual := conn.SegNumMin }),
            pnode := 0, availsegnum := a1, fullcount := 0 } with
      | none =>
        rw [ht] at h
        cases h
      | some t =>
        rw [ht] at h
        dsimp only at h
        obtain ⟨t1, ht1, hk⟩ := topUpLoop_spec (countToDispatch track availsegnum reqs 0 0)
          (topUpFuel (countToDispatch track availsegnum reqs 0 0) a1)
          { todisp := (reqs.take (countToDispatch track availsegnum reqs 0 0)).map
              (fun conn => { conn with SegNumActual := conn.SegNumMin }),
            pnode := 0, availsegnum := a1, fullcount := 0 }
          (by
            dsimp only
            rw [List.length_map, List.length_take]
            omega)
          (by dsimp only; omega)
          (by dsimp only; unfold topUpFuel; omega)
        rw [ht] at ht1
        simp only [Option.some.injEq] at ht1
        subst ht1
        have hids : t.todisp.map (fun c => c.ConnID) =
            (reqs.take (countToDispatch track availsegnum reqs 0 0)).map fun c => c.ConnID := by
          have := congrArg (List.map Prod.fst) hk
          simpa [List.map_map, Function.comp_def] using this
        have hlen2 : t.todisp.length = countToDispatch track availsegnum reqs 0 0 := by
          have := congrArg List.length hids
          simp only [List.length_map, List.length_take] at this
          omega
        cases hst : dispatchLoop g rm_force_fifo_queue curtime
            (countToDispatch track availsegnum reqs 0 0)
            { track := track, pool := pool, todisp := t.todisp, dispatched := [] } with
        | none =>
          rw [hst] at h
          cases h
        | some st =>
          rw [hst] at h
          simp only [Option.some.injEq] at h
          subst h
          obtain ⟨fs, ds, h2, h3, h4, h5, h6, h7, h8⟩ := dispatchLoop_spec g
            rm_force_fifo_queue curtime _ _ t.todisp [] st (by simp) hlen2 (fun _ => rfl) hst
          simp only [List.map_nil, List.nil_append] at h2 h3
          rw [hids] at h4 h5 h6
          refine ⟨h8, ?_, fun h0 => absurd h0 hc, fun _ => ⟨rfl, fs, ?_, h4, ?_, ?_⟩⟩
          · dsimp only
            rw [h7]
            have := congrArg List.length h3
            simp only [List.length_map] at this
            rw [this]
          · simp only [List.map_append, h2]
          · rw [h3]
            exact h5
          · rw [h3]
            exact h6

/-! ## C33: the number of running queries stays within `ParallelCount` -/

/-- C33: for a queue with `NumOfRunningQueries ≤ ParallelCount` (`ActiveStatements`),
the first loop of `dispatchResourceToQueries_EVEN` chooses at most
`ParallelCount - NumOfRunningQueries` requests, whatever `availsegnum` is; when the
function returns, `ParallelCount` is unchanged, `NumOfRunningQueries` has grown by
exactly the number of requests dispatched (those whose allocation reached `SegNumMin`),
and `NumOfRunningQueries ≤ ParallelCount` holds again.  The function returns whenever
it chooses at least one request and no request of the FIFO is an old one. -/
theorem dispatch_keeps_running_queries_within_parallel_count (g : RMGlobals)
    (rm_force_fifo_queue : Bool) (curtime fuel : Nat) (track : DynResourceQueueTrack)
    (reqs connToSend : List ConnectionTrack) (pool : ResourcePool)
    (hinv : track.NumOfRunningQueries ≤ track.QueueInfo.ParallelCount) :
    (∀ availsegnum : Int,
      (countToDispatch track availsegnum reqs 0 0 : Int)
        ≤ track.QueueInfo.ParallelCount - track.NumOfRunningQueries) ∧
    (∀ r, dispatchResourceToQueries_EVEN g rm_force_fifo_queue curtime fuel track reqs
        connToSend pool = some r →
      r.track.QueueInfo.ParallelCount = track.QueueInfo.ParallelCount ∧
      r.track.NumOfRunningQueries = track.NumOfRunningQueries + (r.dispatched.length : Int) ∧
      r.track.NumOfRunningQueries ≤ r.track.QueueInfo.ParallelCount) ∧
    (∀ availsegnum : Int, dispatchAvailSegNum track = some availsegnum →
      countToDispatch track availsegnum reqs 0 0 ≠ 0 → (∀ c ∈ reqs, c.isOld = false) →
      ∃ r, dispatchResourceToQueries_EVEN g rm_force_fifo_queue curtime fuel track reqs
        connToSend pool = some r) := by
  have hcount : ∀ availsegnum : Int,
      (countToDispatch track availsegnum reqs 0 0 : Int)
        ≤ track.QueueInfo.ParallelCount - track.NumOfRunningQueries := by
    intro availsegnum
    obtain ⟨_, _, h3⟩ := countToDispatch_bounds track availsegnum reqs 0 0
    have := h3 (by push_cast; omega)
    omega
  refine ⟨hcount, ?_, ?_⟩
  · intro r hr
    obtain ⟨availsegnum, _, hq, hn, h0, h1⟩ := dispatchResourceToQueries_EVEN_spec g
      rm_force_fifo_queue curtime fuel track reqs connToSend pool r hr
    refine ⟨by rw [hq], hn, ?_⟩
    rw [hn, hq]
    by_cases hc : countToDispatch track availsegnum reqs 0 0 = 0
    · rw [(h0 hc).1]
      simpa using hinv
    · obtain ⟨_, fs, _, _, hsub, _⟩ := h1 hc
      have hlen := hsub.length_le
      simp only [List.length_map, List.length_take] at hlen
      have := hcount availsegnum
      omega
  · intro availsegnum ha hc hold
    exact dispatchResourceToQueries_EVEN_returns g rm_force_fifo_queue curtime fuel track reqs
      connToSend pool availsegnum ha hc hold

/-- The queue of the example, with 1 of at most 3 statements running: the requests 1
and 2 are chosen, the request 2 is dispatched, and 2 statements are running. -/
theorem dispatch_keeps_running_queries_within_parallel_count_witness :
    exDispatchTrack.NumOfRunningQueries ≤ exDispatchTrack.QueueInfo.ParallelCount ∧
    dispatchResourceToQueries_EVEN exGlobals false 5 0 exDispatchTrack exDispatchQueue []
      exPool1 = some exDispatched ∧
    (exDispatched.track.QueueInfo.ParallelCount = exDispatchTrack.QueueInfo.ParallelCount ∧
      exDispatched.track.NumOfRunningQueries =
        exDispatchTrack.NumOfRunningQueries + (exDispatched.dispatched.length : Int) ∧
      exDispatched.track.NumOfRunningQueries ≤ exDispatched.track.QueueInfo.ParallelCount) ∧
    (exDispatched.track.NumOfRunningQueries, exDispatched.dispatched.map fun c => c.ConnID)
      = (2, [2]) :=
  ⟨by decide, by decide!,
   (dispatch_keeps_running_queries_within_parallel_count exGlobals false 5 0 exDispatchTrack
      exDispatchQueue [] exPool1 (by decide)).2.1 exDispatched (by decide!),
   by decide!⟩

/-! ## C34: the order of the FIFO after a dispatch -/

/-- C34, the function at the failing input: the queue `exDeadLockTrack` has nothing
allocated, so the first loop chooses no request and the function calls
`detectAndDealWithDeadLock`, which removes the request 8 from the FIFO and answers it
with `RESQUEMGR_DEADLOCK_DETECTED`.  No request is dispatched, and the FIFO left is not
the original one: it holds the request 7 only, for both values of
`rm_force_fifo_queue`. -/
theorem dispatch_removes_request_not_dispatched :
    (dispatchAvailSegNum exDeadLockTrack).map
        (fun a => countToDispatch exDeadLockTrack a [exWaiting 7 2 2, exWaiting 8 1 1] 0 0)
      = some 0 ∧
    (dispatchResourceToQueries_EVEN exGlobals false 5 1 exDeadLockTrack
        [exWaiting 7 2 2, exWaiting 8 1 1] [] exPool1).map
        (fun r => (r.dispatched, r.reqs.map (fun c => c.ConnID),
          r.ConnToSend.map fun c => (c.ConnID, c.ResponseResult)))
      = some ([], [7], [(8, some RESQUEMGR_DEADLOCK_DETECTED)]) ∧
    (dispatchResourceToQueries_EVEN exGlobals true 5 1 exDeadLockTrack
        [exWaiting 7 2 2, exWaiting 8 1 1] [] exPool1).map
        (fun r => (r.dispatched, r.reqs.map (fun c => c.ConnID),
          r.ConnToSend.map fun c => (c.ConnID, c.ResponseResult)))
      = some ([], [7], [(8, some RESQUEMGR_DEADLOCK_DETECTED)]) := by
  refine ⟨?_, ?_, ?_⟩ <;> decide!

/-- C34 (amended): when `dispatchResourceToQueries_EVEN` returns, for both values of
`rm_force_fifo_queue`, the requests dispatched are among the first `counter` requests of
the FIFO, in their order, and the FIFO left holds requests of the original FIFO in their
original relative order (requests are compared by `ConnID`).  If at least one request
was chosen (`counter ≠ 0`), the requests dispatched and the requests left are together
the requests of the original FIFO, and `ConnToSend` is unchanged.  If none was chosen,
nothing is dispatched and the requests missing from the FIFO are those cancelled by
`detectAndDealWithDeadLock`: requests of the FIFO whose sessions hold in-use memory,
added to `ConnToSend`. -/
theorem dispatch_keeps_fifo_order (g : RMGlobals) (rm_force_fifo_queue : Bool)
    (curtime fuel : Nat) (track : DynResourceQueueTrack)
    (reqs connToSend : List ConnectionTrack) (pool : ResourcePool) (r : DispatchResult)
    (h : dispatchResourceToQueries_EVEN g rm_force_fifo_queue curtime fuel track reqs
      connToSend pool = some r) :
    ∃ availsegnum, dispatchAvailSegNum track = some availsegnum ∧
      (r.dispatched.map fun c => c.ConnID).Sublist
        ((reqs.take (countToDispatch track availsegnum reqs 0 0)).map fun c => c.ConnID) ∧
      (r.reqs.map fun c => c.ConnID).Sublist (reqs.map fun c => c.ConnID) ∧
      (countToDispatch track availsegnum reqs 0 0 ≠ 0 →
        ((r.dispatched ++ r.reqs).map fun c => c.ConnID).Perm (reqs.map fun c => c.ConnID) ∧
        r.ConnToSend = connToSend) ∧
      (countToDispatch track availsegnum reqs 0 0 = 0 →
        r.dispatched = [] ∧
        ∃ cancelled : List ConnectionTrack,
          r.ConnToSend = connToSend ++ cancelled.map cancelForDeadLock ∧
          r.reqs.length + cancelled.length = reqs.length ∧
          ∀ c ∈ cancelled, c ∈ reqs ∧ holdsInUse track.DLDetector c = true) := by
  obtain ⟨availsegnum, ha, _, _, h0, h1⟩ := dispatchResourceToQueries_EVEN_spec g
    rm_force_fifo_queue curtime fuel track reqs connToSend pool r h
  refine ⟨availsegnum, ha, ?_⟩
  by_cases hc : countToDispatch track availsegnum reqs 0 0 = 0
  · obtain ⟨hd, hsub, hcancel⟩ := h0 hc
    refine ⟨by rw [hd]; simp, hsub.map _, fun hne => absurd hc hne, fun _ => ⟨hd, hcancel⟩⟩
  · obtain ⟨hsend, fs, hfs, hfsub, hdsub, hperm⟩ := h1 hc
    have hsplit : reqs.map (fun c => c.ConnID) =
        (reqs.take (countToDispatch track availsegnum reqs 0 0)).map (fun c => c.ConnID) ++
        (reqs.drop (countToDispatch track availsegnum reqs 0 0)).map (fun c => c.ConnID) := by
      rw [← List.map_append, List.take_append_drop]
    refine ⟨hdsub, ?_, fun _ => ⟨?_, hsend⟩, fun h0 => absurd h0 hc⟩
    · rw [hfs, hsplit]
      exact List.Sublist.append hfsub (List.Sublist.refl _)
    · rw [List.map_append, hfs, hsplit, ← List.append_assoc]
      exact List.Perm.append_right _ hperm

/-- The queue of the example for both values of `rm_force_fifo_queue`: off, the request
2 is dispatched and the FIFO keeps 1 and 3; on, the loop stops at the request 1 and the
FIFO is the original one. -/
theorem dispatch_keeps_fifo_order_witness :
    dispatchResourceToQueries_EVEN exGlobals false 5 0 exDispatchTrack exDispatchQueue []
      exPool1 = some exDispatched ∧
    (exDispatched.dispatched.map fun c => c.ConnID) = [2] ∧
    (exDispatched.reqs.map fun c => c.ConnID) = [1, 3] ∧
    (dispatchResourceToQueries_EVEN exGlobals true 5 0 exDispatchTrack exDispatchQueue []
      exPool1).map (fun r => (r.dispatched.map fun c => c.ConnID, r.reqs.map fun c => c.ConnID))
      = some ([], [1, 2, 3]) ∧
    ∃ availsegnum, dispatchAvailSegNum exDispatchTrack = some availsegnum ∧
      (exDispatched.dispatched.map fun c => c.ConnID).Sublist
        ((exDispatchQueue.take (countToDispatch exDispatchTrack availsegnum exDispatchQueue
          0 0)).map fun c => c.ConnID) ∧
      (exDispatched.reqs.map fun c => c.ConnID).Sublist
        (exDispatchQueue.map fun c => c.ConnID) ∧
      (countToDispatch exDispatchTrack availsegnum exDispatchQueue 0 0 ≠ 0 →
        ((exDispatched.dispatched ++ exDispatched.reqs).map fun c => c.ConnID).Perm
          (exDispatchQueue.map fun c => c.ConnID) ∧
        exDispatched.ConnToSend = []) ∧
      (countToDispatch exDispatchTrack availsegnum exDispatchQueue 0 0 = 0 →
        exDispatched.dispatched = [] ∧
        ∃ cancelled : List ConnectionTrack,
          exDispatched.ConnToSend = [] ++ cancelled.map cancelForDeadLock ∧
          exDispatched.reqs.length + cancelled.length = exDispatchQueue.length ∧
          ∀ c ∈ cancelled, c ∈ exDispatchQueue ∧
            holdsInUse exDispatchTrack.DLDetector c = true) :=
  ⟨by decide!, by decide!, by decide!, by decide!,
   dispatch_keeps_fifo_order exGlobals false 5 0 exDispatchTrack exDispatchQueue [] exPool1
     exDispatched (by decide!)⟩

/-! ## The distribution among the queues of a ratio: the trackers -/

theorem getTrackByID_id (qm : QueueManager) (x : Nat) (t : DynResourceQueueTrack)
    (h : getTrackByID qm x = some t) : t.TrackID = x := by
  unfold getTrackByID at h
  have := List.find?_some h
  simpa using this

theorem getTrackByID_update_other (qm : QueueManager) (tid x : Nat)
    (f : DynResourceQueueTrack → DynResourceQueueTrack)
    (hf : ∀ t, (f t).TrackID = t.TrackID) (hx : x ≠ tid) :
    getTrackByID (updateTrack qm tid f) x = getTrackByID qm x := by
  rw [getTrackByID_updateTrack qm tid x f hf]
  cases h : getTrackByID qm x with
  | none => rfl
  | some t =>
    have := getTrackByID_id qm x t h
    simp [this, hx]

theorem getTrackByID_update_same (qm : QueueManager) (tid : Nat)
    (f : DynResourceQueueTrack → DynResourceQueueTrack) (t : DynResourceQueueTrack)
    (hf : ∀ t, (f t).TrackID = t.TrackID) (h : getTrackByID qm tid = some t) :
    getTrackByID (updateTrack qm tid f) tid = some (f t) := by
  rw [getTrackByID_updateTrack qm tid tid f hf, h]
  simp [getTrackByID_id qm tid t h]

theorem SameConfig_update (q1 q2 : QueueManager) (tid : Nat)
    (f : DynResourceQueueTrack → DynResourceQueueTrack)
    (hf : ∀ t, trackConfig (f t) = trackConfig t) (h : SameConfig q1 q2) :
    SameConfig (updateTrack q1 tid f) q2 := by
  have hid : ∀ t, (f t).TrackID = t.TrackID := fun t => congrArg Prod.fst (hf t)
  intro x
  rw [getTrackByID_updateTrack q1 tid x f hid, ← h x]
  cases getTrackByID q1 x with
  | none => rfl
  | some t =>
    simp only [Option.map_some', Option.some.injEq]
    split_ifs
    · exact hf t
    · rfl

theorem SameConfig_some (q1 q2 : QueueManager) (x : Nat) (t : DynResourceQueueTrack)
    (h : SameConfig q1 q2) (ht : getTrackByID q1 x = some t) :
    ∃ t0, getTrackByID q2 x = some t0 ∧ trackConfig t = trackConfig t0 := by
  have := h x
  rw [ht] at this
  cases h2 : getTrackByID q2 x with
  | none => rw [h2] at this; cases this
  | some t0 =>
    rw [h2] at this
    simp only [Option.map_some', Option.some.injEq] at this
    exact ⟨t0, rfl, this⟩

theorem busyValue_update_other (f : DynResourceQueueTrack → Int) (qm : QueueManager)
    (tid x : Nat) (g : DynResourceQueueTrack → DynResourceQueueTrack)
    (hg : ∀ t, (g t).TrackID = t.TrackID) (hx : x ≠ tid) :
    busyValue f (updateTrack qm tid g) x = busyValue f qm x := by
  unfold busyValue
  rw [getTrackByID_update_other qm tid x g hg hx]

theorem sum_busyValue_update_not_mem (f : DynResourceQueueTrack → Int) (qm : QueueManager)
    (tid : Nat) (g : DynResourceQueueTrack → DynResourceQueueTrack)
    (hg : ∀ t, (g t).TrackID = t.TrackID) (l : List Nat) (hl : tid ∉ l) :
    (l.map (busyValue f (updateTrack qm tid g))).sum = (l.map (busyValue f qm)).sum := by
  congr 1
  apply List.map_congr_left
  intro x hx
  exact busyValue_update_other f qm tid x g hg (fun h => hl (h ▸ hx))

theorem busyValue_sameConfig (q1 q2 : QueueManager) (h : SameConfig q1 q2) (x : Nat)
    (f : DynResourceQueueTrack → Int)
    (hf : ∀ a b, trackConfig a = trackConfig b → f a = f b) :
    busyValue f q1 x = busyValue f q2 x := by
  unfold busyValue
  have := h x
  cases h1 : getTrackByID q1 x with
  | none =>
    rw [h1] at this
    cases h2 : getTrackByID q2 x with
    | none => rfl
    | some t0 => rw [h2] at this; cases this
  | some t =>
    obtain ⟨t0, h2, hc⟩ := SameConfig_some q1 q2 x t h h1
    rw [h2]
    dsimp only
    have hb : t.isBusy = t0.isBusy := congrArg (fun c => c.2.1) hc
    rw [hb, hf t t0 hc]

/-! ## The distribution among the queues of a ratio: the first loop -/

theorem toUInt32_of_range (x : Int) (h0 : 0 ≤ x) (h1 : x < 4294967296) : toUInt32 x = x := by
  unfold toUInt32
  omega

theorem toInt32_of_range (x : Int) (h0 : 0 ≤ x) (h1 : x < 2147483648) : toInt32 x = x := by
  unfold toInt32
  omega

theorem overList_append (mctrack : DynMemoryCoreRatioTrack) (qm : QueueManager)
    (done : List Nat) (tid : Nat) (t0 : DynResourceQueueTrack)
    (h0 : getTrackByID qm tid = some t0) :
    overList mctrack qm (done ++ [tid]) =
      overList mctrack qm done ++ (if (t0.isBusy && overUsing mctrack t0) = true then [tid] else []) ∧
    toAllocList mctrack qm (done ++ [tid]) =
      toAllocList mctrack qm done ++
        (if (t0.isBusy && !overUsing mctrack t0) = true then [tid] else []) := by
  unfold overList toAllocList
  constructor <;> simp only [List.filter_append, List.filter_cons, List.filter_nil, h0]

theorem busyValue_some (f : DynResourceQueueTrack → Int) (qm : QueueManager) (tid : Nat)
    (t : DynResourceQueueTrack) (h : getTrackByID qm tid = some t) :
    busyValue f qm tid = if t.isBusy then f t else 0 := by
  unfold busyValue
  rw [h]

/-- One pass of the first loop keeps `ClassifyInv`. -/
theorem classifyQueue_step (mctrack : DynMemoryCoreRatioTrack) (qm : QueueManager)
    (st st1 : DistributeState) (done : List Nat) (tid : Nat)
    (hall0 : 0 ≤ mctrack.TotalAllocated.MemoryMB)
    (hall1 : mctrack.TotalAllocated.MemoryMB < 2147483648)
    (hnot : tid ∉ done)
    (hused : busyUsedMemory qm (overList mctrack qm (done ++ [tid]))
      ≤ mctrack.TotalAllocated.MemoryMB)
    (hused0 : ∀ t0, getTrackByID qm tid = some t0 → t0.isBusy = true →
      0 ≤ t0.TotalUsed.MemoryMB ∧ 0 ≤ t0.QueueInfo.ClusterMemoryMB)
    (hweight : busyClusterMemory qm (toAllocList mctrack qm (done ++ [tid])) < 4294967296)
    (hweight0 : 0 ≤ busyClusterMemory qm (toAllocList mctrack qm done))
    (husedsum0 : 0 ≤ busyUsedMemory qm (overList mctrack qm done))
    (hinv : ClassifyInv mctrack qm st done)
    (h : classifyQueue mctrack (toUInt32 mctrack.TotalAllocated.MemoryMB) st tid = some st1) :
    ClassifyInv mctrack qm st1 (done ++ [tid]) := by
  obtain ⟨hcfg, hta, hav, hw, hexp, hover⟩ := hinv
  unfold classifyQueue at h
  cases ht : getTrackByID st.qm tid with
  | none =>
    rw [ht] at h
    cases h
  | some track =>
    rw [ht] at h
    dsimp only at h
    obtain ⟨t0, ht0, hc0⟩ := SameConfig_some st.qm qm tid track hcfg ht
    have hbusy : track.isBusy = t0.isBusy := congrArg (fun c => c.2.1) hc0
    have hinfo : track.QueueInfo = t0.QueueInfo := congrArg (fun c => c.2.2.1) hc0
    have husedeq : track.TotalUsed = t0.TotalUsed := congrArg (fun c => c.2.2.2.1) hc0
    obtain ⟨hol, htl⟩ := overList_append mctrack qm done tid t0 ht0
    -- the reset of `expectMoreResource`
    have hreset : ∀ t : DynResourceQueueTrack,
        trackConfig { t with expectMoreResource := false } = trackConfig t := fun _ => rfl
    have hresetid : ∀ t : DynResourceQueueTrack,
        ({ t with expectMoreResource := false } : DynResourceQueueTrack).TrackID = t.TrackID :=
      fun _ => rfl
    have hoverid : ∀ t : DynResourceQueueTrack,
        ({ t with
           TotalAllocated := { MemoryMB := t.TotalUsed.MemoryMB, Core := t.TotalUsed.Core },
           pauseAllocation := true } : DynResourceQueueTrack).TrackID = t.TrackID :=
      fun _ => rfl
    have hpauseid : ∀ t : DynResourceQueueTrack,
        ({ t with pauseAllocation := false } : DynResourceQueueTrack).TrackID = t.TrackID :=
      fun _ => rfl
    by_cases hb : track.isBusy = true
    · have hb0 : t0.isBusy = true := by rw [← hbusy]; exact hb
      simp only [hb, Bool.not_true, Bool.false_eq_true, if_false] at h
      have huse : usesMoreThanWeight mctrack (toUInt32 mctrack.TotalAllocated.MemoryMB) track
          = overUsing mctrack t0 := by
        unfold overUsing usesMoreThanWeight
        rw [husedeq, hinfo]
      rw [huse] at h
      obtain ⟨hu0, hcm0⟩ := hused0 t0 ht0 hb0
      by_cases hov : overUsing mctrack t0 = true
      · rw [if_pos hov] at h
        simp only [Option.some.injEq] at h
        subst h
        simp only [hb0, hov, Bool.and_self, if_true, Bool.not_true, Bool.and_false,
          Bool.false_eq_true, if_false, List.append_nil] at hol htl
        have hsum : busyUsedMemory qm (overList mctrack qm done ++ [tid]) =
            busyUsedMemory qm (overList mctrack qm done) + t0.TotalUsed.MemoryMB := by
          unfold busyUsedMemory
          rw [List.map_append, List.sum_append]
          simp [busyValue_some _ qm tid t0 ht0, hb0]
        rw [hol, hsum] at hused
        refine ⟨?_, ?_, ?_, ?_, ?_, ?_⟩
        · exact SameConfig_update _ _ _ _ (fun _ => rfl)
            (SameConfig_update _ _ _ _ hreset hcfg)
        · rw [htl]
          exact hta
        · dsimp only
          rw [hol, hsum, hav, husedeq, toUInt32_of_range _ (by omega) (by omega)]
          omega
        · rw [htl]
          exact hw
        · intro x hx t hxt
          dsimp only at hxt
          rcases List.mem_append.1 hx with hx | hx
          · have hne : x ≠ tid := fun he => hnot (he ▸ hx)
            rw [getTrackByID_update_other _ tid x _ hoverid hne,
              getTrackByID_update_other _ tid x _ hresetid hne] at hxt
            exact hexp x hx t hxt
          · have hxe : x = tid := by simpa using hx
            subst hxe
            rw [getTrackByID_update_same _ x _ _ hoverid
              (getTrackByID_update_same _ x _ track hresetid ht)] at hxt
            cases hxt
            rfl
        · intro x hx t hxt
          dsimp only at hxt
          rw [hol] at hx
          rcases List.mem_append.1 hx with hx | hx
          · have hne : x ≠ tid := by
              intro he
              apply hnot
              rw [← he]
              exact (List.mem_filter.1 hx).1
            rw [getTrackByID_update_other _ tid x _ hoverid hne,
              getTrackByID_update_other _ tid x _ hresetid hne] at hxt
            exact hover x hx t hxt
          · have hxe : x = tid := by simpa using hx
            subst hxe
            rw [getTrackByID_update_same _ x _ _ hoverid
              (getTrackByID_update_same _ x _ track hresetid ht)] at hxt
            cases hxt
            rfl
      · rw [if_neg hov] at h
        simp only [Option.some.injEq] at h
        subst h
        have hov2 : overUsing mctrack t0 = false := by simpa using hov
        simp only [hb0, hov2, Bool.and_false, Bool.false_eq_true, if_false, List.append_nil,
          Bool.not_false, Bool.and_self, if_true] at hol htl
        have hsum : busyClusterMemory qm (toAllocList mctrack qm done ++ [tid]) =
            busyClusterMemory qm (toAllocList mctrack qm done)
              + t0.QueueInfo.ClusterMemoryMB := by
          unfold busyClusterMemory
          rw [List.map_append, List.sum_append]
          simp [busyValue_some _ qm tid t0 ht0, hb0]
        rw [htl, hsum] at hweight
        refine ⟨?_, ?_, ?_, ?_, ?_, ?_⟩
        · exact SameConfig_update _ _ _ _ (fun _ => rfl)
            (SameConfig_update _ _ _ _ hreset hcfg)
        · dsimp only
          rw [htl, hta]
        · rw [hol]
          exact hav
        · dsimp only
          rw [htl, hsum, hw, hinfo, toUInt32_of_range _ (by omega) (by omega)]
        · intro x hx t hxt
          dsimp only at hxt
          rcases List.mem_append.1 hx with hx | hx
          · have hne : x ≠ tid := fun he => hnot (he ▸ hx)
            rw [getTrackByID_update_other _ tid x _ hpauseid hne,
              getTrackByID_update_other _ tid x _ hresetid hne] at hxt
            exact hexp x hx t hxt
          · have hxe : x = tid := by simpa using hx
            subst hxe
            rw [getTrackByID_update_same _ x _ _ hpauseid
              (getTrackByID_update_same _ x _ track hresetid ht)] at hxt
            cases hxt
            rfl
        · intro x hx t hxt
          dsimp only at hxt
          rw [hol] at hx
          have hne : x ≠ tid := by
            intro he
            apply hnot
            rw [← he]
            exact (List.mem_filter.1 hx).1
          rw [getTrackByID_update_other _ tid x _ hpauseid hne,
            getTrackByID_update_other _ tid x _ hresetid hne] at hxt
          exact hover x hx t hxt
    · have hb0 : t0.isBusy = false := by
        rw [← hbusy]
        simpa using hb
      have hb1 : track.isBusy = false := by simpa using hb
      simp only [hb1, Bool.not_false, if_true, Option.some.injEq] at h
      subst h
      simp only [hb0, Bool.false_and, Bool.false_eq_true, if_false, List.append_nil]
        at hol htl
      refine ⟨SameConfig_update _ _ _ _ hreset hcfg, by rw [htl]; exact hta,
        by rw [hol]; exact hav, by rw [htl]; exact hw, ?_, ?_⟩
      · intro x hx t hxt
        dsimp only at hxt
        rcases List.mem_append.1 hx with hx | hx
        · have hne : x ≠ tid := fun he => hnot (he ▸ hx)
          rw [getTrackByID_update_other _ tid x _ hresetid hne] at hxt
          exact hexp x hx t hxt
        · have hxe : x = tid := by simpa using hx
          subst hxe
          rw [getTrackByID_update_same _ x _ track hresetid ht] at hxt
          cases hxt
          rfl
      · intro x hx t hxt
        dsimp only at hxt
        rw [hol] at hx
        have hne : x ≠ tid := by
          intro he
          apply hnot
          rw [← he]
          exact (List.mem_filter.1 hx).1
        rw [getTrackByID_update_other _ tid x _ hresetid hne] at hxt
        exact hover x hx t hxt

/-- Sums of a non-negative value over a sublist of the trackers. -/
theorem busySum_sublist (f : DynResourceQueueTrack → Int) (qm : QueueManager)
    (tids l : List Nat) (hsub : l.Sublist tids)
    (h0 : ∀ x ∈ tids, 0 ≤ busyValue f qm x) :
    0 ≤ (l.map (busyValue f qm)).sum ∧
    (l.map (busyValue f qm)).sum ≤ (tids.map (busyValue f qm)).sum := by
  constructor
  · apply List.sum_nonneg
    intro v hv
    obtain ⟨x, hx, rfl⟩ := List.mem_map.1 hv
    exact h0 x (hsub.subset hx)
  · apply List.Sublist.sum_le_sum (hsub.map _)
    intro v hv
    obtain ⟨x, hx, rfl⟩ := List.mem_map.1 hv
    exact h0 x hx

theorem busyValue_nonneg (f : DynResourceQueueTrack → Int) (qm : QueueManager) (x : Nat)
    (h : ∀ t, getTrackByID qm x = some t → t.isBusy = true → 0 ≤ f t) :
    0 ≤ busyValue f qm x := by
  unfold busyValue
  cases ht : getTrackByID qm x with
  | none => exact le_refl _
  | some t =>
    dsimp only
    by_cases hb : t.isBusy = true
    · rw [if_pos hb]
      exact h t ht hb
    · rw [if_neg hb]

/-- The first loop of the distribution leaves `ClassifyInv` for all the trackers of the
ratio. -/
theorem classify_fold (mctrack : DynMemoryCoreRatioTrack) (qm : QueueManager)
    (tids : List Nat) (hnodup : tids.Nodup)
    (hall0 : 0 ≤ mctrack.TotalAllocated.MemoryMB)
    (hall1 : mctrack.TotalAllocated.MemoryMB < 2147483648)
    (hrange : ∀ tid ∈ tids, ∀ t ∈ getTrackByID qm tid, t.isBusy = true → QueueInRange t)
    (hused : busyUsedMemory qm tids ≤ mctrack.TotalAllocated.MemoryMB)
    (hweight : busyClusterMemory qm tids < 4294967296) :
    ∀ (l done : List Nat) (st st1 : DistributeState), done ++ l = tids →
      l.foldl (fun acc tid => acc.bind fun st =>
        classifyQueue mctrack (toUInt32 mctrack.TotalAllocated.MemoryMB) st tid) (some st)
        = some st1 →
      ClassifyInv mctrack qm st done → ClassifyInv mctrack qm st1 tids := by
  have hu0 : ∀ x ∈ tids, 0 ≤ busyValue (fun t => t.TotalUsed.MemoryMB) qm x := by
    intro x hx
    apply busyValue_nonneg
    intro t ht hb
    exact (hrange x hx t ht hb).2.1
  have hc0 : ∀ x ∈ tids, 0 ≤ busyValue (fun t => t.QueueInfo.ClusterMemoryMB) qm x := by
    intro x hx
    apply busyValue_nonneg
    intro t ht hb
    exact le_of_lt (hrange x hx t ht hb).1
  intro l
  induction l with
  | nil =>
    intro done st st1 hd h hinv
    simp only [List.foldl_nil, Option.some.injEq] at h
    subst h
    rw [List.append_nil] at hd
    rw [← hd]
    exact hinv
  | cons tid rest ih =>
    intro done st st1 hd h hinv
    simp only [List.foldl_cons, Option.some_bind] at h
    cases hstep : classifyQueue mctrack (toUInt32 mctrack.TotalAllocated.MemoryMB) st tid with
    | none =>
      rw [hstep, foldl_bind_none] at h
      cases h
    | some st2 =>
      rw [hstep] at h
      have hd2 : (done ++ [tid]) ++ rest = tids := by
        rw [List.append_assoc]
        exact hd
      have hnd : (done ++ (tid :: rest)).Nodup := by rw [hd]; exact hnodup
      have hnot : tid ∉ done := by
        intro hmem
        have := (List.nodup_append.1 hnd).2.2
        exact this hmem (List.mem_cons_self _ _)
      have hmem : tid ∈ tids := by
        rw [← hd]
        simp
      have hsub1 : (done ++ [tid]).Sublist tids := by
        rw [← hd2]
        exact List.sublist_append_left _ _
      have hsub0 : done.Sublist tids := (List.sublist_append_left _ _).trans hsub1
      have hso : (overList mctrack qm (done ++ [tid])).Sublist tids :=
        (List.filter_sublist _).trans hsub1
      have hso0 : (overList mctrack qm done).Sublist tids :=
        (List.filter_sublist _).trans hsub0
      have hst : (toAllocList mctrack qm (done ++ [tid])).Sublist tids :=
        (List.filter_sublist _).trans hsub1
      have hst0 : (toAllocList mctrack qm done).Sublist tids :=
        (List.filter_sublist _).trans hsub0
      apply ih (done ++ [tid]) st2 st1 hd2 h
      apply classifyQueue_step mctrack qm st st2 done tid hall0 hall1 hnot
      · exact le_trans (busySum_sublist _ qm tids _ hso hu0).2 hused
      · intro t0 ht0 hb
        have := hrange tid hmem t0 ht0 hb
        exact ⟨this.2.1, le_of_lt this.1⟩
      · exact lt_of_le_of_lt (busySum_sublist _ qm tids _ hst hc0).2 hweight
      · exact (busySum_sublist _ qm tids _ hst0 hc0).1
      · exact (busySum_sublist _ qm tids _ hso0 hu0).1
      · exact hinv
      · exact hstep

/-! ## The distribution among the queues of a ratio: the second loop -/

/-- The second loop gives the busy queue `tid` the allocation `X`. -/
theorem shareInv_update (qm : QueueManager) (tids : List Nat) (A W : Int) (ol : List Nat)
    (st : DistributeState) (p : List Nat) (tid : Nat) (track : DynResourceQueueTrack)
    (X : ResourceBundle) (e : Bool) (left1 : Int) (asserted1 : Bool)
    (hinv : ShareInv qm tids A W ol st p)
    (ht : getTrackByID st.qm tid = some track) (hb : track.isBusy = true)
    (hnp : tid ∉ p) (hnol : tid ∉ ol)
    (hX0 : 0 ≤ X.MemoryMB) (hXmax : X.MemoryMB ≤ track.ClusterMemoryMaxMB)
    (hleft : left1 = st.leftmemory2 - X.MemoryMB)
    (hprod : X.MemoryMB * W ≤ track.QueueInfo.ClusterMemoryMB * A)
    (hleft0 : 0 ≤ left1) :
    ShareInv qm tids A W ol
      { st with
        qm := updateTrack st.qm tid fun t =>
          { t with TotalAllocated := X, expectMoreResource := e },
        leftmemory2 := left1, asserted := asserted1 } (p ++ [tid]) := by
  obtain ⟨hcfg, hav, hw, hsum, hs0, hsw, hexp, hover, hl⟩ := hinv
  have hgid : ∀ t : DynResourceQueueTrack,
      ({ t with TotalAllocated := X, expectMoreResource := e } :
        DynResourceQueueTrack).TrackID = t.TrackID := fun _ => rfl
  obtain ⟨t0, ht0, hc0⟩ := SameConfig_some st.qm qm tid track hcfg ht
  have hbusy : track.isBusy = t0.isBusy := congrArg (fun c => c.2.1) hc0
  have hinfo : track.QueueInfo = t0.QueueInfo := congrArg (fun c => c.2.2.1) hc0
  have hnew : busyAllocatedMemory
      (updateTrack st.qm tid fun t => { t with TotalAllocated := X, expectMoreResource := e })
      (p ++ [tid]) = busyAllocatedMemory st.qm p + X.MemoryMB := by
    unfold busyAllocatedMemory
    rw [List.map_append, List.sum_append, sum_busyValue_update_not_mem _ _ _ _ hgid p hnp]
    simp [busyValue_some _ _ tid _ (getTrackByID_update_same _ tid _ track hgid ht), hb]
  have hcmnew : busyClusterMemory qm (p ++ [tid]) =
      busyClusterMemory qm p + track.QueueInfo.ClusterMemoryMB := by
    unfold busyClusterMemory
    rw [List.map_append, List.sum_append]
    simp [busyValue_some _ qm tid t0 ht0, ← hbusy, hb, hinfo]
  refine ⟨SameConfig_update _ _ _ _ (fun _ => rfl) hcfg, hav, hw, ?_, ?_, ?_, ?_, ?_, hleft0⟩
  · dsimp only
    rw [hnew, hleft]
    omega
  · dsimp only
    rw [hnew]
    omega
  · dsimp only
    rw [hnew, hcmnew]
    nlinarith [hsw, hprod]
  · intro x hx t hxt hte
    dsimp only at hxt
    by_cases hxe : x = tid
    · subst hxe
      rw [getTrackByID_update_same _ x _ track hgid ht] at hxt
      cases hxt
      exact ⟨by simp, hX0, hXmax⟩
    · rw [getTrackByID_update_other _ tid x _ hgid hxe] at hxt
      obtain ⟨h1, h2, h3⟩ := hexp x hx t hxt hte
      exact ⟨List.mem_append_left _ h1, h2, h3⟩
  · intro x hx t hxt
    dsimp only at hxt
    have hxe : x ≠ tid := fun he => hnol (he ▸ hx)
    rw [getTrackByID_update_other _ tid x _ hgid hxe] at hxt
    exact hover x hx t hxt

/-- One pass of the second loop keeps `ShareInv`. -/
theorem shareQueue_step (qm : QueueManager) (tids : List Nat) (A W : Int) (ol : List Nat)
    (st st1 : DistributeState) (p : List Nat) (tid : Nat)
    (hA0 : 0 ≤ A) (hA1 : A < 2147483648) (hW : 0 < W)
    (hnp : tid ∉ p) (hnol : tid ∉ ol)
    (hbusy : ∀ t0, getTrackByID qm tid = some t0 → t0.isBusy = true ∧ QueueInRange t0)
    (hcm : busyClusterMemory qm (p ++ [tid]) ≤ W)
    (hinv : ShareInv qm tids A W ol st p)
    (h : shareQueue st tid = some st1) : ShareInv qm tids A W ol st1 (p ++ [tid]) := by
  obtain ⟨hcfg, hav, hw, hsum, hs0, hsw, hexp, hover, hl⟩ := id hinv
  subst hav
  subst hw
  unfold shareQueue at h
  cases ht : getTrackByID st.qm tid with
  | none =>
    rw [ht] at h
    cases h
  | some track =>
    rw [ht] at h
    dsimp only at h
    obtain ⟨t0, ht0, hc0⟩ := SameConfig_some st.qm qm tid track hcfg ht
    have hb : track.isBusy = t0.isBusy := congrArg (fun c => c.2.1) hc0
    have hinfo : track.QueueInfo = t0.QueueInfo := congrArg (fun c => c.2.2.1) hc0
    have husedeq : track.TotalUsed = t0.TotalUsed := congrArg (fun c => c.2.2.2.1) hc0
    have hreqeq : track.TotalRequest = t0.TotalRequest := congrArg (fun c => c.2.2.2.2.1) hc0
    have hmaxeq : track.ClusterMemoryMaxMB = t0.ClusterMemoryMaxMB :=
      congrArg (fun c => c.2.2.2.2.2.1) hc0
    obtain ⟨hb0, hcmpos, hu0, hr0, hmax0, hmax1⟩ := hbusy t0 ht0
    rw [← hb] at hb0
    rw [← hinfo] at hcmpos
    rw [← husedeq] at hu0
    rw [← hreqeq] at hr0
    rw [← hmaxeq] at hmax0 hmax1
    have hcmnew : busyClusterMemory qm (p ++ [tid]) =
        busyClusterMemory qm p + track.QueueInfo.ClusterMemoryMB := by
      unfold busyClusterMemory
      rw [List.map_append, List.sum_append]
      simp [busyValue_some _ qm tid t0 ht0, ← hb, hb0, hinfo]
    rw [hcmnew] at hcm
    by_cases hg : st.totalmemoryweight = 0 ∨ track.MemCoreRatio = 0
    · rw [if_pos hg] at h
      cases h
    · rw [if_neg hg] at h
      have hAq0 : (0 : ℚ) ≤ (st.availmemory : ℚ) := by exact_mod_cast hA0
      have hWq : (0 : ℚ) < (st.totalmemoryweight : ℚ) := by exact_mod_cast hW
      -- the potential use
      have hpot : toUInt32
          (if track.TotalUsed.MemoryMB + track.TotalRequest.MemoryMB > track.ClusterMemoryMaxMB
           then track.ClusterMemoryMaxMB
           else track.TotalUsed.MemoryMB + track.TotalRequest.MemoryMB) =
          (if track.TotalUsed.MemoryMB + track.TotalRequest.MemoryMB > track.ClusterMemoryMaxMB
           then track.ClusterMemoryMaxMB
           else track.TotalUsed.MemoryMB + track.TotalRequest.MemoryMB) := by
        apply toUInt32_of_range <;> split_ifs <;> omega
      rw [hpot] at h
      generalize hP : (if track.TotalUsed.MemoryMB + track.TotalRequest.MemoryMB >
          track.ClusterMemoryMaxMB then track.ClusterMemoryMaxMB
          else track.TotalUsed.MemoryMB + track.TotalRequest.MemoryMB) = P at h
      have hP0 : 0 ≤ P := by rw [← hP]; split_ifs <;> omega
      have hPmax : P ≤ track.ClusterMemoryMaxMB := by rw [← hP]; split_ifs <;> omega
      have hsA : (busyAllocatedMemory st.qm p + 0) * st.totalmemoryweight ≤ st.totalmemoryweight * st.availmemory := by
        have : busyClusterMemory qm p * st.availmemory ≤ st.totalmemoryweight * st.availmemory := by
          apply mul_le_mul_of_nonneg_right _ hA0
          omega
        linarith
      by_cases hcase : st.availmemory ≠ 0 ∧
          1 * (P : ℚ) / (st.availmemory : ℚ) < 1 * (track.QueueInfo.ClusterMemoryMB : ℚ) / (st.totalmemoryweight : ℚ)
      · simp only [eq_true hcase, if_true, Option.some.injEq] at h
        subst h
        obtain ⟨hAne, hlt⟩ := hcase
        have hAq : (0 : ℚ) < (st.availmemory : ℚ) := by
          exact_mod_cast lt_of_le_of_ne hA0 (Ne.symm hAne)
        have hprodq : (P : ℚ) * st.totalmemoryweight < (track.QueueInfo.ClusterMemoryMB : ℚ) * st.availmemory := by
          have := (div_lt_div_iff₀ hAq hWq).1 (by simpa using hlt)
          linarith
        have hprod : P * st.totalmemoryweight ≤ track.QueueInfo.ClusterMemoryMB * st.availmemory := by
          have : P * st.totalmemoryweight < track.QueueInfo.ClusterMemoryMB * st.availmemory := by exact_mod_cast hprodq
          omega
        have hfit : busyAllocatedMemory st.qm p + P ≤ st.availmemory := by
          have h1 : (busyAllocatedMemory st.qm p + P) * st.totalmemoryweight ≤ st.availmemory * st.totalmemoryweight := by
            have : (busyClusterMemory qm p + track.QueueInfo.ClusterMemoryMB) * st.availmemory ≤ st.totalmemoryweight * st.availmemory :=
              mul_le_mul_of_nonneg_right hcm hA0
            nlinarith [hsw, hprod]
          exact le_of_mul_le_mul_right h1 hW
        have hPi : toInt32 P = P := toInt32_of_range P hP0 (by omega)
        rw [hPi]
        apply shareInv_update qm tids st.availmemory st.totalmemoryweight ol st p tid track _ _ _ _ hinv ht hb0 hnp hnol
        · exact hP0
        · exact hPmax
        · dsimp only
          exact toUInt32_of_range _ (by omega) (by omega)
        · exact hprod
        · dsimp only
          rw [toUInt32_of_range _ (by omega) (by omega)]
          omega
      · simp only [eq_false hcase, if_false, Option.some.injEq] at h
        subst h
        have hx0 : (0 : ℚ) ≤ 1 * (track.QueueInfo.ClusterMemoryMB : ℚ) / (st.totalmemoryweight : ℚ) * (st.availmemory : ℚ) := by
          have : (0 : ℚ) < (track.QueueInfo.ClusterMemoryMB : ℚ) := by exact_mod_cast hcmpos
          positivity
        have hF : ctrunc (1 * (track.QueueInfo.ClusterMemoryMB : ℚ) / (st.totalmemoryweight : ℚ) * (st.availmemory : ℚ)) =
            Rat.floor (1 * (track.QueueInfo.ClusterMemoryMB : ℚ) / (st.totalmemoryweight : ℚ) * (st.availmemory : ℚ)) := by
          unfold ctrunc
          rw [if_pos hx0]
        rw [hF]
        generalize hFdef :
          Rat.floor (1 * (track.QueueInfo.ClusterMemoryMB : ℚ) / (st.totalmemoryweight : ℚ) * (st.availmemory : ℚ)) = F
        have hF0 : 0 ≤ F := by
          rw [← hFdef]
          exact Rat.le_floor.2 (by exact_mod_cast hx0)
        have hFle : (F : ℚ) ≤ 1 * (track.QueueInfo.ClusterMemoryMB : ℚ) / (st.totalmemoryweight : ℚ) * (st.availmemory : ℚ) := by
          rw [← hFdef]
          exact Rat.le_floor.1 (le_refl _)
        have hprodq : (F : ℚ) * st.totalmemoryweight ≤ (track.QueueInfo.ClusterMemoryMB : ℚ) * st.availmemory := by
          have h1 : (F : ℚ) * st.totalmemoryweight ≤
              1 * (track.QueueInfo.ClusterMemoryMB : ℚ) / (st.totalmemoryweight : ℚ) * (st.availmemory : ℚ) * st.totalmemoryweight :=
            mul_le_mul_of_nonneg_right hFle (le_of_lt hWq)
          have h2 : 1 * (track.QueueInfo.ClusterMemoryMB : ℚ) / (st.totalmemoryweight : ℚ) * (st.availmemory : ℚ) * st.totalmemoryweight =
              (track.QueueInfo.ClusterMemoryMB : ℚ) * st.availmemory := by
            field_simp
          linarith
        have hprod : F * st.totalmemoryweight ≤ track.QueueInfo.ClusterMemoryMB * st.availmemory := by exact_mod_cast hprodq
        have hfit : busyAllocatedMemory st.qm p + F ≤ st.availmemory := by
          have h1 : (busyAllocatedMemory st.qm p + F) * st.totalmemoryweight ≤ st.availmemory * st.totalmemoryweight := by
            have : (busyClusterMemory qm p + track.QueueInfo.ClusterMemoryMB) * st.availmemory ≤ st.totalmemoryweight * st.availmemory :=
              mul_le_mul_of_nonneg_right hcm hA0
            nlinarith [hsw, hprod]
          exact le_of_mul_le_mul_right h1 hW
        have hFP : F ≤ P := by
          by_cases hAz : st.availmemory = 0
          · omega
          · have hAq : (0 : ℚ) < (st.availmemory : ℚ) := by
              exact_mod_cast lt_of_le_of_ne hA0 (Ne.symm hAz)
            have hnlt : ¬ (1 * (P : ℚ) / (st.availmemory : ℚ) <
                1 * (track.QueueInfo.ClusterMemoryMB : ℚ) / (st.totalmemoryweight : ℚ)) :=
              fun hl => hcase ⟨hAz, hl⟩
            have h1 : (track.QueueInfo.ClusterMemoryMB : ℚ) * st.availmemory ≤ (P : ℚ) * st.totalmemoryweight := by
              have := (div_le_div_iff₀ hWq hAq).1 (by simpa using not_lt.1 hnlt)
              linarith
            have h2 : (F : ℚ) * st.totalmemoryweight ≤ (P : ℚ) * st.totalmemoryweight := le_trans hprodq h1
            have h3 : F * st.totalmemoryweight ≤ P * st.totalmemoryweight := by exact_mod_cast h2
            exact le_of_mul_le_mul_right h3 hW
        have hFu : toUInt32 F = F := toUInt32_of_range F hF0 (by omega)
        have hFi : toInt32 F = F := toInt32_of_range F hF0 (by omega)
        rw [hFu, hFi]
        apply shareInv_update qm tids st.availmemory st.totalmemoryweight ol st p tid track _ _ _ _ hinv ht hb0 hnp hnol
        · exact hF0
        · dsimp only
          omega
        · dsimp only
          exact toUInt32_of_range _ (by omega) (by omega)
        · exact hprod
        · dsimp only
          rw [toUInt32_of_range _ (by omega) (by omega)]
          omega

/-- The second loop of the distribution leaves `ShareInv` for all of `toallocqueues`. -/
theorem share_fold (qm : QueueManager) (tids : List Nat) (A : Int) (ol ta : List Nat)
    (hnodup : ta.Nodup) (hA0 : 0 ≤ A) (hA1 : A < 2147483648)
    (hnol : ∀ tid ∈ ta, tid ∉ ol)
    (hbusy : ∀ tid ∈ ta, ∀ t0, getTrackByID qm tid = some t0 →
      t0.isBusy = true ∧ QueueInRange t0) :
    ∀ (l p : List Nat) (st st2 : DistributeState), p ++ l = ta →
      l.foldl (fun acc tid => acc.bind fun st => shareQueue st tid) (some st) = some st2 →
      ShareInv qm tids A (busyClusterMemory qm ta) ol st p →
      ShareInv qm tids A (busyClusterMemory qm ta) ol st2 ta := by
  have hc0 : ∀ x ∈ ta, 0 ≤ busyValue (fun t => t.QueueInfo.ClusterMemoryMB) qm x := by
    intro x hx
    apply busyValue_nonneg
    intro t ht _
    exact le_of_lt (hbusy x hx t ht).2.1
  intro l
  induction l with
  | nil =>
    intro p st st2 hp h hinv
    simp only [List.foldl_nil, Option.some.injEq] at h
    subst h
    rw [List.append_nil] at hp
    subst hp
    exact hinv
  | cons tid rest ih =>
    intro p st st2 hp h hinv
    simp only [List.foldl_cons, Option.some_bind] at h
    cases hstep : shareQueue st tid with
    | none =>
      rw [hstep, foldl_bind_none] at h
      cases h
    | some st1 =>
      rw [hstep] at h
      have hp2 : (p ++ [tid]) ++ rest = ta := by
        rw [List.append_assoc]
        exact hp
      have hnd : (p ++ (tid :: rest)).Nodup := by rw [hp]; exact hnodup
      have hnot : tid ∉ p := by
        intro hmem
        exact (List.nodup_append.1 hnd).2.2 hmem (List.mem_cons_self _ _)
      have hmem : tid ∈ ta := by
        rw [← hp]
        simp
      have hsub1 : (p ++ [tid]).Sublist ta := by
        rw [← hp2]
        exact List.sublist_append_left _ _
      have hle : busyClusterMemory qm (p ++ [tid]) ≤ busyClusterMemory qm ta :=
        (busySum_sublist _ qm ta _ hsub1 hc0).2
      have hW : 0 < busyClusterMemory qm ta := by
        have h1 : busyValue (fun t => t.QueueInfo.ClusterMemoryMB) qm tid ≤
            busyClusterMemory qm ta := by
          apply List.single_le_sum
          · intro v hv
            obtain ⟨x, hx, rfl⟩ := List.mem_map.1 hv
            exact hc0 x hx
          · exact List.mem_map.2 ⟨tid, hmem, rfl⟩
        have h2 : 0 < busyValue (fun t => t.QueueInfo.ClusterMemoryMB) qm tid := by
          obtain ⟨_, _, _, _, _, _, _, _, _⟩ := hinv
          cases ht0 : getTrackByID qm tid with
          | none =>
            -- the tracker exists: `shareQueue` has returned
            exfalso
            unfold shareQueue at hstep
            cases ht : getTrackByID st.qm tid with
            | none => rw [ht] at hstep; cases hstep
            | some track =>
              obtain ⟨t0, h0, _⟩ := SameConfig_some st.qm qm tid track (by assumption) ht
              rw [ht0] at h0
              cases h0
          | some t0 =>
            obtain ⟨hb, hr⟩ := hbusy tid hmem t0 ht0
            rw [busyValue_some _ qm tid t0 ht0, if_pos hb]
            exact hr.1
        omega
      exact ih (p ++ [tid]) st1 st2 hp2 h
        (shareQueue_step qm tids A _ ol st st1 p tid hA0 hA1 hW hnot (hnol tid hmem)
          (hbusy tid hmem) hle hinv hstep)

/-- The loop that gives the left memory away changes nothing or gives `δ` MB, at most
the left memory, to one queue of `ta`. -/
theorem giveLeftLoop_spec (tids ta : List Nat) :
    ∀ (n idx : Nat) (st : DistributeState) (res : Nat × DistributeState),
      giveLeftLoop tids n idx st = some res →
      0 ≤ st.leftmemory2 → st.leftmemory2 < 2147483648 →
      (∀ x ∈ tids, ∀ t, getTrackByID st.qm x = some t → t.expectMoreResource = true →
        x ∈ ta ∧ 0 ≤ t.TotalAllocated.MemoryMB ∧
          t.TotalAllocated.MemoryMB ≤ t.ClusterMemoryMaxMB ∧
          t.ClusterMemoryMaxMB < 2147483648) →
      res.2 = st ∨
      ∃ (tid : Nat) (q : DynResourceQueueTrack) (δ : Int) (c : ℚ),
        tid ∈ ta ∧ getTrackByID st.qm tid = some q ∧ 0 ≤ δ ∧ δ ≤ st.leftmemory2 ∧
        res.2.qm = updateTrack st.qm tid fun t =>
          { t with TotalAllocated := addResourceBundleData t.TotalAllocated δ c } := by
  intro n
  induction n with
  | zero =>
    intro idx st res h _ _ _
    simp only [giveLeftLoop, Option.some.injEq] at h
    subst h
    exact Or.inl rfl
  | succ n ih =>
    intro idx st res h hl0 hl1 hexp
    unfold giveLeftLoop at h
    cases hidx : tids[idx]? with
    | none =>
      rw [hidx] at h
      cases h
    | some tid =>
      rw [hidx] at h
      dsimp only at h
      have hmem : tid ∈ tids := mem_of_getElem?_some _ _ _ hidx
      cases hq : getTrackByID st.qm tid with
      | none =>
        rw [hq] at h
        cases h
      | some q =>
        rw [hq] at h
        dsimp only at h
        by_cases he : q.expectMoreResource = true
        · rw [if_pos he] at h
          obtain ⟨hta, ha0, hamax, hmax1⟩ := hexp tid hmem q hq he
          by_cases hr : q.MemCoreRatio = 0
          · rw [if_pos hr] at h
            cases h
          · rw [if_neg hr] at h
            have e1 : toUInt32 (st.leftmemory2 + q.TotalAllocated.MemoryMB) =
                st.leftmemory2 + q.TotalAllocated.MemoryMB :=
              toUInt32_of_range _ (by omega) (by omega)
            have e2 : toUInt32 q.ClusterMemoryMaxMB = q.ClusterMemoryMaxMB :=
              toUInt32_of_range _ (by omega) (by omega)
            rw [e1, e2] at h
            by_cases hfit : st.leftmemory2 + q.TotalAllocated.MemoryMB ≤ q.ClusterMemoryMaxMB
            · rw [if_pos hfit] at h
              simp only [Option.some.injEq] at h
              subst h
              refine Or.inr ⟨tid, q, st.leftmemory2,
                1 * (st.leftmemory2 : ℚ) / (q.MemCoreRatio : ℚ), hta, hq, hl0, le_refl _, ?_⟩
              dsimp only
              rw [toInt32_of_range _ hl0 hl1]
            · rw [if_neg hfit] at h
              simp only [Option.some.injEq] at h
              subst h
              have e3 : toUInt32 (q.ClusterMemoryMaxMB - q.TotalAllocated.MemoryMB) =
                  q.ClusterMemoryMaxMB - q.TotalAllocated.MemoryMB :=
                toUInt32_of_range _ (by omega) (by omega)
              refine Or.inr ⟨tid, q, q.ClusterMemoryMaxMB - q.TotalAllocated.MemoryMB,
                1 * ((q.ClusterMemoryMaxMB - q.TotalAllocated.MemoryMB : Int) : ℚ) /
                  (q.MemCoreRatio : ℚ), hta, hq, by omega, by omega, ?_⟩
              dsimp only
              rw [e3, toInt32_of_range _ (by omega) (by omega)]
        · rw [if_neg he] at h
          exact ih _ st res h hl0 hl1 hexp

/-- The part "Decide left resource" leaves the state of the second loop or the state
that its loop leaves. -/
theorem giveLeftResource_cases (mctrack mctrack1 : DynMemoryCoreRatioTrack)
    (st st3 : DistributeState) (h : giveLeftResource mctrack st = some (mctrack1, st3)) :
    (mctrack1.TotalAllocated = mctrack.TotalAllocated ∧
      mctrack1.QueueTrackers = mctrack.QueueTrackers) ∧
    (st3 = st ∨ ∃ (n idx : Nat) (res : Nat × DistributeState),
      giveLeftLoop mctrack.QueueTrackers n idx st = some res ∧ res.2 = st3) := by
  unfold giveLeftResource at h
  by_cases hcond : mctrack.QueueTrackers.length > 0 ∧ st.leftmemory2 > 0
  · rw [if_pos hcond] at h
    dsimp only at h
    cases hloop : giveLeftLoop mctrack.QueueTrackers mctrack.QueueTrackers.length
        (if mctrack.QueueIndexForLeftResource ≥ (mctrack.QueueTrackers.length : Int) then 0
         else mctrack.QueueIndexForLeftResource.toNat) st with
    | none =>
      rw [hloop] at h
      cases h
    | some res =>
      rw [hloop] at h
      simp only [Option.some.injEq, Prod.mk.injEq] at h
      exact ⟨by rw [← h.1]; exact ⟨rfl, rfl⟩, Or.inr ⟨_, _, res, hloop, h.2⟩⟩
  · rw [if_neg hcond] at h
    simp only [Option.some.injEq, Prod.mk.injEq] at h
    exact ⟨by rw [← h.1]; exact ⟨rfl, rfl⟩, Or.inl h.2.symm⟩

/-! ## The distribution among the queues of a ratio: the sum of the allocations -/

theorem sum_busyValue_update_mem (f : DynResourceQueueTrack → Int) (qm : QueueManager)
    (tid : Nat) (g : DynResourceQueueTrack → DynResourceQueueTrack)
    (q : DynResourceQueueTrack) (hg : ∀ t, (g t).TrackID = t.TrackID)
    (hq : getTrackByID qm tid = some q) (hb : q.isBusy = true) (hgb : (g q).isBusy = true) :
    ∀ l : List Nat, l.Nodup → tid ∈ l →
      (l.map (busyValue f (updateTrack qm tid g))).sum =
        (l.map (busyValue f qm)).sum - f q + f (g q) := by
  intro l
  induction l with
  | nil => intro _ h; cases h
  | cons x rest ih =>
    intro hnd hmem
    obtain ⟨hx, hrest⟩ := List.nodup_cons.1 hnd
    simp only [List.map_cons, List.sum_cons]
    by_cases hxe : x = tid
    · subst hxe
      rw [sum_busyValue_update_not_mem f qm x g hg rest hx,
        busyValue_some f _ x (g q) (getTrackByID_update_same qm x g q hg hq),
        busyValue_some f qm x q hq, if_pos hb, if_pos hgb]
      omega
    · have hin : tid ∈ rest := by
        rcases List.mem_cons.1 hmem with h | h
        · exact absurd h.symm hxe
        · exact h
      rw [busyValue_update_other f qm tid x g hg hxe, ih hrest hin]
      omega

/-- The busy queues are those counted out and those of `toallocqueues`. -/
theorem busyAllocated_partition (mctrack : DynMemoryCoreRatioTrack) (qm q1 : QueueManager)
    (h : SameConfig q1 qm) :
    ∀ tids : List Nat,
      busyAllocatedMemory q1 tids =
        busyAllocatedMemory q1 (overList mctrack qm tids) +
          busyAllocatedMemory q1 (toAllocList mctrack qm tids) := by
  intro tids
  induction tids with
  | nil => rfl
  | cons x rest ih =>
    have hcons : busyAllocatedMemory q1 (x :: rest) =
        busyValue (fun t => t.TotalAllocated.MemoryMB) q1 x + busyAllocatedMemory q1 rest := by
      simp [busyAllocatedMemory]
    rw [hcons, ih]
    unfold overList toAllocList
    simp only [List.filter_cons]
    cases h0 : getTrackByID qm x with
    | none =>
      have h1 : getTrackByID q1 x = none := by
        have := h x
        rw [h0] at this
        simpa using this
      simp [busyValue, h1]
    | some t0 =>
      dsimp only
      have hv : busyValue (fun t => t.TotalAllocated.MemoryMB) q1 x =
          if t0.isBusy then busyValue (fun t => t.TotalAllocated.MemoryMB) q1 x else 0 := by
        by_cases hb : t0.isBusy = true
        · rw [if_pos hb]
        · rw [if_neg hb]
          unfold busyValue
          cases h1 : getTrackByID q1 x with
          | none => rfl
          | some t =>
            obtain ⟨t0', h0', hc⟩ := SameConfig_some q1 qm x t h h1
            rw [h0] at h0'
            cases h0'
            have : t.isBusy = t0.isBusy := congrArg (fun c => c.2.1) hc
            simp [this, hb]
      by_cases hb : t0.isBusy = true
      · by_cases ho : overUsing mctrack t0 = true
        · simp [hb, ho, busyAllocatedMemory]
          ring
        · have ho2 : overUsing mctrack t0 = false := by simpa using ho
          simp [hb, ho2, busyAllocatedMemory]
          ring
      · have hb2 : t0.isBusy = false := by simpa using hb
        rw [hv]
        simp [hb2]

/-- The sum of `TotalAllocated.MemoryMB` over the busy queues of a ratio after STEP 2
of `dispatchResourceToQueries`, when the step is not skipped. -/
theorem distribute_sum (qm : QueueManager) (i : Nat) (mctrack : DynMemoryCoreRatioTrack)
    (r : QueueManager × List Nat × Bool)
    (hm : qm.RatioTrackers.getD i none = some mctrack)
    (hrun : ¬ ((mctrack.ClusterMemoryMaxMB = 0 ∨ mctrack.ClusterVCoreMax = 0) ∨
      (mctrack.TotalAllocated.MemoryMB = 0 ∧ mctrack.TotalAllocated.Core = 0)))
    (hnodup : mctrack.QueueTrackers.Nodup)
    (hall0 : 0 ≤ mctrack.TotalAllocated.MemoryMB)
    (hall1 : mctrack.TotalAllocated.MemoryMB < 2147483648)
    (hrange : ∀ tid ∈ mctrack.QueueTrackers, ∀ t ∈ getTrackByID qm tid,
      t.isBusy = true → QueueInRange t)
    (hweight : busyClusterMemory qm mctrack.QueueTrackers < 4294967296)
    (hused : busyUsedMemory qm mctrack.QueueTrackers ≤ mctrack.TotalAllocated.MemoryMB)
    (h : distributeResourceToQueues qm i = some r) :
    busyAllocatedMemory r.1 mctrack.QueueTrackers ≤ mctrack.TotalAllocated.MemoryMB := by
  have hu0 : ∀ x ∈ mctrack.QueueTrackers,
      0 ≤ busyValue (fun t => t.TotalUsed.MemoryMB) qm x := by
    intro x hx
    apply busyValue_nonneg
    intro t ht hb
    exact (hrange x hx t ht hb).2.1
  have hallu : toUInt32 mctrack.TotalAllocated.MemoryMB = mctrack.TotalAllocated.MemoryMB :=
    toUInt32_of_range _ hall0 (by omega)
  unfold distributeResourceToQueues at h
  rw [hm] at h
  dsimp only at h
  rw [if_neg hrun] at h
  split at h
  · cases h
  · rename_i st1 hA
    split at h
    · cases h
    · rename_i st2 hB
      split at h
      · cases h
      · rename_i mctrack1 st3 hC
        simp only [Option.some.injEq] at h
        subst h
        -- the first loop
        have hinvA : ClassifyInv mctrack qm st1 mctrack.QueueTrackers := by
          apply classify_fold mctrack qm mctrack.QueueTrackers hnodup hall0 hall1 hrange hused
            hweight mctrack.QueueTrackers [] _ st1 (List.nil_append _) hA
          refine ⟨fun _ => rfl, rfl, ?_, rfl, ?_, ?_⟩
          · simp [overList, busyUsedMemory, hallu]
          · intro x hx
            cases hx
          · intro x hx
            simp [overList] at hx
        obtain ⟨hcfg1, hta, hav, hw, hexp1, hover1⟩ := hinvA
        have hsubO : (overList mctrack qm mctrack.QueueTrackers).Sublist mctrack.QueueTrackers :=
          List.filter_sublist _
        have hsubT : (toAllocList mctrack qm mctrack.QueueTrackers).Sublist
            mctrack.QueueTrackers := List.filter_sublist _
        obtain ⟨hO0, hOle⟩ := busySum_sublist (fun t => t.TotalUsed.MemoryMB) qm
          mctrack.QueueTrackers _ hsubO hu0
        have hA0 : 0 ≤ st1.availmemory := by
          rw [hav]
          unfold busyUsedMemory at hused ⊢
          omega
        have hA1 : st1.availmemory < 2147483648 := by
          rw [hav]
          unfold busyUsedMemory
          omega
        have htaInfo : ∀ tid ∈ toAllocList mctrack qm mctrack.QueueTrackers,
            tid ∈ mctrack.QueueTrackers ∧ tid ∉ overList mctrack qm mctrack.QueueTrackers ∧
            ∀ t0, getTrackByID qm tid = some t0 → t0.isBusy = true ∧ QueueInRange t0 := by
          intro tid htid
          obtain ⟨hmem, hp⟩ := List.mem_filter.1 htid
          refine ⟨hmem, ?_, ?_⟩
          · intro ho
            have hq := (List.mem_filter.1 ho).2
            cases h0 : getTrackByID qm tid with
            | none => simp [h0] at hp
            | some t0 =>
              simp only [h0, Bool.and_eq_true, Bool.not_eq_true'] at hp hq
              rw [hp.2] at hq
              cases hq.2
          · intro t0 h0
            simp only [h0, Bool.and_eq_true] at hp
            exact ⟨hp.1, hrange tid hmem t0 h0 hp.1⟩
        -- the second loop
        have hinvB : ShareInv qm mctrack.QueueTrackers st1.availmemory
            (busyClusterMemory qm (toAllocList mctrack qm mctrack.QueueTrackers))
            (overList mctrack qm mctrack.QueueTrackers) st2
            (toAllocList mctrack qm mctrack.QueueTrackers) := by
          rw [hta] at hB
          apply share_fold qm mctrack.QueueTrackers st1.availmemory
            (overList mctrack qm mctrack.QueueTrackers)
            (toAllocList mctrack qm mctrack.QueueTrackers) (hnodup.sublist hsubT) hA0 hA1
            (fun tid htid => (htaInfo tid htid).2.1) (fun tid htid => (htaInfo tid htid).2.2)
            (toAllocList mctrack qm mctrack.QueueTrackers) [] _ st2 (List.nil_append _) hB
          refine ⟨hcfg1, rfl, hw, ?_, ?_, ?_, ?_, hover1, hA0⟩
          · simp [busyAllocatedMemory]
          · simp [busyAllocatedMemory]
          · simp [busyAllocatedMemory, busyClusterMemory]
          · intro x hx t hxt hte
            rw [hexp1 x hx t hxt] at hte
            cases hte
        obtain ⟨hcfg2, hav2, hw2, hsum2, hs02, hsw2, hexp2, hover2, hl2⟩ := hinvB
        have hl2b : st2.leftmemory2 < 2147483648 := by omega
        have hbusyTA : ∀ tid ∈ toAllocList mctrack qm mctrack.QueueTrackers,
            ∀ q, getTrackByID st2.qm tid = some q →
              q.isBusy = true ∧ q.ClusterMemoryMaxMB < 2147483648 := by
          intro tid htid q hq
          obtain ⟨t0, h0, hc⟩ := SameConfig_some st2.qm qm tid q hcfg2 hq
          obtain ⟨hb, hr⟩ := (htaInfo tid htid).2.2 t0 h0
          have e1 : q.isBusy = t0.isBusy := congrArg (fun c => c.2.1) hc
          have e2 : q.ClusterMemoryMaxMB = t0.ClusterMemoryMaxMB :=
            congrArg (fun c => c.2.2.2.2.2.1) hc
          rw [e1, e2]
          exact ⟨hb, hr.2.2.2.2⟩
        -- the left memory
        have hfinal : SameConfig st3.qm qm ∧
            busyAllocatedMemory st3.qm (toAllocList mctrack qm mctrack.QueueTrackers) ≤
              st1.availmemory ∧
            (∀ x ∈ overList mctrack qm mctrack.QueueTrackers, ∀ t,
              getTrackByID st3.qm x = some t →
                t.TotalAllocated.MemoryMB = t.TotalUsed.MemoryMB) := by
          have hkeep : SameConfig st2.qm qm ∧
              busyAllocatedMemory st2.qm (toAllocList mctrack qm mctrack.QueueTrackers) ≤
                st1.availmemory ∧
              (∀ x ∈ overList mctrack qm mctrack.QueueTrackers, ∀ t,
                getTrackByID st2.qm x = some t →
                  t.TotalAllocated.MemoryMB = t.TotalUsed.MemoryMB) :=
            ⟨hcfg2, by omega, hover2⟩
          rcases (giveLeftResource_cases mctrack mctrack1 st2 st3 hC).2 with hst |
            ⟨n, idx, res, hloop, hst⟩
          · rw [hst]
            exact hkeep
          · subst hst
            rcases giveLeftLoop_spec mctrack.QueueTrackers
                (toAllocList mctrack qm mctrack.QueueTrackers) n idx st2 res hloop hl2 hl2b
                (by
                  intro x hx t hxt hte
                  obtain ⟨h1, h2, h3⟩ := hexp2 x hx t hxt hte
                  exact ⟨h1, h2, h3, (hbusyTA x h1 t hxt).2⟩)
              with hsame | ⟨tid, q, δ, c, htid, hq, hd0, hdle, hqm⟩
            · rw [hsame]
              exact hkeep
            · have hgid : ∀ t : DynResourceQueueTrack,
                  ({ t with TotalAllocated := addResourceBundleData t.TotalAllocated δ c } :
                    DynResourceQueueTrack).TrackID = t.TrackID := fun _ => rfl
              rw [hqm]
              refine ⟨SameConfig_update _ _ _ _ (fun _ => rfl) hcfg2, ?_, ?_⟩
              · unfold busyAllocatedMemory
                rw [sum_busyValue_update_mem _ st2.qm tid _ q hgid hq
                  (hbusyTA tid htid q hq).1 (hbusyTA tid htid q hq).1 _
                  (hnodup.sublist hsubT) htid]
                unfold busyAllocatedMemory at hsum2
                simp only [addResourceBundleData]
                omega
              · intro x hx t hxt
                have hne : x ≠ tid := fun he => (htaInfo tid htid).2.1 (he ▸ hx)
                rw [getTrackByID_update_other _ tid x _ hgid hne] at hxt
                exact hover2 x hx t hxt
        obtain ⟨hcfg3, hsum3, hover3⟩ := hfinal
        change busyAllocatedMemory st3.qm mctrack.QueueTrackers ≤ _
        rw [busyAllocated_partition mctrack qm st3.qm hcfg3 mctrack.QueueTrackers]
        have hOsum : busyAllocatedMemory st3.qm (overList mctrack qm mctrack.QueueTrackers) =
            busyUsedMemory qm (overList mctrack qm mctrack.QueueTrackers) := by
          unfold busyAllocatedMemory busyUsedMemory
          congr 1
          apply List.map_congr_left
          intro x hx
          unfold busyValue
          cases h3 : getTrackByID st3.qm x with
          | none =>
            have := hcfg3 x
            rw [h3] at this
            cases h0 : getTrackByID qm x with
            | none => rfl
            | some t0 =>
              rw [h0] at this
              cases this
          | some t =>
            obtain ⟨t0, h0, hc⟩ := SameConfig_some st3.qm qm x t hcfg3 h3
            rw [h0]
            dsimp only
            have e1 : t.isBusy = t0.isBusy := congrArg (fun c => c.2.1) hc
            have e2 : t.TotalUsed = t0.TotalUsed := congrArg (fun c => c.2.2.2.1) hc
            rw [hover3 x hx t h3, e1, e2]
        rw [hOsum]
        unfold busyUsedMemory at hav ⊢
        omega

/-! ## The distribution among the queues of a ratio: the tracker of the ratio -/

theorem classifyQueue_ratioTrackers (mctrack : DynMemoryCoreRatioTrack) (allmemory : Int)
    (st st1 : DistributeState) (tid : Nat)
    (h : classifyQueue mctrack allmemory st tid = some st1) :
    st1.qm.RatioTrackers = st.qm.RatioTrackers := by
  unfold classifyQueue at h
  split at h
  · cases h
  · dsimp only at h
    split_ifs at h <;> cases h <;> rfl

theorem shareQueue_ratioTrackers (st st1 : DistributeState) (tid : Nat)
    (h : shareQueue st tid = some st1) :
    st1.qm.RatioTrackers = st.qm.RatioTrackers := by
  unfold shareQueue at h
  split at h
  · cases h
  · dsimp only at h
    split_ifs at h <;> cases h <;> rfl

theorem giveLeftLoop_ratioTrackers (tids : List Nat) :
    ∀ (n idx : Nat) (st : DistributeState) (res : Nat × DistributeState),
      giveLeftLoop tids n idx st = some res →
      res.2.qm.RatioTrackers = st.qm.RatioTrackers := by
  intro n
  induction n with
  | zero =>
    intro idx st res h
    simp only [giveLeftLoop, Option.some.injEq] at h
    subst h
    rfl
  | succ n ih =>
    intro idx st res h
    unfold giveLeftLoop at h
    cases hidx : tids[idx]? with
    | none =>
      rw [hidx] at h
      cases h
    | some tid =>
      rw [hidx] at h
      dsimp only at h
      cases hq : getTrackByID st.qm tid with
      | none =>
        rw [hq] at h
        cases h
      | some q =>
        rw [hq] at h
        dsimp only at h
        by_cases he : q.expectMoreResource = true
        · rw [if_pos he] at h
          by_cases hr : q.MemCoreRatio = 0
          · rw [if_pos hr] at h
            cases h
          · rw [if_neg hr] at h
            split_ifs at h <;>
              (simp only [Option.some.injEq] at h; subst h; rfl)
        · rw [if_neg he] at h
          exact ih _ st res h

/-- STEP 2 of `dispatchResourceToQueries` writes the tracker of the ratio back with
its `TotalAllocated` and its queues unchanged. -/
theorem distribute_tracker (qm : QueueManager) (i : Nat) (mctrack : DynMemoryCoreRatioTrack)
    (r : QueueManager × List Nat × Bool)
    (hm : qm.RatioTrackers.getD i none = some mctrack)
    (hrun : ¬ ((mctrack.ClusterMemoryMaxMB = 0 ∨ mctrack.ClusterVCoreMax = 0) ∨
      (mctrack.TotalAllocated.MemoryMB = 0 ∧ mctrack.TotalAllocated.Core = 0)))
    (h : distributeResourceToQueues qm i = some r) :
    (r.1.RatioTrackers.getD i none).map (fun m => (m.TotalAllocated, m.QueueTrackers)) =
      some (mctrack.TotalAllocated, mctrack.QueueTrackers) := by
  have hi : i < qm.RatioTrackers.length := by
    by_contra hge
    rw [List.getD_eq_getElem?_getD, List.getElem?_eq_none (by omega)] at hm
    cases hm
  unfold distributeResourceToQueues at h
  rw [hm] at h
  dsimp only at h
  rw [if_neg hrun] at h
  split at h
  · cases h
  · rename_i st1 hA
    split at h
    · cases h
    · rename_i st2 hB
      split at h
      · cases h
      · rename_i mctrack1 st3 hC
        simp only [Option.some.injEq] at h
        subst h
        have h1 : st1.qm.RatioTrackers = qm.RatioTrackers :=
          foldl_bind_preserves (fun st => st.qm.RatioTrackers = qm.RatioTrackers) _
            (fun p p1 x hp hs => (classifyQueue_ratioTrackers _ _ p p1 x hs).trans hp)
            _ _ _ hA rfl
        have h2 : st2.qm.RatioTrackers = qm.RatioTrackers :=
          foldl_bind_preserves (fun st => st.qm.RatioTrackers = qm.RatioTrackers) _
            (fun p p1 x hp hs => (shareQueue_ratioTrackers p p1 x hs).trans hp)
            _ _ _ hB h1
        have h3 : st3.qm.RatioTrackers = qm.RatioTrackers := by
          rcases (giveLeftResource_cases mctrack mctrack1 st2 st3 hC).2 with hst |
            ⟨n, idx, res, hloop, hst⟩
          · rw [hst]
            exact h2
          · rw [← hst, giveLeftLoop_ratioTrackers _ n idx st2 res hloop]
            exact h2
        have hm1 := (giveLeftResource_cases mctrack mctrack1 st2 st3 hC).1
        dsimp only
        rw [h3, List.getD_eq_getElem?_getD, List.getElem?_set_self hi]
        simp [hm1.1, hm1.2]

/-! ## The distribution among the queues of a ratio: the step returns -/

theorem SameConfig_exists (q1 q2 : QueueManager) (x : Nat) (t0 : DynResourceQueueTrack)
    (h : SameConfig q1 q2) (h0 : getTrackByID q2 x = some t0) :
    ∃ t, getTrackByID q1 x = some t ∧ trackConfig t = trackConfig t0 := by
  have := h x
  rw [h0] at this
  cases h1 : getTrackByID q1 x with
  | none => rw [h1] at this; cases this
  | some t =>
    rw [h1] at this
    simp only [Option.map_some', Option.some.injEq] at this
    exact ⟨t, rfl, this⟩

/-- A loop whose passes return and keep `P` returns and keeps `P`. -/
theorem foldl_bind_returns {α β : Type} (P : α → Prop) (f : α → β → Option α) :
    ∀ (l : List β), (∀ (p : α) (x : β), x ∈ l → P p → ∃ p1, f p x = some p1 ∧ P p1) →
      ∀ p, P p → ∃ p1, l.foldl (fun acc x => acc.bind fun q => f q x) (some p) = some p1 ∧ P p1 := by
  intro l
  induction l with
  | nil =>
    intro _ p hp
    exact ⟨p, rfl, hp⟩
  | cons a l ih =>
    intro hstep p hp
    obtain ⟨p2, hf, hp2⟩ := hstep p a (List.mem_cons_self _ _) hp
    simp only [List.foldl_cons, Option.some_bind, hf]
    exact ih (fun q x hx hq => hstep q x (List.mem_cons_of_mem _ hx) hq) p2 hp2

/-- A pass of the first loop over a tracker that exists returns. -/
theorem classifyQueue_returns (mctrack : DynMemoryCoreRatioTrack) (allmemory : Int)
    (qm : QueueManager) (st : DistributeState) (tid : Nat) (track : DynResourceQueueTrack)
    (hcfg : SameConfig st.qm qm) (ht : getTrackByID st.qm tid = some track) :
    ∃ st1, classifyQueue mctrack allmemory st tid = some st1 ∧ SameConfig st1.qm qm := by
  have hreset : ∀ t : DynResourceQueueTrack,
      trackConfig { t with expectMoreResource := false } = trackConfig t := fun _ => rfl
  unfold classifyQueue
  rw [ht]
  dsimp only
  split_ifs
  · exact ⟨_, rfl, SameConfig_update _ _ _ _ hreset hcfg⟩
  · exact ⟨_, rfl, SameConfig_update _ _ _ _ (fun _ => rfl)
      (SameConfig_update _ _ _ _ hreset hcfg)⟩
  · exact ⟨_, rfl, SameConfig_update _ _ _ _ (fun _ => rfl)
      (SameConfig_update _ _ _ _ hreset hcfg)⟩

/-- A pass of the second loop over a tracker that exists and has a ratio returns, once
the weights of the queues do not sum to 0; the memory to share may be 0. -/
theorem shareQueue_returns (qm : QueueManager) (st : DistributeState) (tid : Nat)
    (track : DynResourceQueueTrack) (hcfg : SameConfig st.qm qm)
    (ht : getTrackByID st.qm tid = some track) (hw : st.totalmemoryweight ≠ 0)
    (hr : track.MemCoreRatio ≠ 0) :
    ∃ st1, shareQueue st tid = some st1 ∧ SameConfig st1.qm qm ∧
      st1.totalmemoryweight = st.totalmemoryweight := by
  unfold shareQueue
  rw [ht]
  dsimp only
  rw [if_neg (by rintro (h | h); exact hw h; exact hr h)]
  exact ⟨_, rfl, SameConfig_update _ _ _ _ (fun _ => rfl) hcfg, rfl⟩

/-- The loop that gives the left memory away returns when the trackers of the ratio
exist and those that expect more resource have a ratio. -/
theorem giveLeftLoop_returns (tids : List Nat) :
    ∀ (n idx : Nat) (st : DistributeState), idx < tids.length →
      (∀ x ∈ tids, ∃ t, getTrackByID st.qm x = some t ∧
        (t.expectMoreResource = true → t.MemCoreRatio ≠ 0)) →
      ∃ res, giveLeftLoop tids n idx st = some res := by
  intro n
  induction n with
  | zero =>
    intro idx st _ _
    exact ⟨_, rfl⟩
  | succ n ih =>
    intro idx st hidx hex
    unfold giveLeftLoop
    rw [List.getElem?_eq_getElem hidx]
    dsimp only
    obtain ⟨q, hq, hratio⟩ := hex tids[idx] (List.getElem_mem hidx)
    rw [hq]
    dsimp only
    by_cases he : q.expectMoreResource = true
    · rw [if_pos he, if_neg (hratio he)]
      split_ifs
      · exact ⟨_, rfl⟩
      · exact ⟨_, rfl⟩
    · rw [if_neg he]
      apply ih _ st _ hex
      split_ifs with h1
      · exact h1
      · omega

/-- STEP 2 of `dispatchResourceToQueries` for a ratio tracker returns: the trackers of
the ratio exist, the busy ones have a ratio and a positive weight, and the values are
those of the machine types. -/
theorem distribute_returns (qm : QueueManager) (i : Nat) (mctrack : DynMemoryCoreRatioTrack)
    (hm : qm.RatioTrackers.getD i none = some mctrack)
    (hnodup : mctrack.QueueTrackers.Nodup)
    (hall0 : 0 ≤ mctrack.TotalAllocated.MemoryMB)
    (hall1 : mctrack.TotalAllocated.MemoryMB < 2147483648)
    (hex : ∀ tid ∈ mctrack.QueueTrackers, getTrackByID qm tid ≠ none)
    (hrange : ∀ tid ∈ mctrack.QueueTrackers, ∀ t ∈ getTrackByID qm tid,
      t.isBusy = true → QueueInRange t ∧ t.MemCoreRatio ≠ 0)
    (hweight : busyClusterMemory qm mctrack.QueueTrackers < 4294967296)
    (hused : busyUsedMemory qm mctrack.QueueTrackers ≤ mctrack.TotalAllocated.MemoryMB) :
    ∃ r, distributeResourceToQueues qm i = some r := by
  have hrange1 : ∀ tid ∈ mctrack.QueueTrackers, ∀ t ∈ getTrackByID qm tid,
      t.isBusy = true → QueueInRange t := fun tid htid t ht hb => (hrange tid htid t ht hb).1
  have hu0 : ∀ x ∈ mctrack.QueueTrackers,
      0 ≤ busyValue (fun t => t.TotalUsed.MemoryMB) qm x := by
    intro x hx
    apply busyValue_nonneg
    intro t ht hb
    exact (hrange1 x hx t ht hb).2.1
  have hallu : toUInt32 mctrack.TotalAllocated.MemoryMB = mctrack.TotalAllocated.MemoryMB :=
    toUInt32_of_range _ hall0 (by omega)
  unfold distributeResourceToQueues
  rw [hm]
  dsimp only
  split_ifs with hrun
  · exact ⟨_, rfl⟩
  -- the first loop
  obtain ⟨st1, hA, -⟩ := foldl_bind_returns (fun st => SameConfig st.qm qm)
    (fun st tid => classifyQueue mctrack (toUInt32 mctrack.TotalAllocated.MemoryMB) st tid)
    mctrack.QueueTrackers
    (by
      intro p x hx hp
      cases h0 : getTrackByID qm x with
      | none => exact absurd h0 (hex x hx)
      | some t0 =>
        obtain ⟨t, ht, _⟩ := SameConfig_exists p.qm qm x t0 hp h0
        exact classifyQueue_returns mctrack _ qm p x t hp ht)
    { qm := qm, availmemory := toUInt32 mctrack.TotalAllocated.MemoryMB,
      availcore := mctrack.TotalAllocated.Core, totalmemoryweight := 0, leftmemory2 := 0,
      toallocqueues := [], asserted := true }
    (fun _ => rfl)
  rw [hA]
  dsimp only
  have hinvA : ClassifyInv mctrack qm st1 mctrack.QueueTrackers := by
    apply classify_fold mctrack qm mctrack.QueueTrackers hnodup hall0 hall1 hrange1 hused
      hweight mctrack.QueueTrackers [] _ st1 (List.nil_append _) hA
    refine ⟨fun _ => rfl, rfl, ?_, rfl, ?_, ?_⟩
    · simp [overList, busyUsedMemory, hallu]
    · intro x hx
      cases hx
    · intro x hx
      simp [overList] at hx
  obtain ⟨hcfg1, hta, hav, hw, hexp1, hover1⟩ := hinvA
  have hsubO : (overList mctrack qm mctrack.QueueTrackers).Sublist mctrack.QueueTrackers :=
    List.filter_sublist _
  have hsubT : (toAllocList mctrack qm mctrack.QueueTrackers).Sublist
      mctrack.QueueTrackers := List.filter_sublist _
  obtain ⟨hO0, hOle⟩ := busySum_sublist (fun t => t.TotalUsed.MemoryMB) qm
    mctrack.QueueTrackers _ hsubO hu0
  have hA0 : 0 ≤ st1.availmemory := by
    rw [hav]
    unfold busyUsedMemory at hused ⊢
    omega
  have hA1 : st1.availmemory < 2147483648 := by
    rw [hav]
    unfold busyUsedMemory
    omega
  have htaInfo : ∀ tid ∈ toAllocList mctrack qm mctrack.QueueTrackers,
      tid ∈ mctrack.QueueTrackers ∧ tid ∉ overList mctrack qm mctrack.QueueTrackers ∧
      ∀ t0, getTrackByID qm tid = some t0 → t0.isBusy = true ∧ QueueInRange t0 := by
    intro tid htid
    obtain ⟨hmem, hp⟩ := List.mem_filter.1 htid
    refine ⟨hmem, ?_, ?_⟩
    · intro ho
      have hq := (List.mem_filter.1 ho).2
      cases h0 : getTrackByID qm tid with
      | none => simp [h0] at hp
      | some t0 =>
        simp only [h0, Bool.and_eq_true, Bool.not_eq_true'] at hp hq
        rw [hp.2] at hq
        cases hq.2
    · intro t0 h0
      simp only [h0, Bool.and_eq_true] at hp
      exact ⟨hp.1, hrange1 tid hmem t0 h0 hp.1⟩
  have hc0 : ∀ x ∈ toAllocList mctrack qm mctrack.QueueTrackers,
      0 ≤ busyValue (fun t => t.QueueInfo.ClusterMemoryMB) qm x := by
    intro x hx
    apply busyValue_nonneg
    intro t ht _
    exact le_of_lt ((htaInfo x hx).2.2 t ht).2.1
  -- the second loop
  obtain ⟨st2, hB, -⟩ := foldl_bind_returns
    (fun st => SameConfig st.qm qm ∧ st.totalmemoryweight = st1.totalmemoryweight)
    (fun st tid => shareQueue st tid) (toAllocList mctrack qm mctrack.QueueTrackers)
    (by
      intro p x hx hp
      obtain ⟨hmem, -, hbusy⟩ := htaInfo x hx
      cases h0 : getTrackByID qm x with
      | none => exact absurd h0 (hex x hmem)
      | some t0 =>
        obtain ⟨hb, hr⟩ := hbusy t0 h0
        obtain ⟨t, ht, hc⟩ := SameConfig_exists p.qm qm x t0 hp.1 h0
        have hratio : t.MemCoreRatio ≠ 0 := by
          have e : t.MemCoreRatio = t0.MemCoreRatio := congrArg (fun c => c.2.2.2.2.2.2) hc
          rw [e]
          exact (hrange x hmem t0 h0 hb).2
        have hW : p.totalmemoryweight ≠ 0 := by
          rw [hp.2, hw]
          have h1 : busyValue (fun t => t.QueueInfo.ClusterMemoryMB) qm x ≤
              busyClusterMemory qm (toAllocList mctrack qm mctrack.QueueTrackers) := by
            apply List.single_le_sum
            · intro v hv
              obtain ⟨y, hy, rfl⟩ := List.mem_map.1 hv
              exact hc0 y hy
            · exact List.mem_map.2 ⟨x, hx, rfl⟩
          have h2 : 0 < busyValue (fun t => t.QueueInfo.ClusterMemoryMB) qm x := by
            rw [busyValue_some _ qm x t0 h0, if_pos hb]
            exact hr.1
          omega
        obtain ⟨st', hs, hc', hw'⟩ := shareQueue_returns qm p x t hp.1 ht hW hratio
        exact ⟨st', hs, hc', hw'.trans hp.2⟩)
    { st1 with leftmemory2 := st1.availmemory } ⟨hcfg1, rfl⟩
  have hB1 := hB
  rw [← hta] at hB1
  rw [hB1]
  dsimp only
  have hinvB : ShareInv qm mctrack.QueueTrackers st1.availmemory
      (busyClusterMemory qm (toAllocList mctrack qm mctrack.QueueTrackers))
      (overList mctrack qm mctrack.QueueTrackers) st2
      (toAllocList mctrack qm mctrack.QueueTrackers) := by
    apply share_fold qm mctrack.QueueTrackers st1.availmemory
      (overList mctrack qm mctrack.QueueTrackers)
      (toAllocList mctrack qm mctrack.QueueTrackers) (hnodup.sublist hsubT) hA0 hA1
      (fun tid htid => (htaInfo tid htid).2.1) (fun tid htid => (htaInfo tid htid).2.2)
      (toAllocList mctrack qm mctrack.QueueTrackers) [] _ st2 (List.nil_append _) hB
    refine ⟨hcfg1, rfl, hw, ?_, ?_, ?_, ?_, hover1, hA0⟩
    · simp [busyAllocatedMemory]
    · simp [busyAllocatedMemory]
    · simp [busyAllocatedMemory, busyClusterMemory]
    · intro x hx t hxt hte
      rw [hexp1 x hx t hxt] at hte
      cases hte
  obtain ⟨hcfg2, -, -, -, -, -, hexp2, -, -⟩ := hinvB
  -- the left memory
  have hleft : ∃ res, giveLeftResource mctrack st2 = some res := by
    unfold giveLeftResource
    by_cases hcond : mctrack.QueueTrackers.length > 0 ∧ st2.leftmemory2 > 0
    · rw [if_pos hcond]
      dsimp only
      obtain ⟨res, hres⟩ := giveLeftLoop_returns mctrack.QueueTrackers
        mctrack.QueueTrackers.length
        (if mctrack.QueueIndexForLeftResource ≥ (mctrack.QueueTrackers.length : Int) then 0
         else mctrack.QueueIndexForLeftResource.toNat) st2
        (by
          have := hcond.1
          split_ifs <;> omega)
        (by
          intro x hx
          cases h0 : getTrackByID qm x with
          | none => exact absurd h0 (hex x hx)
          | some t0 =>
            obtain ⟨t, ht, hc⟩ := SameConfig_exists st2.qm qm x t0 hcfg2 h0
            refine ⟨t, ht, fun he => ?_⟩
            obtain ⟨hxta, -, -⟩ := hexp2 x hx t ht he
            obtain ⟨hb, -⟩ := (htaInfo x hxta).2.2 t0 h0
            have e : t.MemCoreRatio = t0.MemCoreRatio := congrArg (fun c => c.2.2.2.2.2.2) hc
            rw [e]
            exact (hrange x hx t0 h0 hb).2)
      rw [hres]
      exact ⟨_, rfl⟩
    · rw [if_neg hcond]
      exact ⟨_, rfl⟩
  obtain ⟨res, hres⟩ := hleft
  rw [hres]
  exact ⟨_, rfl⟩

/-! ## C39: the allocations of the busy queues of a ratio -/

/-- C39: STEP 2 of `dispatchResourceToQueries` for the ratio tracker `mctrack`, when it
is not skipped (the ratio is in use and has resource allocated), returns and leaves the
busy queues of the tracker with `TotalAllocated.MemoryMB` that sum to at most the
tracker's `TotalAllocated.MemoryMB`, which the step does not change, provided the
memory the busy queues use sums to at most that value and every busy queue has a
positive configured `ClusterMemoryMB`.  The other preconditions say that the pointers
are valid and the values are those of the machine types: the trackers of the ratio
exist and are distinct, a busy queue has a memory/core ratio other than 0, the tracker's
allocated memory and the maxima of the busy queues are non-negative `int32_t` values,
the memory used and requested is not negative, and the sum of the configured
`ClusterMemoryMB` is a `uint32_t` value.  The memory left to share after the first loop
may be 0: the queues that share it are then given 0 MB. -/
theorem distribution_within_tracker_allocation (qm : QueueManager) (i : Nat)
    (mctrack : DynMemoryCoreRatioTrack)
    (hm : qm.RatioTrackers.getD i none = some mctrack)
    (hrun : ¬ ((mctrack.ClusterMemoryMaxMB = 0 ∨ mctrack.ClusterVCoreMax = 0) ∨
      (mctrack.TotalAllocated.MemoryMB = 0 ∧ mctrack.TotalAllocated.Core = 0)))
    (hnodup : mctrack.QueueTrackers.Nodup)
    (hall : 0 ≤ mctrack.TotalAllocated.MemoryMB ∧
      mctrack.TotalAllocated.MemoryMB < 2147483648)
    (hex : ∀ tid ∈ mctrack.QueueTrackers, getTrackByID qm tid ≠ none)
    (hrange : ∀ tid ∈ mctrack.QueueTrackers, ∀ t ∈ getTrackByID qm tid,
      t.isBusy = true → QueueInRange t ∧ t.MemCoreRatio ≠ 0)
    (hweight : busyClusterMemory qm mctrack.QueueTrackers < 4294967296)
    (hused : busyUsedMemory qm mctrack.QueueTrackers ≤ mctrack.TotalAllocated.MemoryMB) :
    ∃ r, distributeResourceToQueues qm i = some r ∧
      busyAllocatedMemory r.1 mctrack.QueueTrackers ≤ mctrack.TotalAllocated.MemoryMB ∧
      (r.1.RatioTrackers.getD i none).map (fun m => (m.TotalAllocated, m.QueueTrackers)) =
        some (mctrack.TotalAllocated, mctrack.QueueTrackers) := by
  obtain ⟨r, h⟩ := distribute_returns qm i mctrack hm hnodup hall.1 hall.2 hex hrange hweight
    hused
  exact ⟨r, h,
    distribute_sum qm i mctrack r hm hrun hnodup hall.1 hall.2
      (fun tid htid t ht hb => (hrange tid htid t ht hb).1) hweight hused h,
    distribute_tracker qm i mctrack r hm hrun h⟩

/-- The two busy queues of `exSaturatedManager`: the first uses the 90 MB of the ratio,
so that no memory is left to share (`availmemory = 0`); the distribution returns, keeps
the 90 MB of the first queue and gives the second queue, which requests 20 MB, 0 MB. -/
theorem distribution_within_tracker_allocation_witness :
    busyUsedMemory exSaturatedManager exSaturatedRatioTrack.QueueTrackers = 90 ∧
    (distributeResourceToQueues exSaturatedManager 0).map
        (fun r => (r.1.Queues.map fun t => t.TotalAllocated.MemoryMB, r.2.1)) =
      some ([90, 0], [2]) ∧
    ∃ r, distributeResourceToQueues exSaturatedManager 0 = some r ∧
      busyAllocatedMemory r.1 exSaturatedRatioTrack.QueueTrackers ≤
        exSaturatedRatioTrack.TotalAllocated.MemoryMB ∧
      (r.1.RatioTrackers.getD 0 none).map (fun m => (m.TotalAllocated, m.QueueTrackers)) =
        some (exSaturatedRatioTrack.TotalAllocated, exSaturatedRatioTrack.QueueTrackers) :=
  ⟨by decide!, by decide!,
   distribution_within_tracker_allocation exSaturatedManager 0 exSaturatedRatioTrack
     (by decide!) (by decide!) (by decide!) (by decide!) (by decide!) (by decide!)
     (by decide!) (by decide!)⟩

/-! ## The rounding of doubles -/

theorem log2Fuel_le : ∀ (fuel k n : Nat), n < 2 ^ (k + 1) → log2Fuel fuel n ≤ k := by
  intro fuel
  induction fuel with
  | zero => intro k n _; exact Nat.zero_le _
  | succ f ih =>
    intro k n hn
    unfold log2Fuel
    split_ifs with h2
    · cases k with
      | zero => omega
      | succ k1 =>
        have : n / 2 < 2 ^ (k1 + 1) := by
          rw [Nat.div_lt_iff_lt_mul (by decide)]
          calc n < 2 ^ (k1 + 1 + 1) := hn
            _ = 2 ^ (k1 + 1) * 2 := by ring
        have := ih k1 (n / 2) this
        omega
    · exact Nat.zero_le _

theorem roundHalfEven_intCast (m : Int) : roundHalfEven (m : ℚ) = m := by
  have hf : (m : ℚ).floor = m := by simp [Rat.floor]
  unfold roundHalfEven
  simp only [hf, sub_self]
  norm_num

theorem pow2_of_nonpos (e : Int) (he : e ≤ 0) :
    pow2 e = 1 / ((2 ^ (-e).toNat : Nat) : ℚ) := by
  unfold pow2
  split_ifs with h
  · have : e = 0 := le_antisymm he h
    subst this
    simp
  · rfl

/-- An integer of magnitude below `2^53` is a `double`: rounding leaves it as it is. -/
theorem roundDouble_intCast (n : Int) (h : n.natAbs < 2 ^ 53) : roundDouble (n : ℚ) = n := by
  unfold roundDouble
  by_cases hn : (n : ℚ) = 0
  · rw [if_pos hn, hn]
  · rw [if_neg hn]
    have he : ulpExponent (n : ℚ) ≤ 0 := by
      unfold ulpExponent
      simp only [Rat.num_intCast, Rat.den_intCast]
      have h1 : log2Fuel 1 1 = 0 := rfl
      have h2 := log2Fuel_le n.natAbs 52 n.natAbs h
      rw [h1]
      split_ifs <;> omega
    rw [pow2_of_nonpos _ he]
    generalize (-ulpExponent (n : ℚ)).toNat = k
    have hk : ((2 ^ k : Nat) : ℚ) ≠ 0 := by positivity
    have e1 : (n : ℚ) / (1 / ((2 ^ k : Nat) : ℚ)) = ((n * (2 ^ k : Nat) : Int) : ℚ) := by
      push_cast
      field_simp
    rw [e1, roundHalfEven_intCast]
    push_cast
    field_simp

theorem roundDouble_natCast (n : Nat) (h : n < 2 ^ 53) : roundDouble (n : ℚ) = n := by
  have := roundDouble_intCast (n : Int) (by simpa using h)
  simpa using this

/-- The capacity that STEP 1 computes from a percentage of 100: the value itself. -/
theorem capacity_of_100 (n : Nat) (h : n < 4294967296) :
    fdiv (fmul (fmul 1 (n : ℚ)) 100) 100 = n := by
  unfold fdiv fmul
  rw [one_mul, roundDouble_natCast n (by omega)]
  have e1 : (n : ℚ) * 100 = ((n * 100 : Nat) : ℚ) := by push_cast; ring
  rw [e1, roundDouble_natCast (n * 100) (by omega)]
  have e2 : ((n * 100 : Nat) : ℚ) / 100 = (n : ℚ) := by push_cast; field_simp
  rw [e2, roundDouble_natCast n (by omega)]

theorem percentFold_all_100 (l : List ℚ) (h : ∀ p ∈ l, p = 100) : percentFold 100 l = 100 := by
  unfold percentFold
  induction l with
  | nil => rfl
  | cons a l ih =>
    have ha : a = 100 := h a (List.mem_cons_self _ _)
    have hl := ih (fun p hp => h p (List.mem_cons_of_mem _ hp))
    have e0 : fmul 100 (fdiv 100 100) = 100 := by
      unfold fmul fdiv
      have e1 : (100 : ℚ) / 100 = ((1 : Nat) : ℚ) := by norm_num
      rw [e1, roundDouble_natCast 1 (by norm_num)]
      have e2 : (100 : ℚ) * ((1 : Nat) : ℚ) = ((100 : Nat) : ℚ) := by norm_num
      rw [e2, roundDouble_natCast 100 (by norm_num)]
      norm_num
    simp only [List.foldl_cons, ha, e0]
    exact hl

/-! ## C17: the capacity of a percent-expressed leaf, the chain of percentages -/

theorem walkPercentChain_of_chain (qm : QueueManager) (fuel : Nat) (ptr : Option Nat)
    (pers : List (ℚ × ℚ)) (mem core : ℚ)
    (r : Option DynResourceQueueTrack × ℚ × ℚ)
    (hchain : percentChain qm ptr pers = true)
    (hwalk : walkPercentChain qm fuel ptr mem core = some r) :
    r = (none, percentFold mem (pers.map (fun p => p.1)),
         percentFold core (pers.map (fun p => p.2))) := by
  induction fuel generalizing ptr pers mem core with
  | zero =>
    cases ptr with
    | none =>
      cases pers with
      | nil =>
        simp only [walkPercentChain, Option.some.injEq] at hwalk
        simp [← hwalk, percentFold]
      | cons _ _ => simp [percentChain] at hchain
    | some pid => simp [walkPercentChain] at hwalk
  | succ n ih =>
    cases ptr with
    | none =>
      cases pers with
      | nil =>
        simp only [walkPercentChain, Option.some.injEq] at hwalk
        simp [← hwalk, percentFold]
      | cons _ _ => simp [percentChain] at hchain
    | some pid =>
      cases pers with
      | nil => simp [percentChain] at hchain
      | cons per rest =>
        simp only [walkPercentChain] at hwalk
        simp only [percentChain] at hchain
        cases hp : getTrackByID qm pid with
        | none => rw [hp] at hchain; simp at hchain
        | some p =>
          rw [hp] at hchain hwalk
          simp only [Bool.and_eq_true, decide_eq_true_eq] at hchain
          obtain ⟨⟨⟨hper, hm⟩, hc⟩, hrest⟩ := hchain
          simp only [hper, if_true] at hwalk
          have := ih _ _ _ _ hrest hwalk
          rw [this, hm, hc]
          simp only [percentFold, List.map_cons, List.foldl_cons]

theorem computePercentCapacity_of_chain (qm : QueueManager) (clustermemmb clustercore : Nat)
    (leaf : DynResourceQueueTrack) (pers : List (ℚ × ℚ)) (v : PercentCapacity)
    (hchain : percentChain qm leaf.ParentTrack pers = true)
    (hrange : clustermemmb < 2147483648)
    (hv : computePercentCapacity qm clustermemmb clustercore leaf = some v) :
    v.ClusterMemoryMB = ctrunc (fdiv (fmul (fmul 1 (clustermemmb : ℚ))
      (percentFold leaf.QueueInfo.ClusterMemoryPer (pers.map (fun p => p.1)))) 100) ∧
    v.ClusterVCore = fdiv (fmul (fmul 1 (clustercore : ℚ))
      (percentFold leaf.QueueInfo.ClusterVCorePer (pers.map (fun p => p.2)))) 100 := by
  unfold computePercentCapacity at hv
  cases hw : walkPercentChain qm qm.Queues.length leaf.ParentTrack
      leaf.QueueInfo.ClusterMemoryPer leaf.QueueInfo.ClusterVCorePer with
  | none => rw [hw] at hv; simp at hv
  | some r =>
    have hr := walkPercentChain_of_chain qm _ _ pers _ _ r hchain hw
    rw [hw, hr] at hv
    simp only [Option.isNone_none, true_and] at hv
    have e3 : ((toInt32 (clustermemmb : Int) : Int) : ℚ) = (clustermemmb : ℚ) := by
      rw [toInt32_of_lt clustermemmb hrange]; simp
    split_ifs at hv
    all_goals
      simp only [Option.some.injEq] at hv
      rw [← hv]
      refine ⟨?_, ?_⟩ <;> simp only [e3]

/-! ## C17: the values that the refresh gives a percent-expressed leaf -/

/-- C17, counterexample: in `exSmallPercentTree` the leaf `team` (3%) lies under `dept`
(30%) under `pg_root` (100%), all percent-expressed.  With 1000 MB and 10 cores the
call returns and gives the leaf `ClusterMemoryMB = 8`, where
`trunc(1000 * 3/100 * 30/100 * 100/100) = 9`: the double `3 * (30 / 100)` is
`0.8999999999999999`, and `1000 * 0.8999999999999999 / 100` is below 9.  Its
`ClusterVCore` is the double `0.08999999999999998`, not `10 * 9/1000`. -/
theorem refresh_percent_leaf_below_product :
    isPercentLeaf ((getTrackByID exSmallPercentTree 4).getD exTeamTrack) = true ∧
    ((getTrackByID exSmallPercentTree 4).map fun t =>
        (t.QueueInfo.ClusterMemoryPer, t.QueueInfo.ClusterVCorePer,
         percentChain exSmallPercentTree t.ParentTrack [(30, 30), (100, 100)]))
      = some (3, 3, true) ∧
    ((refreshResourceQueuePercentageCapacityInternal exSmallPercentTree 1000 10).bind
        fun qm2 => (getTrackByID qm2 4).map fun t =>
          (t.QueueInfo.ClusterMemoryMB, t.QueueInfo.ClusterVCore))
      = some (8, 3242591731706757 / 36028797018963968) ∧
    ctrunc (((1000 : Nat) : ℚ) * percentProduct [3, 30, 100]) = 9 ∧
    ((10 : Nat) : ℚ) * percentProduct [3, 30, 100] = 9 / 100 ∧
    (3242591731706757 / 36028797018963968 : ℚ) ≠ 9 / 100 := by
  refine ⟨by decide!, by decide!, by decide!, by decide!, by decide!, by decide!⟩

/-- C17, amended: let the trackers have distinct addresses, let STEP 1 be defined for
every percent-expressed leaf (its walk up the tree ends and its ratio is no quotient by
zero), and let `clustermem` fit an `int32_t` and `clustercore` a `uint32_t`.  For a
percent-expressed leaf `leaf` whose ancestors up to the root are all percent-expressed,
with the percentages `pers` (nearest ancestor first), STEP 1 of
`refreshResourceQueuePercentageCapacityInternal(clustermem, clustercore)` returns and
gives the leaf the values of the code's own floating-point expressions:
`ClusterMemoryMB = trunc(((1.0 * clustermem) * act) / 100)` and
`ClusterVCore = ((1.0 * clustercore) * act) / 100`, where `act` is the leaf's percentage
multiplied in turn by `p_i / 100` for each ancestor (`percentFold`), every product and
quotient rounded to a double; STEP 2 does not write these two fields, so they are the
values the whole call leaves; and when every percentage is 100 the two values are
`clustermem` and `clustercore` exactly. -/
theorem refresh_percent_leaf_capacity (qm : QueueManager) (clustermem clustercore : Nat)
    (leaf : DynResourceQueueTrack) (pers : List (ℚ × ℚ))
    (hnd : (qm.Queues.map (fun t => t.TrackID)).Nodup)
    (hdef : ∀ t ∈ qm.Queues, isPercentLeaf t = true →
      (computePercentCapacity qm clustermem clustercore t).isSome = true)
    (hmem : leaf ∈ qm.Queues) (hleaf : isPercentLeaf leaf = true)
    (hchain : percentChain qm leaf.ParentTrack pers = true)
    (hrange : clustermem < 2147483648) (hcore : clustercore < 4294967296) :
    (∃ qm1, refreshStep1 qm clustermem clustercore = some qm1 ∧
      ∃ t1, getTrackByID qm1 leaf.TrackID = some t1 ∧
        t1.QueueInfo.ClusterMemoryMB = ctrunc (fdiv (fmul (fmul 1 (clustermem : ℚ))
          (percentFold leaf.QueueInfo.ClusterMemoryPer (pers.map (fun p => p.1)))) 100) ∧
        t1.QueueInfo.ClusterVCore = fdiv (fmul (fmul 1 (clustercore : ℚ))
          (percentFold leaf.QueueInfo.ClusterVCorePer (pers.map (fun p => p.2)))) 100) ∧
    (∀ qm2, refreshResourceQueuePercentageCapacityInternal qm clustermem clustercore = some qm2 →
      ∃ t2, getTrackByID qm2 leaf.TrackID = some t2 ∧
        t2.QueueInfo.ClusterMemoryMB = ctrunc (fdiv (fmul (fmul 1 (clustermem : ℚ))
          (percentFold leaf.QueueInfo.ClusterMemoryPer (pers.map (fun p => p.1)))) 100) ∧
        t2.QueueInfo.ClusterVCore = fdiv (fmul (fmul 1 (clustercore : ℚ))
          (percentFold leaf.QueueInfo.ClusterVCorePer (pers.map (fun p => p.2)))) 100) ∧
    (leaf.QueueInfo.ClusterMemoryPer = 100 → leaf.QueueInfo.ClusterVCorePer = 100 →
      (∀ per ∈ pers, per = (100, 100)) →
      ctrunc (fdiv (fmul (fmul 1 (clustermem : ℚ))
          (percentFold leaf.QueueInfo.ClusterMemoryPer (pers.map (fun p => p.1)))) 100)
        = (clustermem : Int) ∧
      fdiv (fmul (fmul 1 (clustercore : ℚ))
          (percentFold leaf.QueueInfo.ClusterVCorePer (pers.map (fun p => p.2)))) 100
        = (clustercore : ℚ)) := by
  obtain ⟨qm1, hres, -, -, hval⟩ := foreach_refreshStep1 clustermem clustercore qm hnd hdef
    (qm.Queues.map (fun t => t.TrackID)) qm (RefreshInv_refl _)
  have hfind : getTrackByID qm leaf.TrackID = some leaf :=
    find_track_of_mem_nodup qm.Queues leaf hnd hmem
  obtain ⟨v, hv⟩ := Option.isSome_iff_exists.mp (hdef leaf hmem hleaf)
  obtain ⟨t1, ht1, hm1, hc1⟩ := hval leaf.TrackID
    (List.mem_map.mpr ⟨leaf, hmem, rfl⟩) leaf v hfind hleaf hv
  obtain ⟨hvm, hvc⟩ := computePercentCapacity_of_chain qm clustermem clustercore leaf pers v
    hchain hrange hv
  refine ⟨⟨qm1, hres, t1, ht1, hm1.trans hvm, hc1.trans hvc⟩, ?_, ?_⟩
  · intro qm2 h2
    unfold refreshResourceQueuePercentageCapacityInternal at h2
    have hres1 : refreshStep1 qm clustermem clustercore = some qm1 := hres
    rw [hres1] at h2
    have hcap := refreshStep2_capacity qm1 qm2 h2 leaf.TrackID
    rw [ht1] at hcap
    cases ht2 : getTrackByID qm2 leaf.TrackID with
    | none => rw [ht2] at hcap; simp at hcap
    | some t2 =>
      rw [ht2] at hcap
      simp only [Option.map_some', Option.some.injEq, Prod.mk.injEq] at hcap
      exact ⟨t2, rfl, hcap.1.trans (hm1.trans hvm), hcap.2.trans (hc1.trans hvc)⟩
  · intro h1 h2 hall
    have p1 : percentFold leaf.QueueInfo.ClusterMemoryPer (pers.map (fun p => p.1)) = 100 := by
      rw [h1]
      apply percentFold_all_100
      intro p hp
      obtain ⟨per, hper, rfl⟩ := List.mem_map.mp hp
      rw [hall per hper]
    have p2 : percentFold leaf.QueueInfo.ClusterVCorePer (pers.map (fun p => p.2)) = 100 := by
      rw [h2]
      apply percentFold_all_100
      intro p hp
      obtain ⟨per, hper, rfl⟩ := List.mem_map.mp hp
      rw [hall per hper]
    rw [p1, p2, capacity_of_100 clustermem (by omega), capacity_of_100 clustercore hcore]
    refine ⟨?_, rfl⟩
    have : ((clustermem : ℕ) : ℚ) = (((clustermem : ℕ) : Int) : ℚ) := by simp
    rw [this, ctrunc_intCast]

/-- Witness of C17 (amended): in `exPercentTree` the leaf `team` (50%) lies under `dept`
(50%) under `pg_root` (100%); with 16384 MB and 16 cores the call returns, and the leaf
gets 4096 MB and 4 cores, the values of the code's expressions. -/
theorem refresh_percent_leaf_capacity_witness :
    (refreshResourceQueuePercentageCapacityInternal exPercentTree 16384 16).isSome = true ∧
    (ctrunc (fdiv (fmul (fmul 1 ((16384 : Nat) : ℚ))
        (percentFold exTeamTrack.QueueInfo.ClusterMemoryPer
          ([((50 : ℚ), (50 : ℚ)), (100, 100)].map (fun p => p.1)))) 100) = 4096 ∧
      fdiv (fmul (fmul 1 ((16 : Nat) : ℚ))
        (percentFold exTeamTrack.QueueInfo.ClusterVCorePer
          ([((50 : ℚ), (50 : ℚ)), (100, 100)].map (fun p => p.2)))) 100 = 4) ∧
    ∀ qm2, refreshResourceQueuePercentageCapacityInternal exPercentTree 16384 16 = some qm2 →
      ∃ t2, getTrackByID qm2 exTeamTrack.TrackID = some t2 ∧
        t2.QueueInfo.ClusterMemoryMB = ctrunc (fdiv (fmul (fmul 1 ((16384 : Nat) : ℚ))
          (percentFold exTeamTrack.QueueInfo.ClusterMemoryPer
            ([((50 : ℚ), (50 : ℚ)), (100, 100)].map (fun p => p.1)))) 100) ∧
        t2.QueueInfo.ClusterVCore = fdiv (fmul (fmul 1 ((16 : Nat) : ℚ))
          (percentFold exTeamTrack.QueueInfo.ClusterVCorePer
            ([((50 : ℚ), (50 : ℚ)), (100, 100)].map (fun p => p.2)))) 100 :=
  ⟨by decide!, ⟨by decide!, by decide!⟩,
   (refresh_percent_leaf_capacity exPercentTree 16384 16 exTeamTrack [(50, 50), (100, 100)]
     (by decide!) (by decide!) (by decide!) (by decide!) (by decide!) (by decide)
     (by decide)).2.1⟩

end HAWQ
